import Mathlib

/-!
# stv-renew: the job execution engine

A shallow embedding of the in-memory store (`internal/store/memory_store.go`),
the data model (`internal/model/types.go`) and the job scheduler
(`internal/job/service.go`), followed by the properties proved about them.

Conventions of the embedding.

* A Go map `map[string]V` is a function `String → Option V`; a read of an
  absent key that uses the zero value is written with `Option.getD`.
* `time.Time` is `Option Nat`: `none` is the zero value `time.Time{}`, and
  `some t` is an instant, in nanoseconds.
* A `float64` progress value is the rational number it stands for; the one
  `float64` operation of the engine, the quotient in `calcProgress`, is
  rounded to 53 significant bits (`float64Div`).
* `uuid.NewString()`, the provider, concurrent API callers and the random
  jitter source are oracles collected in `Env`; the world counts how many
  values were drawn from each.
* `runJobLoop` runs the goroutines of one wave one after another, in list
  order; `runJobLoopWith` takes the schedule of a wave as an argument, and
  `racedWave` is a schedule in which two workers overlap.
-/

namespace Stv

/-! ## Data model (`internal/model/types.go`) -/

/-- The type `time.Time`; `none` is the zero value. -/
abbrev Time := Option Nat

/-- The type `model.JobStatus`; `unset` is the zero value, the empty string. -/
inductive JobStatus where
  | unset
  | queued
  | running
  | failed
  | canceled
  | succeeded
  deriving DecidableEq, Repr, Inhabited

/-- The string behind a job status, as in `string(job.Status)`. -/
def JobStatus.toString : JobStatus → String
  | .unset => ""
  | .queued => "queued"
  | .running => "running"
  | .failed => "failed"
  | .canceled => "canceled"
  | .succeeded => "succeeded"

/-- The type `model.TaskStatus`. -/
inductive TaskStatus where
  | queued
  | running
  | failed
  | canceled
  | succeeded
  deriving DecidableEq, Repr, Inhabited

/-- The type `model.TaskType`. -/
inductive TaskType where
  | storyboard_generate
  | image_generate
  | tts_generate
  | compose_video
  deriving DecidableEq, Repr, Inhabited

/-- The type `model.AssetType`. -/
inductive AssetType where
  | storyboard_json
  | image
  | audio
  | video_clip
  | final_video
  | thumbnail
  deriving DecidableEq, Repr, Inhabited

/-- The type `model.JobEventType`. -/
inductive JobEventType where
  | job_created
  | job_progress
  | task_started
  | task_succeeded
  | task_failed
  | job_canceled
  | job_succeeded
  | job_failed
  | asset_ready
  deriving DecidableEq, Repr, Inhabited

/-- A value of a `map[string]any` property bag. -/
inductive Val where
  | str (s : String)
  | bool (b : Bool)
  | int (i : Int)
  | num (q : ℚ)
  | jobStatus (s : JobStatus)
  | taskType (t : TaskType)
  | assetType (a : AssetType)
  deriving DecidableEq, Inhabited

/-- A `map[string]any` literal, as its key/value pairs. -/
abbrev Payload := List (String × Val)

/-- The struct `model.Project`.  `SceneCount` is a natural number: the API accepts 1 to
20 scenes and later stores the length of a scene list. -/
structure Project where
  ID : String
  UserID : String
  Name : String
  StoryText : String
  Style : String
  SceneCount : Nat
  Status : String
  CurrentJobID : String
  CreatedAt : Time
  UpdatedAt : Time
  deriving DecidableEq, Inhabited

/-- The struct `model.Asset`; the field `Type` is spelled `Typ`. -/
structure Asset where
  ID : String
  UserID : String
  ProjectID : String
  Typ : AssetType
  Status : String
  StorageKey : String
  MimeType : String
  SizeBytes : Int
  DurationMS : Int
  Metadata : Payload
  ExpiresAt : Time
  CreatedAt : Time
  deriving DecidableEq, Inhabited

/-- The struct `model.Job`. -/
structure Job where
  ID : String
  UserID : String
  ProjectID : String
  Status : JobStatus
  Progress : ℚ
  CancelRequested : Bool
  ErrorCode : String
  ErrorMessage : String
  Retryable : Bool
  TraceID : String
  IdempotencyKey : String
  CreatedAt : Time
  StartedAt : Time
  EndedAt : Time
  deriving DecidableEq, Inhabited

/-- The struct `model.JobTask`.  The counters `Attempt`, `MaxAttempt` and `SceneIndex`
start at a non-negative value and are only ever incremented, so they are natural
numbers. -/
structure JobTask where
  ID : String
  JobID : String
  TaskKey : String
  TaskType : TaskType
  Status : TaskStatus
  Attempt : Nat
  MaxAttempt : Nat
  DependsOn : List String
  Input : Payload
  Output : Payload
  ErrorCode : String
  ErrorMsg : String
  Retryable : Bool
  NextRunAt : Time
  StartedAt : Time
  EndedAt : Time
  WorkerID : String
  ProjectID : String
  TraceID : String
  SceneIndex : Nat
  DisplayName : String
  deriving DecidableEq, Inhabited

/-- The struct `model.JobEvent`; the field `Type` is spelled `Typ`.  `Seq` is an
unbounded integer: a log of 2^63 events does not fit in memory. -/
structure JobEvent where
  EventID : String
  Seq : Int
  TraceID : String
  JobID : String
  ProjectID : String
  Typ : JobEventType
  TS : Time
  Payload : Payload
  deriving DecidableEq, Inhabited

/-- The zero value `model.Job{}`. -/
def Job.zero : Job :=
  { ID := "", UserID := "", ProjectID := "", Status := .unset, Progress := 0,
    CancelRequested := false, ErrorCode := "", ErrorMessage := "", Retryable := false,
    TraceID := "", IdempotencyKey := "", CreatedAt := none, StartedAt := none,
    EndedAt := none }

/-- The errors of `internal/store` and `internal/job`. -/
inductive Err where
  | notFound
  | conflict
  | forbidden
  | badRequest
  | tooManyRunningJobs
  | invalidJobState
  deriving DecidableEq, Repr, Inhabited

/-! ## Store (`internal/store/memory_store.go`) -/

/-- The Go statement `m[k] = v`. -/
def mapSet {α : Type} (m : String → Option α) (k : String) (v : α) : String → Option α :=
  fun x => if x = k then some v else m x

/-- The engine-facing fields of `store.MemoryStore`. -/
structure MemoryStore where
  projects : String → Option Project
  jobs : String → Option Job
  tasksByJob : String → Option (List JobTask)
  eventsByJob : String → Option (List JobEvent)
  eventSeqByJob : String → Option Int
  idempotencyToJob : String → Option String
  assets : String → Option Asset
  assetByProject : String → Option (List String)

/-- The constructor `NewMemoryStore`. -/
def NewMemoryStore : MemoryStore :=
  { projects := fun _ => none, jobs := fun _ => none, tasksByJob := fun _ => none,
    eventsByJob := fun _ => none, eventSeqByJob := fun _ => none,
    idempotencyToJob := fun _ => none, assets := fun _ => none,
    assetByProject := fun _ => none }

namespace MemoryStore

/-- The method `CreateProject`; scenes are outside the engine-facing subset. -/
def CreateProject (s : MemoryStore) (project : Project) : Except Err Project × MemoryStore :=
  match s.projects project.ID with
  | some _ => (.error .conflict, s)
  | none => (.ok project, { s with projects := mapSet s.projects project.ID project })

/-- The method `GetProject`. -/
def GetProject (s : MemoryStore) (projectID : String) : Except Err Project :=
  match s.projects projectID with
  | none => .error .notFound
  | some p => .ok p

/-- The method `UpdateProject`. -/
def UpdateProject (s : MemoryStore) (project : Project) : Except Err Unit × MemoryStore :=
  match s.projects project.ID with
  | none => (.error .notFound, s)
  | some _ => (.ok (), { s with projects := mapSet s.projects project.ID project })

/-- The method `CreateJob`. -/
def CreateJob (s : MemoryStore) (job : Job) (tasks : List JobTask) (idempotencyKey : String) :
    Except Err Job × MemoryStore :=
  let insert (s : MemoryStore) : MemoryStore :=
    { s with
      jobs := mapSet s.jobs job.ID job
      tasksByJob := mapSet s.tasksByJob job.ID tasks
      eventsByJob := mapSet s.eventsByJob job.ID []
      eventSeqByJob := mapSet s.eventSeqByJob job.ID 0 }
  if idempotencyKey ≠ "" then
    let k := job.UserID ++ ":" ++ idempotencyKey
    match s.idempotencyToJob k with
    | some existing => (.ok ((s.jobs existing).getD Job.zero), s)
    | none =>
      (.ok job, insert { s with idempotencyToJob := mapSet s.idempotencyToJob k job.ID })
  else (.ok job, insert s)

/-- The method `GetJobByIdempotency`; `none` is the result `ok = false`. -/
def GetJobByIdempotency (s : MemoryStore) (userID idempotencyKey : String) : Option Job :=
  if idempotencyKey = "" then none
  else
    match s.idempotencyToJob (userID ++ ":" ++ idempotencyKey) with
    | none => none
    | some jobID => s.jobs jobID

/-- The method `GetJob`. -/
def GetJob (s : MemoryStore) (jobID : String) : Except Err Job :=
  match s.jobs jobID with
  | none => .error .notFound
  | some j => .ok j

/-- The method `UpdateJob`. -/
def UpdateJob (s : MemoryStore) (job : Job) : Except Err Unit × MemoryStore :=
  match s.jobs job.ID with
  | none => (.error .notFound, s)
  | some _ => (.ok (), { s with jobs := mapSet s.jobs job.ID job })

/-- The method `GetJobTasks`. -/
def GetJobTasks (s : MemoryStore) (jobID : String) : Except Err (List JobTask) :=
  match s.tasksByJob jobID with
  | none => .error .notFound
  | some tasks => .ok tasks

/-- The method `ReplaceJobTasks`. -/
def ReplaceJobTasks (s : MemoryStore) (jobID : String) (tasks : List JobTask) :
    Except Err Unit × MemoryStore :=
  match s.tasksByJob jobID with
  | none => (.error .notFound, s)
  | some _ => (.ok (), { s with tasksByJob := mapSet s.tasksByJob jobID tasks })

/-- The method `AppendJobEvent`; `eventID` is the value drawn from `uuid.NewString()`. -/
def AppendJobEvent (s : MemoryStore) (jobID : String) (event : JobEvent) (eventID : String) :
    Except Err JobEvent × MemoryStore :=
  match s.jobs jobID with
  | none => (.error .notFound, s)
  | some _ =>
    let seq := (s.eventSeqByJob jobID).getD 0 + 1
    let event := { event with Seq := seq, EventID := eventID }
    (.ok event,
      { s with
        eventSeqByJob := mapSet s.eventSeqByJob jobID seq
        eventsByJob := mapSet s.eventsByJob jobID ((s.eventsByJob jobID).getD [] ++ [event]) })

/-- The method `ListJobEventsFromSeq`. -/
def ListJobEventsFromSeq (s : MemoryStore) (jobID : String) (fromSeq : Int) :
    Except Err (List JobEvent) :=
  match s.eventsByJob jobID with
  | none => .error .notFound
  | some events =>
    if fromSeq ≤ 0 then .ok events
    else .ok (events.filter (fun e => decide (e.Seq > fromSeq)))

/-- The method `CreateAsset`. -/
def CreateAsset (s : MemoryStore) (asset : Asset) : Except Err Asset × MemoryStore :=
  match s.assets asset.ID with
  | some _ => (.error .conflict, s)
  | none =>
    (.ok asset,
      { s with
        assets := mapSet s.assets asset.ID asset
        assetByProject := mapSet s.assetByProject asset.ProjectID
          ((s.assetByProject asset.ProjectID).getD [] ++ [asset.ID]) })

end MemoryStore

/-- A mutating call of the store, for the states the store can reach. -/
inductive StoreOp where
  | createProject (project : Project)
  | updateProject (project : Project)
  | createJob (job : Job) (tasks : List JobTask) (idempotencyKey : String)
  | updateJob (job : Job)
  | replaceJobTasks (jobID : String) (tasks : List JobTask)
  | appendJobEvent (jobID : String) (event : JobEvent) (eventID : String)
  | createAsset (asset : Asset)

/-- The store after one mutating call. -/
def MemoryStore.apply (s : MemoryStore) : StoreOp → MemoryStore
  | .createProject p => (s.CreateProject p).2
  | .updateProject p => (s.UpdateProject p).2
  | .createJob job tasks key => (s.CreateJob job tasks key).2
  | .updateJob job => (s.UpdateJob job).2
  | .replaceJobTasks jobID tasks => (s.ReplaceJobTasks jobID tasks).2
  | .appendJobEvent jobID event eventID => (s.AppendJobEvent jobID event eventID).2
  | .createAsset a => (s.CreateAsset a).2

/-- The store after a sequence of mutating calls. -/
def MemoryStore.applyAll (s : MemoryStore) (ops : List StoreOp) : MemoryStore :=
  ops.foldl MemoryStore.apply s

/-- The store states reachable from `NewMemoryStore` by mutating calls. -/
inductive MemoryStore.Reachable : MemoryStore → Prop where
  | init : MemoryStore.Reachable NewMemoryStore
  | step {s : MemoryStore} (op : StoreOp) :
      MemoryStore.Reachable s → MemoryStore.Reachable (s.apply op)

/-! ## Provider port (`internal/provider/provider.go`) -/

/-- The struct `provider.Error`. -/
structure ProviderError where
  Category : String
  Code : String
  Retryable : Bool
  UserMessage : String
  InternalMessage : String
  deriving DecidableEq, Inhabited

/-- The struct `provider.ExecuteInput`. -/
structure ExecuteInput where
  UserID : String
  ProjectID : String
  JobID : String
  TaskID : String
  TaskType : TaskType
  SceneIndex : Nat
  TraceID : String
  Payload : Payload
  deriving DecidableEq, Inhabited

/-- The struct `provider.ExecuteOutput`. -/
structure ExecuteOutput where
  Output : Payload
  Asset : Option Asset
  deriving DecidableEq, Inhabited

/-! ## Scheduler (`internal/job/service.go`) -/

/-- What the engine does not decide itself.  `uuid n` is the n-th value returned by
`uuid.NewString()`.  `prov n input fired` is what the n-th call of `Adapter.Execute`
returns, where `fired` tells whether the cancel watcher saw `cancel_requested` while
the call was in progress.  `cancels n` lists the `CancelJob(user, job)` requests that
other goroutines issue during the n-th suspension point of the runner (a provider
call or a sleep).  `rand n` is the n-th raw sample of the jitter source. -/
structure Env where
  uuid : Nat → String
  prov : Nat → ExecuteInput → Bool → Except ProviderError ExecuteOutput
  cancels : Nat → List (String × String)
  rand : Nat → Nat

/-- The struct `Service` with its store, the clock, and the number of values drawn from
each oracle of `Env`.  The maps `runningByUser` and `activeRunner` are only ever indexed,
so they are total functions whose value at an absent key is the zero value.  `ticks`
counts the suspension points passed, and `panicked` records an unrecovered panic of a
worker. -/
structure World where
  store : MemoryStore
  maxConcurrent : Int
  maxUserJobs : Int
  maxSceneJobs : Int
  runningByUser : String → Int
  activeRunner : String → Bool
  clock : Nat
  uuids : Nat
  provCalls : Nat
  rands : Nat
  ticks : Nat
  panicked : Bool

/-- The constructor `NewService`, started at the given clock reading. -/
def NewService (st : MemoryStore) (maxConcurrent maxUserJobs maxSceneJobs : Int)
    (clock : Nat) : World :=
  { store := st
    maxConcurrent := if maxConcurrent < 1 then 20 else maxConcurrent
    maxUserJobs := if maxUserJobs < 1 then 2 else maxUserJobs
    maxSceneJobs := if maxSceneJobs < 1 then 6 else maxSceneJobs
    runningByUser := fun _ => 0
    activeRunner := fun _ => false
    clock := clock, uuids := 0, provCalls := 0, rands := 0, ticks := 0, panicked := false }

/-- The function `isTaskTerminal`. -/
def isTaskTerminal (status : TaskStatus) : Bool :=
  status = .succeeded || status = .failed || status = .canceled

/-- The function `isJobTerminal`. -/
def isJobTerminal (status : JobStatus) : Bool :=
  status = .succeeded || status = .failed || status = .canceled

/-- The function `allTasksTerminal`. -/
def allTasksTerminal (tasks : List JobTask) : Bool :=
  tasks.all (fun t => isTaskTerminal t.Status)

/-- The quotient `n / d` of two natural numbers (`d > 0`) rounded to the nearest integer,
a tie going to the even neighbour: the rounding of IEEE 754 arithmetic. -/
def roundHalfEven (n d : Nat) : Nat :=
  if 2 * (n % d) < d then n / d
  else if d < 2 * (n % d) then n / d + 1
  else if (n / d) % 2 = 0 then n / d else n / d + 1

/-- The number of halvings that bring `n` below 2, in at most `fuel` rounds. -/
def log2Fuel : Nat → Nat → Nat
  | 0, _ => 0
  | fuel + 1, n => if n < 2 then 0 else log2Fuel fuel (n / 2) + 1

/-- The binary logarithm of a positive natural number, rounded down. -/
def ilog2 (n : Nat) : Nat :=
  log2Fuel n n

/-- The Go expression `float64(a) / float64(b)` for two non-negative integers, as the
rational number that the resulting `float64` stands for: the number with a significand of
53 bits nearest to `a / b`, ties to even.  With `e` the binary exponent of `a / b`, the
quotient is scaled by `2 ^ (52 - e)`, rounded to an integer and scaled back.  The
conversions of `a` and `b` are taken as exact and the exponent as unbounded, which is what
the machine does for integers below 2^53; the value at `b = 0` is not used by the caller. -/
def float64Div (a b : Nat) : ℚ :=
  if a = 0 ∨ b = 0 then 0
  else
    let c : Int := (ilog2 a : Int) - (ilog2 b : Int)
    let fits : Bool :=
      if 0 ≤ c then decide (2 ^ c.toNat * b ≤ a) else decide (b ≤ 2 ^ (-c).toNat * a)
    let e : Int := if fits then c else c - 1
    let s : Int := 52 - e
    if 0 ≤ s then mkRat (roundHalfEven (a * 2 ^ s.toNat) b) (2 ^ s.toNat)
    else ((roundHalfEven a (b * 2 ^ (-s).toNat) * 2 ^ (-s).toNat : Nat) : ℚ)

/-- The function `calcProgress`; the `float64` it returns is given as the rational number
it stands for. -/
def calcProgress (tasks : List JobTask) : ℚ :=
  if tasks.length = 0 then 0
  else float64Div (tasks.filter (fun t => isTaskTerminal t.Status)).length tasks.length

/-- The function `findTaskByID`. -/
def findTaskByID (tasks : List JobTask) (id : String) : Option JobTask :=
  tasks.find? (fun t => decide (t.ID = id))

/-- The function `readyTasks`, at the clock reading `now`. -/
def readyTasks (tasks : List JobTask) (now : Nat) : List JobTask :=
  let succeeded (key : String) : Bool :=
    tasks.any (fun t => decide (t.Status = .succeeded) && decide (t.TaskKey = key))
  tasks.filter (fun t =>
    decide (t.Status = .queued) &&
    !(match t.NextRunAt with
      | none => false
      | some at_ => decide (now < at_)) &&
    t.DependsOn.all succeeded)

/-- Two's complement wrap-around of a 64-bit signed integer. -/
def wrapInt64 (x : Int) : Int :=
  (x + 2 ^ 63) % 2 ^ 64 - 2 ^ 63

/-- The function `retryBackoff`, in nanoseconds; `r` is the raw sample behind
`rand.Int63n`, and `none` is the panic of `rand.Int63n` on a non-positive bound. -/
def retryBackoff (attempt : Int) (r : Nat) : Option Int :=
  let base := wrapInt64 (1000000000 * 2 ^ (max (attempt - 1) 0).toNat)
  let bound := Int.tdiv base 5
  if bound ≤ 0 then none else some (wrapInt64 (base + (r : Int) % bound))

/-- The scene loop of `buildTasks`: the image and the narration task of scene `i`. -/
def sceneTasks (uuid : Nat → String) (u : Nat) (now : Time) (job : Job) (i : Nat) :
    List JobTask :=
  [ { ID := uuid (u + 1 + 2 * i), JobID := job.ID
      TaskKey := "image_generate_" ++ toString i, TaskType := .image_generate
      Status := .queued, Attempt := 0, MaxAttempt := 3
      DependsOn := ["storyboard_generate"]
      Input := [("scene_index", .int i)], Output := []
      ErrorCode := "", ErrorMsg := "", Retryable := false
      NextRunAt := now, StartedAt := none, EndedAt := none, WorkerID := ""
      ProjectID := job.ProjectID, TraceID := job.TraceID, SceneIndex := i
      DisplayName := "Image-" ++ toString i },
    { ID := uuid (u + 2 + 2 * i), JobID := job.ID
      TaskKey := "tts_generate_" ++ toString i, TaskType := .tts_generate
      Status := .queued, Attempt := 0, MaxAttempt := 3
      DependsOn := ["storyboard_generate"]
      Input := [("scene_index", .int i)], Output := []
      ErrorCode := "", ErrorMsg := "", Retryable := false
      NextRunAt := now, StartedAt := none, EndedAt := none, WorkerID := ""
      ProjectID := job.ProjectID, TraceID := job.TraceID, SceneIndex := i
      DisplayName := "TTS-" ++ toString i } ]

/-- The function `buildTasks`; its identifiers are `uuid u`, `uuid (u+1)`, ... in the
order the source draws them, and `now` is its clock reading. -/
def buildTasks (uuid : Nat → String) (u : Nat) (now : Time) (project : Project) (job : Job) :
    List JobTask :=
  let imageKeys := (List.range project.SceneCount).map (fun i => "image_generate_" ++ toString i)
  let ttsKeys := (List.range project.SceneCount).map (fun i => "tts_generate_" ++ toString i)
  [ { ID := uuid u, JobID := job.ID
      TaskKey := "storyboard_generate", TaskType := .storyboard_generate
      Status := .queued, Attempt := 0, MaxAttempt := 3
      DependsOn := []
      Input := [("style", .str project.Style)], Output := []
      ErrorCode := "", ErrorMsg := "", Retryable := false
      NextRunAt := now, StartedAt := none, EndedAt := none, WorkerID := ""
      ProjectID := job.ProjectID, TraceID := job.TraceID, SceneIndex := 0
      DisplayName := "Storyboard" } ]
  ++ (List.range project.SceneCount).flatMap (sceneTasks uuid u now job)
  ++ [ { ID := uuid (u + 1 + 2 * project.SceneCount), JobID := job.ID
         TaskKey := "compose_video", TaskType := .compose_video
         Status := .queued, Attempt := 0, MaxAttempt := 3
         DependsOn := imageKeys ++ ttsKeys
         Input := [], Output := []
         ErrorCode := "", ErrorMsg := "", Retryable := false
         NextRunAt := now, StartedAt := none, EndedAt := none, WorkerID := ""
         ProjectID := job.ProjectID, TraceID := job.TraceID, SceneIndex := 0
         DisplayName := "Compose" } ]

/-- The method `publishEvent`.  The fan-out through `hub.Publish` only fills the
channels of subscribers, which the engine never reads, and is not part of the world. -/
def publishEvent (env : Env) (w : World) (job : Job) (eventType : JobEventType)
    (payload : Payload) : World :=
  let r := w.store.AppendJobEvent job.ID
    { EventID := "", Seq := 0, TraceID := job.TraceID, JobID := job.ID
      ProjectID := job.ProjectID, Typ := eventType, TS := some w.clock, Payload := payload }
    (env.uuid w.uuids)
  match r.1 with
  | .error _ => w
  | .ok _ => { w with store := r.2, uuids := w.uuids + 1 }

/-- The method `startRunnerIfNeeded`, without the goroutine it launches: the runner
is the separate function `runJob`. -/
def startRunnerIfNeeded (w : World) (job : Job) : World :=
  if w.activeRunner job.ID then w
  else
    { w with
      activeRunner := fun x => if x = job.ID then true else w.activeRunner x
      runningByUser := fun x =>
        if x = job.UserID then w.runningByUser job.UserID + 1 else w.runningByUser x }

/-- The method `finishRunner`. -/
def finishRunner (w : World) (job : Job) : World :=
  { w with
    activeRunner := fun x => if x = job.ID then false else w.activeRunner x
    runningByUser := fun x =>
      if x = job.UserID then
        (if w.runningByUser job.UserID > 0 then w.runningByUser job.UserID - 1
         else w.runningByUser job.UserID)
      else w.runningByUser x }

/-- The job record that `StartJob` builds. -/
def newJob (env : Env) (w : World) (userID projectID traceID idempotencyKey : String) : Job :=
  { ID := env.uuid w.uuids, UserID := userID, ProjectID := projectID
    Status := .queued, Progress := 0, CancelRequested := false
    ErrorCode := "", ErrorMessage := "", Retryable := false
    TraceID := traceID, IdempotencyKey := idempotencyKey
    CreatedAt := some w.clock, StartedAt := none, EndedAt := none }

/-- The method `StartJob`, up to the launch of the runner goroutine. -/
def StartJob (env : Env) (w : World) (userID projectID traceID idempotencyKey : String) :
    Except Err Job × World :=
  match w.store.GetJobByIdempotency userID idempotencyKey with
  | some existing => (.ok existing, w)
  | none =>
    match w.store.GetProject projectID with
    | .error e => (.error e, w)
    | .ok project =>
      if project.UserID ≠ userID then (.error .forbidden, w)
      else if w.runningByUser userID ≥ w.maxUserJobs then (.error .tooManyRunningJobs, w)
      else
        let now : Time := some w.clock
        let job := newJob env w userID projectID traceID idempotencyKey
        let tasks := buildTasks env.uuid (w.uuids + 1) now project job
        let w1 : World := { w with uuids := w.uuids + 1 + tasks.length }
        let r := w1.store.CreateJob job tasks idempotencyKey
        match r.1 with
        | .error e => (.error e, { w1 with store := r.2 })
        | .ok created =>
          let project : Project :=
            { project with CurrentJobID := created.ID, Status := "running", UpdatedAt := now }
          let w2 : World := { w1 with store := (r.2.UpdateProject project).2 }
          let w3 := publishEvent env w2 created .job_created
            [("status", .jobStatus created.Status), ("tasks", .int tasks.length)]
          (.ok created, startRunnerIfNeeded w3 created)

/-- The method `CancelJob`. -/
def CancelJob (env : Env) (w : World) (userID jobID : String) : Except Err Job × World :=
  match w.store.GetJob jobID with
  | .error e => (.error e, w)
  | .ok job =>
    if job.UserID ≠ userID then (.error .forbidden, w)
    else if isJobTerminal job.Status then (.ok job, w)
    else
      let job : Job := { job with CancelRequested := true }
      let r := w.store.UpdateJob job
      match r.1 with
      | .error e => (.error e, { w with store := r.2 })
      | .ok _ =>
        (.ok job, publishEvent env { w with store := r.2 } job .job_progress
          [("status", .jobStatus job.Status), ("cancel_requested", .bool true),
           ("progress", .num job.Progress)])

/-- The reset that `RetryJob` applies to one task. -/
def retryResetTask (t : JobTask) : JobTask :=
  if t.Status = .failed ∨ t.Status = .canceled then
    { t with
      Status := .queued, ErrorCode := "", ErrorMsg := "", Retryable := false
      StartedAt := none, EndedAt := none, NextRunAt := none }
  else t

/-- The method `RetryJob`, up to the launch of the runner goroutine. -/
def RetryJob (env : Env) (w : World) (userID jobID traceID : String) : Except Err Job × World :=
  match w.store.GetJob jobID with
  | .error e => (.error e, w)
  | .ok job =>
    if job.UserID ≠ userID then (.error .forbidden, w)
    else if job.Status ≠ .failed ∧ job.Status ≠ .canceled then (.error .invalidJobState, w)
    else if w.runningByUser userID ≥ w.maxUserJobs then (.error .tooManyRunningJobs, w)
    else
      match w.store.GetJobTasks jobID with
      | .error e => (.error e, w)
      | .ok tasks =>
        let tasks := tasks.map retryResetTask
        let r := w.store.ReplaceJobTasks jobID tasks
        match r.1 with
        | .error e => (.error e, { w with store := r.2 })
        | .ok _ =>
          let job : Job :=
            { job with
              Status := .queued, Progress := calcProgress tasks, CancelRequested := false
              ErrorCode := "", ErrorMessage := "", Retryable := false, TraceID := traceID
              StartedAt := none, EndedAt := none }
          let r2 := r.2.UpdateJob job
          match r2.1 with
          | .error e => (.error e, { w with store := r2.2 })
          | .ok _ =>
            let w1 := publishEvent env { w with store := r2.2 } job .job_created
              [("status", .str "retry_queued")]
            (.ok job, startRunnerIfNeeded w1 job)

/-- The loop of `updateTask`: apply `fn` to the first task with the given id. -/
def applyFirst (taskID : String) (fn : JobTask → JobTask) : List JobTask → Option (List JobTask)
  | [] => none
  | t :: ts =>
    if t.ID = taskID then some (fn t :: ts)
    else (applyFirst taskID fn ts).map (fun rest => t :: rest)

/-- The method `updateTask`. -/
def updateTask (w : World) (jobID taskID : String) (fn : JobTask → JobTask) :
    Except Err Unit × World :=
  match w.store.GetJobTasks jobID with
  | .error e => (.error e, w)
  | .ok tasks =>
    match applyFirst taskID fn tasks with
    | none => (.error .notFound, w)
    | some updated =>
      let r := w.store.ReplaceJobTasks jobID updated
      (r.1, { w with store := r.2 })

/-- The method `updateProgress`. -/
def updateProgress (env : Env) (w : World) (jobID : String) : World :=
  match w.store.GetJob jobID with
  | .error _ => w
  | .ok job =>
    match w.store.GetJobTasks jobID with
    | .error _ => w
    | .ok tasks =>
      let job : Job := { job with Progress := calcProgress tasks }
      publishEvent env { w with store := (w.store.UpdateJob job).2 } job .job_progress
        [("status", .jobStatus job.Status), ("progress", .num job.Progress)]

/-- The method `isJobCanceled`. -/
def isJobCanceled (w : World) (jobID : String) : Bool :=
  match w.store.GetJob jobID with
  | .error _ => true
  | .ok job => job.CancelRequested

/-- The method `markTaskCanceled`. -/
def markTaskCanceled (w : World) (jobID taskID code msg : String) : World :=
  (updateTask w jobID taskID (fun t =>
    { t with
      Status := .canceled, ErrorCode := code, ErrorMsg := msg, Retryable := false
      EndedAt := some w.clock })).2

/-- The change `cancelQueuedTasks` makes to one task. -/
def cancelIfQueued (now : Time) (t : JobTask) : JobTask :=
  if t.Status = .queued then
    { t with
      Status := .canceled, EndedAt := now, ErrorCode := "CANCELED"
      ErrorMsg := "Canceled before execution" }
  else t

/-- The method `cancelQueuedTasks`. -/
def cancelQueuedTasks (env : Env) (w : World) (job : Job) : Except Err Unit × World :=
  match w.store.GetJobTasks job.ID with
  | .error e => (.error e, w)
  | .ok tasks =>
    if !(tasks.any (fun t => decide (t.Status = .queued))) then (.ok (), w)
    else
      let r := w.store.ReplaceJobTasks job.ID (tasks.map (cancelIfQueued (some w.clock)))
      match r.1 with
      | .error e => (.error e, { w with store := r.2 })
      | .ok _ => (.ok (), updateProgress env { w with store := r.2 } job.ID)

/-- A suspension point of the runner that lasts `dur` nanoseconds: the `CancelJob`
requests scheduled for it are served, and the clock advances. -/
def suspend (env : Env) (w : World) (dur : Nat) : World :=
  let w1 := (env.cancels w.ticks).foldl (fun v c => (CancelJob env v c.1 c.2).2) w
  { w1 with clock := w1.clock + dur, ticks := w1.ticks + 1 }

/-- The loop of `sleepWithCancel`, with at most `polls` rounds of 100 ms. -/
def sleepWithCancelLoop (env : Env) (jobID : String) (deadline : Nat) : Nat → World → Bool × World
  | 0, w => (true, w)
  | polls + 1, w =>
    if w.clock < deadline then
      if isJobCanceled w jobID then (false, w)
      else sleepWithCancelLoop env jobID deadline polls (suspend env w 100000000)
    else (true, w)

/-- The method `sleepWithCancel`; a sleep of `d` nanoseconds takes at most
`⌈d / 100 ms⌉` rounds. -/
def sleepWithCancel (env : Env) (w : World) (jobID : String) (d : Nat) : Bool × World :=
  sleepWithCancelLoop env jobID (w.clock + d) ((d + 99999999) / 100000000) w

/-- The update of `executeTask` that marks a task running. -/
def markRunning (now : Nat) (workerID : String) (t : JobTask) : JobTask :=
  { t with
    Status := .running, Attempt := t.Attempt + 1, StartedAt := some now
    WorkerID := workerID }

/-- The update of `executeTask` that marks a task succeeded. -/
def markSucceeded (now : Nat) (output : Payload) (t : JobTask) : JobTask :=
  { t with
    Status := .succeeded, Output := output, EndedAt := some now
    Retryable := false, ErrorCode := "", ErrorMsg := "" }

/-- The end of `executeTask` after the retry loop: the task is marked failed. -/
def failTask (env : Env) (w : World) (job : Job) (task : JobTask)
    (lastErr : Option ProviderError) : World :=
  let lastErr : ProviderError := lastErr.getD
    { Category := "unknown", Code := "UNKNOWN", Retryable := false
      UserMessage := "Unknown failure", InternalMessage := "provider returned nil error" }
  let w1 := (updateTask w job.ID task.ID (fun t =>
    { t with
      Status := .failed, ErrorCode := lastErr.Code, ErrorMsg := lastErr.InternalMessage
      Retryable := lastErr.Retryable, EndedAt := some w.clock })).2
  let w2 := publishEvent env w1 job .task_failed
    [("task_id", .str task.ID), ("task_key", .str task.TaskKey),
     ("task_type", .taskType task.TaskType), ("error_code", .str lastErr.Code),
     ("retryable", .bool lastErr.Retryable), ("user_message", .str lastErr.UserMessage)]
  updateProgress env w2 job.ID

/-- The success branch of `executeTask`. -/
def succeedTask (env : Env) (w : World) (job : Job) (task : JobTask) (out : ExecuteOutput) :
    World :=
  let w1 := (updateTask w job.ID task.ID (markSucceeded w.clock out.Output)).2
  let w2 : World :=
    match out.Asset with
    | none => w1
    | some asset =>
      let r := w1.store.CreateAsset asset
      match r.1 with
      | .error _ => w1
      | .ok _ =>
        publishEvent env { w1 with store := r.2 } job .asset_ready
          [("asset_id", .str asset.ID), ("asset_type", .assetType asset.Typ)]
  let w3 := publishEvent env w2 job .task_succeeded
    [("task_id", .str task.ID), ("task_key", .str task.TaskKey),
     ("task_type", .taskType task.TaskType)]
  updateProgress env w3 job.ID

/-- The retry loop of `executeTask`, `for attempt := current.Attempt; attempt <= maxAttempt;
attempt++`, followed by the code after it.  The first argument bounds the number of
rounds; with `maxAttempt + 1 - attempt` the bound is reached only when the loop condition
fails. -/
def attemptLoop (env : Env) (job : Job) (task : JobTask) (maxAttempt : Nat) :
    Nat → Nat → Option ProviderError → World → World
  | 0, _, lastErr, w => failTask env w job task lastErr
  | rounds + 1, attempt, lastErr, w =>
    if attempt ≤ maxAttempt then
      if isJobCanceled w job.ID then
        updateProgress env
          (markTaskCanceled w job.ID task.ID "CANCELED" "Canceled during execution") job.ID
      else
        let w1 := suspend env w 0
        let res := env.prov w1.provCalls
          { UserID := job.UserID, ProjectID := job.ProjectID, JobID := job.ID
            TaskID := task.ID, TaskType := task.TaskType, SceneIndex := task.SceneIndex
            TraceID := job.TraceID, Payload := task.Input }
          (isJobCanceled w1 job.ID)
        let w2 : World := { w1 with provCalls := w1.provCalls + 1 }
        match res with
        | .ok out => succeedTask env w2 job task out
        | .error pErr =>
          if !pErr.Retryable || decide (attempt ≥ maxAttempt) then
            failTask env w2 job task (some pErr)
          else
            match retryBackoff attempt (env.rand w2.rands) with
            | none => { w2 with rands := w2.rands + 1, panicked := true }
            | some backoff =>
              let r := sleepWithCancel env { w2 with rands := w2.rands + 1 } job.ID
                backoff.toNat
              if !r.1 then
                updateProgress env
                  (markTaskCanceled r.2 job.ID task.ID "CANCELED" "Canceled during backoff")
                  job.ID
              else
                attemptLoop env job task maxAttempt rounds (attempt + 1) (some pErr)
                  (updateTask r.2 job.ID task.ID (fun t =>
                    { t with Attempt := t.Attempt + 1 })).2
    else failTask env w job task lastErr

/-- The method `executeTask`, run from its first to its last statement with no other
worker in between.  The two semaphores have capacity at least one, so that acquiring them
does not block a worker that runs alone. -/
def executeTask (env : Env) (w : World) (job : Job) (task : JobTask) : World :=
  let r := updateTask w job.ID task.ID
    (markRunning w.clock ("worker-" ++ (env.uuid w.uuids).take 8))
  let w1 : World :=
    match r.1 with
    | .error _ => r.2
    | .ok _ => { r.2 with uuids := r.2.uuids + 1 }
  match w1.store.GetJobTasks job.ID with
  | .error _ => w1
  | .ok tasks =>
    match findTaskByID tasks task.ID with
    | none => w1
    | some current =>
      let w2 := publishEvent env w1 job .task_started
        [("task_id", .str current.ID), ("task_key", .str current.TaskKey),
         ("task_type", .taskType current.TaskType), ("attempt", .int current.Attempt),
         ("display_name", .str current.DisplayName)]
      attemptLoop env job task current.MaxAttempt
        (current.MaxAttempt + 1 - current.Attempt) current.Attempt none w2

/-- The first half of `finalizeJob`: the terminal record computed for the job. -/
def finalRecord (job : Job) (tasks : List JobTask) (now : Time) : Job :=
  let hasFailed := tasks.any (fun t => decide (t.Status = .failed))
  let hasCanceled := tasks.any (fun t => decide (t.Status = .canceled))
  let job : Job :=
    if hasFailed then
      { job with
        Status := .failed, ErrorCode := "TASK_FAILED"
        ErrorMessage := "One or more tasks failed", Retryable := true }
    else if job.CancelRequested || hasCanceled then
      { job with
        Status := .canceled, ErrorCode := "CANCELED"
        ErrorMessage := "Canceled by user", Retryable := false }
    else
      { job with
        Status := .succeeded, ErrorCode := "", ErrorMessage := "", Retryable := false }
  { job with Progress := calcProgress tasks, EndedAt := now }

/-- The method `finalizeJob`. -/
def finalizeJob (env : Env) (w : World) (job : Job) (tasks : List JobTask) : World :=
  let now : Time := some w.clock
  let job : Job := finalRecord job tasks now
  let r := w.store.UpdateJob job
  match r.1 with
  | .error _ => { w with store := r.2 }
  | .ok _ =>
    let w1 : World :=
      match r.2.GetProject job.ProjectID with
      | .error _ => { w with store := r.2 }
      | .ok project =>
        { w with
          store := (r.2.UpdateProject
            { project with Status := job.Status.toString, UpdatedAt := now }).2 }
    match job.Status with
    | .succeeded =>
      publishEvent env w1 job .job_succeeded
        [("progress", .num job.Progress), ("status", .jobStatus job.Status)]
    | .canceled =>
      publishEvent env w1 job .job_canceled
        [("progress", .num job.Progress), ("status", .jobStatus job.Status)]
    | _ =>
      publishEvent env w1 job .job_failed
        [("progress", .num job.Progress), ("status", .jobStatus job.Status),
         ("error_code", .str job.ErrorCode), ("error_message", .str job.ErrorMessage)]

/-- The block of `runJob` that, on the first round, stamps `StartedAt` and moves the job
to running; it returns the local copy of the job together with the world. -/
def markStarted (env : Env) (w : World) (job : Job) : Job × World :=
  if job.StartedAt = none then
    let job : Job := { job with StartedAt := some w.clock, Status := .running }
    let r := w.store.UpdateJob job
    match r.1 with
    | .error _ => (job, { w with store := r.2 })
    | .ok _ =>
      (job, publishEvent env { w with store := r.2 } job .job_progress
        [("status", .jobStatus job.Status), ("progress", .num job.Progress)])
  else (job, w)

/-- The loop of `runJob`, for at most `fuel` rounds; `none` means that the loop is
still running after them.  The source starts one goroutine for each ready task and waits
for all of them; here the workers of a wave are run one after another, which is one of the
schedules of the wave (`runJobLoopWith` takes the schedule as an argument).  A panic of a
worker ends the process, hence the loop. -/
def runJobLoop (env : Env) (jobID : String) : Nat → World → Option World
  | 0, _ => none
  | fuel + 1, w =>
    match w.store.GetJob jobID with
    | .error _ => some w
    | .ok job =>
      if isJobTerminal job.Status then some w
      else
        let started := markStarted env w job
        let job := started.1
        let w1 := if job.CancelRequested then (cancelQueuedTasks env started.2 job).2
          else started.2
        match w1.store.GetJobTasks jobID with
        | .error _ => some w1
        | .ok tasks =>
          if allTasksTerminal tasks then some (finalizeJob env w1 job tasks)
          else
            let ready := readyTasks tasks w1.clock
            if ready.isEmpty then runJobLoop env jobID fuel (suspend env w1 120000000)
            else
              let w2 := ready.foldl (fun v t => executeTask env v job t) w1
              if w2.panicked then some w2 else runJobLoop env jobID fuel w2

/-- The method `runJob`: the loop, then the deferred `finishRunner`. -/
def runJob (env : Env) (jobID : String) (fuel : Nat) (w : World) : Option World :=
  match runJobLoop env jobID fuel w with
  | none => none
  | some w1 =>
    if w1.panicked then some w1
    else
      match w1.store.GetJob jobID with
      | .error _ => some w1
      | .ok job => some (finishRunner w1 job)

/-! ## Store invariant -/

/-- The sequence numbers of a log are `off + 1`, `off + 2`, ... in this order. -/
def seqsFrom (off : Nat) : List JobEvent → Prop
  | [] => True
  | e :: es => e.Seq = (off : Int) + 1 ∧ seqsFrom (off + 1) es

/-- The sequence numbers of a log are 1, 2, ..., n in this order. -/
def seqsContiguous (evs : List JobEvent) : Prop :=
  seqsFrom 0 evs

/-- The consistency of a store between its maps. -/
structure MemoryStore.WF (s : MemoryStore) : Prop where
  job_id : ∀ id j, s.jobs id = some j → j.ID = id
  project_id : ∀ id p, s.projects id = some p → p.ID = id
  tasks_iff : ∀ id, (s.tasksByJob id).isSome = (s.jobs id).isSome
  events_iff : ∀ id, (s.eventsByJob id).isSome = (s.jobs id).isSome
  idem : ∀ k id, s.idempotencyToJob k = some id → (s.jobs id).isSome = true
  seq : ∀ id evs, s.eventsByJob id = some evs →
    s.eventSeqByJob id = some (evs.length : Int) ∧ seqsContiguous evs

/-! ## Concrete inputs on which the theorems are instantiated -/

/-- A source of identifiers that never repeats: the n-th one is n + 1 letters long. -/
def demoUuid (n : Nat) : String :=
  String.mk (List.replicate (n + 1) 'u')

/-- The provider of `TestJobCancel`: it returns the classified CANCELED error when its
cancel token fired, and succeeds otherwise. -/
def slowProvider (fired : Bool) : Except ProviderError ExecuteOutput :=
  if fired then
    .error
      { Category := "canceled", Code := "CANCELED", Retryable := false
        UserMessage := "canceled", InternalMessage := "ctx canceled" }
  else .ok { Output := [("ok", .bool true)], Asset := none }

/-- An environment without concurrent cancel requests. -/
def demoEnv : Env :=
  { uuid := demoUuid, prov := fun _ _ fired => slowProvider fired
    cancels := fun _ => [], rand := fun _ => 0 }

/-- The project of `setupProject`, owned by user "u1", with `n` scenes. -/
def demoProject (n : Nat) : Project :=
  { ID := "p1", UserID := "u1", Name := "test", StoryText := "story", Style := "cinematic"
    SceneCount := n, Status := "draft", CurrentJobID := "", CreatedAt := some 1
    UpdatedAt := some 1 }

/-- A fresh service (caps 20, 2, 6) over a store that holds `demoProject n`. -/
def demoWorld (n : Nat) : World :=
  NewService (NewMemoryStore.apply (.createProject (demoProject n))) 20 2 6 5

/-- A running job of user "u1" on the project "p1". -/
def demoJob : Job :=
  { Job.zero with ID := "j1", UserID := "u1", ProjectID := "p1", Status := .running }

/-- A fresh service over a store that holds `demoProject 1` and the job `demoJob` without
tasks. -/
def demoJobWorld : World :=
  NewService ((NewMemoryStore.apply (.createProject (demoProject 1))).apply
    (.createJob demoJob [] "")) 20 2 6 5

/-- The environment of `TestJobCancel`: while the first provider call is in progress,
user "u1" calls `CancelJob` for the job with the first identifier. -/
def cancelEnv : Env :=
  { demoEnv with cancels := fun n => if n = 0 then [("u1", demoUuid 0)] else [] }

/-! ## Invariant of a runner whose tasks only succeed -/

/-- The tasks are listed in dependency order: every key a task depends on is in `seen`
or is the key of a task before it in the list. -/
def depsBefore (seen : List String) : List JobTask → Prop
  | [] => True
  | t :: ts => (∀ d ∈ t.DependsOn, d ∈ seen) ∧ depsBefore (t.TaskKey :: seen) ts

/-- A task that is queued with attempts left and due at clock reading `c`, or succeeded. -/
def TaskOK (c : Nat) (t : JobTask) : Prop :=
  (t.Status = .queued ∨ t.Status = .succeeded) ∧
  (t.Status = .queued → t.Attempt < t.MaxAttempt) ∧
  (∀ a, t.NextRunAt = some a → a ≤ c)

/-- A task list the runner can always advance: distinct ids, dependency order, and every
task queued (and due) or succeeded. -/
structure GoodTasks (c : Nat) (ts : List JobTask) : Prop where
  nonempty : ts ≠ []
  nodup : (ts.map (fun t => t.ID)).Nodup
  ordered : depsBefore [] ts
  ok : ∀ t ∈ ts, TaskOK c t

/-- The number of queued tasks. -/
def countQueued (ts : List JobTask) : Nat :=
  (ts.filter (fun t => decide (t.Status = .queued))).length

/-- An update of a task that completes it and keeps its place in the graph. -/
def Completes (g : JobTask → JobTask) : Prop :=
  ∀ t, (g t).ID = t.ID ∧ (g t).TaskKey = t.TaskKey ∧ (g t).DependsOn = t.DependsOn ∧
    (g t).NextRunAt = t.NextRunAt ∧ (g t).Status = .succeeded

/-- The task list after the task with id `tid` was updated by `g`. -/
def updateAt (tid : String) (g : JobTask → JobTask) (ts : List JobTask) : List JobTask :=
  ts.map (fun t => if t.ID = tid then g t else t)

/-- The part of the world a runner of job `jid` works on: the stored job, its task list,
the clock, and no panic so far. -/
structure View (w : World) (jid : String) (sj : Job) (ts : List JobTask) (c : Nat) : Prop where
  job : w.store.jobs jid = some sj
  tasks : w.store.tasksByJob jid = some ts
  clock : w.clock = c
  calm : w.panicked = false

/-- The environment of the happy path: identifiers never repeat, every provider call
succeeds, and nobody asks for a cancellation. -/
structure HappyEnv (env : Env) : Prop where
  uuid_inj : Function.Injective env.uuid
  prov_ok : ∀ n input fired, ∃ out, env.prov n input fired = .ok out
  no_cancel : ∀ n, env.cancels n = []

/-- The environment of `TestJobSuccess`: every provider call succeeds and nobody
cancels. -/
def successEnv : Env :=
  { uuid := demoUuid
    prov := fun _ _ _ => .ok { Output := [("ok", .bool true)], Asset := none }
    cancels := fun _ => [], rand := fun _ => 0 }

/-! ## Decimal numerals, for the task keys of `buildTasks` -/

/-- The value of a decimal digit character. -/
def digitValue (c : Char) : Nat :=
  c.toNat - '0'.toNat

/-- The number that a list of decimal digits, most significant first, stands for. -/
def decimalValue (cs : List Char) : Nat :=
  cs.foldl (fun acc c => acc * 10 + digitValue c) 0

/-! ## The dependency relation of a task list -/

/-- Task `a` of the list depends directly on task `b` of the list: the key of `b` is
listed in `a.DependsOn`. -/
def dependsOn (ts : List JobTask) (a b : JobTask) : Prop :=
  a ∈ ts ∧ b ∈ ts ∧ b.TaskKey ∈ a.DependsOn

/-- The layer of a task in the graph of `buildTasks`. -/
def taskLayer (t : JobTask) : Nat :=
  match t.TaskType with
  | .storyboard_generate => 0
  | .image_generate => 1
  | .tts_generate => 1
  | .compose_video => 2

/-- A task with the given id and status, for concrete task lists. -/
def demoTask (id : String) (status : TaskStatus) : JobTask :=
  { ID := id, JobID := "j1", TaskKey := id, TaskType := .storyboard_generate
    Status := status, Attempt := 1, MaxAttempt := 3, DependsOn := []
    Input := [], Output := [], ErrorCode := "", ErrorMsg := "", Retryable := false
    NextRunAt := none, StartedAt := some 1, EndedAt := some 2, WorkerID := "worker-1"
    ProjectID := "p1", TraceID := "t1", SceneIndex := 0, DisplayName := id }

/-- A failed job of user "u1" on the project "p1". -/
def failedJob : Job :=
  { Job.zero with
    ID := "j1", UserID := "u1", ProjectID := "p1", Status := .failed, Progress := 1
    ErrorCode := "TASK_FAILED", Retryable := true, StartedAt := some 1, EndedAt := some 2 }

/-- A fresh service over a store that holds `demoProject 1` and the job `failedJob` with one
succeeded and one failed task. -/
def failedJobWorld : World :=
  NewService ((NewMemoryStore.apply (.createProject (demoProject 1))).apply
    (.createJob failedJob [demoTask "a" .succeeded, demoTask "b" .failed] "")) 20 2 6 5

/-! ## Event hub (`internal/events/hub.go`) -/

/-- A subscriber channel `make(chan model.JobEvent, buf)` as a FIFO queue of depth `cap`:
`queue` is the buffer, oldest event first, and `taken` lists the events the subscriber has
already read from it, in the order it read them. -/
structure Sink where
  cap : Nat
  queue : List JobEvent
  taken : List JobEvent
  deriving DecidableEq

/-- The statement `select { case ch <- evt: default: }`: the event is enqueued if the
buffer has free space and is dropped otherwise. -/
def Sink.offer (s : Sink) (evt : JobEvent) : Sink :=
  if s.queue.length < s.cap then { s with queue := s.queue ++ [evt] } else s

/-- The subscriber reads `<-ch`: the oldest buffered event, if any, is taken. -/
def Sink.recv (s : Sink) : Sink :=
  match s.queue with
  | [] => s
  | e :: rest => { s with queue := rest, taken := s.taken ++ [e] }

/-- The struct `Hub`: for each job id the subscribers of the job, as pairs of a
subscription id and its channel. -/
structure Hub where
  subs : String → Option (List (String × Sink))

/-- The constructor `NewHub`. -/
def NewHub : Hub :=
  { subs := fun _ => none }

/-- The method `Subscribe`; `subID` is the value drawn from `uuid.NewString()`. -/
def Hub.Subscribe (h : Hub) (jobID : String) (buf : Nat) (subID : String) : Hub :=
  let jobSubs := (h.subs jobID).getD []
  { subs := mapSet h.subs jobID
      (jobSubs.filter (fun p => decide (p.1 ≠ subID))
        ++ [(subID, { cap := buf, queue := [], taken := [] })]) }

/-- The closure `unsubscribe` that `Subscribe` returns for `jobID` and `subID`. -/
def Hub.unsubscribe (h : Hub) (jobID subID : String) : Hub :=
  match h.subs jobID with
  | none => h
  | some jobSubs =>
    match jobSubs.find? (fun p => decide (p.1 = subID)) with
    | none => h
    | some _ =>
      let rest := jobSubs.filter (fun p => decide (p.1 ≠ subID))
      if rest.length = 0 then { subs := fun x => if x = jobID then none else h.subs x }
      else { subs := mapSet h.subs jobID rest }

/-- The method `Publish`. -/
def Hub.Publish (h : Hub) (jobID : String) (evt : JobEvent) : Hub :=
  match h.subs jobID with
  | none => h
  | some jobSubs =>
    { subs := mapSet h.subs jobID (jobSubs.map (fun p => (p.1, p.2.offer evt))) }

/-- The subscriber `subID` of `jobID` reads one event from its channel. -/
def Hub.receive (h : Hub) (jobID subID : String) : Hub :=
  match h.subs jobID with
  | none => h
  | some jobSubs =>
    { subs := mapSet h.subs jobID
        (jobSubs.map (fun p => if p.1 = subID then (p.1, p.2.recv) else p)) }

/-- What can happen to a hub: the three calls of its interface and a read by a
subscriber. -/
inductive HubAction where
  | subscribe (jobID : String) (buf : Nat) (subID : String)
  | unsubscribe (jobID subID : String)
  | publish (jobID : String) (evt : JobEvent)
  | receive (jobID subID : String)

/-- The hub after one action. -/
def Hub.step (h : Hub) : HubAction → Hub
  | .subscribe jobID buf subID => h.Subscribe jobID buf subID
  | .unsubscribe jobID subID => h.unsubscribe jobID subID
  | .publish jobID evt => h.Publish jobID evt
  | .receive jobID subID => h.receive jobID subID

/-- The hub after a sequence of actions. -/
def Hub.run (h : Hub) (acts : List HubAction) : Hub :=
  acts.foldl Hub.step h

/-- The events published for `jobID` by a sequence of actions, in publish order. -/
def publishedFor (jobID : String) (acts : List HubAction) : List JobEvent :=
  acts.filterMap (fun a =>
    match a with
    | .publish j e => if j = jobID then some e else none
    | _ => none)

/-- Every sink of the hub holds, read and buffered events together, a subsequence of
`pub j`, and its buffer is within its depth. -/
def HubInv (h : Hub) (pub : String → List JobEvent) : Prop :=
  ∀ j subs id s, h.subs j = some subs → (id, s) ∈ subs →
    (s.taken ++ s.queue).Sublist (pub j) ∧ s.queue.length ≤ s.cap

/-- An event of job "j1" with the given sequence number. -/
def demoEvent (n : Int) : JobEvent :=
  { EventID := "e", Seq := n, TraceID := "t1", JobID := "j1", ProjectID := "p1"
    Typ := .job_progress, TS := some 1, Payload := [] }

/-! ## Invariants of the scheduler -/

/-- The stored progress of job `j` is what `calcProgress` returns for its stored task list:
the `float64` quotient of the number of terminal tasks by the number of tasks. -/
def ProgressAt (s : MemoryStore) (j : String) : Prop :=
  ∀ job tasks, s.jobs j = some job → s.tasksByJob j = some tasks →
    job.Progress = calcProgress tasks

/-- The progress of every stored job is what `calcProgress` returns for its stored task
list. -/
def ProgressInv (s : MemoryStore) : Prop :=
  ∀ j, ProgressAt s j

/-- The stored job `j` is terminal exactly when all its stored tasks are. -/
def TerminalAt (s : MemoryStore) (j : String) : Prop :=
  ∀ job tasks, s.jobs j = some job → s.tasksByJob j = some tasks →
    (isJobTerminal job.Status = true ↔ ∀ t ∈ tasks, isTaskTerminal t.Status = true)

/-- Every stored job is terminal exactly when all its tasks are. -/
def TerminalInv (s : MemoryStore) : Prop :=
  ∀ j, TerminalAt s j

/-- The scheduler counters of two service states agree. -/
def SchedSame (w w2 : World) : Prop :=
  w2.runningByUser = w.runningByUser ∧ w2.activeRunner = w.activeRunner ∧
  w2.maxUserJobs = w.maxUserJobs

/-- What a step of the runner of job `ex` (or, with `none`, a step that touches no task)
leaves in place: the store stays consistent, the scheduler counters stay, a panic is never
undone, no job appears, disappears or changes between terminal and non-terminal, every
job but `ex` keeps its progress and its task list, and every job keeps its owner. -/
structure Frame (ex : Option String) (w w2 : World) : Prop where
  wf : w2.store.WF
  sched : SchedSame w w2
  calm : w2.panicked = false → w.panicked = false
  term : ∀ j, (w2.store.jobs j).map (fun x => isJobTerminal x.Status)
    = (w.store.jobs j).map (fun x => isJobTerminal x.Status)
  prog : ∀ j, some j ≠ ex →
    (w2.store.jobs j).map (fun x => x.Progress) = (w.store.jobs j).map (fun x => x.Progress)
  tasks : ∀ j, some j ≠ ex → w2.store.tasksByJob j = w.store.tasksByJob j
  owner : ∀ j, (w2.store.jobs j).map (fun x => x.UserID)
    = (w.store.jobs j).map (fun x => x.UserID)

/-- The service states reachable from a fresh service over a reachable store by complete
scheduler operations: `StartJob`, `CancelJob`, `RetryJob`, and a run of `runJob` that
returns. -/
inductive World.Reachable (env : Env) : World → Prop where
  | fresh (st : MemoryStore) (maxConcurrent maxUserJobs maxSceneJobs : Int) (clock : Nat) :
      st.Reachable →
      World.Reachable env (NewService st maxConcurrent maxUserJobs maxSceneJobs clock)
  | startJob {w : World} (userID projectID traceID key : String) :
      World.Reachable env w →
      World.Reachable env (StartJob env w userID projectID traceID key).2
  | cancelJob {w : World} (userID jobID : String) :
      World.Reachable env w → World.Reachable env (CancelJob env w userID jobID).2
  | retryJob {w : World} (userID jobID traceID : String) :
      World.Reachable env w → World.Reachable env (RetryJob env w userID jobID traceID).2
  | runner {w w2 : World} (jobID : String) (fuel : Nat) :
      World.Reachable env w → runJob env jobID fuel w = some w2 → World.Reachable env w2

/-- An environment in which every provider call succeeds, whatever its cancel token, and
user "u1" calls `CancelJob` for the job with the first identifier while the fourth provider
call of the runner is in progress. -/
def lateCancelEnv : Env :=
  { successEnv with cancels := fun n => if n = 3 then [("u1", demoUuid 0)] else [] }

/-- Between the stores `s` and `s2` exactly one event was appended to the log of job `jid`:
a `job_progress` event whose payload carries the progress that `calcProgress` returns for
the task list that `s2` stores for the job. -/
def AppendsProgress (s s2 : MemoryStore) (jid : String) : Prop :=
  ∃ tasks e, s2.tasksByJob jid = some tasks ∧
    s2.eventsByJob jid = some ((s.eventsByJob jid).getD [] ++ [e]) ∧
    e.Typ = .job_progress ∧
    ("progress", Val.num (calcProgress tasks)) ∈ e.Payload

/-- A fresh service over a store that holds `demoProject 1` and the running job `demoJob`
with the single queued task "a". -/
def queuedTaskWorld : World :=
  NewService ((NewMemoryStore.apply (.createProject (demoProject 1))).apply
    (.createJob demoJob [demoTask "a" .queued] "")) 20 2 6 5

/-- An environment whose provider fails every call with an error that is not retryable,
and in which nobody asks for a cancellation. -/
def failEnv : Env :=
  { demoEnv with
    prov := fun _ _ _ =>
      .error
        { Category := "provider", Code := "BAD_INPUT", Retryable := false
          UserMessage := "bad input", InternalMessage := "rejected" } }

/-- The service after `StartJob` on the one-scene project, with the failing provider. -/
def failStartWorld : World :=
  (StartJob failEnv (demoWorld 1) "u1" "p1" "t1" "").2

/-- The job that `StartJob` creates in `failStartWorld`. -/
def failJob : Job :=
  newJob failEnv (demoWorld 1) "u1" "p1" "t1" ""

/-- The service after the first round of the runner of `failJob`: the job is marked
started and the only ready task, `storyboard_generate`, is executed. -/
def failRoundWorld : World :=
  (readyTasks (buildTasks demoUuid 1 (some 5) (demoProject 1) failJob)
      (markStarted failEnv failStartWorld failJob).2.clock).foldl
    (fun v t => executeTask failEnv v (markStarted failEnv failStartWorld failJob).1 t)
    (markStarted failEnv failStartWorld failJob).2

/-! ## Two workers updating tasks of one job (`updateTask`, call by call) -/

/-- Where a worker stands in its call of `updateTask`: before `GetJobTasks`, between the
two store calls with the list it read, or after the call returned. -/
inductive UpdatePhase where
  | start
  | modified (tasks : List JobTask)
  | returned

/-- A worker that calls `updateTask(jobID, taskID, fn)`. -/
structure Worker where
  taskID : String
  fn : JobTask → JobTask
  phase : UpdatePhase

/-- The next store call of a worker inside `updateTask`: first `GetJobTasks`, then, after
`fn` was applied to the first task with the id in the list read, `ReplaceJobTasks`. -/
def Worker.step (jobID : String) (s : MemoryStore) (k : Worker) : MemoryStore × Worker :=
  match k.phase with
  | .start =>
    match s.GetJobTasks jobID with
    | .error _ => (s, { k with phase := .returned })
    | .ok tasks => (s, { k with phase := .modified tasks })
  | .modified tasks =>
    match applyFirst k.taskID k.fn tasks with
    | none => (s, { k with phase := .returned })
    | some updated => ((s.ReplaceJobTasks jobID updated).2, { k with phase := .returned })
  | .returned => (s, k)

/-- Which of two concurrent workers makes the next store call. -/
inductive Turn where
  | first
  | second
  deriving DecidableEq

/-- Two workers of one job under a schedule: each turn runs the next store call of the
worker named, so every list of turns is an interleaving that respects the order of the
calls inside each worker. -/
def runWorkers (jobID : String) (sched : List Turn) (s : MemoryStore) (a b : Worker) :
    MemoryStore × Worker × Worker :=
  sched.foldl
    (fun st turn =>
      match turn with
      | .first => ((Worker.step jobID st.1 st.2.1).1, (Worker.step jobID st.1 st.2.1).2, st.2.2)
      | .second =>
        ((Worker.step jobID st.1 st.2.2).1, st.2.1, (Worker.step jobID st.1 st.2.2).2))
    (s, a, b)

/-- A store that holds the running job `demoJob` with the two queued tasks "a" and "b". -/
def pairStore : MemoryStore :=
  (NewMemoryStore.apply (.createProject (demoProject 1))).apply
    (.createJob demoJob [demoTask "a" .queued, demoTask "b" .queued] "")

/-! ## Event stream (`internal/api/handlers_jobs.go`) -/

/-- The method `publishEvent` with its fan-out: the event is appended to the log and, when
that succeeds, published on the hub. -/
def publishEventHub (env : Env) (w : World) (h : Hub) (job : Job) (eventType : JobEventType)
    (payload : Payload) : World × Hub :=
  let r := w.store.AppendJobEvent job.ID
    { EventID := "", Seq := 0, TraceID := job.TraceID, JobID := job.ID
      ProjectID := job.ProjectID, Typ := eventType, TS := some w.clock, Payload := payload }
    (env.uuid w.uuids)
  match r.1 with
  | .error _ => (w, h)
  | .ok evt => ({ w with store := r.2, uuids := w.uuids + 1 }, h.Publish job.ID evt)

/-- The handler `streamJobEvents` up to the point where it starts to write: the access
checks, the read of the backlog, and the subscription.  `fromSeq` is the cursor parsed from
the request, `subID` the subscription id drawn, and `others` is what the other goroutines
do between the read of the backlog and the subscription.  The result is the backlog the
handler will write first; its live tail is the channel subscribed under `subID`. -/
def streamJobEvents (w : World) (h : Hub) (userID jobID : String) (fromSeq : Int)
    (subID : String) (others : World × Hub → World × Hub) :
    Except Err (List JobEvent) × World × Hub :=
  match w.store.GetJob jobID with
  | .error _ => (.error .notFound, w, h)
  | .ok j =>
    if j.UserID ≠ userID then (.error .forbidden, w, h)
    else
      let backlog : List JobEvent :=
        match w.store.ListJobEventsFromSeq jobID fromSeq with
        | .error _ => []
        | .ok evs => evs
      let st := others (w, h)
      (.ok backlog, st.1, st.2.Subscribe jobID 128 subID)

/-! ## Order of the task statuses -/

/-- The position of a status in the order queued < running < terminal. -/
def statusRank : TaskStatus → Nat
  | .queued => 0
  | .running => 1
  | .failed => 2
  | .canceled => 2
  | .succeeded => 2

/-- The task `b` is the task `a` at a later moment of a run without back-edge: the same
id, a status that is not earlier in the order, and the same status if `a` was terminal. -/
def StatusForward (a b : JobTask) : Prop :=
  b.ID = a.ID ∧ statusRank a.Status ≤ statusRank b.Status ∧
  (isTaskTerminal a.Status = true → b.Status = a.Status)

/-- The error that `executeTask` records when the retry loop ends without a provider
error. -/
def unknownFailure : ProviderError :=
  { Category := "unknown", Code := "UNKNOWN", Retryable := false
    UserMessage := "Unknown failure", InternalMessage := "provider returned nil error" }

/-- The update of `executeTask` that marks a task failed with the last error. -/
def markFailed (now : Nat) (e : ProviderError) (t : JobTask) : JobTask :=
  { t with
    Status := .failed, ErrorCode := e.Code, ErrorMsg := e.InternalMessage
    Retryable := e.Retryable, EndedAt := some now }

/-- The update of `markTaskCanceled`. -/
def markCanceled (now : Nat) (code msg : String) (t : JobTask) : JobTask :=
  { t with
    Status := .canceled, ErrorCode := code, ErrorMsg := msg, Retryable := false
    EndedAt := some now }

/-- The update of `executeTask` between two attempts. -/
def bumpAttempt (t : JobTask) : JobTask :=
  { t with Attempt := t.Attempt + 1 }

end Stv

namespace Stv

/-- The argument that `executeTask` passes to the provider. -/
def executeInput (job : Job) (task : JobTask) : ExecuteInput :=
  { UserID := job.UserID, ProjectID := job.ProjectID, JobID := job.ID
    TaskID := task.ID, TaskType := task.TaskType, SceneIndex := task.SceneIndex
    TraceID := job.TraceID, Payload := task.Input }

/-- The world in which the provider call of a round of the retry loop returns. -/
def afterCall (env : Env) (w : World) : World :=
  { suspend env w 0 with provCalls := (suspend env w 0).provCalls + 1 }

/-- The result of the provider call of a round of the retry loop. -/
def callResult (env : Env) (w : World) (job : Job) (task : JobTask) :
    Except ProviderError ExecuteOutput :=
  env.prov (suspend env w 0).provCalls (executeInput job task)
    (isJobCanceled (suspend env w 0) job.ID)

/-- The backoff sleep of a round of the retry loop, if the jitter source does not panic. -/
def backoffSleep (env : Env) (w : World) (job : Job) (attempt : Nat) : Option (Bool × World) :=
  (retryBackoff attempt (env.rand (afterCall env w).rands)).map (fun backoff =>
    sleepWithCancel env { afterCall env w with rands := (afterCall env w).rands + 1 } job.ID
      backoff.toNat)

end Stv

namespace Stv

/-- The task is stored succeeded with the output of the provider and cleared error
fields. -/
def SucceededWith (t : JobTask) (out : ExecuteOutput) : Prop :=
  t.Status = .succeeded ∧ t.Output = out.Output ∧ t.ErrorCode = "" ∧ t.ErrorMsg = "" ∧
  t.Retryable = false

/-- The task is stored failed with the code, internal message and retryable flag of the
error. -/
def FailedWith (t : JobTask) (e : ProviderError) : Prop :=
  t.Status = .failed ∧ t.ErrorCode = e.Code ∧ t.ErrorMsg = e.InternalMessage ∧
  t.Retryable = e.Retryable

/-- An environment whose provider fails its first call with a retryable error and
succeeds from then on, and in which nobody asks for a cancellation. -/
def flakyEnv : Env :=
  { demoEnv with
    prov := fun n _ _ =>
      if n = 0 then
        .error
          { Category := "provider", Code := "TIMEOUT", Retryable := true
            UserMessage := "try again", InternalMessage := "timed out" }
      else .ok { Output := [("ok", .bool true)], Asset := none } }

/-- A queued task "a" that has not been attempted yet. -/
def freshTask : JobTask :=
  { demoTask "a" .queued with Attempt := 0, StartedAt := none, EndedAt := none, WorkerID := "" }

/-- A fresh service over a store that holds `demoProject 1` and the running job `demoJob`
with the single task `freshTask`. -/
def freshTaskWorld : World :=
  NewService ((NewMemoryStore.apply (.createProject (demoProject 1))).apply
    (.createJob demoJob [freshTask] "")) 20 2 6 5

/-- A failed task "b" that has used all its three attempts. -/
def exhaustedTask : JobTask :=
  { demoTask "b" .failed with Attempt := 3, ErrorCode := "TIMEOUT", Retryable := true }

/-- A fresh service over a store that holds `demoProject 1` and the job `failedJob` with the
single task `exhaustedTask`. -/
def exhaustedWorld : World :=
  NewService ((NewMemoryStore.apply (.createProject (demoProject 1))).apply
    (.createJob failedJob [exhaustedTask] "")) 20 2 6 5

/-- The owner of the stored job `jid`, if the job is stored. -/
def ownerOf (w : World) (jid : String) : Option String :=
  (w.store.jobs jid).map (fun j => j.UserID)

/-- The service states reachable from a fresh service over a reachable store by the
scheduler operations, each taken as one step, when runners exist only for jobs whose
runner-active flag is set (the goroutine that `startRunnerIfNeeded` launched when it set
the flag): `StartJob` whose generated job id is not in use, `CancelJob`, `RetryJob`, a run
of `runJob` that returns, and, for the case that other operations come in between, the
two halves of such a run on their own, the loop (`work`) and the deferred call of
`finishRunner` (`finish`). -/
inductive World.Launched (env : Env) : World → Prop where
  | fresh (st : MemoryStore) (maxConcurrent maxUserJobs maxSceneJobs : Int) (clock : Nat) :
      st.Reachable →
      World.Launched env (NewService st maxConcurrent maxUserJobs maxSceneJobs clock)
  | startJob {w : World} (userID projectID traceID key : String) :
      World.Launched env w → w.store.jobs (env.uuid w.uuids) = none →
      World.Launched env (StartJob env w userID projectID traceID key).2
  | cancelJob {w : World} (userID jobID : String) :
      World.Launched env w → World.Launched env (CancelJob env w userID jobID).2
  | retryJob {w : World} (userID jobID traceID : String) :
      World.Launched env w → World.Launched env (RetryJob env w userID jobID traceID).2
  | runner {w w2 : World} (jobID : String) (fuel : Nat) :
      World.Launched env w → w.activeRunner jobID = true →
      runJob env jobID fuel w = some w2 → World.Launched env w2
  | work {w w2 : World} (jobID : String) (fuel : Nat) :
      World.Launched env w → w.activeRunner jobID = true →
      runJobLoop env jobID fuel w = some w2 → World.Launched env w2
  | finish {w : World} (jobID : String) (job : Job) :
      World.Launched env w → w.activeRunner jobID = true →
      w.store.GetJob jobID = .ok job → World.Launched env (finishRunner w job)

/-- The list `active` names, without repetition, exactly the jobs whose runner-active flag
is set, each of them is stored, and `runningByUser[u]` is the number of them owned by
`u`, for every user `u`. -/
def Bookkept (w : World) (active : List String) : Prop :=
  active.Nodup ∧ (∀ id, w.activeRunner id = true ↔ id ∈ active) ∧
  (∀ id ∈ active, (ownerOf w id).isSome = true) ∧
  ∀ u, w.runningByUser u = (active.countP (fun id => decide (ownerOf w id = some u)) : Int)

/-- The ratio of the progress invariant as an exact rational number: the number of tasks
with status succeeded, failed or canceled over the number of tasks. -/
def terminalRatio (tasks : List JobTask) : ℚ :=
  ((tasks.filter (fun t => isTaskTerminal t.Status)).length : ℚ) / (tasks.length : ℚ)

/-- The service states reached from a fresh service over a reachable store without jobs
by the operations that write progress or task statuses, each run to its end before the
next one starts: `StartJob`, `CancelJob`, `RetryJob`, the start block of the runner on the
stored job, `cancelQueuedTasks`, a run of `executeTask` that does not panic, and
`finalizeJob` on the stored task list. -/
inductive World.Operated (env : Env) : World → Prop where
  | fresh (st : MemoryStore) (maxConcurrent maxUserJobs maxSceneJobs : Int) (clock : Nat) :
      st.Reachable → (∀ j, st.jobs j = none) →
      World.Operated env (NewService st maxConcurrent maxUserJobs maxSceneJobs clock)
  | startJob {w : World} (userID projectID traceID key : String) :
      World.Operated env w → World.Operated env (StartJob env w userID projectID traceID key).2
  | cancelJob {w : World} (userID jobID : String) :
      World.Operated env w → World.Operated env (CancelJob env w userID jobID).2
  | retryJob {w : World} (userID jobID traceID : String) :
      World.Operated env w → World.Operated env (RetryJob env w userID jobID traceID).2
  | started {w : World} (job : Job) :
      World.Operated env w → w.store.jobs job.ID = some job →
      isJobTerminal job.Status = false → World.Operated env (markStarted env w job).2
  | cancelQueued {w : World} (job : Job) :
      World.Operated env w → World.Operated env (cancelQueuedTasks env w job).2
  | execute {w : World} (job : Job) (task : JobTask) :
      World.Operated env w → (executeTask env w job task).panicked = false →
      World.Operated env (executeTask env w job task)
  | finalize {w : World} (job : Job) (tasks : List JobTask) :
      World.Operated env w → w.store.tasksByJob job.ID = some tasks →
      World.Operated env (finalizeJob env w job tasks)

/-- The service of `TestJobSuccess` after `StartJob`: a project with two scenes and a
provider that always succeeds. -/
def successStartWorld : World := (StartJob successEnv (demoWorld 2) "u1" "p1" "t1" "").2

/-- The job that `StartJob` creates in `successStartWorld`. -/
def successJob : Job := newJob successEnv (demoWorld 2) "u1" "p1" "t1" ""

/-- The service after the first round of the runner of `successJob`: the job is marked
started and the only ready task, `storyboard_generate`, is executed. -/
def successRound1 : World :=
  (readyTasks (buildTasks demoUuid 1 (some 5) (demoProject 2) successJob)
      (markStarted successEnv successStartWorld successJob).2.clock).foldl
    (fun v t => executeTask successEnv v (markStarted successEnv successStartWorld successJob).1 t)
    (markStarted successEnv successStartWorld successJob).2

/-! ## Schedules of a wave: two workers that overlap -/

/-- The part of `executeTask` before the retry loop: the task is marked running and read
back, and `task_started` is published; `none` when the task is not found. -/
def enterTask (env : Env) (w : World) (job : Job) (task : JobTask) : Option (JobTask × World) :=
  let r := updateTask w job.ID task.ID
    (markRunning w.clock ("worker-" ++ (env.uuid w.uuids).take 8))
  let w1 : World :=
    match r.1 with
    | .error _ => r.2
    | .ok _ => { r.2 with uuids := r.2.uuids + 1 }
  match w1.store.GetJobTasks job.ID with
  | .error _ => none
  | .ok tasks =>
    match findTaskByID tasks task.ID with
    | none => none
    | some current =>
      some (current, publishEvent env w1 job .task_started
        [("task_id", .str current.ID), ("task_key", .str current.TaskKey),
         ("task_type", .taskType current.TaskType), ("attempt", .int current.Attempt),
         ("display_name", .str current.DisplayName)])

/-- The first round of the retry loop of `executeTask` up to the return of the provider
call; `none` when the round makes no call, because no attempt is left or the job is
cancel-requested. -/
def firstCall (env : Env) (w : World) (job : Job) (task current : JobTask) :
    Option (Except ProviderError ExecuteOutput × World) :=
  if current.Attempt ≤ current.MaxAttempt ∧ isJobCanceled w job.ID = false then
    some (callResult env w job task, afterCall env w)
  else none

/-- The success branch of `executeTask` after its call of `updateTask`: the asset,
`task_succeeded` and the progress. -/
def succeedRest (env : Env) (w1 : World) (job : Job) (task : JobTask) (out : ExecuteOutput) :
    World :=
  let w2 : World :=
    match out.Asset with
    | none => w1
    | some asset =>
      let r := w1.store.CreateAsset asset
      match r.1 with
      | .error _ => w1
      | .ok _ =>
        publishEvent env { w1 with store := r.2 } job .asset_ready
          [("asset_id", .str asset.ID), ("asset_type", .assetType asset.Typ)]
  let w3 := publishEvent env w2 job .task_succeeded
    [("task_id", .str task.ID), ("task_key", .str task.TaskKey),
     ("task_type", .taskType task.TaskType)]
  updateProgress env w3 job.ID

/-- Two workers of one wave, for the tasks `a` and `b`, whose provider calls both succeed
at once.  Worker `a` marks its task running and gets its result, then worker `b` does;
then both call `updateTask` to mark their task succeeded, and the store calls of the two
invocations, `GetJobTasks` and `ReplaceJobTasks` each, are interleaved as `turns` says;
then each worker finishes its success branch.  If a worker does not get a success from its
first call, the two run one after another. -/
def racedPair (env : Env) (turns : List Turn) (w : World) (job : Job) (a b : JobTask) : World :=
  match enterTask env w job a with
  | none => executeTask env (executeTask env w job a) job b
  | some (ca, wa) =>
    match firstCall env wa job a ca with
    | some (.ok outA, wa2) =>
      match enterTask env wa2 job b with
      | none => executeTask env (executeTask env w job a) job b
      | some (cb, wb) =>
        match firstCall env wb job b cb with
        | some (.ok outB, wb2) =>
          let st := (runWorkers job.ID turns wb2.store
            { taskID := a.ID, fn := markSucceeded wb2.clock outA.Output, phase := .start }
            { taskID := b.ID, fn := markSucceeded wb2.clock outB.Output, phase := .start }).1
          succeedRest env (succeedRest env { wb2 with store := st } job a outA) job b outB
        | _ => executeTask env (executeTask env w job a) job b
    | _ => executeTask env (executeTask env w job a) job b

/-- A wave of the runner in which the workers of the first two ready tasks overlap as in
`racedPair` and the other workers run after them, one after another. -/
def racedWave (env : Env) (turns : List Turn) (w : World) (job : Job) (ready : List JobTask) :
    World :=
  match ready with
  | a :: b :: rest =>
    rest.foldl (fun v t => executeTask env v job t) (racedPair env turns w job a b)
  | _ => ready.foldl (fun v t => executeTask env v job t) w

/-- The loop of `runJob` for at most `fuel` rounds, as `runJobLoop`, with the workers of a
wave scheduled by `wave`: the function gives the state in which all of them have
returned. -/
def runJobLoopWith (env : Env) (wave : World → Job → List JobTask → World) (jobID : String) :
    Nat → World → Option World
  | 0, _ => none
  | fuel + 1, w =>
    match w.store.GetJob jobID with
    | .error _ => some w
    | .ok job =>
      if isJobTerminal job.Status then some w
      else
        let started := markStarted env w job
        let job := started.1
        let w1 := if job.CancelRequested then (cancelQueuedTasks env started.2 job).2
          else started.2
        match w1.store.GetJobTasks jobID with
        | .error _ => some w1
        | .ok tasks =>
          if allTasksTerminal tasks then some (finalizeJob env w1 job tasks)
          else
            let ready := readyTasks tasks w1.clock
            if ready.isEmpty then runJobLoopWith env wave jobID fuel (suspend env w1 120000000)
            else
              let w2 := wave w1 job ready
              if w2.panicked then some w2 else runJobLoopWith env wave jobID fuel w2

/-- The method `runJob` with the workers of a wave scheduled by `wave`: the loop, then the
deferred `finishRunner`. -/
def runJobWith (env : Env) (wave : World → Job → List JobTask → World) (jobID : String)
    (fuel : Nat) (w : World) : Option World :=
  match runJobLoopWith env wave jobID fuel w with
  | none => none
  | some w1 =>
    if w1.panicked then some w1
    else
      match w1.store.GetJob jobID with
      | .error _ => some w1
      | .ok job => some (finishRunner w1 job)

/-- The schedule of `runJobLoop`: the workers of a wave run one after another. -/
def seqWave (env : Env) (w : World) (job : Job) (ready : List JobTask) : World :=
  ready.foldl (fun v t => executeTask env v job t) w

/-- A schedule of the waves under which a wave, however its workers are interleaved, keeps
what a run of `executeTask` keeps: the store stays consistent, the scheduler counters stay,
no job appears, disappears or changes between terminal and non-terminal, and only the job
of the runner may change its task list or its progress. -/
def WaveFrame (wave : World → Job → List JobTask → World) : Prop :=
  ∀ v job ready, v.store.WF → Frame (some job.ID) v (wave v job ready)

/-- The service states reached from a fresh service over a reachable store without jobs
by complete scheduler operations: `StartJob`, `CancelJob`, a run of the runner that returns
without a worker panic, under any schedule of its waves that keeps the frame, and a
`RetryJob` that is refused or finds a failed or canceled task of the job to reset. -/
inductive World.Settled (env : Env) : World → Prop where
  | fresh (st : MemoryStore) (maxConcurrent maxUserJobs maxSceneJobs : Int) (clock : Nat) :
      st.Reachable → (∀ j, st.jobs j = none) →
      World.Settled env (NewService st maxConcurrent maxUserJobs maxSceneJobs clock)
  | startJob {w : World} (userID projectID traceID key : String) :
      World.Settled env w → World.Settled env (StartJob env w userID projectID traceID key).2
  | cancelJob {w : World} (userID jobID : String) :
      World.Settled env w → World.Settled env (CancelJob env w userID jobID).2
  | runner {w w2 : World} (wave : World → Job → List JobTask → World) (jobID : String)
      (fuel : Nat) :
      World.Settled env w → WaveFrame wave → runJobWith env wave jobID fuel w = some w2 →
      w2.panicked = false → World.Settled env w2
  | retryJob {w : World} (userID jobID traceID : String) :
      World.Settled env w →
      ((∃ e, (RetryJob env w userID jobID traceID).1 = .error e) ∨
        ∃ tasks x, w.store.tasksByJob jobID = some tasks ∧ x ∈ tasks ∧
          (x.Status = .failed ∨ x.Status = .canceled)) →
      World.Settled env (RetryJob env w userID jobID traceID).2

/-- The schedule in which both workers read the task list before either replaces it. -/
def overlapTurns : List Turn := [.first, .second, .first, .second]

/-- The state after the first round of the runner of `successJob` under the schedule
`racedWave`: the only ready task, `storyboard_generate`, has run. -/
def racedRound1 (turns : List Turn) : World :=
  racedWave successEnv turns
    (markStarted successEnv successStartWorld successJob).2
    (markStarted successEnv successStartWorld successJob).1
    (readyTasks (buildTasks demoUuid 1 (some 5) (demoProject 2) successJob)
      (markStarted successEnv successStartWorld successJob).2.clock)

/-- The job record that the runner reads at the start of its second round. -/
def racedJob1 (turns : List Turn) : Job :=
  ((racedRound1 turns).store.jobs (demoUuid 0)).getD Job.zero

/-- The task list that the runner reads in its second round. -/
def racedTasks1 (turns : List Turn) : List JobTask :=
  ((markStarted successEnv (racedRound1 turns) (racedJob1 turns)).2.store.tasksByJob
    (demoUuid 0)).getD []

/-- The state after the second round of the runner of `successJob` under the schedule
`racedWave`: in the wave of `image_generate_0`, `tts_generate_0`, `image_generate_1` and
`tts_generate_1`, the workers of the first two tasks overlap as `turns` says. -/
def racedRound2 (turns : List Turn) : World :=
  racedWave successEnv turns
    (markStarted successEnv (racedRound1 turns) (racedJob1 turns)).2
    (markStarted successEnv (racedRound1 turns) (racedJob1 turns)).1
    (readyTasks (racedTasks1 turns)
      (markStarted successEnv (racedRound1 turns) (racedJob1 turns)).2.clock)

/-! # Properties -/

/-! ## The store invariant holds in every reachable state -/

theorem mapSet_apply {α : Type} (m : String → Option α) (k : String) (v : α) (x : String) :
    mapSet m k v x = if x = k then some v else m x := rfl

theorem seqsContiguous_nil : seqsContiguous [] := trivial

theorem seqsFrom_append (off : Nat) (evs : List JobEvent) (e : JobEvent)
    (h : seqsFrom off evs) (he : e.Seq = ((off + evs.length : Nat) : Int) + 1) :
    seqsFrom off (evs ++ [e]) := by
  induction evs generalizing off with
  | nil => exact ⟨by simpa using he, trivial⟩
  | cons x xs ih =>
    refine ⟨h.1, ih (off + 1) h.2 ?_⟩
    rw [he]
    simp only [List.length_cons]
    congr 2
    omega

theorem seqsContiguous_append (evs : List JobEvent) (e : JobEvent) (h : seqsContiguous evs)
    (he : e.Seq = (evs.length : Int) + 1) : seqsContiguous (evs ++ [e]) :=
  seqsFrom_append 0 evs e h (by simpa using he)

theorem seqsFrom_index (off : Nat) (evs : List JobEvent) (h : seqsFrom off evs) (i : Nat)
    (e : JobEvent) (hi : evs[i]? = some e) : e.Seq = ((off + i : Nat) : Int) + 1 := by
  induction evs generalizing off i with
  | nil => simp at hi
  | cons x xs ih =>
    cases i with
    | zero =>
      simp only [List.getElem?_cons_zero, Option.some.injEq] at hi
      subst hi
      simpa using h.1
    | succ j =>
      simp only [List.getElem?_cons_succ] at hi
      rw [ih (off + 1) h.2 j hi]
      congr 2
      omega

theorem seqsFrom_filter (off : Nat) (evs : List JobEvent) (h : seqsFrom off evs) (k : Int) :
    evs.filter (fun e => decide (e.Seq > k)) = evs.drop (k.toNat - off) := by
  induction evs generalizing off with
  | nil => simp
  | cons x xs ih =>
    have hx := h.1
    have ht := ih (off + 1) h.2
    by_cases hk : k ≤ off
    · have h0 : k.toNat - off = 0 := by omega
      have h1 : k.toNat - (off + 1) = 0 := by omega
      rw [h0, List.drop_zero]
      rw [h1, List.drop_zero] at ht
      rw [List.filter_cons_of_pos (by simp; omega), ht]
    · have h1 : k.toNat - off = (k.toNat - (off + 1)) + 1 := by omega
      rw [h1, List.drop_succ_cons, ← ht]
      rw [List.filter_cons_of_neg (by simp; omega)]

theorem seqsFrom_pairwise (off : Nat) (evs : List JobEvent) (h : seqsFrom off evs) :
    evs.Pairwise (fun a b => a.Seq < b.Seq) ∧ ∀ e ∈ evs, (off : Int) < e.Seq := by
  induction evs generalizing off with
  | nil => simp
  | cons x xs ih =>
    obtain ⟨hp, hlt⟩ := ih (off + 1) h.2
    have hx := h.1
    refine ⟨List.pairwise_cons.mpr ⟨?_, hp⟩, ?_⟩
    · intro b hb
      have := hlt b hb
      push_cast at this
      omega
    · intro e he
      rcases List.mem_cons.mp he with rfl | he
      · omega
      · have := hlt e he
        push_cast at this
        omega

theorem wf_new : NewMemoryStore.WF := by
  constructor <;> simp [NewMemoryStore]

theorem wf_createProject (s : MemoryStore) (h : s.WF) (p : Project) : (s.CreateProject p).2.WF := by
  unfold MemoryStore.CreateProject
  split
  · exact h
  · refine ⟨h.job_id, ?_, h.tasks_iff, h.events_iff, h.idem, h.seq⟩
    intro id q hq
    simp only [mapSet_apply] at hq
    split at hq
    · simp_all
    · exact h.project_id id q hq

theorem wf_updateProject (s : MemoryStore) (h : s.WF) (p : Project) : (s.UpdateProject p).2.WF := by
  unfold MemoryStore.UpdateProject
  split
  · exact h
  · refine ⟨h.job_id, ?_, h.tasks_iff, h.events_iff, h.idem, h.seq⟩
    intro id q hq
    simp only [mapSet_apply] at hq
    split at hq
    · simp_all
    · exact h.project_id id q hq

theorem wf_insert (s : MemoryStore) (h : s.WF) (job : Job) (tasks : List JobTask)
    (m : String → Option String)
    (hm : ∀ k id, m k = some id → id = job.ID ∨ (s.jobs id).isSome = true) :
    MemoryStore.WF { s with
      idempotencyToJob := m
      jobs := mapSet s.jobs job.ID job
      tasksByJob := mapSet s.tasksByJob job.ID tasks
      eventsByJob := mapSet s.eventsByJob job.ID []
      eventSeqByJob := mapSet s.eventSeqByJob job.ID 0 } := by
  refine ⟨?_, h.project_id, ?_, ?_, ?_, ?_⟩
  · intro id j hj
    simp only [mapSet_apply] at hj
    split at hj
    · simp_all
    · exact h.job_id id j hj
  · intro id
    simp only [mapSet_apply]
    split
    · simp
    · exact h.tasks_iff id
  · intro id
    simp only [mapSet_apply]
    split
    · simp
    · exact h.events_iff id
  · intro k id hk
    simp only [mapSet_apply]
    split
    · simp
    · rcases hm k id hk with h1 | h1
      · contradiction
      · exact h1
  · intro id evs hevs
    simp only [mapSet_apply] at hevs ⊢
    split at hevs
    · rename_i hid
      simp only [hid, if_true]
      cases hevs
      exact ⟨rfl, seqsContiguous_nil⟩
    · rename_i hid
      simp only [hid, if_false]
      exact h.seq id evs hevs

theorem wf_createJob (s : MemoryStore) (h : s.WF) (job : Job) (tasks : List JobTask)
    (key : String) : (s.CreateJob job tasks key).2.WF := by
  unfold MemoryStore.CreateJob
  simp only
  split
  · split
    · exact h
    · apply wf_insert s h job tasks
      intro k id hk
      simp only [mapSet_apply] at hk
      split at hk
      · left; cases hk; rfl
      · right; exact h.idem k id hk
  · exact wf_insert s h job tasks s.idempotencyToJob (fun k id hk => Or.inr (h.idem k id hk))

theorem wf_updateJob (s : MemoryStore) (h : s.WF) (job : Job) : (s.UpdateJob job).2.WF := by
  unfold MemoryStore.UpdateJob
  split
  · exact h
  · rename_i j hj
    refine ⟨?_, h.project_id, ?_, ?_, ?_, h.seq⟩
    · intro id j2 hj2
      simp only [mapSet_apply] at hj2
      split at hj2
      · simp_all
      · exact h.job_id id j2 hj2
    · intro id
      simp only [mapSet_apply]
      split
      · rename_i hid
        rw [hid, h.tasks_iff, hj]; rfl
      · exact h.tasks_iff id
    · intro id
      simp only [mapSet_apply]
      split
      · rename_i hid
        rw [hid, h.events_iff, hj]; rfl
      · exact h.events_iff id
    · intro k id hk
      simp only [mapSet_apply]
      split
      · rfl
      · exact h.idem k id hk

theorem wf_replaceJobTasks (s : MemoryStore) (h : s.WF) (jobID : String)
    (tasks : List JobTask) : (s.ReplaceJobTasks jobID tasks).2.WF := by
  unfold MemoryStore.ReplaceJobTasks
  split
  · exact h
  · rename_i ts hts
    refine ⟨h.job_id, h.project_id, ?_, h.events_iff, h.idem, h.seq⟩
    intro id
    simp only [mapSet_apply]
    split
    · rename_i hid
      rw [hid, ← h.tasks_iff, hts]; rfl
    · exact h.tasks_iff id

theorem wf_appendJobEvent (s : MemoryStore) (h : s.WF) (jobID : String) (event : JobEvent)
    (eventID : String) : (s.AppendJobEvent jobID event eventID).2.WF := by
  unfold MemoryStore.AppendJobEvent
  split
  · exact h
  · rename_i j hj
    have hev : (s.eventsByJob jobID).isSome = true := by rw [h.events_iff, hj]; rfl
    obtain ⟨evs, hevs⟩ := Option.isSome_iff_exists.mp hev
    obtain ⟨hseq, hcont⟩ := h.seq jobID evs hevs
    refine ⟨h.job_id, h.project_id, h.tasks_iff, ?_, h.idem, ?_⟩
    · intro id
      simp only [mapSet_apply]
      split
      · rename_i hid
        rw [hid, hj]; rfl
      · exact h.events_iff id
    · intro id evs2 hevs2
      simp only [mapSet_apply] at hevs2 ⊢
      split at hevs2
      · rename_i hid
        simp only [hid, if_true]
        cases hevs2
        simp only [hevs, hseq, Option.getD_some]
        refine ⟨by simp, ?_⟩
        exact seqsContiguous_append evs _ hcont rfl
      · rename_i hid
        simp only [hid, if_false]
        exact h.seq id evs2 hevs2

theorem wf_createAsset (s : MemoryStore) (h : s.WF) (a : Asset) : (s.CreateAsset a).2.WF := by
  unfold MemoryStore.CreateAsset
  split
  · exact h
  · exact ⟨h.job_id, h.project_id, h.tasks_iff, h.events_iff, h.idem, h.seq⟩

theorem wf_apply (s : MemoryStore) (h : s.WF) (op : StoreOp) : (s.apply op).WF := by
  cases op with
  | createProject p => exact wf_createProject s h p
  | updateProject p => exact wf_updateProject s h p
  | createJob job tasks key => exact wf_createJob s h job tasks key
  | updateJob job => exact wf_updateJob s h job
  | replaceJobTasks jobID tasks => exact wf_replaceJobTasks s h jobID tasks
  | appendJobEvent jobID event eventID => exact wf_appendJobEvent s h jobID event eventID
  | createAsset a => exact wf_createAsset s h a

theorem wf_of_reachable (s : MemoryStore) (h : s.Reachable) : s.WF := by
  induction h with
  | init => exact wf_new
  | step op _ ih => exact wf_apply _ ih op

/-! ## Idempotent job creation in the store (C4, C5) -/

/-- C4 fails for user ids that contain the separator ':'.  The user ids "a" and "a:b"
differ and the store holds the single idempotency entry written for user "a" under key
"b:c", yet `GetJobByIdempotency` for user "a:b" and key "c" returns the job of user "a",
and `CreateJob` for a job of user "a:b" with key "c" returns that job and inserts
nothing. -/
theorem idempotency_key_collision :
    ("a" : String) ≠ "a:b" ∧
    (NewMemoryStore.CreateJob { Job.zero with ID := "j1", UserID := "a" } [] "b:c").2.GetJobByIdempotency
      "a:b" "c" = some { Job.zero with ID := "j1", UserID := "a" } ∧
    ((NewMemoryStore.CreateJob { Job.zero with ID := "j1", UserID := "a" } [] "b:c").2.CreateJob
      { Job.zero with ID := "j2", UserID := "a:b" } [] "c").1
      = .ok { Job.zero with ID := "j1", UserID := "a" } ∧
    ((NewMemoryStore.CreateJob { Job.zero with ID := "j1", UserID := "a" } [] "b:c").2.CreateJob
      { Job.zero with ID := "j2", UserID := "a:b" } [] "c").2.jobs "j2" = none := by
  refine ⟨by decide, ?_, ?_, ?_⟩
  · rfl
  · rfl
  · rfl

theorem append_sep_inj (c : Char) (l1 : List Char) :
    ∀ (l2 r1 r2 : List Char), c ∉ l1 → c ∉ l2 → l1 ++ c :: r1 = l2 ++ c :: r2 →
      l1 = l2 ∧ r1 = r2 := by
  induction l1 with
  | nil =>
    intro l2 r1 r2 _ h2 h
    cases l2 with
    | nil => simpa using h
    | cons x xs =>
      simp only [List.nil_append, List.cons_append, List.cons.injEq] at h
      exact absurd (List.mem_cons.mpr (Or.inl h.1)) h2
  | cons a as ih =>
    intro l2 r1 r2 h1 h2 h
    cases l2 with
    | nil =>
      simp only [List.nil_append, List.cons_append, List.cons.injEq] at h
      exact absurd (List.mem_cons.mpr (Or.inl h.1.symm)) h1
    | cons x xs =>
      simp only [List.cons_append, List.cons.injEq] at h
      obtain ⟨e1, e2⟩ := ih xs r1 r2 (fun hc => h1 (List.mem_cons_of_mem _ hc))
        (fun hc => h2 (List.mem_cons_of_mem _ hc)) h.2
      exact ⟨by rw [h.1, e1], e2⟩

/-- The composite idempotency keys of two different users differ, whatever the keys, when
neither user id contains the separator. -/
theorem composite_key_ne (u1 u2 k1 k2 : String) (h1 : ':' ∉ u1.data) (h2 : ':' ∉ u2.data)
    (hne : u1 ≠ u2) : u1 ++ ":" ++ k1 ≠ u2 ++ ":" ++ k2 := by
  intro h
  have hd := congrArg String.data h
  simp only [String.data_append] at hd
  have hd2 : u1.data ++ ':' :: k1.data = u2.data ++ ':' :: k2.data := by
    simpa using hd
  exact hne (String.ext (append_sep_inj ':' _ _ _ _ h1 h2 hd2).1)

/-- C4 as amended: idempotency keys are scoped to the user for user ids without the
separator ':'.  The store holds no idempotency entry, the owners of the two jobs differ and
neither id contains ':', and the keys are any two non-empty strings, equal or not.  After
`CreateJob` has stored the first job under the first key, `GetJobByIdempotency` for the
second owner and the second key returns nothing, and `CreateJob` for the second job under
the second key returns the second job and stores it with its tasks and its own idempotency
entry, next to the entry of the first job, which stays stored if the job ids differ. -/
theorem idempotency_scoped_to_user (s : MemoryStore) (hs : ∀ k, s.idempotencyToJob k = none)
    (job1 job2 : Job) (tasks1 tasks2 : List JobTask) (k1 k2 : String)
    (h1 : ':' ∉ job1.UserID.data) (h2 : ':' ∉ job2.UserID.data)
    (hne : job1.UserID ≠ job2.UserID) (hk1 : k1 ≠ "") (hk2 : k2 ≠ "") :
    (s.CreateJob job1 tasks1 k1).2.GetJobByIdempotency job2.UserID k2 = none ∧
    ((s.CreateJob job1 tasks1 k1).2.CreateJob job2 tasks2 k2).1 = .ok job2 ∧
    ((s.CreateJob job1 tasks1 k1).2.CreateJob job2 tasks2 k2).2.jobs job2.ID = some job2 ∧
    ((s.CreateJob job1 tasks1 k1).2.CreateJob job2 tasks2 k2).2.tasksByJob job2.ID
      = some tasks2 ∧
    ((s.CreateJob job1 tasks1 k1).2.CreateJob job2 tasks2 k2).2.idempotencyToJob
      (job2.UserID ++ ":" ++ k2) = some job2.ID ∧
    ((s.CreateJob job1 tasks1 k1).2.CreateJob job2 tasks2 k2).2.idempotencyToJob
      (job1.UserID ++ ":" ++ k1) = some job1.ID ∧
    (job1.ID ≠ job2.ID →
      ((s.CreateJob job1 tasks1 k1).2.CreateJob job2 tasks2 k2).2.jobs job1.ID
        = some job1) := by
  have hkey := composite_key_ne job1.UserID job2.UserID k1 k2 h1 h2 hne
  have hidx : (s.CreateJob job1 tasks1 k1).2.idempotencyToJob (job2.UserID ++ ":" ++ k2)
      = none := by
    simp [MemoryStore.CreateJob, hk1, hs, mapSet_apply, Ne.symm hkey]
  have hidx1 : (s.CreateJob job1 tasks1 k1).2.idempotencyToJob (job1.UserID ++ ":" ++ k1)
      = some job1.ID := by
    simp [MemoryStore.CreateJob, hk1, hs, mapSet_apply]
  have hj1 : (s.CreateJob job1 tasks1 k1).2.jobs job1.ID = some job1 := by
    simp [MemoryStore.CreateJob, hk1, hs, mapSet_apply]
  generalize (s.CreateJob job1 tasks1 k1).2 = s1 at hidx hidx1 hj1
  refine ⟨?_, ?_, ?_, ?_, ?_, ?_, ?_⟩
  · simp [MemoryStore.GetJobByIdempotency, hk2, hidx]
  · simp [MemoryStore.CreateJob, hk2, hidx]
  · simp [MemoryStore.CreateJob, hk2, hidx, mapSet_apply]
  · simp [MemoryStore.CreateJob, hk2, hidx, mapSet_apply]
  · simp [MemoryStore.CreateJob, hk2, hidx, mapSet_apply]
  · simp [MemoryStore.CreateJob, hk2, hidx, mapSet_apply, hkey, hidx1]
  · intro hid
    simp [MemoryStore.CreateJob, hk2, hidx, mapSet_apply, hid, hj1]

/-- C4 as amended, for the users "u1" and "u2" with the same key "k" on the empty store:
the lookup for "u2" finds nothing, and the job of "u2" is inserted next to the job of
"u1". -/
theorem idempotency_scoped_to_user_witness :
    (NewMemoryStore.CreateJob { Job.zero with ID := "j1", UserID := "u1" } [] "k").2.GetJobByIdempotency
      "u2" "k" = none ∧
    ((NewMemoryStore.CreateJob { Job.zero with ID := "j1", UserID := "u1" } [] "k").2.CreateJob
      { Job.zero with ID := "j2", UserID := "u2" } [] "k").1
      = .ok { Job.zero with ID := "j2", UserID := "u2" } ∧
    ((NewMemoryStore.CreateJob { Job.zero with ID := "j1", UserID := "u1" } [] "k").2.CreateJob
      { Job.zero with ID := "j2", UserID := "u2" } [] "k").2.jobs "j2"
      = some { Job.zero with ID := "j2", UserID := "u2" } ∧
    ((NewMemoryStore.CreateJob { Job.zero with ID := "j1", UserID := "u1" } [] "k").2.CreateJob
      { Job.zero with ID := "j2", UserID := "u2" } [] "k").2.jobs "j1"
      = some { Job.zero with ID := "j1", UserID := "u1" } := by
  obtain ⟨a, b, c, -, -, -, d⟩ := idempotency_scoped_to_user NewMemoryStore (fun _ => rfl)
    { Job.zero with ID := "j1", UserID := "u1" } { Job.zero with ID := "j2", UserID := "u2" }
    [] [] "k" "k" (by decide) (by decide) (by decide) (by decide) (by decide)
  exact ⟨a, b, c, d (by decide)⟩

/-- C5: for a non-empty idempotency key, when the composite key of `(job.UserID, key)` is
already mapped to a job id `E`, `CreateJob` returns the job stored under `E` (the zero
value of a Go map read if none is stored) and leaves the store as it is; when it is not
mapped, `CreateJob` returns the given job and stores it with exactly the given tasks, an
empty event log, the sequence counter 0 and the new mapping, changing no other entry. -/
theorem createJob_hit_or_insert (s : MemoryStore) (job : Job) (tasks : List JobTask)
    (key : String) (hkey : key ≠ "") :
    (∀ E, s.idempotencyToJob (job.UserID ++ ":" ++ key) = some E →
      s.CreateJob job tasks key = (.ok ((s.jobs E).getD Job.zero), s) ∧
      ∀ stored, s.jobs E = some stored → s.CreateJob job tasks key = (.ok stored, s)) ∧
    (s.idempotencyToJob (job.UserID ++ ":" ++ key) = none →
      (s.CreateJob job tasks key).1 = .ok job ∧
      (s.CreateJob job tasks key).2.jobs job.ID = some job ∧
      (s.CreateJob job tasks key).2.tasksByJob job.ID = some tasks ∧
      (s.CreateJob job tasks key).2.eventsByJob job.ID = some [] ∧
      (s.CreateJob job tasks key).2.eventSeqByJob job.ID = some 0 ∧
      (s.CreateJob job tasks key).2.idempotencyToJob (job.UserID ++ ":" ++ key) = some job.ID ∧
      (∀ id, id ≠ job.ID →
        (s.CreateJob job tasks key).2.jobs id = s.jobs id ∧
        (s.CreateJob job tasks key).2.tasksByJob id = s.tasksByJob id ∧
        (s.CreateJob job tasks key).2.eventsByJob id = s.eventsByJob id ∧
        (s.CreateJob job tasks key).2.eventSeqByJob id = s.eventSeqByJob id) ∧
      (∀ k, k ≠ job.UserID ++ ":" ++ key →
        (s.CreateJob job tasks key).2.idempotencyToJob k = s.idempotencyToJob k) ∧
      (s.CreateJob job tasks key).2.projects = s.projects ∧
      (s.CreateJob job tasks key).2.assets = s.assets ∧
      (s.CreateJob job tasks key).2.assetByProject = s.assetByProject) := by
  constructor
  · intro E hE
    have h1 : s.CreateJob job tasks key = (.ok ((s.jobs E).getD Job.zero), s) := by
      simp [MemoryStore.CreateJob, hkey, hE]
    refine ⟨h1, ?_⟩
    intro stored hs
    rw [h1, hs]
    rfl
  · intro hnone
    simp only [MemoryStore.CreateJob, hkey, hnone, mapSet_apply, ne_eq, not_false_eq_true,
      if_true, and_true, true_and]
    refine ⟨?_, ?_⟩
    · intro id hid
      simp [hid]
    · intro k hk
      simp [hk]

/-- C5, on a concrete store: the second `CreateJob` under the pair ("u1", "k1") returns
the first job and changes nothing; the first one inserted its job with an empty log. -/
theorem createJob_hit_or_insert_witness :
    ("k1" : String) ≠ "" ∧
    (NewMemoryStore.CreateJob { Job.zero with ID := "j1", UserID := "u1" } [] "k1").2.CreateJob
      { Job.zero with ID := "j2", UserID := "u1" } [] "k1"
      = (.ok { Job.zero with ID := "j1", UserID := "u1" },
          (NewMemoryStore.CreateJob { Job.zero with ID := "j1", UserID := "u1" } [] "k1").2) ∧
    (NewMemoryStore.CreateJob { Job.zero with ID := "j1", UserID := "u1" } [] "k1").2.eventsByJob
      "j1" = some [] :=
  ⟨by decide,
   ((createJob_hit_or_insert
      (NewMemoryStore.CreateJob { Job.zero with ID := "j1", UserID := "u1" } [] "k1").2
      { Job.zero with ID := "j2", UserID := "u1" } [] "k1" (by decide)).1 "j1" rfl).2
      { Job.zero with ID := "j1", UserID := "u1" } rfl,
   ((createJob_hit_or_insert NewMemoryStore { Job.zero with ID := "j1", UserID := "u1" } []
      "k1" (by decide)).2 rfl).2.2.2.1⟩

/-! ## The event log (C6, C7) -/

/-- C6: in every store state reachable from the empty store by mutating calls, for every
job the i-th event of its log (counting from 1) has seq i, the sequence counter of the job
equals the length of the log, and `AppendJobEvent` returns the event with the next
sequence number, appended at the end of the log; for an id without a job
`AppendJobEvent` fails with not-found and leaves the store as it is, and these are its
only failures. -/
theorem event_seq_contiguous (s : MemoryStore) (hr : s.Reachable) (jobID : String) :
    (s.jobs jobID = none →
      ∀ event eventID, s.AppendJobEvent jobID event eventID = (.error .notFound, s)) ∧
    (∀ job, s.jobs jobID = some job →
      ∃ evs, s.eventsByJob jobID = some evs ∧
        s.eventSeqByJob jobID = some (evs.length : Int) ∧
        (∀ (i : Nat) (e : JobEvent), evs[i]? = some e → e.Seq = (i : Int) + 1) ∧
        evs.Pairwise (fun a b => a.Seq < b.Seq) ∧
        ∀ event eventID,
          (s.AppendJobEvent jobID event eventID).1
            = .ok { event with Seq := (evs.length : Int) + 1, EventID := eventID } ∧
          (s.AppendJobEvent jobID event eventID).2.eventsByJob jobID
            = some (evs ++ [{ event with Seq := (evs.length : Int) + 1, EventID := eventID }]) ∧
          (s.AppendJobEvent jobID event eventID).2.eventSeqByJob jobID
            = some ((evs.length : Int) + 1)) := by
  have h := wf_of_reachable s hr
  constructor
  · intro hnone event eventID
    simp [MemoryStore.AppendJobEvent, hnone]
  · intro job hj
    have hev : (s.eventsByJob jobID).isSome = true := by rw [h.events_iff, hj]; rfl
    obtain ⟨evs, hevs⟩ := Option.isSome_iff_exists.mp hev
    obtain ⟨hseq, hcont⟩ := h.seq jobID evs hevs
    refine ⟨evs, hevs, hseq, ?_, (seqsFrom_pairwise 0 evs hcont).1, ?_⟩
    · intro i e hi
      simpa using seqsFrom_index 0 evs hcont i e hi
    · intro event eventID
      simp [MemoryStore.AppendJobEvent, hj, hevs, hseq, mapSet_apply]

/-- C6, on the store reached by creating job "j1" and appending one event. -/
theorem event_seq_contiguous_witness :
    ((NewMemoryStore.apply (.createJob { Job.zero with ID := "j1" } [] "")).apply
      (.appendJobEvent "j1" default "e1")).eventSeqByJob "j1" = some 1 := by
  obtain ⟨evs, h1, h2, -⟩ := (event_seq_contiguous
    ((NewMemoryStore.apply (.createJob { Job.zero with ID := "j1" } [] "")).apply
      (.appendJobEvent "j1" default "e1"))
    (.step _ (.step _ .init)) "j1").2 { Job.zero with ID := "j1" } rfl
  have h3 : evs = [{ (default : JobEvent) with Seq := 1, EventID := "e1" }] :=
    (Option.some.inj (h1.symm.trans rfl))
  rw [h2, h3]
  rfl

/-- C7: in every reachable store state, for every job, with `evs` its log of n events,
and every integer k, `ListJobEventsFromSeq` returns exactly the logged events with
seq greater than k, in log order, which is increasing seq order: the log without its
first k events.  It is the whole log when k ≤ 0 and empty when k ≥ n; for 0 ≤ k < n it
starts at seq k + 1; it never contains seq k; and appended to the first k events it gives
back the whole log. -/
theorem list_events_resumable (s : MemoryStore) (hr : s.Reachable) (jobID : String)
    (job : Job) (hj : s.jobs jobID = some job) :
    ∃ evs, s.eventsByJob jobID = some evs ∧
      ∀ k : Int, ∃ out, s.ListJobEventsFromSeq jobID k = .ok out ∧
        out = evs.filter (fun e => decide (e.Seq > k)) ∧
        out = evs.drop k.toNat ∧
        out.Pairwise (fun a b => a.Seq < b.Seq) ∧
        (k ≤ 0 → out = evs) ∧
        ((evs.length : Int) ≤ k → out = []) ∧
        (0 ≤ k → k < (evs.length : Int) → out.head?.map (fun e => e.Seq) = some (k + 1)) ∧
        (∀ e ∈ out, e.Seq ≠ k) ∧
        evs.take k.toNat ++ out = evs := by
  have h := wf_of_reachable s hr
  have hev : (s.eventsByJob jobID).isSome = true := by rw [h.events_iff, hj]; rfl
  obtain ⟨evs, hevs⟩ := Option.isSome_iff_exists.mp hev
  obtain ⟨-, hcont⟩ := h.seq jobID evs hevs
  refine ⟨evs, hevs, ?_⟩
  intro k
  have hfd : evs.filter (fun e => decide (e.Seq > k)) = evs.drop k.toNat := by
    simpa using seqsFrom_filter 0 evs hcont k
  have hpw := (seqsFrom_pairwise 0 evs hcont).1
  refine ⟨evs.drop k.toNat, ?_, hfd.symm, rfl, ?_, ?_, ?_, ?_, ?_, ?_⟩
  · unfold MemoryStore.ListJobEventsFromSeq
    simp only [hevs]
    split
    · rename_i hk
      have : k.toNat = 0 := by omega
      simp [this]
    · rw [hfd]
  · exact List.Pairwise.sublist (List.drop_sublist _ _) hpw
  · intro hk
    have : k.toNat = 0 := by omega
    simp [this]
  · intro hk
    apply List.drop_of_length_le
    omega
  · intro h0 hlt
    have hlt2 : k.toNat < evs.length := by omega
    rw [List.head?_drop]
    have hget : evs[k.toNat]? = some (evs[k.toNat]) := List.getElem?_eq_getElem hlt2
    rw [hget]
    have := seqsFrom_index 0 evs hcont k.toNat _ hget
    simp only [Option.map_some', Option.some.injEq]
    rw [this]
    simp
    omega
  · intro e he
    rw [← hfd] at he
    have := (List.mem_filter.mp he).2
    simp at this
    omega
  · exact List.take_append_drop _ _

/-- C7, on the store reached by creating job "j1" and appending two events: a
reconnection with `from_seq = 1` gets the second event only. -/
theorem list_events_resumable_witness :
    (((NewMemoryStore.apply (.createJob { Job.zero with ID := "j1" } [] "")).apply
      (.appendJobEvent "j1" default "e1")).apply
      (.appendJobEvent "j1" default "e2")).ListJobEventsFromSeq "j1" 1
      = .ok [{ (default : JobEvent) with Seq := 2, EventID := "e2" }] := by
  obtain ⟨evs, h1, h2⟩ := list_events_resumable
    (((NewMemoryStore.apply (.createJob { Job.zero with ID := "j1" } [] "")).apply
      (.appendJobEvent "j1" default "e1")).apply (.appendJobEvent "j1" default "e2"))
    (.step _ (.step _ (.step _ .init))) "j1" { Job.zero with ID := "j1" } rfl
  obtain ⟨out, h3, -, h4, -⟩ := h2 1
  have h5 : evs = [{ (default : JobEvent) with Seq := 1, EventID := "e1" },
      { (default : JobEvent) with Seq := 2, EventID := "e2" }] :=
    (Option.some.inj (h1.symm.trans rfl))
  rw [h3, h4, h5]
  rfl

/-! ## What each store call leaves unchanged -/

theorem updateProject_frame (s : MemoryStore) (p : Project) :
    (s.UpdateProject p).2.jobs = s.jobs ∧
    (s.UpdateProject p).2.tasksByJob = s.tasksByJob ∧
    (s.UpdateProject p).2.eventsByJob = s.eventsByJob ∧
    (s.UpdateProject p).2.eventSeqByJob = s.eventSeqByJob ∧
    (s.UpdateProject p).2.idempotencyToJob = s.idempotencyToJob := by
  unfold MemoryStore.UpdateProject
  split <;> simp

theorem updateJob_frame (s : MemoryStore) (j : Job) :
    (s.UpdateJob j).2.projects = s.projects ∧
    (s.UpdateJob j).2.tasksByJob = s.tasksByJob ∧
    (s.UpdateJob j).2.eventsByJob = s.eventsByJob ∧
    (s.UpdateJob j).2.eventSeqByJob = s.eventSeqByJob ∧
    (s.UpdateJob j).2.idempotencyToJob = s.idempotencyToJob ∧
    (s.UpdateJob j).2.assets = s.assets ∧
    (s.UpdateJob j).2.assetByProject = s.assetByProject := by
  unfold MemoryStore.UpdateJob
  split <;> simp

theorem replaceJobTasks_frame (s : MemoryStore) (id : String) (ts : List JobTask) :
    (s.ReplaceJobTasks id ts).2.projects = s.projects ∧
    (s.ReplaceJobTasks id ts).2.jobs = s.jobs ∧
    (s.ReplaceJobTasks id ts).2.eventsByJob = s.eventsByJob ∧
    (s.ReplaceJobTasks id ts).2.eventSeqByJob = s.eventSeqByJob ∧
    (s.ReplaceJobTasks id ts).2.idempotencyToJob = s.idempotencyToJob ∧
    (s.ReplaceJobTasks id ts).2.assets = s.assets ∧
    (s.ReplaceJobTasks id ts).2.assetByProject = s.assetByProject := by
  unfold MemoryStore.ReplaceJobTasks
  split <;> simp

theorem appendJobEvent_frame (s : MemoryStore) (id : String) (e : JobEvent) (eid : String) :
    (s.AppendJobEvent id e eid).2.projects = s.projects ∧
    (s.AppendJobEvent id e eid).2.jobs = s.jobs ∧
    (s.AppendJobEvent id e eid).2.tasksByJob = s.tasksByJob ∧
    (s.AppendJobEvent id e eid).2.idempotencyToJob = s.idempotencyToJob ∧
    (s.AppendJobEvent id e eid).2.assets = s.assets ∧
    (s.AppendJobEvent id e eid).2.assetByProject = s.assetByProject := by
  unfold MemoryStore.AppendJobEvent
  split <;> simp

theorem createAsset_frame (s : MemoryStore) (a : Asset) :
    (s.CreateAsset a).2.projects = s.projects ∧
    (s.CreateAsset a).2.jobs = s.jobs ∧
    (s.CreateAsset a).2.tasksByJob = s.tasksByJob ∧
    (s.CreateAsset a).2.eventsByJob = s.eventsByJob ∧
    (s.CreateAsset a).2.eventSeqByJob = s.eventSeqByJob ∧
    (s.CreateAsset a).2.idempotencyToJob = s.idempotencyToJob := by
  unfold MemoryStore.CreateAsset
  split <;> simp

/-- An idempotency entry, once written, is never changed. -/
theorem idem_persists (s : MemoryStore) (k id : String) (h : s.idempotencyToJob k = some id)
    (op : StoreOp) : (s.apply op).idempotencyToJob k = some id := by
  cases op with
  | createProject p =>
    simp only [MemoryStore.apply, MemoryStore.CreateProject]
    split <;> exact h
  | updateProject p => simp only [MemoryStore.apply, (updateProject_frame s p).2.2.2.2, h]
  | createJob job tasks key =>
    simp only [MemoryStore.apply, MemoryStore.CreateJob]
    split
    · split
      · exact h
      · rename_i hnone
        simp only [mapSet_apply]
        split
        · rename_i hk
          rw [hk, hnone] at h
          cases h
        · exact h
    · exact h
  | updateJob job => simp only [MemoryStore.apply, (updateJob_frame s job).2.2.2.2.1, h]
  | replaceJobTasks jobID tasks =>
    simp only [MemoryStore.apply, (replaceJobTasks_frame s jobID tasks).2.2.2.2.1, h]
  | appendJobEvent jobID event eventID =>
    simp only [MemoryStore.apply, (appendJobEvent_frame s jobID event eventID).2.2.2.1, h]
  | createAsset a => simp only [MemoryStore.apply, (createAsset_frame s a).2.2.2.2.2, h]

theorem idem_persists_all (ops : List StoreOp) (s : MemoryStore) (k id : String)
    (h : s.idempotencyToJob k = some id) : (s.applyAll ops).idempotencyToJob k = some id := by
  induction ops generalizing s with
  | nil => exact h
  | cons op rest ih => exact ih (s.apply op) (idem_persists s k id h op)

theorem wf_applyAll (ops : List StoreOp) (s : MemoryStore) (h : s.WF) : (s.applyAll ops).WF := by
  induction ops generalizing s with
  | nil => exact h
  | cons op rest ih => exact ih (s.apply op) (wf_apply s h op)

/-! ## The scheduler calls, branch by branch -/

theorem publishEvent_store (env : Env) (w : World) (job : Job) (t : JobEventType)
    (p : Payload) :
    (publishEvent env w job t p).store = (w.store.AppendJobEvent job.ID
      { EventID := "", Seq := 0, TraceID := job.TraceID, JobID := job.ID
        ProjectID := job.ProjectID, Typ := t, TS := some w.clock, Payload := p }
      (env.uuid w.uuids)).2 := by
  unfold publishEvent
  simp only
  split
  · rename_i e he
    unfold MemoryStore.AppendJobEvent at he ⊢
    split
    · rfl
    · rename_i j hj
      simp [hj] at he
  · rfl

theorem publishEvent_sched (env : Env) (w : World) (job : Job) (t : JobEventType)
    (p : Payload) :
    (publishEvent env w job t p).runningByUser = w.runningByUser ∧
    (publishEvent env w job t p).activeRunner = w.activeRunner ∧
    (publishEvent env w job t p).maxUserJobs = w.maxUserJobs ∧
    (publishEvent env w job t p).clock = w.clock ∧
    (publishEvent env w job t p).panicked = w.panicked ∧
    (publishEvent env w job t p).provCalls = w.provCalls ∧
    (publishEvent env w job t p).ticks = w.ticks ∧
    (publishEvent env w job t p).rands = w.rands := by
  unfold publishEvent
  simp only
  split <;> simp

theorem publishEvent_wf (env : Env) (w : World) (job : Job) (t : JobEventType)
    (p : Payload) (h : w.store.WF) : (publishEvent env w job t p).store.WF := by
  rw [publishEvent_store]
  exact wf_appendJobEvent _ h _ _ _

theorem startRunnerIfNeeded_store (w : World) (job : Job) :
    (startRunnerIfNeeded w job).store = w.store := by
  unfold startRunnerIfNeeded
  split <;> rfl

theorem StartJob_hit (env : Env) (w : World) (userID projectID traceID key : String)
    (j : Job) (h : w.store.GetJobByIdempotency userID key = some j) :
    StartJob env w userID projectID traceID key = (.ok j, w) := by
  simp [StartJob, h]

theorem StartJob_notFound (env : Env) (w : World) (userID projectID traceID key : String)
    (h : w.store.GetJobByIdempotency userID key = none)
    (hp : w.store.projects projectID = none) :
    StartJob env w userID projectID traceID key = (.error .notFound, w) := by
  simp [StartJob, h, MemoryStore.GetProject, hp]

theorem StartJob_forbidden (env : Env) (w : World) (userID projectID traceID key : String)
    (h : w.store.GetJobByIdempotency userID key = none) (p : Project)
    (hp : w.store.projects projectID = some p) (hu : p.UserID ≠ userID) :
    StartJob env w userID projectID traceID key = (.error .forbidden, w) := by
  simp [StartJob, h, MemoryStore.GetProject, hp, hu]

theorem StartJob_tooMany (env : Env) (w : World) (userID projectID traceID key : String)
    (h : w.store.GetJobByIdempotency userID key = none) (p : Project)
    (hp : w.store.projects projectID = some p) (hu : p.UserID = userID)
    (hcap : w.runningByUser userID ≥ w.maxUserJobs) :
    StartJob env w userID projectID traceID key = (.error .tooManyRunningJobs, w) := by
  simp [StartJob, h, MemoryStore.GetProject, hp, hu, hcap]

/-- The world after the creation branch of `StartJob`. -/
theorem StartJob_created (env : Env) (w : World) (userID projectID traceID key : String)
    (h : w.store.GetJobByIdempotency userID key = none) (p : Project)
    (hp : w.store.projects projectID = some p) (hu : p.UserID = userID)
    (hcap : w.runningByUser userID < w.maxUserJobs)
    (hidx : key = "" ∨ w.store.idempotencyToJob (userID ++ ":" ++ key) = none) :
    StartJob env w userID projectID traceID key =
      (.ok (newJob env w userID projectID traceID key),
       startRunnerIfNeeded
        (publishEvent env
          { w with
            uuids := w.uuids + 1 + (buildTasks env.uuid (w.uuids + 1) (some w.clock) p
              (newJob env w userID projectID traceID key)).length
            store := ((w.store.CreateJob (newJob env w userID projectID traceID key)
              (buildTasks env.uuid (w.uuids + 1) (some w.clock) p
                (newJob env w userID projectID traceID key)) key).2.UpdateProject
              { p with
                CurrentJobID := (newJob env w userID projectID traceID key).ID
                Status := "running", UpdatedAt := some w.clock }).2 }
          (newJob env w userID projectID traceID key) .job_created
          [("status", .jobStatus (newJob env w userID projectID traceID key).Status),
           ("tasks", .int (buildTasks env.uuid (w.uuids + 1) (some w.clock) p
              (newJob env w userID projectID traceID key)).length)])
        (newJob env w userID projectID traceID key)) := by
  have hcap2 : ¬ (w.runningByUser userID ≥ w.maxUserJobs) := by omega
  have hcreate : ∀ tasks, (w.store.CreateJob (newJob env w userID projectID traceID key)
      tasks key).1 = .ok (newJob env w userID projectID traceID key) := by
    intro tasks
    unfold MemoryStore.CreateJob
    rcases hidx with hk | hk
    · simp [hk]
    · by_cases hk0 : key = ""
      · simp [hk0]
      · have : (newJob env w userID projectID traceID key).UserID = userID := rfl
        simp [hk0, this, hk]
  unfold StartJob
  simp only [h, MemoryStore.GetProject, hp, hu, ne_eq, not_true_eq_false, if_false, hcap2,
    hcreate]

theorem reachable_miss_index (s : MemoryStore) (hwf : s.WF) (userID key : String)
    (h : s.GetJobByIdempotency userID key = none) :
    key = "" ∨ s.idempotencyToJob (userID ++ ":" ++ key) = none := by
  by_cases hk : key = ""
  · exact Or.inl hk
  · right
    unfold MemoryStore.GetJobByIdempotency at h
    simp only [hk, if_false] at h
    cases hi : s.idempotencyToJob (userID ++ ":" ++ key) with
    | none => rfl
    | some id =>
      rw [hi] at h
      simp only at h
      have := hwf.idem _ _ hi
      rw [h] at this
      cases this

theorem createJob_inserted (s : MemoryStore) (job : Job) (tasks : List JobTask) (key : String)
    (hidx : key = "" ∨ s.idempotencyToJob (job.UserID ++ ":" ++ key) = none) :
    (s.CreateJob job tasks key).1 = .ok job ∧
    (s.CreateJob job tasks key).2.jobs job.ID = some job ∧
    (s.CreateJob job tasks key).2.tasksByJob job.ID = some tasks ∧
    (s.CreateJob job tasks key).2.eventsByJob job.ID = some [] ∧
    (key ≠ "" → (s.CreateJob job tasks key).2.idempotencyToJob (job.UserID ++ ":" ++ key)
      = some job.ID) := by
  unfold MemoryStore.CreateJob
  by_cases hk : key = ""
  · simp [hk, mapSet_apply]
  · rcases hidx with h | h
    · exact absurd h hk
    · simp [hk, h, mapSet_apply]

/-- C8: `StartJob` when the idempotency lookup misses, in a reachable store.  It fails
with not-found exactly when the project does not exist, with forbidden exactly when the
project exists and belongs to another user, and with too-many-running-jobs exactly when
the project belongs to the caller and `runningByUser[user] >= maxUserJobs`; a failing call
leaves the whole world (store and scheduler counters) as it was; in the remaining case the
call succeeds and returns the stored new job, in status queued with progress 0. -/
theorem startJob_classification (env : Env) (w : World) (hr : w.store.Reachable)
    (userID projectID traceID key : String)
    (hmiss : w.store.GetJobByIdempotency userID key = none) :
    ((StartJob env w userID projectID traceID key).1 = .error .notFound ↔
      w.store.projects projectID = none) ∧
    ((StartJob env w userID projectID traceID key).1 = .error .forbidden ↔
      ∃ p, w.store.projects projectID = some p ∧ p.UserID ≠ userID) ∧
    ((StartJob env w userID projectID traceID key).1 = .error .tooManyRunningJobs ↔
      ∃ p, w.store.projects projectID = some p ∧ p.UserID = userID ∧
        w.runningByUser userID ≥ w.maxUserJobs) ∧
    (∀ e, (StartJob env w userID projectID traceID key).1 = .error e →
      (StartJob env w userID projectID traceID key).2 = w) ∧
    ((∃ p, w.store.projects projectID = some p ∧ p.UserID = userID ∧
        w.runningByUser userID < w.maxUserJobs) →
      ∃ job, (StartJob env w userID projectID traceID key).1 = .ok job ∧
        job.Status = .queued ∧ job.Progress = 0 ∧ job.UserID = userID ∧
        job.ProjectID = projectID ∧ job.CancelRequested = false ∧
        (StartJob env w userID projectID traceID key).2.store.jobs job.ID = some job) := by
  have hwf := wf_of_reachable _ hr
  have hidx := reachable_miss_index _ hwf _ _ hmiss
  cases hp : w.store.projects projectID with
  | none =>
    rw [StartJob_notFound env w _ _ _ _ hmiss hp]
    simp
  | some p =>
    by_cases hu : p.UserID = userID
    · by_cases hcap : w.runningByUser userID ≥ w.maxUserJobs
      · rw [StartJob_tooMany env w _ _ _ _ hmiss p hp hu hcap]
        simp [hu, hcap]
      · rw [StartJob_created env w _ _ _ _ hmiss p hp hu (by omega) hidx]
        refine ⟨by simp, by simp [hu], by simp [hcap], by simp, ?_⟩
        intro _
        refine ⟨_, rfl, rfl, rfl, rfl, rfl, rfl, ?_⟩
        simp only [startRunnerIfNeeded_store, publishEvent_store,
          (appendJobEvent_frame _ _ _ _).2.1, (updateProject_frame _ _).1]
        exact (createJob_inserted _ _ _ _ hidx).2.1
    · rw [StartJob_forbidden env w _ _ _ _ hmiss p hp hu]
      simp [hu]

theorem demoWorld_reachable (n : Nat) : (demoWorld n).store.Reachable :=
  MemoryStore.Reachable.step (.createProject (demoProject n)) .init

/-- C8, on a fresh service whose store holds the project "p1" of user "u1": the call by
"u2" is refused as forbidden and changes nothing. -/
theorem startJob_classification_witness :
    StartJob demoEnv (demoWorld 1) "u2" "p1" "t" "" = (.error .forbidden, demoWorld 1) :=
  Prod.ext
    ((startJob_classification demoEnv (demoWorld 1) (demoWorld_reachable 1) "u2" "p1" "t" ""
      rfl).2.1.mpr ⟨demoProject 1, rfl, by decide⟩)
    ((startJob_classification demoEnv (demoWorld 1) (demoWorld_reachable 1) "u2" "p1" "t" ""
      rfl).2.2.2.1 _
      ((startJob_classification demoEnv (demoWorld 1) (demoWorld_reachable 1) "u2" "p1" "t" ""
        rfl).2.1.mpr ⟨demoProject 1, rfl, by decide⟩))

theorem updateJob_ok (s : MemoryStore) (j old : Job) (h : s.jobs j.ID = some old) :
    (s.UpdateJob j).1 = .ok () ∧ (s.UpdateJob j).2.jobs = mapSet s.jobs j.ID j := by
  simp [MemoryStore.UpdateJob, h]

theorem appendJobEvent_ok (s : MemoryStore) (jobID : String) (event : JobEvent)
    (eventID : String) (old : Job) (h : s.jobs jobID = some old) :
    (s.AppendJobEvent jobID event eventID).1
      = .ok { event with Seq := (s.eventSeqByJob jobID).getD 0 + 1, EventID := eventID } ∧
    (s.AppendJobEvent jobID event eventID).2.eventsByJob
      = mapSet s.eventsByJob jobID ((s.eventsByJob jobID).getD [] ++
          [{ event with Seq := (s.eventSeqByJob jobID).getD 0 + 1, EventID := eventID }]) := by
  simp [MemoryStore.AppendJobEvent, h]

/-- C9: `CancelJob` in a reachable store.  It returns not-found for an unknown job and
forbidden for a job of another user, changing nothing; for an owned job whose status is
succeeded, failed or canceled it returns the stored job and changes nothing; for an owned
job in any other status it stores the job with `CancelRequested = true` and every other
field as before, leaves every other job, all task lists, the projects, the assets, the
idempotency index and the scheduler counters as they were, and appends exactly one event
to the log of the job, of type `job_progress`, whose payload has `cancel_requested = true`. -/
theorem cancelJob_frame (env : Env) (w : World) (hr : w.store.Reachable)
    (userID jobID : String) :
    (w.store.jobs jobID = none → CancelJob env w userID jobID = (.error .notFound, w)) ∧
    (∀ job, w.store.jobs jobID = some job →
      (job.UserID ≠ userID → CancelJob env w userID jobID = (.error .forbidden, w)) ∧
      (job.UserID = userID →
        (job.Status = .succeeded ∨ job.Status = .failed ∨ job.Status = .canceled) →
        CancelJob env w userID jobID = (.ok job, w)) ∧
      (job.UserID = userID →
        ¬(job.Status = .succeeded ∨ job.Status = .failed ∨ job.Status = .canceled) →
        ∃ evs e, w.store.eventsByJob jobID = some evs ∧
          (CancelJob env w userID jobID).1 = .ok { job with CancelRequested := true } ∧
          (CancelJob env w userID jobID).2.store.jobs jobID
            = some { job with CancelRequested := true } ∧
          (∀ id, id ≠ jobID →
            (CancelJob env w userID jobID).2.store.jobs id = w.store.jobs id) ∧
          (CancelJob env w userID jobID).2.store.tasksByJob = w.store.tasksByJob ∧
          (CancelJob env w userID jobID).2.store.eventsByJob jobID = some (evs ++ [e]) ∧
          e.Typ = .job_progress ∧ ("cancel_requested", Val.bool true) ∈ e.Payload ∧
          (∀ id, id ≠ jobID →
            (CancelJob env w userID jobID).2.store.eventsByJob id = w.store.eventsByJob id) ∧
          (CancelJob env w userID jobID).2.store.projects = w.store.projects ∧
          (CancelJob env w userID jobID).2.store.idempotencyToJob = w.store.idempotencyToJob ∧
          (CancelJob env w userID jobID).2.store.assets = w.store.assets ∧
          (CancelJob env w userID jobID).2.runningByUser = w.runningByUser ∧
          (CancelJob env w userID jobID).2.activeRunner = w.activeRunner)) := by
  have hwf := wf_of_reachable _ hr
  constructor
  · intro hnone
    simp [CancelJob, MemoryStore.GetJob, hnone]
  · intro job hj
    have hid : job.ID = jobID := hwf.job_id _ _ hj
    subst hid
    refine ⟨?_, ?_, ?_⟩
    · intro hu
      simp [CancelJob, MemoryStore.GetJob, hj, hu]
    · intro hu hterm
      subst hu
      have : isJobTerminal job.Status = true := by
        rcases hterm with h | h | h <;> simp [isJobTerminal, h]
      simp [CancelJob, MemoryStore.GetJob, hj, this]
    · intro hu hterm
      subst hu
      have hnt : isJobTerminal job.Status = false := by
        simp only [not_or] at hterm
        simp [isJobTerminal, hterm.1, hterm.2.1, hterm.2.2]
      have hev : (w.store.eventsByJob job.ID).isSome = true := by
        rw [hwf.events_iff, hj]; rfl
      obtain ⟨evs, hevs⟩ := Option.isSome_iff_exists.mp hev
      have hj2 : w.store.jobs ({ job with CancelRequested := true } : Job).ID = some job := hj
      obtain ⟨hu1, hu2⟩ := updateJob_ok w.store { job with CancelRequested := true } job hj2
      have hj3 : (w.store.UpdateJob { job with CancelRequested := true }).2.jobs job.ID
          = some { job with CancelRequested := true } := by
        rw [hu2]
        show mapSet w.store.jobs job.ID _ job.ID = _
        simp [mapSet_apply]
      have hce : CancelJob env w job.UserID job.ID =
          (.ok { job with CancelRequested := true },
            publishEvent env
              { w with store := (w.store.UpdateJob { job with CancelRequested := true }).2 }
              { job with CancelRequested := true } .job_progress
              [("status", .jobStatus job.Status), ("cancel_requested", .bool true),
               ("progress", .num job.Progress)]) := by
        simp [CancelJob, MemoryStore.GetJob, hj, hnt, hu1]
      rw [hce]
      have hstore := publishEvent_store env
        { w with store := (w.store.UpdateJob { job with CancelRequested := true }).2 }
        { job with CancelRequested := true } .job_progress
        [("status", .jobStatus job.Status), ("cancel_requested", .bool true),
         ("progress", .num job.Progress)]
      have hsched := publishEvent_sched env
        { w with store := (w.store.UpdateJob { job with CancelRequested := true }).2 }
        { job with CancelRequested := true } .job_progress
        [("status", .jobStatus job.Status), ("cancel_requested", .bool true),
         ("progress", .num job.Progress)]
      have hfr := appendJobEvent_frame (w.store.UpdateJob { job with CancelRequested := true }).2
        job.ID
        { EventID := "", Seq := 0, TraceID := job.TraceID, JobID := job.ID
          ProjectID := job.ProjectID, Typ := .job_progress, TS := some w.clock
          Payload := [("status", .jobStatus job.Status), ("cancel_requested", .bool true),
            ("progress", .num job.Progress)] }
        (env.uuid w.uuids)
      have hufr := updateJob_frame w.store { job with CancelRequested := true }
      have ha := (appendJobEvent_ok
        (w.store.UpdateJob { job with CancelRequested := true }).2 job.ID
        { EventID := "", Seq := 0, TraceID := job.TraceID, JobID := job.ID
          ProjectID := job.ProjectID, Typ := .job_progress, TS := some w.clock
          Payload := [("status", .jobStatus job.Status), ("cancel_requested", .bool true),
            ("progress", .num job.Progress)] }
        (env.uuid w.uuids) _ hj3).2
      refine ⟨evs,
        { EventID := env.uuid w.uuids
          Seq := ((w.store.UpdateJob { job with CancelRequested := true }).2.eventSeqByJob
            job.ID).getD 0 + 1
          TraceID := job.TraceID, JobID := job.ID
          ProjectID := job.ProjectID, Typ := .job_progress, TS := some w.clock
          Payload := [("status", .jobStatus job.Status), ("cancel_requested", .bool true),
            ("progress", .num job.Progress)] },
        hevs, rfl, ?_, ?_, ?_, ?_, rfl,
        List.mem_cons_of_mem _ (List.mem_cons_self _ _), ?_, ?_, ?_, ?_, hsched.1, hsched.2.1⟩
      · show (publishEvent _ _ _ _ _).store.jobs job.ID = _
        rw [hstore]
        show (MemoryStore.AppendJobEvent _ _ _ _).2.jobs job.ID = _
        rw [hfr.2.1]
        exact hj3
      · intro id hne
        show (publishEvent _ _ _ _ _).store.jobs id = _
        rw [hstore]
        show (MemoryStore.AppendJobEvent _ _ _ _).2.jobs id = _
        rw [hfr.2.1, hu2]
        show mapSet w.store.jobs job.ID _ id = _
        simp [mapSet_apply, hne]
      · show (publishEvent _ _ _ _ _).store.tasksByJob = _
        rw [hstore]
        show (MemoryStore.AppendJobEvent _ _ _ _).2.tasksByJob = _
        rw [hfr.2.2.1, hufr.2.1]
      · show (publishEvent _ _ _ _ _).store.eventsByJob job.ID = _
        rw [hstore]
        show (MemoryStore.AppendJobEvent _ _ _ _).2.eventsByJob job.ID = _
        rw [ha, hufr.2.2.1]
        simp [mapSet_apply, hevs]
      · intro id hne
        show (publishEvent _ _ _ _ _).store.eventsByJob id = _
        rw [hstore]
        show (MemoryStore.AppendJobEvent _ _ _ _).2.eventsByJob id = _
        rw [ha, hufr.2.2.1]
        simp [mapSet_apply, hne]
      · show (publishEvent _ _ _ _ _).store.projects = _
        rw [hstore]
        show (MemoryStore.AppendJobEvent _ _ _ _).2.projects = _
        rw [hfr.1, hufr.1]
      · show (publishEvent _ _ _ _ _).store.idempotencyToJob = _
        rw [hstore]
        show (MemoryStore.AppendJobEvent _ _ _ _).2.idempotencyToJob = _
        rw [hfr.2.2.2.1, hufr.2.2.2.2.1]
      · show (publishEvent _ _ _ _ _).store.assets = _
        rw [hstore]
        show (MemoryStore.AppendJobEvent _ _ _ _).2.assets = _
        rw [hfr.2.2.2.2.1, hufr.2.2.2.2.2.1]

theorem demoJobWorld_reachable : demoJobWorld.store.Reachable :=
  MemoryStore.Reachable.step (.createJob demoJob [] "")
    (MemoryStore.Reachable.step (.createProject (demoProject 1)) .init)

/-- C9, on a service that holds the running job "j1" of user "u1": after `CancelJob` the
stored job is the same with `CancelRequested` set. -/
theorem cancelJob_frame_witness :
    (CancelJob demoEnv demoJobWorld "u1" "j1").2.store.jobs "j1"
      = some { demoJob with CancelRequested := true } := by
  obtain ⟨_, _, _, _, h, _⟩ :=
    ((cancelJob_frame demoEnv demoJobWorld demoJobWorld_reachable "u1" "j1").2
      demoJob rfl).2.2 rfl (by decide)
  exact h

theorem replaceJobTasks_ok (s : MemoryStore) (jobID : String) (ts old : List JobTask)
    (h : s.tasksByJob jobID = some old) :
    (s.ReplaceJobTasks jobID ts).1 = .ok () ∧
    (s.ReplaceJobTasks jobID ts).2.tasksByJob = mapSet s.tasksByJob jobID ts := by
  simp [MemoryStore.ReplaceJobTasks, h]

/-- C10: `RetryJob` in a reachable store.  It fails with not-found for an unknown job,
with forbidden for a job of another user, with invalid-job-state for an owned job in
status queued, running or succeeded, and with too-many-running-jobs for an owned job in
status failed or canceled when `runningByUser[user] >= maxUserJobs`; it succeeds exactly
when the job is owned, failed or canceled, and the cap is not reached; and every failing
call leaves the whole world (job, tasks, event log, scheduler counters) as it was. -/
theorem retryJob_classification (env : Env) (w : World) (hr : w.store.Reachable)
    (userID jobID traceID : String) :
    (w.store.jobs jobID = none →
      RetryJob env w userID jobID traceID = (.error .notFound, w)) ∧
    (∀ job, w.store.jobs jobID = some job →
      (job.UserID ≠ userID → RetryJob env w userID jobID traceID = (.error .forbidden, w)) ∧
      (job.UserID = userID →
        (job.Status = .queued ∨ job.Status = .running ∨ job.Status = .succeeded) →
        RetryJob env w userID jobID traceID = (.error .invalidJobState, w)) ∧
      (job.UserID = userID → (job.Status = .failed ∨ job.Status = .canceled) →
        w.runningByUser userID ≥ w.maxUserJobs →
        RetryJob env w userID jobID traceID = (.error .tooManyRunningJobs, w)) ∧
      ((∃ j, (RetryJob env w userID jobID traceID).1 = .ok j) ↔
        job.UserID = userID ∧ (job.Status = .failed ∨ job.Status = .canceled) ∧
          w.runningByUser userID < w.maxUserJobs)) ∧
    (∀ e, (RetryJob env w userID jobID traceID).1 = .error e →
      (RetryJob env w userID jobID traceID).2 = w) := by
  have hwf := wf_of_reachable _ hr
  cases hj : w.store.jobs jobID with
  | none =>
    have h0 : RetryJob env w userID jobID traceID = (.error .notFound, w) := by
      simp [RetryJob, MemoryStore.GetJob, hj]
    simp [h0]
  | some job =>
    have hid : job.ID = jobID := hwf.job_id _ _ hj
    subst hid
    by_cases hu : job.UserID = userID
    · subst hu
      by_cases hst : job.Status = .failed ∨ job.Status = .canceled
      · have hst2 : ¬(job.Status ≠ .failed ∧ job.Status ≠ .canceled) := by
          rcases hst with h | h <;> simp [h]
        by_cases hcap : w.runningByUser job.UserID ≥ w.maxUserJobs
        · have h0 : RetryJob env w job.UserID job.ID traceID
              = (.error .tooManyRunningJobs, w) := by
            simp [RetryJob, MemoryStore.GetJob, hj, hst2, hcap]
          simp only [h0]
          refine ⟨by simp, ?_, by simp⟩
          intro j hj2
          cases hj2
          refine ⟨by simp, ?_, fun _ _ _ => trivial, ?_⟩
          · intro _ h
            rcases h with h | h | h <;> rcases hst with h2 | h2 <;> rw [h] at h2 <;> cases h2
          · simp
            intro _
            omega
        · have hts : (w.store.tasksByJob job.ID).isSome = true := by
            rw [hwf.tasks_iff, hj]; rfl
          obtain ⟨tasks, htasks⟩ := Option.isSome_iff_exists.mp hts
          obtain ⟨hr1, hr2⟩ := replaceJobTasks_ok w.store job.ID (tasks.map retryResetTask)
            tasks htasks
          have hj2 : (w.store.ReplaceJobTasks job.ID (tasks.map retryResetTask)).2.jobs job.ID
              = some job := by
            rw [(replaceJobTasks_frame _ _ _).2.1]; exact hj
          have hok : ∃ j, (RetryJob env w job.UserID job.ID traceID).1 = .ok j := by
            unfold RetryJob
            simp only [MemoryStore.GetJob, hj, ne_eq, not_true_eq_false, if_false, hst2, hcap,
              MemoryStore.GetJobTasks, htasks, hr1]
            have hup : ∀ j2 : Job, j2.ID = job.ID →
                ((w.store.ReplaceJobTasks job.ID (tasks.map retryResetTask)).2.UpdateJob j2).1
                  = .ok () :=
              fun j2 h => (updateJob_ok _ j2 job (by rw [h]; exact hj2)).1
            split
            · rename_i e he
              have h2 := (hup _ (by rfl)).symm.trans he
              cases h2
            · exact ⟨_, rfl⟩
          obtain ⟨j, h1⟩ := hok
          refine ⟨by simp, ?_, ?_⟩
          · intro j2 hj3
            cases hj3
            refine ⟨fun h => absurd rfl h, ?_, ?_, ?_⟩
            · intro _ h
              rcases h with h | h | h <;> rcases hst with h2 | h2 <;> rw [h] at h2 <;> cases h2
            · intro _ _ h
              exact absurd h hcap
            · constructor
              · intro _
                exact ⟨rfl, hst, by omega⟩
              · intro _
                exact ⟨j, h1⟩
          · intro e he
            rw [h1] at he
            cases he
      · have hst2 : job.Status ≠ .failed ∧ job.Status ≠ .canceled := by
          simpa [not_or] using hst
        have h0 : RetryJob env w job.UserID job.ID traceID = (.error .invalidJobState, w) := by
          simp [RetryJob, MemoryStore.GetJob, hj, hst2]
        simp only [h0]
        refine ⟨by simp, ?_, by simp⟩
        intro j hj2
        cases hj2
        refine ⟨by simp, fun _ _ => trivial, fun _ h => absurd h hst, ?_⟩
        simp [hst]
    · have h0 : RetryJob env w userID job.ID traceID = (.error .forbidden, w) := by
        simp [RetryJob, MemoryStore.GetJob, hj, hu]
      simp only [h0]
      refine ⟨by simp, ?_, by simp⟩
      intro j hj2
      cases hj2
      refine ⟨fun _ => trivial, fun h => absurd h hu, fun h => absurd h hu, ?_⟩
      simp [hu]

/-- C10, on a service that holds the running job "j1" of user "u1": the retry is refused
with invalid-job-state and nothing changes. -/
theorem retryJob_classification_witness :
    RetryJob demoEnv demoJobWorld "u1" "j1" "t2" = (.error .invalidJobState, demoJobWorld) :=
  ((retryJob_classification demoEnv demoJobWorld demoJobWorld_reachable "u1" "j1" "t2").2.1
    demoJob rfl).2.1 rfl (Or.inr (Or.inl rfl))

/-- After a successful `StartJob` with a non-empty key, the index maps the pair to the
returned job and the store is consistent. -/
theorem startJob_records_key (env : Env) (w : World) (hwf : w.store.WF)
    (userID projectID traceID key : String) (hkey : key ≠ "") (J : Job) (w1 : World)
    (h1 : StartJob env w userID projectID traceID key = (.ok J, w1)) :
    w1.store.WF ∧ w1.store.idempotencyToJob (userID ++ ":" ++ key) = some J.ID := by
  cases hg : w.store.GetJobByIdempotency userID key with
  | some j =>
    rw [StartJob_hit env w _ _ _ _ j hg] at h1
    cases h1
    refine ⟨hwf, ?_⟩
    unfold MemoryStore.GetJobByIdempotency at hg
    simp only [hkey, if_false] at hg
    cases hi : w.store.idempotencyToJob (userID ++ ":" ++ key) with
    | none => rw [hi] at hg; cases hg
    | some id =>
      rw [hi] at hg
      simp only at hg
      rw [hwf.job_id id J hg]
  | none =>
    have hidx := reachable_miss_index _ hwf _ _ hg
    cases hp : w.store.projects projectID with
    | none =>
      rw [StartJob_notFound env w _ _ _ _ hg hp] at h1
      cases h1
    | some p =>
      by_cases hu : p.UserID = userID
      · by_cases hcap : w.runningByUser userID ≥ w.maxUserJobs
        · rw [StartJob_tooMany env w _ _ _ _ hg p hp hu hcap] at h1
          cases h1
        · rw [StartJob_created env w _ _ _ _ hg p hp hu (by omega) hidx] at h1
          cases h1
          constructor
          · rw [startRunnerIfNeeded_store]
            apply publishEvent_wf
            exact wf_updateProject _ (wf_createJob _ hwf _ _ _) _
          · rw [startRunnerIfNeeded_store, publishEvent_store,
              (appendJobEvent_frame _ _ _ _).2.2.2.1]
            show (MemoryStore.UpdateProject _ _).2.idempotencyToJob _ = _
            rw [(updateProject_frame _ _).2.2.2.2]
            exact (createJob_inserted w.store (newJob env w userID projectID traceID key) _ key
              hidx).2.2.2.2 hkey
      · rw [StartJob_forbidden env w _ _ _ _ hg p hp hu] at h1
        cases h1

/-- C3: sequential idempotent create.  If, in a reachable store, `StartJob` with user
`u` and a non-empty key succeeded and returned job `J`, then in every later world (the
store after any sequence of mutating store calls, the scheduler counters arbitrary), a
`StartJob` call with the same user and key, whatever its project, trace and environment,
returns the record stored under `J.ID`, whose id is `J.ID`, and leaves the world exactly as
it was: no job, task or event is added, `runningByUser` and `activeRunner` are untouched. -/
theorem startJob_idempotent (env : Env) (w : World) (hr : w.store.Reachable)
    (userID projectID traceID key : String) (hkey : key ≠ "") (J : Job) (w1 : World)
    (h1 : StartJob env w userID projectID traceID key = (.ok J, w1))
    (ops : List StoreOp) (w2 : World) (h2 : w2.store = w1.store.applyAll ops)
    (env2 : Env) (projectID2 traceID2 : String) :
    ∃ J2, w2.store.jobs J.ID = some J2 ∧ J2.ID = J.ID ∧
      StartJob env2 w2 userID projectID2 traceID2 key = (.ok J2, w2) := by
  obtain ⟨hwf1, hidx1⟩ := startJob_records_key env w (wf_of_reachable _ hr) userID projectID
    traceID key hkey J w1 h1
  have hwf2 : w2.store.WF := by rw [h2]; exact wf_applyAll ops _ hwf1
  have hidx2 : w2.store.idempotencyToJob (userID ++ ":" ++ key) = some J.ID := by
    rw [h2]; exact idem_persists_all ops _ _ _ hidx1
  obtain ⟨J2, hJ2⟩ := Option.isSome_iff_exists.mp (hwf2.idem _ _ hidx2)
  refine ⟨J2, hJ2, hwf2.job_id _ _ hJ2, ?_⟩
  apply StartJob_hit
  simp [MemoryStore.GetJobByIdempotency, hkey, hidx2, hJ2]

/-- C3, on a fresh service: a job is started under key "k1", then its runner state is
changed by a store call, and a second `StartJob` under "k1" for another project returns
the stored job and changes nothing. -/
theorem startJob_idempotent_witness :
    ∃ J2, J2.ID = demoUuid 0 ∧
      StartJob demoEnv
        { (StartJob demoEnv (demoWorld 1) "u1" "p1" "t1" "k1").2 with
          store := (StartJob demoEnv (demoWorld 1) "u1" "p1" "t1" "k1").2.store.applyAll
            [.updateJob { Job.zero with ID := demoUuid 0, Status := .running }] }
        "u1" "p2" "t2" "k1"
      = (.ok J2,
        { (StartJob demoEnv (demoWorld 1) "u1" "p1" "t1" "k1").2 with
          store := (StartJob demoEnv (demoWorld 1) "u1" "p1" "t1" "k1").2.store.applyAll
            [.updateJob { Job.zero with ID := demoUuid 0, Status := .running }] }) := by
  obtain ⟨J2, -, h2, h3⟩ := startJob_idempotent demoEnv (demoWorld 1) (demoWorld_reachable 1)
    "u1" "p1" "t1" "k1" (by decide) (newJob demoEnv (demoWorld 1) "u1" "p1" "t1" "k1")
    (StartJob demoEnv (demoWorld 1) "u1" "p1" "t1" "k1").2
    (by
      rw [StartJob_created demoEnv (demoWorld 1) "u1" "p1" "t1" "k1" rfl (demoProject 1) rfl rfl
        (by decide) (Or.inr rfl)])
    [.updateJob { Job.zero with ID := demoUuid 0, Status := .running }]
    { (StartJob demoEnv (demoWorld 1) "u1" "p1" "t1" "k1").2 with
      store := (StartJob demoEnv (demoWorld 1) "u1" "p1" "t1" "k1").2.store.applyAll
        [.updateJob { Job.zero with ID := demoUuid 0, Status := .running }] }
    rfl demoEnv "p2" "t2"
  exact ⟨J2, h2, h3⟩

/-! ## Cancellation during a provider call (C1) -/

set_option maxRecDepth 100000 in
/-- C1, at the failing input: a project with one scene, the provider of `TestJobCancel`,
and `CancelJob` issued while the provider call of `storyboard_generate` is in progress.
The runner returns; the cancel request was stored; the storyboard task ends failed with
the error code CANCELED of the provider and the three other tasks end canceled; the job
ends failed with error code TASK_FAILED, and the last event of its log is `job_failed`,
with no `job_canceled` event in the log. -/
theorem cancel_during_provider_call_ends_failed :
    (runJob cancelEnv (demoUuid 0) 10
      (StartJob cancelEnv (demoWorld 1) "u1" "p1" "trace-2" "").2).map
      (fun w => (w.store.jobs (demoUuid 0)).map
        (fun j => (j.Status, j.CancelRequested, j.ErrorCode)))
      = some (some (.failed, true, "TASK_FAILED")) ∧
    (runJob cancelEnv (demoUuid 0) 10
      (StartJob cancelEnv (demoWorld 1) "u1" "p1" "trace-2" "").2).map
      (fun w => ((w.store.tasksByJob (demoUuid 0)).getD []).map
        (fun t => (t.TaskKey, t.Status, t.ErrorCode)))
      = some [("storyboard_generate", .failed, "CANCELED"),
          ("image_generate_0", .canceled, "CANCELED"),
          ("tts_generate_0", .canceled, "CANCELED"),
          ("compose_video", .canceled, "CANCELED")] ∧
    (runJob cancelEnv (demoUuid 0) 10
      (StartJob cancelEnv (demoWorld 1) "u1" "p1" "trace-2" "").2).map
      (fun w => ((w.store.eventsByJob (demoUuid 0)).getD []).map (fun e => e.Typ))
      = some [.job_created, .job_progress, .task_started, .job_progress, .task_failed,
          .job_progress, .job_progress, .job_failed] := by
  decide

/-! ## Task lists: updating one task -/

theorem applyFirst_eq_updateAt (tid : String) (g : JobTask → JobTask) (ts : List JobTask)
    (hnd : (ts.map (fun t => t.ID)).Nodup) (hmem : ∃ t ∈ ts, t.ID = tid) :
    applyFirst tid g ts = some (updateAt tid g ts) := by
  induction ts with
  | nil => obtain ⟨t, ht, _⟩ := hmem; cases ht
  | cons x xs ih =>
    simp only [List.map_cons, List.nodup_cons] at hnd
    by_cases hx : x.ID = tid
    · simp only [applyFirst, hx, if_true, updateAt, List.map_cons, Option.some.injEq,
        List.cons.injEq, true_and]
      have hid : xs.map (fun t => if t.ID = tid then g t else t) = xs.map id := by
        apply List.map_congr_left
        intro t ht
        have : t.ID ≠ tid := by
          intro h
          apply hnd.1
          rw [hx, ← h]
          exact List.mem_map_of_mem _ ht
        simp [this]
      rw [hid, List.map_id]
    · have hmem2 : ∃ t ∈ xs, t.ID = tid := by
        obtain ⟨t, ht, h⟩ := hmem
        rcases List.mem_cons.mp ht with rfl | ht
        · exact absurd h hx
        · exact ⟨t, ht, h⟩
      simp [applyFirst, hx, ih hnd.2 hmem2, updateAt]

theorem updateAt_ids (tid : String) (g : JobTask → JobTask) (hg : ∀ t, (g t).ID = t.ID)
    (ts : List JobTask) :
    (updateAt tid g ts).map (fun t => t.ID) = ts.map (fun t => t.ID) := by
  simp only [updateAt, List.map_map]
  apply List.map_congr_left
  intro t _
  simp only [Function.comp]
  split
  · exact hg t
  · rfl

theorem updateAt_updateAt (tid : String) (g1 g2 : JobTask → JobTask)
    (hg : ∀ t, (g1 t).ID = t.ID) (ts : List JobTask) :
    updateAt tid g2 (updateAt tid g1 ts) = updateAt tid (fun t => g2 (g1 t)) ts := by
  simp only [updateAt, List.map_map]
  apply List.map_congr_left
  intro t _
  simp only [Function.comp]
  by_cases h : t.ID = tid
  · simp [h, hg t]
  · simp [h]

theorem mem_updateAt_of_ne (tid : String) (g : JobTask → JobTask) (ts : List JobTask)
    (t : JobTask) (ht : t ∈ ts) (hne : t.ID ≠ tid) : t ∈ updateAt tid g ts := by
  simp only [updateAt, List.mem_map]
  exact ⟨t, ht, by simp [hne]⟩

theorem find_updateAt (tid : String) (g : JobTask → JobTask) (hg : ∀ t, (g t).ID = t.ID)
    (ts : List JobTask) (hmem : ∃ t ∈ ts, t.ID = tid) :
    ∃ cur ∈ ts, cur.ID = tid ∧ findTaskByID (updateAt tid g ts) tid = some (g cur) := by
  induction ts with
  | nil => obtain ⟨t, ht, _⟩ := hmem; cases ht
  | cons x xs ih =>
    by_cases hx : x.ID = tid
    · refine ⟨x, List.mem_cons_self _ _, hx, ?_⟩
      simp [findTaskByID, updateAt, hx, hg x]
    · have hmem2 : ∃ t ∈ xs, t.ID = tid := by
        obtain ⟨t, ht, h⟩ := hmem
        rcases List.mem_cons.mp ht with rfl | ht
        · exact absurd h hx
        · exact ⟨t, ht, h⟩
      obtain ⟨cur, hc, hid, hf⟩ := ih hmem2
      refine ⟨cur, List.mem_cons_of_mem _ hc, hid, ?_⟩
      simp only [findTaskByID, updateAt] at hf ⊢
      simp [hx, hf]

theorem depsBefore_mono (seen seen2 : List String) (ts : List JobTask)
    (hsub : ∀ k ∈ seen, k ∈ seen2) (h : depsBefore seen ts) : depsBefore seen2 ts := by
  induction ts generalizing seen seen2 with
  | nil => trivial
  | cons x xs ih =>
    refine ⟨fun d hd => hsub d (h.1 d hd), ih (x.TaskKey :: seen) (x.TaskKey :: seen2) ?_ h.2⟩
    intro k hk
    rcases List.mem_cons.mp hk with rfl | hk
    · exact List.mem_cons_self _ _
    · exact List.mem_cons_of_mem _ (hsub k hk)

theorem depsBefore_updateAt (tid : String) (g : JobTask → JobTask) (hg : Completes g)
    (seen : List String) (ts : List JobTask) (h : depsBefore seen ts) :
    depsBefore seen (updateAt tid g ts) := by
  induction ts generalizing seen with
  | nil => trivial
  | cons x xs ih =>
    simp only [updateAt, List.map_cons] at ih ⊢
    by_cases hx : x.ID = tid
    · simp only [hx, if_true]
      refine ⟨?_, ?_⟩
      · rw [(hg x).2.2.1]; exact h.1
      · rw [(hg x).2.1]; exact ih _ h.2
    · simp only [hx, if_false]
      exact ⟨h.1, ih _ h.2⟩

theorem countQueued_updateAt_le (tid : String) (g : JobTask → JobTask) (hg : Completes g)
    (ts : List JobTask) : countQueued (updateAt tid g ts) ≤ countQueued ts := by
  induction ts with
  | nil => simp [countQueued, updateAt]
  | cons x xs ih =>
    simp only [countQueued, updateAt, List.map_cons] at ih ⊢
    by_cases hx : x.ID = tid
    · simp only [hx, if_true, List.filter_cons, (hg x).2.2.2.2]
      simp only [reduceCtorEq, decide_False, Bool.false_eq_true, if_false]
      split
      · simp only [List.length_cons]; omega
      · exact ih
    · simp only [hx, if_false, List.filter_cons]
      split
      · simp only [List.length_cons]; omega
      · exact ih

theorem countQueued_updateAt_lt (tid : String) (g : JobTask → JobTask) (hg : Completes g)
    (ts : List JobTask) (hmem : ∃ t ∈ ts, t.ID = tid ∧ t.Status = .queued) :
    countQueued (updateAt tid g ts) < countQueued ts := by
  induction ts with
  | nil => obtain ⟨t, ht, _⟩ := hmem; cases ht
  | cons x xs ih =>
    have hle := countQueued_updateAt_le tid g hg xs
    simp only [countQueued, updateAt, List.map_cons] at ih hle ⊢
    by_cases hx : x.ID = tid
    · by_cases hq : x.Status = .queued
      · simp only [hx, if_true, List.filter_cons, (hg x).2.2.2.2, hq]
        simp only [reduceCtorEq, decide_False, Bool.false_eq_true, if_false, decide_True,
          if_true, List.length_cons]
        omega
      · have hmem2 : ∃ t ∈ xs, t.ID = tid ∧ t.Status = .queued := by
          obtain ⟨t, ht, h1, h2⟩ := hmem
          rcases List.mem_cons.mp ht with rfl | ht
          · exact absurd h2 hq
          · exact ⟨t, ht, h1, h2⟩
        have := ih hmem2
        simp only [hx, if_true, List.filter_cons, (hg x).2.2.2.2, hq]
        simp only [reduceCtorEq, decide_False, Bool.false_eq_true, if_false]
        exact this
    · have hmem2 : ∃ t ∈ xs, t.ID = tid ∧ t.Status = .queued := by
        obtain ⟨t, ht, h1, h2⟩ := hmem
        rcases List.mem_cons.mp ht with rfl | ht
        · exact absurd h1 hx
        · exact ⟨t, ht, h1, h2⟩
      have := ih hmem2
      simp only [hx, if_false, List.filter_cons]
      split
      · simp only [List.length_cons]; omega
      · exact this

theorem goodTasks_updateAt (c : Nat) (tid : String) (g : JobTask → JobTask) (hg : Completes g)
    (ts : List JobTask) (h : GoodTasks c ts) : GoodTasks c (updateAt tid g ts) := by
  refine ⟨?_, ?_, depsBefore_updateAt tid g hg [] ts h.ordered, ?_⟩
  · intro h0
    apply h.nonempty
    simpa [updateAt] using h0
  · rw [updateAt_ids tid g (fun t => (hg t).1)]
    exact h.nodup
  · intro t ht
    simp only [updateAt, List.mem_map] at ht
    obtain ⟨x, hx, rfl⟩ := ht
    split
    · refine ⟨Or.inr (hg x).2.2.2.2, ?_, ?_⟩
      · intro hq
        rw [(hg x).2.2.2.2] at hq
        cases hq
      · intro a ha
        rw [(hg x).2.2.2.1] at ha
        exact (h.ok x hx).2.2 a ha
    · exact h.ok x hx

/-! ## Task lists: the first queued task is ready -/

theorem mem_readyTasks (all : List JobTask) (c : Nat) (t : JobTask) :
    t ∈ readyTasks all c ↔ t ∈ all ∧ t.Status = .queued ∧
      (∀ a, t.NextRunAt = some a → ¬ c < a) ∧
      (∀ d ∈ t.DependsOn, ∃ x ∈ all, x.Status = .succeeded ∧ x.TaskKey = d) := by
  unfold readyTasks
  simp only [List.mem_filter, Bool.and_eq_true, decide_eq_true_eq, Bool.not_eq_true',
    List.all_eq_true, List.any_eq_true]
  constructor
  · rintro ⟨h1, ⟨h2, h3⟩, h4⟩
    refine ⟨h1, h2, ?_, h4⟩
    intro a ha
    rw [ha] at h3
    simpa using h3
  · rintro ⟨h1, h2, h3, h4⟩
    refine ⟨h1, ⟨h2, ?_⟩, h4⟩
    cases hn : t.NextRunAt with
    | none => rfl
    | some a => simpa using h3 a hn

theorem ready_of_queued (c : Nat) (all : List JobTask) (rest : List JobTask) :
    ∀ (seen : List String), (∀ t ∈ rest, t ∈ all) →
      (∀ k ∈ seen, ∃ t ∈ all, t.Status = .succeeded ∧ t.TaskKey = k) →
      depsBefore seen rest → (∀ t ∈ rest, TaskOK c t) → (∃ t ∈ rest, t.Status = .queued) →
      ∃ t ∈ rest, t ∈ readyTasks all c := by
  induction rest with
  | nil => intro _ _ _ _ _ ⟨t, ht, _⟩; cases ht
  | cons x xs ih =>
    intro seen hall hseen hdeps hok hq
    by_cases hx : x.Status = .queued
    · refine ⟨x, List.mem_cons_self _ _, ?_⟩
      rw [mem_readyTasks]
      refine ⟨hall x (List.mem_cons_self _ _), hx, ?_, ?_⟩
      · intro a ha
        have := (hok x (List.mem_cons_self _ _)).2.2 a ha
        omega
      · intro d hd
        exact hseen d (hdeps.1 d hd)
    · have hs : x.Status = .succeeded := by
        rcases (hok x (List.mem_cons_self _ _)).1 with h | h
        · exact absurd h hx
        · exact h
      have hq2 : ∃ t ∈ xs, t.Status = .queued := by
        obtain ⟨t, ht, h⟩ := hq
        rcases List.mem_cons.mp ht with rfl | ht
        · exact absurd h hx
        · exact ⟨t, ht, h⟩
      obtain ⟨t, ht, hr⟩ := ih (x.TaskKey :: seen)
        (fun t ht => hall t (List.mem_cons_of_mem _ ht))
        (by
          intro k hk
          rcases List.mem_cons.mp hk with rfl | hk
          · exact ⟨x, hall x (List.mem_cons_self _ _), hs, rfl⟩
          · exact hseen k hk)
        hdeps.2 (fun t ht => hok t (List.mem_cons_of_mem _ ht)) hq2
      exact ⟨t, List.mem_cons_of_mem _ ht, hr⟩

theorem exists_queued (c : Nat) (ts : List JobTask) (hok : ∀ t ∈ ts, TaskOK c t)
    (hnt : allTasksTerminal ts = false) : ∃ t ∈ ts, t.Status = .queued := by
  unfold allTasksTerminal at hnt
  have : ¬ (∀ t ∈ ts, isTaskTerminal t.Status = true) := by
    intro h
    have := List.all_eq_true.mpr h
    rw [this] at hnt
    cases hnt
  push_neg at this
  obtain ⟨t, ht, hn⟩ := this
  refine ⟨t, ht, ?_⟩
  rcases (hok t ht).1 with h | h
  · exact h
  · exfalso
    apply hn
    simp [isTaskTerminal, h]

theorem readyTasks_ne_nil (c : Nat) (ts : List JobTask) (h : GoodTasks c ts)
    (hnt : allTasksTerminal ts = false) : readyTasks ts c ≠ [] := by
  obtain ⟨t, _, hr⟩ := ready_of_queued c ts ts [] (fun _ ht => ht)
    (fun k hk => by cases hk) h.ordered h.ok (exists_queued c ts h.ok hnt)
  intro h0
  rw [h0] at hr
  cases hr

theorem readyTasks_nodup (c : Nat) (ts : List JobTask)
    (h : (ts.map (fun t => t.ID)).Nodup) :
    ((readyTasks ts c).map (fun t => t.ID)).Nodup := by
  unfold readyTasks
  exact List.Nodup.sublist (List.Sublist.map _ (List.filter_sublist _)) h

theorem all_succeeded_of_terminal (c : Nat) (ts : List JobTask) (hok : ∀ t ∈ ts, TaskOK c t)
    (ht : allTasksTerminal ts = true) : ∀ t ∈ ts, t.Status = .succeeded := by
  intro t hmem
  unfold allTasksTerminal at ht
  have h1 := List.all_eq_true.mp ht t hmem
  rcases (hok t hmem).1 with h | h
  · rw [h] at h1
    simp [isTaskTerminal] at h1
  · exact h

theorem roundHalfEven_le (n d : Nat) : roundHalfEven n d ≤ n / d + 1 := by
  unfold roundHalfEven
  split
  · omega
  · split
    · omega
    · split <;> omega

theorem float64Div_self (a : Nat) (h : 0 < a) : float64Div a a = 1 := by
  have hr : roundHalfEven (a * 2 ^ 52) a = 2 ^ 52 := by
    unfold roundHalfEven
    have h1 : a * 2 ^ 52 % a = 0 := Nat.mul_mod_right a _
    have h2 : a * 2 ^ 52 / a = 2 ^ 52 := Nat.mul_div_cancel_left _ h
    rw [h1, h2]
    simp [h]
  have ha : ¬(a = 0 ∨ a = 0) := by omega
  unfold float64Div
  simp only [ha, if_false, sub_self, le_refl, if_true, Int.toNat_zero, pow_zero, one_mul,
    decide_True, sub_zero]
  have h52 : (0 : Int) ≤ 52 := by decide
  have ht : (52 : Int).toNat = 52 := rfl
  rw [if_pos h52, ht, hr, Rat.mkRat_eq_div]
  norm_num

theorem float64_scaled_range (a b : Nat) (hb : 0 < b) (hlt : a < b) (s : Int) :
    0 ≤ (if 0 ≤ s then mkRat (roundHalfEven (a * 2 ^ s.toNat) b) (2 ^ s.toNat)
      else ((roundHalfEven a (b * 2 ^ (-s).toNat) * 2 ^ (-s).toNat : Nat) : ℚ)) ∧
    (if 0 ≤ s then mkRat (roundHalfEven (a * 2 ^ s.toNat) b) (2 ^ s.toNat)
      else ((roundHalfEven a (b * 2 ^ (-s).toNat) * 2 ^ (-s).toNat : Nat) : ℚ)) ≤ 1 := by
  have hup : ∀ k : Nat, roundHalfEven (a * 2 ^ k) b ≤ 2 ^ k := by
    intro k
    have h1 := roundHalfEven_le (a * 2 ^ k) b
    have h2 : a * 2 ^ k / b < 2 ^ k := by
      rw [Nat.div_lt_iff_lt_mul hb]
      have h3 : a * 2 ^ k < b * 2 ^ k :=
        Nat.mul_lt_mul_of_pos_right hlt (Nat.two_pow_pos k)
      rw [Nat.mul_comm (2 ^ k) b]
      exact h3
    omega
  have hdown : ∀ k : Nat, 0 < k → roundHalfEven a (b * 2 ^ k) = 0 := by
    intro k hk
    have hbig : 2 * b ≤ b * 2 ^ k := by
      have : 2 ^ 1 ≤ 2 ^ k := Nat.pow_le_pow_right (by decide) hk
      calc 2 * b = b * 2 ^ 1 := by ring
        _ ≤ b * 2 ^ k := Nat.mul_le_mul_left b this
    have hlt2 : a < b * 2 ^ k := by omega
    unfold roundHalfEven
    rw [Nat.mod_eq_of_lt hlt2, Nat.div_eq_of_lt hlt2]
    rw [if_pos (by omega)]
  by_cases hs : 0 ≤ s
  · rw [if_pos hs, Rat.mkRat_eq_div]
    constructor
    · positivity
    · rw [div_le_one (by positivity)]
      exact_mod_cast hup _
  · rw [if_neg hs, hdown _ (by omega)]
    simp

/-- The `float64` quotient of two integers `a <= b` lies between 0 and 1. -/
theorem float64Div_range (a b : Nat) (h : a ≤ b) :
    0 ≤ float64Div a b ∧ float64Div a b ≤ 1 := by
  by_cases h0 : a = 0 ∨ b = 0
  · simp [float64Div, h0]
  · have ha : 0 < a := by omega
    have hb : 0 < b := by omega
    rcases Nat.lt_or_eq_of_le h with hlt | heq
    · unfold float64Div
      simp only [h0, if_false]
      exact float64_scaled_range a b hb hlt _
    · subst heq
      rw [float64Div_self a ha]
      norm_num

theorem calcProgress_range (tasks : List JobTask) :
    0 ≤ calcProgress tasks ∧ calcProgress tasks ≤ 1 := by
  unfold calcProgress
  split
  · norm_num
  · exact float64Div_range _ _ (List.length_filter_le _ _)

/-- The halvings counted by `log2Fuel` give the binary logarithm, rounded down, when the
fuel is at least the number. -/
theorem log2Fuel_spec (fuel : Nat) : ∀ n, n ≤ fuel → 0 < n →
    2 ^ log2Fuel fuel n ≤ n ∧ n < 2 ^ (log2Fuel fuel n + 1) := by
  induction fuel with
  | zero =>
    intro n h hn
    omega
  | succ f ih =>
    intro n h hn
    unfold log2Fuel
    by_cases h2 : n < 2
    · rw [if_pos h2]
      simp
      omega
    · rw [if_neg h2]
      obtain ⟨i1, i2⟩ := ih (n / 2) (by omega) (by omega)
      have hp1 : 2 ^ (log2Fuel f (n / 2) + 1) = 2 * 2 ^ log2Fuel f (n / 2) := by ring
      have hp2 : 2 ^ (log2Fuel f (n / 2) + 1 + 1) = 4 * 2 ^ log2Fuel f (n / 2) := by ring
      rw [hp1] at i2
      rw [hp1, hp2]
      generalize 2 ^ log2Fuel f (n / 2) = p at *
      constructor <;> omega

theorem ilog2_spec (n : Nat) (hn : 0 < n) : 2 ^ ilog2 n ≤ n ∧ n < 2 ^ (ilog2 n + 1) :=
  log2Fuel_spec n n (le_refl _) hn

/-- The rounded quotient is within one half of the quotient. -/
theorem roundHalfEven_err (n d : Nat) (hd : 0 < d) :
    2 * (roundHalfEven n d * d) ≤ 2 * n + d ∧ 2 * n ≤ 2 * (roundHalfEven n d * d) + d := by
  have hm : d * (n / d) + n % d = n := Nat.div_add_mod n d
  have hr : n % d < d := Nat.mod_lt n hd
  unfold roundHalfEven
  generalize n / d = q at *
  generalize n % d = r at *
  have e1 : (q + 1) * d = d * q + d := by ring
  have e2 : q * d = d * q := by ring
  split
  · rw [e2]; constructor <;> omega
  · split
    · rw [e1]; constructor <;> omega
    · split
      · rw [e2]; constructor <;> omega
      · rw [e1]; constructor <;> omega

/-- Rounding the quotient scaled by `2 ^ s` to an integer and scaling back keeps a relative
error of at most `2 ^ (-53)` when `2 ^ (52 - s)` is not above the quotient. -/
theorem float64_scaled_err (a b : Nat) (hb : 0 < b) (s : Int)
    (hE : (2 : ℚ) ^ (52 - s) ≤ (a : ℚ) / b) :
    |(if 0 ≤ s then mkRat (roundHalfEven (a * 2 ^ s.toNat) b) (2 ^ s.toNat)
      else ((roundHalfEven a (b * 2 ^ (-s).toNat) * 2 ^ (-s).toNat : Nat) : ℚ)) - (a : ℚ) / b|
      * 2 ^ 53 ≤ (a : ℚ) / b := by
  have hB : (0 : ℚ) < b := by exact_mod_cast hb
  by_cases hs : 0 ≤ s
  · obtain ⟨k, rfl⟩ := Int.eq_ofNat_of_zero_le hs
    rw [if_pos hs, Int.toNat_ofNat, Rat.mkRat_eq_div]
    obtain ⟨h1, h2⟩ := roundHalfEven_err (a * 2 ^ k) b hb
    generalize roundHalfEven (a * 2 ^ k) b = R at h1 h2 ⊢
    have h1q : 2 * ((R : ℚ) * b) ≤ 2 * ((a : ℚ) * 2 ^ k) + b := by exact_mod_cast h1
    have h2q : 2 * ((a : ℚ) * 2 ^ k) ≤ 2 * ((R : ℚ) * b) + b := by exact_mod_cast h2
    have hP : (0 : ℚ) < 2 ^ k := by positivity
    have hE2 : (2 : ℚ) ^ 52 / 2 ^ k ≤ (a : ℚ) / b := by
      have : (2 : ℚ) ^ ((52 : ℤ) - (k : ℤ)) = 2 ^ 52 / 2 ^ k := by
        rw [zpow_sub₀ (by norm_num)]
        norm_cast
      rw [← this]
      exact hE
    push_cast
    generalize (2 : ℚ) ^ k = P at *
    have hkey : |(R : ℚ) / P - (a : ℚ) / b| ≤ 1 / (2 * P) := by
      rw [abs_le]
      constructor
      · rw [neg_le_sub_iff_le_add, div_add_div _ _ hP.ne' (by positivity), div_le_div_iff₀ hB
          (by positivity)]
        nlinarith
      · rw [sub_le_iff_le_add, div_add_div _ _ (by positivity) hB.ne', div_le_div_iff₀ hP
          (by positivity)]
        nlinarith
    calc |(R : ℚ) / P - (a : ℚ) / b| * 2 ^ 53 ≤ 1 / (2 * P) * 2 ^ 53 :=
          mul_le_mul_of_nonneg_right hkey (by positivity)
      _ = 2 ^ 52 / P := by field_simp; ring
      _ ≤ (a : ℚ) / b := hE2
  · have hs2 : 0 ≤ -s := by omega
    obtain ⟨k, hk⟩ := Int.eq_ofNat_of_zero_le hs2
    have hsk : s = -(k : ℤ) := by omega
    subst hsk
    rw [if_neg hs, neg_neg, Int.toNat_ofNat]
    have hbk : 0 < b * 2 ^ k := by positivity
    obtain ⟨h1, h2⟩ := roundHalfEven_err a (b * 2 ^ k) hbk
    generalize roundHalfEven a (b * 2 ^ k) = R at h1 h2 ⊢
    have h1q : 2 * ((R : ℚ) * (b * 2 ^ k)) ≤ 2 * (a : ℚ) + b * 2 ^ k := by exact_mod_cast h1
    have h2q : 2 * (a : ℚ) ≤ 2 * ((R : ℚ) * (b * 2 ^ k)) + b * 2 ^ k := by exact_mod_cast h2
    have hP : (0 : ℚ) < 2 ^ k := by positivity
    have hE2 : (2 : ℚ) ^ 52 * 2 ^ k ≤ (a : ℚ) / b := by
      have : (2 : ℚ) ^ ((52 : ℤ) - -(k : ℤ)) = 2 ^ 52 * 2 ^ k := by
        rw [sub_neg_eq_add, zpow_add₀ (by norm_num)]
        norm_cast
      rw [← this]
      exact hE
    push_cast
    generalize (2 : ℚ) ^ k = P at *
    have hkey : |(R : ℚ) * P - (a : ℚ) / b| ≤ P / 2 := by
      rw [abs_le]
      constructor
      · rw [neg_le_sub_iff_le_add, div_le_iff₀ hB]
        nlinarith
      · rw [sub_le_iff_le_add, ← sub_le_iff_le_add', le_div_iff₀ hB]
        nlinarith
    calc |(R : ℚ) * P - (a : ℚ) / b| * 2 ^ 53 ≤ P / 2 * 2 ^ 53 :=
          mul_le_mul_of_nonneg_right hkey (by positivity)
      _ = 2 ^ 52 * P := by ring
      _ ≤ (a : ℚ) / b := hE2

/-- The exponent that `float64Div` computes for `a / b` is not above the binary logarithm
of the quotient. -/
theorem float64_exponent (a b : Nat) (ha : 0 < a) (hb : 0 < b) :
    (2 : ℚ) ^ (if (if 0 ≤ (ilog2 a : Int) - (ilog2 b : Int)
          then decide (2 ^ ((ilog2 a : Int) - (ilog2 b : Int)).toNat * b ≤ a)
          else decide (b ≤ 2 ^ (-((ilog2 a : Int) - (ilog2 b : Int))).toNat * a)) = true
        then (ilog2 a : Int) - (ilog2 b : Int)
        else (ilog2 a : Int) - (ilog2 b : Int) - 1) ≤ (a : ℚ) / b := by
  have hA : (0 : ℚ) < a := by exact_mod_cast ha
  have hB : (0 : ℚ) < b := by exact_mod_cast hb
  obtain ⟨a1, -⟩ := ilog2_spec a ha
  obtain ⟨-, b2⟩ := ilog2_spec b hb
  have a1q : (2 : ℚ) ^ ilog2 a ≤ a := by exact_mod_cast a1
  have b2q : (b : ℚ) < 2 ^ (ilog2 b + 1) := by exact_mod_cast b2
  generalize ilog2 a = la at *
  generalize ilog2 b = lb at *
  by_cases hfit : (if 0 ≤ (la : Int) - (lb : Int)
      then decide (2 ^ ((la : Int) - (lb : Int)).toNat * b ≤ a)
      else decide (b ≤ 2 ^ (-((la : Int) - (lb : Int))).toNat * a)) = true
  · rw [if_pos hfit]
    by_cases hc : 0 ≤ (la : Int) - (lb : Int)
    · rw [if_pos hc] at hfit
      obtain ⟨k, hk⟩ := Int.eq_ofNat_of_zero_le hc
      rw [hk] at hfit ⊢
      rw [Int.toNat_ofNat, decide_eq_true_eq] at hfit
      have hq : (2 : ℚ) ^ k * b ≤ a := by exact_mod_cast hfit
      rw [zpow_natCast, le_div_iff₀ hB]
      exact hq
    · rw [if_neg hc] at hfit
      have hc2 : 0 ≤ -((la : Int) - (lb : Int)) := by omega
      obtain ⟨k, hk⟩ := Int.eq_ofNat_of_zero_le hc2
      rw [hk] at hfit
      rw [Int.toNat_ofNat, decide_eq_true_eq] at hfit
      have hq : (b : ℚ) ≤ 2 ^ k * a := by exact_mod_cast hfit
      have hck : (la : Int) - (lb : Int) = -(k : ℤ) := by omega
      rw [hck, zpow_neg, zpow_natCast, le_div_iff₀ hB, inv_mul_le_iff₀ (by positivity)]
      exact hq
  · rw [if_neg hfit]
    have hexp : (la : Int) - (lb : Int) - 1 = (la : Int) - ((lb + 1 : Nat) : Int) := by
      push_cast
      ring
    rw [hexp, zpow_sub₀ (by norm_num), zpow_natCast, zpow_natCast]
    exact div_le_div₀ (le_of_lt hA) a1q hB (le_of_lt b2q)

/-- The number `float64Div a b` is the quotient `a / b` with a relative error of at most
`2 ^ (-53)`, half a unit in the last of 53 significant bits. -/
theorem float64Div_error (a b : Nat) (ha : 0 < a) (hb : 0 < b) :
    |float64Div a b - (a : ℚ) / b| * 2 ^ 53 ≤ (a : ℚ) / b := by
  have h0 : ¬(a = 0 ∨ b = 0) := by omega
  unfold float64Div
  simp only [h0, if_false]
  apply float64_scaled_err a b hb
  rw [sub_sub_cancel]
  exact float64_exponent a b ha hb

/-- The progress that `calcProgress` returns is the exact ratio of terminal tasks with a
relative error of at most `2 ^ (-53)`. -/
theorem calcProgress_error (tasks : List JobTask) :
    |calcProgress tasks - terminalRatio tasks| * 2 ^ 53 ≤ terminalRatio tasks := by
  unfold calcProgress terminalRatio
  by_cases hlen : tasks.length = 0
  · simp [hlen]
  · rw [if_neg hlen]
    by_cases hk : (tasks.filter (fun t => isTaskTerminal t.Status)).length = 0
    · simp [hk, float64Div]
    · exact float64Div_error _ _ (Nat.pos_of_ne_zero hk) (Nat.pos_of_ne_zero hlen)

theorem calcProgress_all_succeeded (ts : List JobTask) (hne : ts ≠ [])
    (h : ∀ t ∈ ts, t.Status = .succeeded) : calcProgress ts = 1 := by
  unfold calcProgress
  have hlen : ts.length ≠ 0 := by
    intro h0
    exact hne (List.length_eq_zero.mp h0)
  have hf : ts.filter (fun t => isTaskTerminal t.Status) = ts := by
    apply List.filter_eq_self.mpr
    intro t ht
    simp [isTaskTerminal, h t ht]
  rw [if_neg hlen, hf]
  exact float64Div_self _ (Nat.pos_of_ne_zero hlen)

/-! ## The runner's view of the world through one task execution -/

theorem view_publishEvent (env : Env) (w : World) (jid : String) (sj : Job)
    (ts : List JobTask) (c : Nat) (h : View w jid sj ts c) (job : Job) (t : JobEventType)
    (p : Payload) : View (publishEvent env w job t p) jid sj ts c := by
  refine ⟨?_, ?_, ?_, ?_⟩
  · rw [publishEvent_store, (appendJobEvent_frame _ _ _ _).2.1]; exact h.job
  · rw [publishEvent_store, (appendJobEvent_frame _ _ _ _).2.2.1]; exact h.tasks
  · rw [(publishEvent_sched _ _ _ _ _).2.2.2.1]; exact h.clock
  · rw [(publishEvent_sched _ _ _ _ _).2.2.2.2.1]; exact h.calm

theorem view_updateTask (w : World) (jid : String) (sj : Job) (ts : List JobTask) (c : Nat)
    (h : View w jid sj ts c) (tid : String) (g : JobTask → JobTask)
    (hnd : (ts.map (fun t => t.ID)).Nodup) (hmem : ∃ t ∈ ts, t.ID = tid) :
    (updateTask w jid tid g).1 = .ok () ∧
    View (updateTask w jid tid g).2 jid sj (updateAt tid g ts) c := by
  unfold updateTask
  simp only [MemoryStore.GetJobTasks, h.tasks, applyFirst_eq_updateAt tid g ts hnd hmem]
  obtain ⟨h1, h2⟩ := replaceJobTasks_ok w.store jid (updateAt tid g ts) ts h.tasks
  refine ⟨h1, ?_, ?_, h.clock, h.calm⟩
  · show (MemoryStore.ReplaceJobTasks _ _ _).2.jobs jid = _
    rw [(replaceJobTasks_frame _ _ _).2.1]; exact h.job
  · show (MemoryStore.ReplaceJobTasks _ _ _).2.tasksByJob jid = _
    rw [h2]; simp [mapSet_apply]

theorem view_updateProgress (env : Env) (w : World) (jid : String) (sj : Job)
    (ts : List JobTask) (c : Nat) (h : View w jid sj ts c) (hid : sj.ID = jid) :
    View (updateProgress env w jid) jid { sj with Progress := calcProgress ts } ts c := by
  unfold updateProgress
  simp only [MemoryStore.GetJob, h.job, MemoryStore.GetJobTasks, h.tasks]
  apply view_publishEvent
  have hj : w.store.jobs ({ sj with Progress := calcProgress ts } : Job).ID = some sj := by
    show w.store.jobs sj.ID = some sj
    rw [hid]; exact h.job
  obtain ⟨_, h2⟩ := updateJob_ok w.store { sj with Progress := calcProgress ts } sj hj
  refine ⟨?_, ?_, h.clock, h.calm⟩
  · show (MemoryStore.UpdateJob _ _).2.jobs jid = _
    rw [h2]
    show mapSet w.store.jobs sj.ID _ jid = _
    simp [mapSet_apply, hid]
  · show (MemoryStore.UpdateJob _ _).2.tasksByJob jid = _
    rw [(updateJob_frame _ _).2.1]; exact h.tasks

theorem view_suspend (env : Env) (hc : ∀ n, env.cancels n = []) (w : World) (jid : String)
    (sj : Job) (ts : List JobTask) (c : Nat) (h : View w jid sj ts c) (d : Nat) :
    View (suspend env w d) jid sj ts (c + d) := by
  unfold suspend
  simp only [hc, List.foldl_nil]
  exact ⟨h.job, h.tasks, by simp [h.clock], h.calm⟩

theorem view_isJobCanceled (w : World) (jid : String) (sj : Job) (ts : List JobTask) (c : Nat)
    (h : View w jid sj ts c) : isJobCanceled w jid = sj.CancelRequested := by
  simp [isJobCanceled, MemoryStore.GetJob, h.job]

theorem view_createAsset (w : World) (jid : String) (sj : Job) (ts : List JobTask) (c : Nat)
    (h : View w jid sj ts c) (a : Asset) :
    View { w with store := (w.store.CreateAsset a).2 } jid sj ts c := by
  refine ⟨?_, ?_, h.clock, h.calm⟩
  · show (MemoryStore.CreateAsset _ _).2.jobs jid = _
    rw [(createAsset_frame _ _).2.1]; exact h.job
  · show (MemoryStore.CreateAsset _ _).2.tasksByJob jid = _
    rw [(createAsset_frame _ _).2.2.1]; exact h.tasks

theorem view_succeedTask (env : Env) (w : World) (jid : String) (sj : Job)
    (ts : List JobTask) (c : Nat) (h : View w jid sj ts c) (hid : sj.ID = jid) (job : Job)
    (hjob : job.ID = jid) (task : JobTask) (out : ExecuteOutput)
    (hnd : (ts.map (fun t => t.ID)).Nodup) (hmem : ∃ t ∈ ts, t.ID = task.ID) :
    ∃ g, Completes g ∧
      View (succeedTask env w job task out) jid
        { sj with Progress := calcProgress (updateAt task.ID g ts) }
        (updateAt task.ID g ts) c := by
  refine ⟨markSucceeded w.clock out.Output, ?_, ?_⟩
  · intro t
    exact ⟨rfl, rfl, rfl, rfl, rfl⟩
  · unfold succeedTask
    simp only [hjob]
    apply view_updateProgress _ _ _ _ _ _ _ hid
    apply view_publishEvent
    have h1 := (view_updateTask w jid sj ts c h task.ID (markSucceeded w.clock out.Output)
      hnd hmem).2
    cases out.Asset with
    | none => exact h1
    | some asset =>
      simp only
      split
      · exact h1
      · apply view_publishEvent
        exact view_createAsset _ _ _ _ _ h1 asset

theorem view_attemptLoop (env : Env) (he : HappyEnv env) (w : World) (jid : String)
    (sj : Job) (ts : List JobTask) (c : Nat) (h : View w jid sj ts c) (hid : sj.ID = jid)
    (hnc : sj.CancelRequested = false) (job : Job) (hjob : job.ID = jid) (task : JobTask)
    (hnd : (ts.map (fun t => t.ID)).Nodup) (hmem : ∃ t ∈ ts, t.ID = task.ID)
    (maxAttempt rounds attempt : Nat) (lastErr : Option ProviderError)
    (hle : attempt ≤ maxAttempt) (hrounds : 0 < rounds) :
    ∃ g, Completes g ∧
      View (attemptLoop env job task maxAttempt rounds attempt lastErr w) jid
        { sj with Progress := calcProgress (updateAt task.ID g ts) }
        (updateAt task.ID g ts) c := by
  have hs := view_suspend env he.no_cancel w jid sj ts c h 0
  have hcan : isJobCanceled w job.ID = false := by
    rw [hjob, view_isJobCanceled w jid sj ts c h, hnc]
  obtain ⟨out, hout⟩ := he.prov_ok (suspend env w 0).provCalls
    { UserID := job.UserID, ProjectID := job.ProjectID, JobID := job.ID
      TaskID := task.ID, TaskType := task.TaskType, SceneIndex := task.SceneIndex
      TraceID := job.TraceID, Payload := task.Input }
    (isJobCanceled (suspend env w 0) job.ID)
  obtain ⟨r, rfl⟩ := Nat.exists_eq_succ_of_ne_zero (Nat.pos_iff_ne_zero.mp hrounds)
  unfold attemptLoop
  simp only [hle, if_true, hcan, Bool.false_eq_true, if_false, hout]
  exact view_succeedTask env
    { suspend env w 0 with provCalls := (suspend env w 0).provCalls + 1 } jid sj ts c
    ⟨hs.job, hs.tasks, by simpa using hs.clock, hs.calm⟩ hid job hjob task out hnd hmem

theorem eq_of_same_id (ts : List JobTask) (hnd : (ts.map (fun t => t.ID)).Nodup)
    (a b : JobTask) (ha : a ∈ ts) (hb : b ∈ ts) (h : a.ID = b.ID) : a = b :=
  List.inj_on_of_nodup_map hnd ha hb h

theorem view_executeTask (env : Env) (he : HappyEnv env) (w : World) (jid : String)
    (sj : Job) (ts : List JobTask) (c : Nat) (h : View w jid sj ts c) (hid : sj.ID = jid)
    (hnc : sj.CancelRequested = false) (job : Job) (hjob : job.ID = jid) (task : JobTask)
    (hnd : (ts.map (fun t => t.ID)).Nodup)
    (hmem : ∃ t ∈ ts, t.ID = task.ID ∧ t.Attempt < t.MaxAttempt) :
    ∃ g sj2, Completes g ∧ View (executeTask env w job task) jid sj2 (updateAt task.ID g ts) c ∧
      sj2.ID = jid ∧ sj2.CancelRequested = false ∧ sj2.Status = sj.Status ∧
      sj2.StartedAt = sj.StartedAt := by
  obtain ⟨t0, ht0, hid0, hatt⟩ := hmem
  have hmem1 : ∃ t ∈ ts, t.ID = task.ID := ⟨t0, ht0, hid0⟩
  -- the task is marked running
  obtain ⟨hok, hv1⟩ := view_updateTask w jid sj ts c h task.ID (markRunning w.clock ("worker-" ++ (env.uuid w.uuids).take 8)) hnd hmem1
  obtain ⟨cur, hcur, hcid, hfind⟩ := find_updateAt task.ID
    (markRunning w.clock ("worker-" ++ (env.uuid w.uuids).take 8)) (fun _ => rfl) ts hmem1
  have hcur0 : cur = t0 := eq_of_same_id ts hnd cur t0 hcur ht0 (hcid.trans hid0.symm)
  subst hcur0
  have hnd1 : ((updateAt task.ID (markRunning w.clock ("worker-" ++ (env.uuid w.uuids).take 8)) ts).map (fun t => t.ID)).Nodup := by
    rw [updateAt_ids task.ID (markRunning w.clock ("worker-" ++ (env.uuid w.uuids).take 8))
      (fun _ => rfl)]
    exact hnd
  have hmem2 : ∃ t ∈ updateAt task.ID (markRunning w.clock ("worker-" ++ (env.uuid w.uuids).take 8)) ts, t.ID = task.ID := by
    refine ⟨_, List.mem_of_find?_eq_some hfind, ?_⟩
    exact hcid
  unfold executeTask
  simp only [hjob, hok]
  simp only [MemoryStore.GetJobTasks, hv1.tasks, hfind]
  obtain ⟨g, hg, hv⟩ := view_attemptLoop env he _ jid sj _ c
    (view_publishEvent env _ jid sj _ c
      (show View { (updateTask w jid task.ID
          (markRunning w.clock ("worker-" ++ (env.uuid w.uuids).take 8))).2 with
          uuids := (updateTask w jid task.ID
            (markRunning w.clock ("worker-" ++ (env.uuid w.uuids).take 8))).2.uuids + 1 }
          jid sj _ c from ⟨hv1.job, hv1.tasks, hv1.clock, hv1.calm⟩)
      job .task_started
      [("task_id", .str cur.ID), ("task_key", .str cur.TaskKey),
       ("task_type", .taskType cur.TaskType), ("attempt", .int ((cur.Attempt + 1 : Nat) : Int)),
       ("display_name", .str cur.DisplayName)])
    hid hnc job hjob task hnd1 hmem2 cur.MaxAttempt (cur.MaxAttempt + 1 - (cur.Attempt + 1))
    (cur.Attempt + 1) none (by omega) (by omega)
  rw [updateAt_updateAt task.ID (markRunning w.clock ("worker-" ++ (env.uuid w.uuids).take 8)) g
    (fun _ => rfl)] at hv
  refine ⟨fun t => g (markRunning w.clock ("worker-" ++ (env.uuid w.uuids).take 8) t), _, ?_, hv,
    hid, hnc, rfl, rfl⟩
  intro t
  exact ⟨(hg _).1, (hg _).2.1, (hg _).2.2.1, (hg _).2.2.2.1, (hg _).2.2.2.2⟩

/-! ## A wave of task executions, finalization, and the runner loop -/

theorem updateAt_length (tid : String) (g : JobTask → JobTask) (ts : List JobTask) :
    (updateAt tid g ts).length = ts.length := by
  simp [updateAt]

theorem view_wave (env : Env) (he : HappyEnv env) (jid : String) (c : Nat) (job : Job)
    (hjob : job.ID = jid) (rs : List JobTask) :
    ∀ (w : World) (sj : Job) (ts : List JobTask), View w jid sj ts c → sj.ID = jid →
      sj.CancelRequested = false → GoodTasks c ts → (rs.map (fun t => t.ID)).Nodup →
      (∀ r ∈ rs, ∃ t ∈ ts, t.ID = r.ID ∧ t.Status = .queued) →
      ∃ sj2 ts2, View (rs.foldl (fun v t => executeTask env v job t) w) jid sj2 ts2 c ∧
        sj2.ID = jid ∧ sj2.CancelRequested = false ∧ sj2.Status = sj.Status ∧
        sj2.StartedAt = sj.StartedAt ∧ GoodTasks c ts2 ∧ ts2.length = ts.length ∧
        countQueued ts2 + rs.length ≤ countQueued ts := by
  induction rs with
  | nil =>
    intro w sj ts h hid hnc hgood _ _
    exact ⟨sj, ts, h, hid, hnc, rfl, rfl, hgood, rfl, by simp⟩
  | cons r rs ih =>
    intro w sj ts h hid hnc hgood hnd hq
    simp only [List.map_cons, List.nodup_cons] at hnd
    obtain ⟨t, ht, htid, htq⟩ := hq r (List.mem_cons_self _ _)
    obtain ⟨g, sj1, hg, hv, hid1, hnc1, hst1, hsa1⟩ := view_executeTask env he w jid sj ts c h
      hid hnc job hjob r hgood.nodup ⟨t, ht, htid, (hgood.ok t ht).2.1 htq⟩
    have hgood1 := goodTasks_updateAt c r.ID g hg ts hgood
    have hq1 : ∀ r2 ∈ rs, ∃ t ∈ updateAt r.ID g ts, t.ID = r2.ID ∧ t.Status = .queued := by
      intro r2 hr2
      obtain ⟨t2, ht2, hid2, hq2⟩ := hq r2 (List.mem_cons_of_mem _ hr2)
      refine ⟨t2, mem_updateAt_of_ne r.ID g ts t2 ht2 ?_, hid2, hq2⟩
      intro heq
      apply hnd.1
      rw [← heq, hid2]
      exact List.mem_map_of_mem _ hr2
    obtain ⟨sj2, ts2, hv2, hid2, hnc2, hst2, hsa2, hgood2, hlen2, hcnt2⟩ :=
      ih (executeTask env w job r) sj1 (updateAt r.ID g ts) hv hid1 hnc1 hgood1 hnd.2 hq1
    have hlt := countQueued_updateAt_lt r.ID g hg ts ⟨t, ht, htid, htq⟩
    refine ⟨sj2, ts2, hv2, hid2, hnc2, hst2.trans hst1, hsa2.trans hsa1, hgood2, ?_, ?_⟩
    · rw [hlen2, updateAt_length]
    · simp only [List.length_cons]
      omega

theorem publishEvent_events (env : Env) (w : World) (job : Job) (t : JobEventType)
    (p : Payload) (old : Job) (hj : w.store.jobs job.ID = some old) :
    ∃ e, (publishEvent env w job t p).store.eventsByJob job.ID
        = some ((w.store.eventsByJob job.ID).getD [] ++ [e]) ∧ e.Typ = t := by
  refine ⟨{ EventID := env.uuid w.uuids, Seq := (w.store.eventSeqByJob job.ID).getD 0 + 1
            TraceID := job.TraceID, JobID := job.ID, ProjectID := job.ProjectID, Typ := t
            TS := some w.clock, Payload := p }, ?_, rfl⟩
  rw [publishEvent_store, (appendJobEvent_ok _ _ _ _ old hj).2]
  simp [mapSet_apply]

theorem finalize_success (env : Env) (w : World) (jid : String) (job : Job)
    (ts : List JobTask) (c : Nat) (h : View w jid job ts c) (hid : job.ID = jid)
    (hnc : job.CancelRequested = false) (hne : ts ≠ [])
    (hall : ∀ t ∈ ts, t.Status = .succeeded) :
    ∃ final evs e, (finalizeJob env w job ts).store.jobs jid = some final ∧
      final.Status = .succeeded ∧ final.Progress = 1 ∧
      (finalizeJob env w job ts).store.tasksByJob jid = some ts ∧
      (finalizeJob env w job ts).store.eventsByJob jid = some (evs ++ [e]) ∧
      e.Typ = .job_succeeded ∧ (finalizeJob env w job ts).panicked = false := by
  have hf : ts.any (fun t => decide (t.Status = .failed)) = false := by
    rw [List.any_eq_false]
    intro t ht
    simp [hall t ht]
  have hcn : ts.any (fun t => decide (t.Status = .canceled)) = false := by
    rw [List.any_eq_false]
    intro t ht
    simp [hall t ht]
  have hprog := calcProgress_all_succeeded ts hne hall
  have hFs : (finalRecord job ts (some w.clock)).Status = .succeeded := by
    simp [finalRecord, hf, hcn, hnc]
  have hFp : (finalRecord job ts (some w.clock)).Progress = 1 := by
    simp [finalRecord, hprog]
  have hFi : (finalRecord job ts (some w.clock)).ID = jid := by
    simp [finalRecord, hf, hcn, hnc, hid]
  have hup : ∀ j2 : Job, j2.ID = jid →
      (w.store.UpdateJob j2).1 = .ok () ∧ (w.store.UpdateJob j2).2.jobs jid = some j2 := by
    intro j2 h2
    obtain ⟨h3, h4⟩ := updateJob_ok w.store j2 job (by rw [h2]; exact h.job)
    refine ⟨h3, ?_⟩
    rw [h4, h2]
    simp [mapSet_apply]
  unfold finalizeJob
  simp only []
  generalize finalRecord job ts (some w.clock) = F at hFs hFp hFi ⊢
  simp only [(hup F hFi).1, hFs]
  have hW : ∀ W : World, W.store.jobs jid = some F → W.store.tasksByJob jid = some ts →
      W.panicked = false →
      ∃ final evs e, (publishEvent env W F .job_succeeded
          [("progress", .num F.Progress), ("status", .jobStatus .succeeded)]).store.jobs jid
          = some final ∧
        final.Status = .succeeded ∧ final.Progress = 1 ∧
        (publishEvent env W F .job_succeeded
          [("progress", .num F.Progress), ("status", .jobStatus .succeeded)]).store.tasksByJob jid
          = some ts ∧
        (publishEvent env W F .job_succeeded
          [("progress", .num F.Progress), ("status", .jobStatus .succeeded)]).store.eventsByJob jid
          = some (evs ++ [e]) ∧
        e.Typ = .job_succeeded ∧
        (publishEvent env W F .job_succeeded
          [("progress", .num F.Progress), ("status", .jobStatus .succeeded)]).panicked = false := by
    intro W hWj hWt hWc
    obtain ⟨e, he1, he2⟩ := publishEvent_events env W F .job_succeeded
      [("progress", .num F.Progress), ("status", .jobStatus .succeeded)] F (by rw [hFi]; exact hWj)
    rw [hFi] at he1
    refine ⟨F, (W.store.eventsByJob jid).getD [], e, ?_, hFs, hFp, ?_, he1, he2, ?_⟩
    · rw [publishEvent_store, (appendJobEvent_frame _ _ _ _).2.1]; exact hWj
    · rw [publishEvent_store, (appendJobEvent_frame _ _ _ _).2.2.1]; exact hWt
    · rw [(publishEvent_sched _ _ _ _ _).2.2.2.2.1]; exact hWc
  split
  · apply hW
    · exact (hup F hFi).2
    · show (MemoryStore.UpdateJob _ _).2.tasksByJob jid = _
      rw [(updateJob_frame _ _).2.1]; exact h.tasks
    · exact h.calm
  · apply hW
    · show (MemoryStore.UpdateProject _ _).2.jobs jid = _
      rw [(updateProject_frame _ _).1]; exact (hup F hFi).2
    · show (MemoryStore.UpdateProject _ _).2.tasksByJob jid = _
      rw [(updateProject_frame _ _).2.1, (updateJob_frame _ _).2.1]; exact h.tasks
    · exact h.calm

theorem view_markStarted (env : Env) (w : World) (jid : String) (sj : Job)
    (ts : List JobTask) (c : Nat) (h : View w jid sj ts c) (hid : sj.ID = jid)
    (hnc : sj.CancelRequested = false) :
    View (markStarted env w sj).2 jid (markStarted env w sj).1 ts c ∧
    (markStarted env w sj).1.ID = jid ∧ (markStarted env w sj).1.CancelRequested = false ∧
    (isJobTerminal sj.Status = false → isJobTerminal (markStarted env w sj).1.Status = false) := by
  unfold markStarted
  by_cases hs : sj.StartedAt = none
  · simp only [hs, if_true]
    have hj : w.store.jobs ({ sj with StartedAt := some w.clock, Status := .running } : Job).ID
        = some sj := by
      show w.store.jobs sj.ID = some sj
      rw [hid]; exact h.job
    obtain ⟨h1, h2⟩ := updateJob_ok w.store _ sj hj
    simp only [h1]
    refine ⟨?_, hid, hnc, fun _ => rfl⟩
    apply view_publishEvent
    refine ⟨?_, ?_, h.clock, h.calm⟩
    · show (MemoryStore.UpdateJob _ _).2.jobs jid = _
      rw [h2]
      show mapSet w.store.jobs sj.ID _ jid = _
      simp [mapSet_apply, hid]
    · show (MemoryStore.UpdateJob _ _).2.tasksByJob jid = _
      rw [(updateJob_frame _ _).2.1]; exact h.tasks
  · simp only [hs, if_false]
    exact ⟨h, hid, hnc, fun x => x⟩

theorem runJobLoop_success (env : Env) (he : HappyEnv env) (jid : String) (n : Nat) :
    ∀ (w : World) (sj : Job) (ts : List JobTask) (c : Nat), View w jid sj ts c → sj.ID = jid →
      sj.CancelRequested = false → isJobTerminal sj.Status = false → GoodTasks c ts →
      countQueued ts ≤ n → ∀ fuel, n + 1 ≤ fuel →
      ∃ w2 final ts2 evs e, runJobLoop env jid fuel w = some w2 ∧
        w2.store.jobs jid = some final ∧ final.Status = .succeeded ∧ final.Progress = 1 ∧
        w2.store.tasksByJob jid = some ts2 ∧ ts2.length = ts.length ∧
        (∀ t ∈ ts2, t.Status = .succeeded) ∧
        w2.store.eventsByJob jid = some (evs ++ [e]) ∧ e.Typ = .job_succeeded ∧
        w2.panicked = false := by
  induction n with
  | zero =>
    intro w sj ts c h hid hnc hterm hgood hcnt fuel hfuel
    obtain ⟨f, rfl⟩ := Nat.exists_eq_succ_of_ne_zero (by omega : fuel ≠ 0)
    obtain ⟨hv, hjid, hjnc, hjt⟩ := view_markStarted env w jid sj ts c h hid hnc
    unfold runJobLoop
    simp only [MemoryStore.GetJob, h.job, hterm, Bool.false_eq_true, if_false, hjnc,
      MemoryStore.GetJobTasks, hv.tasks]
    by_cases hall : allTasksTerminal ts = true
    · simp only [hall, if_true]
      obtain ⟨final, evs, e, h1, h2, h3, h4, h5, h6, h7⟩ := finalize_success env _ jid _ ts c hv
        hjid hjnc hgood.nonempty (all_succeeded_of_terminal c ts hgood.ok hall)
      exact ⟨_, final, ts, evs, e, rfl, h1, h2, h3, h4, rfl, all_succeeded_of_terminal c ts hgood.ok hall, h5, h6, h7⟩
    · exfalso
      have hnt : allTasksTerminal ts = false := by simpa using hall
      obtain ⟨t, ht, hq⟩ := exists_queued c ts hgood.ok hnt
      have : 0 < countQueued ts := by
        unfold countQueued
        apply List.length_pos_of_mem
        exact List.mem_filter.mpr ⟨ht, by simp [hq]⟩
      omega
  | succ m ih =>
    intro w sj ts c h hid hnc hterm hgood hcnt fuel hfuel
    obtain ⟨f, rfl⟩ := Nat.exists_eq_succ_of_ne_zero (by omega : fuel ≠ 0)
    obtain ⟨hv, hjid, hjnc, hjt⟩ := view_markStarted env w jid sj ts c h hid hnc
    unfold runJobLoop
    simp only [MemoryStore.GetJob, h.job, hterm, Bool.false_eq_true, if_false, hjnc,
      MemoryStore.GetJobTasks, hv.tasks]
    by_cases hall : allTasksTerminal ts = true
    · simp only [hall, if_true]
      obtain ⟨final, evs, e, h1, h2, h3, h4, h5, h6, h7⟩ := finalize_success env _ jid _ ts c hv
        hjid hjnc hgood.nonempty (all_succeeded_of_terminal c ts hgood.ok hall)
      exact ⟨_, final, ts, evs, e, rfl, h1, h2, h3, h4, rfl, all_succeeded_of_terminal c ts hgood.ok hall, h5, h6, h7⟩
    · have hnt : allTasksTerminal ts = false := by simpa using hall
      have hready := readyTasks_ne_nil c ts hgood hnt
      have hempty : (readyTasks ts c).isEmpty = false := by
        cases hrs : readyTasks ts c with
        | nil => exact absurd hrs hready
        | cons _ _ => rfl
      have hlen : 0 < (readyTasks ts c).length := List.length_pos.mpr hready
      obtain ⟨sj2, ts2, hv2, hid2, hnc2, hst2, _, hgood2, hlen2, hcnt2⟩ :=
        view_wave env he jid c (markStarted env w sj).1 hjid (readyTasks ts c)
          (markStarted env w sj).2 (markStarted env w sj).1 ts hv hjid hjnc hgood
          (readyTasks_nodup c ts hgood.nodup)
          (fun r hr => ⟨r, ((mem_readyTasks ts c r).mp hr).1, rfl,
            ((mem_readyTasks ts c r).mp hr).2.1⟩)
      obtain ⟨w3, final, ts3, evs, e, h1, h2, h3, h4, h5, h6, h7, h8, h9, h10⟩ :=
        ih _ sj2 ts2 c hv2 hid2 hnc2 (by rw [hst2]; exact hjt hterm) hgood2 (by omega) f
          (by omega)
      simp only [hall, Bool.false_eq_true, if_false, hv.clock, hempty, hv2.calm]
      exact ⟨w3, final, ts3, evs, e, h1, h2, h3, h4, h5, h6.trans hlen2, h7, h8, h9, h10⟩

/-! ## The graph of `buildTasks` can always be advanced -/

theorem sceneTasks_flatMap_length (uuid : Nat → String) (u : Nat) (now : Time) (job : Job)
    (n : Nat) : ((List.range n).flatMap (sceneTasks uuid u now job)).length = 2 * n := by
  induction n with
  | zero => rfl
  | succ k ih =>
    rw [List.range_succ, List.flatMap_append, List.length_append, ih, List.flatMap_singleton]
    simp only [sceneTasks, List.length_cons, List.length_nil]
    omega

theorem buildTasks_length (uuid : Nat → String) (u : Nat) (now : Time) (project : Project)
    (job : Job) : (buildTasks uuid u now project job).length = 2 + 2 * project.SceneCount := by
  unfold buildTasks
  simp only [List.length_append, List.length_cons, List.length_nil, sceneTasks_flatMap_length]
  omega

theorem sceneTasks_flatMap_ids (uuid : Nat → String) (u : Nat) (now : Time) (job : Job)
    (n : Nat) :
    ((List.range n).flatMap (sceneTasks uuid u now job)).map (fun t => t.ID)
      = (List.range (2 * n)).map (fun k => uuid (u + 1 + k)) := by
  induction n with
  | zero => rfl
  | succ k ih =>
    have h2 : 2 * (k + 1) = (2 * k + 1) + 1 := by omega
    rw [List.range_succ, List.flatMap_append, List.map_append, ih, List.flatMap_singleton, h2,
      List.range_succ, List.range_succ]
    simp only [sceneTasks, List.map_append, List.map_cons, List.map_nil, List.append_assoc,
      List.singleton_append]
    congr 3
    congr 1
    omega

theorem buildTasks_ids (uuid : Nat → String) (u : Nat) (now : Time) (project : Project)
    (job : Job) :
    (buildTasks uuid u now project job).map (fun t => t.ID)
      = (List.range (2 + 2 * project.SceneCount)).map (fun k => uuid (u + k)) := by
  unfold buildTasks
  have h2 : 2 + 2 * project.SceneCount = (2 * project.SceneCount + 1) + 1 := by omega
  simp only [List.map_append, List.map_cons, List.map_nil, sceneTasks_flatMap_ids]
  rw [h2, List.range_succ, List.range_succ_eq_map]
  simp only [List.map_append, List.map_cons, List.map_nil, List.map_map, List.singleton_append,
    List.cons_append, Nat.add_zero]
  congr 1
  congr 1
  · apply List.map_congr_left
    intro k _
    simp only [Function.comp, Nat.succ_eq_add_one]
    congr 1
    omega
  · congr 2
    omega

theorem buildTasks_nodup (uuid : Nat → String) (hinj : Function.Injective uuid) (u : Nat)
    (now : Time) (project : Project) (job : Job) :
    ((buildTasks uuid u now project job).map (fun t => t.ID)).Nodup := by
  rw [buildTasks_ids]
  apply List.Nodup.map _ (List.nodup_range _)
  intro a b hab
  have := hinj hab
  omega

theorem depsBefore_of_forall (seen : List String) (xs : List JobTask)
    (h : ∀ t ∈ xs, ∀ d ∈ t.DependsOn, d ∈ seen) : depsBefore seen xs := by
  induction xs generalizing seen with
  | nil => trivial
  | cons x rest ih =>
    refine ⟨h x (List.mem_cons_self _ _), ih _ ?_⟩
    intro t ht d hd
    exact List.mem_cons_of_mem _ (h t (List.mem_cons_of_mem _ ht) d hd)

theorem depsBefore_append (seen : List String) (xs ys : List JobTask)
    (hx : depsBefore seen xs)
    (hy : depsBefore (xs.map (fun t => t.TaskKey) ++ seen) ys) : depsBefore seen (xs ++ ys) := by
  induction xs generalizing seen with
  | nil => simpa using hy
  | cons x rest ih =>
    refine ⟨hx.1, ih _ hx.2 ?_⟩
    apply depsBefore_mono _ _ _ _ hy
    intro k hk
    simp only [List.map_cons, List.cons_append, List.mem_cons, List.mem_append, List.mem_map]
      at hk ⊢
    rcases hk with h | h | h
    · exact Or.inr (Or.inl h)
    · exact Or.inl h
    · exact Or.inr (Or.inr h)

theorem buildTasks_ordered (uuid : Nat → String) (u : Nat) (now : Time) (project : Project)
    (job : Job) : depsBefore [] (buildTasks uuid u now project job) := by
  unfold buildTasks
  simp only []
  apply depsBefore_append
  · apply depsBefore_append
    · exact ⟨fun d hd => (by cases hd), trivial⟩
    · apply depsBefore_of_forall
      intro t ht d hd
      rw [List.mem_flatMap] at ht
      obtain ⟨i, _, hi⟩ := ht
      simp only [sceneTasks, List.mem_cons, List.mem_singleton, List.mem_nil_iff, or_false] at hi
      rcases hi with rfl | rfl <;> simpa using hd
  · refine ⟨?_, trivial⟩
    intro d hd
    simp only [List.mem_append, List.mem_map, List.mem_range] at hd
    simp only [List.map_append, List.mem_append, List.mem_map, List.mem_flatMap, List.mem_range]
    left
    right
    rcases hd with ⟨i, hi, rfl⟩ | ⟨i, hi, rfl⟩
    · exact ⟨_, ⟨i, hi, by simp only [sceneTasks]; exact List.mem_cons_self _ _⟩, rfl⟩
    · exact ⟨_, ⟨i, hi, by
        simp only [sceneTasks]
        exact List.mem_cons_of_mem _ (List.mem_cons_self _ _)⟩, rfl⟩

theorem buildTasks_fresh (uuid : Nat → String) (u : Nat) (now : Time) (project : Project)
    (job : Job) :
    ∀ t ∈ buildTasks uuid u now project job,
      t.Status = .queued ∧ t.Attempt = 0 ∧ t.MaxAttempt = 3 ∧ t.NextRunAt = now := by
  intro t ht
  unfold buildTasks at ht
  simp only [List.mem_append, List.mem_cons, List.mem_singleton, List.mem_nil_iff, or_false,
    List.mem_flatMap, List.mem_range, sceneTasks] at ht
  rcases ht with (rfl | ⟨i, _, rfl | rfl⟩) | rfl <;> exact ⟨rfl, rfl, rfl, rfl⟩

theorem buildTasks_good (uuid : Nat → String) (hinj : Function.Injective uuid) (u c0 c : Nat)
    (hc : c0 ≤ c) (project : Project) (job : Job) :
    GoodTasks c (buildTasks uuid u (some c0) project job) := by
  refine ⟨?_, buildTasks_nodup uuid hinj u _ project job,
    buildTasks_ordered uuid u _ project job, ?_⟩
  · intro h0
    have := buildTasks_length uuid u (some c0) project job
    rw [h0] at this
    simp only [List.length_nil] at this
    omega
  · intro t ht
    obtain ⟨h1, h2, h3, h4⟩ := buildTasks_fresh uuid u (some c0) project job t ht
    refine ⟨Or.inl h1, fun _ => by omega, ?_⟩
    intro a ha
    rw [h4] at ha
    cases ha
    exact hc

/-! ## The happy path of the runner, its workers run one after another -/

theorem demoUuid_injective : Function.Injective demoUuid := by
  intro a b h
  unfold demoUuid at h
  have h2 := congrArg (fun s : String => s.data.length) h
  simp only [List.length_replicate] at h2
  omega

theorem successEnv_happy : HappyEnv successEnv :=
  ⟨demoUuid_injective, fun _ _ _ => ⟨_, rfl⟩, fun _ => rfl⟩

theorem countQueued_le_length (ts : List JobTask) : countQueued ts ≤ ts.length :=
  List.length_filter_le _ _

/-- The happy path under the schedule in which the workers of a wave run one after another
(`runJobLoop`).  For every scene count N, with a provider that succeeds on every call and
no cancellation, `StartJob` on a project with N scenes creates a job with the task list of
`buildTasks`, and the runner loop on that job, given at least 2N + 3 rounds, returns with
the job stored in status succeeded with progress exactly 1, all its 2 + 2N tasks in status
succeeded, and `job_succeeded` as the last event of its log. -/
theorem sequential_runner_succeeds (env : Env) (he : HappyEnv env) (w : World)
    (hcalm : w.panicked = false) (userID projectID traceID key : String) (p : Project)
    (hp : w.store.projects projectID = some p) (hu : p.UserID = userID)
    (hcap : w.runningByUser userID < w.maxUserJobs)
    (hidx : key = "" ∨ w.store.idempotencyToJob (userID ++ ":" ++ key) = none) :
    ∃ job w1, StartJob env w userID projectID traceID key = (.ok job, w1) ∧
      w1.store.tasksByJob job.ID
        = some (buildTasks env.uuid (w.uuids + 1) (some w.clock) p job) ∧
      ∀ fuel, 2 * p.SceneCount + 3 ≤ fuel →
        ∃ w2 final tasks evs e, runJob env job.ID fuel w1 = some w2 ∧
          w2.store.jobs job.ID = some final ∧ final.Status = .succeeded ∧
          final.Progress = 1 ∧
          w2.store.tasksByJob job.ID = some tasks ∧ tasks.length = 2 + 2 * p.SceneCount ∧
          (∀ t ∈ tasks, t.Status = .succeeded) ∧
          w2.store.eventsByJob job.ID = some (evs ++ [e]) ∧ e.Typ = .job_succeeded := by
  have hmiss : w.store.GetJobByIdempotency userID key = none := by
    unfold MemoryStore.GetJobByIdempotency
    rcases hidx with h | h
    · simp [h]
    · by_cases hk : key = ""
      · simp [hk]
      · simp [hk, h]
  have hstart := StartJob_created env w userID projectID traceID key hmiss p hp hu hcap hidx
  have hins := createJob_inserted w.store (newJob env w userID projectID traceID key)
    (buildTasks env.uuid (w.uuids + 1) (some w.clock) p
      (newJob env w userID projectID traceID key)) key hidx
  refine ⟨newJob env w userID projectID traceID key, _, hstart, ?_, ?_⟩
  · rw [startRunnerIfNeeded_store, publishEvent_store, (appendJobEvent_frame _ _ _ _).2.2.1]
    show (MemoryStore.UpdateProject _ _).2.tasksByJob _ = _
    rw [(updateProject_frame _ _).2.1]
    exact hins.2.2.1
  · intro fuel hfuel
    have hv : View (startRunnerIfNeeded
        (publishEvent env
          { w with
            uuids := w.uuids + 1 + (buildTasks env.uuid (w.uuids + 1) (some w.clock) p
              (newJob env w userID projectID traceID key)).length
            store := ((w.store.CreateJob (newJob env w userID projectID traceID key)
              (buildTasks env.uuid (w.uuids + 1) (some w.clock) p
                (newJob env w userID projectID traceID key)) key).2.UpdateProject
              { p with
                CurrentJobID := (newJob env w userID projectID traceID key).ID
                Status := "running", UpdatedAt := some w.clock }).2 }
          (newJob env w userID projectID traceID key) .job_created
          [("status", .jobStatus (newJob env w userID projectID traceID key).Status),
           ("tasks", .int (buildTasks env.uuid (w.uuids + 1) (some w.clock) p
              (newJob env w userID projectID traceID key)).length)])
        (newJob env w userID projectID traceID key))
        (newJob env w userID projectID traceID key).ID
        (newJob env w userID projectID traceID key)
        (buildTasks env.uuid (w.uuids + 1) (some w.clock) p
          (newJob env w userID projectID traceID key)) w.clock := by
      refine ⟨?_, ?_, ?_, ?_⟩
      · rw [startRunnerIfNeeded_store, publishEvent_store, (appendJobEvent_frame _ _ _ _).2.1]
        show (MemoryStore.UpdateProject _ _).2.jobs _ = _
        rw [(updateProject_frame _ _).1]
        exact hins.2.1
      · rw [startRunnerIfNeeded_store, publishEvent_store,
          (appendJobEvent_frame _ _ _ _).2.2.1]
        show (MemoryStore.UpdateProject _ _).2.tasksByJob _ = _
        rw [(updateProject_frame _ _).2.1]
        exact hins.2.2.1
      · unfold startRunnerIfNeeded
        split
        · rw [(publishEvent_sched _ _ _ _ _).2.2.2.1]
        · show (publishEvent _ _ _ _ _).clock = _
          rw [(publishEvent_sched _ _ _ _ _).2.2.2.1]
      · unfold startRunnerIfNeeded
        split
        · rw [(publishEvent_sched _ _ _ _ _).2.2.2.2.1]; exact hcalm
        · show (publishEvent _ _ _ _ _).panicked = _
          rw [(publishEvent_sched _ _ _ _ _).2.2.2.2.1]; exact hcalm
    have hgood := buildTasks_good env.uuid he.uuid_inj (w.uuids + 1) w.clock w.clock (le_refl _) p
      (newJob env w userID projectID traceID key)
    have hlen := buildTasks_length env.uuid (w.uuids + 1) (some w.clock) p
      (newJob env w userID projectID traceID key)
    obtain ⟨w2, final, ts2, evs, e, h1, h2, h3, h4, h5, h6, h7, h8, h9, h10⟩ :=
      runJobLoop_success env he (newJob env w userID projectID traceID key).ID
        (2 + 2 * p.SceneCount) _ _ _ _ hv rfl rfl rfl hgood
        (by rw [← hlen]; exact countQueued_le_length _) fuel (by omega)
    refine ⟨finishRunner w2 final, final, ts2, evs, e, ?_, h2, h3, h4, h5, h6.trans hlen, h7,
      h8, h9⟩
    unfold runJob
    simp only [h1, h10, Bool.false_eq_true, if_false, MemoryStore.GetJob, h2]

/-- The project of `TestJobSuccess` with two scenes, under the schedule in which the
workers of a wave run one after another: twenty rounds are enough for the runner to return
with the job succeeded at progress 1. -/
theorem sequential_runner_on_test_project :
    ∃ job w1 w2 final, StartJob successEnv (demoWorld 2) "u1" "p1" "trace-1" "" = (.ok job, w1) ∧
      runJob successEnv job.ID 20 w1 = some w2 ∧ w2.store.jobs job.ID = some final ∧
      final.Status = .succeeded ∧ final.Progress = 1 := by
  obtain ⟨job, w1, h1, -, h2⟩ := sequential_runner_succeeds successEnv successEnv_happy (demoWorld 2) rfl
    "u1" "p1" "trace-1" "" (demoProject 2) rfl rfl (by decide) (Or.inl rfl)
  obtain ⟨w2, final, _, _, _, h3, h4, h5, h6, -⟩ := h2 20 (by decide)
  exact ⟨job, w1, w2, final, h1, h3, h4, h5, h6⟩

/-! ## `fmt.Sprintf("%d", i)` is injective -/

theorem digitValue_digitChar (k : Nat) (h : k < 10) : digitValue (Nat.digitChar k) = k := by
  interval_cases k <;> rfl

theorem decimalValue_append (xs ys : List Char) :
    decimalValue (xs ++ ys)
      = ys.foldl (fun acc c => acc * 10 + digitValue c) (decimalValue xs) := by
  simp [decimalValue, List.foldl_append]

theorem toDigitsCore_value (fuel : Nat) :
    ∀ (n : Nat) (ds : List Char), n < fuel →
      ∃ xs, Nat.toDigitsCore 10 fuel n ds = xs ++ ds ∧ decimalValue xs = n := by
  induction fuel with
  | zero => intro n ds h; omega
  | succ f ih =>
    intro n ds h
    unfold Nat.toDigitsCore
    simp only []
    by_cases h0 : n / 10 = 0
    · simp only [h0, if_true]
      refine ⟨[Nat.digitChar (n % 10)], rfl, ?_⟩
      simp only [decimalValue, List.foldl_cons, List.foldl_nil, Nat.zero_mul, Nat.zero_add]
      rw [digitValue_digitChar _ (Nat.mod_lt _ (by decide))]
      omega
    · simp only [h0, if_false]
      obtain ⟨xs, hxs, hv⟩ := ih (n / 10) (Nat.digitChar (n % 10) :: ds) (by omega)
      refine ⟨xs ++ [Nat.digitChar (n % 10)], by rw [hxs]; simp, ?_⟩
      rw [decimalValue_append, hv]
      simp only [List.foldl_cons, List.foldl_nil]
      rw [digitValue_digitChar _ (Nat.mod_lt _ (by decide))]
      omega

theorem decimalValue_toString (n : Nat) : decimalValue (toString n).data = n := by
  obtain ⟨xs, hxs, hv⟩ := toDigitsCore_value (n + 1) n [] (by omega)
  have : (toString n).data = xs := by
    show (Nat.repr n).data = xs
    simp only [Nat.repr, Nat.toDigits, List.asString, hxs, List.append_nil]
  rw [this, hv]

theorem toString_nat_injective : Function.Injective (fun n : Nat => toString n) := by
  intro a b h
  have := congrArg (fun s : String => decimalValue s.data) h
  simpa [decimalValue_toString] using this

theorem prefixed_key_injective (pre : String) (a b : Nat)
    (h : pre ++ toString a = pre ++ toString b) : a = b := by
  apply toString_nat_injective
  have hd := congrArg String.data h
  simp only [String.data_append] at hd
  exact String.ext (List.append_cancel_left hd)

theorem image_key_ne_tts_key (a b : Nat) :
    "image_generate_" ++ toString a ≠ "tts_generate_" ++ toString b := by
  intro h
  have hd := congrArg (fun s : String => s.data.head?) h
  simp [String.data_append] at hd

theorem image_key_ne_fixed (a : Nat) :
    "image_generate_" ++ toString a ≠ "storyboard_generate" ∧
    "image_generate_" ++ toString a ≠ "compose_video" := by
  constructor <;> intro h <;>
  · have hd := congrArg (fun s : String => s.data.head?) h
    simp [String.data_append] at hd

theorem tts_key_ne_fixed (a : Nat) :
    "tts_generate_" ++ toString a ≠ "storyboard_generate" ∧
    "tts_generate_" ++ toString a ≠ "compose_video" := by
  constructor <;> intro h <;>
  · have hd := congrArg (fun s : String => s.data.head?) h
    simp [String.data_append] at hd



/-! ## The task graph of `buildTasks` (C12, C13, C14) -/

theorem buildTasks_classify (uuid : Nat → String) (u : Nat) (now : Time) (project : Project)
    (job : Job) (t : JobTask) (ht : t ∈ buildTasks uuid u now project job) :
    (t.TaskKey = "storyboard_generate" ∧ t.TaskType = .storyboard_generate ∧
      t.DependsOn = []) ∨
    (∃ i, i < project.SceneCount ∧ t.TaskKey = "image_generate_" ++ toString i ∧
      t.TaskType = .image_generate ∧ t.SceneIndex = i ∧
      t.DependsOn = ["storyboard_generate"]) ∨
    (∃ i, i < project.SceneCount ∧ t.TaskKey = "tts_generate_" ++ toString i ∧
      t.TaskType = .tts_generate ∧ t.SceneIndex = i ∧
      t.DependsOn = ["storyboard_generate"]) ∨
    (t.TaskKey = "compose_video" ∧ t.TaskType = .compose_video ∧
      t.DependsOn
        = (List.range project.SceneCount).map (fun i => "image_generate_" ++ toString i)
          ++ (List.range project.SceneCount).map (fun i => "tts_generate_" ++ toString i)) := by
  unfold buildTasks at ht
  simp only [List.mem_append, List.mem_cons, List.mem_singleton, List.mem_nil_iff, or_false,
    List.mem_flatMap, List.mem_range, sceneTasks] at ht
  rcases ht with (rfl | ⟨i, hi, rfl | rfl⟩) | rfl
  · exact Or.inl ⟨rfl, rfl, rfl⟩
  · exact Or.inr (Or.inl ⟨i, hi, rfl, rfl, rfl, rfl⟩)
  · exact Or.inr (Or.inr (Or.inl ⟨i, hi, rfl, rfl, rfl, rfl⟩))
  · exact Or.inr (Or.inr (Or.inr ⟨rfl, rfl, rfl⟩))

theorem buildTasks_has_scene (uuid : Nat → String) (u : Nat) (now : Time) (project : Project)
    (job : Job) (i : Nat) (hi : i < project.SceneCount) :
    (∃ t ∈ buildTasks uuid u now project job, t.TaskKey = "image_generate_" ++ toString i ∧
      t.TaskType = .image_generate ∧ t.SceneIndex = i ∧
      t.DependsOn = ["storyboard_generate"]) ∧
    (∃ t ∈ buildTasks uuid u now project job, t.TaskKey = "tts_generate_" ++ toString i ∧
      t.TaskType = .tts_generate ∧ t.SceneIndex = i ∧
      t.DependsOn = ["storyboard_generate"]) := by
  have hmem : ∀ t ∈ sceneTasks uuid u now job i, t ∈ buildTasks uuid u now project job := by
    intro t ht
    unfold buildTasks
    simp only [List.mem_append, List.mem_flatMap, List.mem_range]
    exact Or.inl (Or.inr ⟨i, hi, ht⟩)
  constructor
  · exact ⟨_, hmem _ (List.mem_cons_self _ _), rfl, rfl, rfl, rfl⟩
  · exact ⟨_, hmem _ (List.mem_cons_of_mem _ (List.mem_cons_self _ _)), rfl, rfl, rfl, rfl⟩

theorem buildTasks_has_ends (uuid : Nat → String) (u : Nat) (now : Time) (project : Project)
    (job : Job) :
    (∃ t ∈ buildTasks uuid u now project job, t.TaskKey = "storyboard_generate") ∧
    (∃ t ∈ buildTasks uuid u now project job, t.TaskKey = "compose_video") := by
  unfold buildTasks
  constructor
  · exact ⟨_, List.mem_append_left _ (List.mem_append_left _ (List.mem_singleton_self _)), rfl⟩
  · exact ⟨_, List.mem_append_right _ (List.mem_singleton_self _), rfl⟩

theorem sceneTasks_count (uuid : Nat → String) (u : Nat) (now : Time) (job : Job) (n : Nat) :
    (((List.range n).flatMap (sceneTasks uuid u now job)).filter
      (fun t => decide (t.TaskType = .storyboard_generate))).length = 0 ∧
    (((List.range n).flatMap (sceneTasks uuid u now job)).filter
      (fun t => decide (t.TaskType = .image_generate))).length = n ∧
    (((List.range n).flatMap (sceneTasks uuid u now job)).filter
      (fun t => decide (t.TaskType = .tts_generate))).length = n ∧
    (((List.range n).flatMap (sceneTasks uuid u now job)).filter
      (fun t => decide (t.TaskType = .compose_video))).length = 0 := by
  induction n with
  | zero => exact ⟨rfl, rfl, rfl, rfl⟩
  | succ k ih =>
    obtain ⟨h1, h2, h3, h4⟩ := ih
    rw [List.range_succ, List.flatMap_append, List.flatMap_singleton]
    simp only [List.filter_append, List.length_append, h1, h2, h3, h4]
    refine ⟨?_, ?_, ?_, ?_⟩ <;> simp [sceneTasks, List.filter_cons]

/-- C12: for every project with scene count N, `buildTasks` returns exactly 2 + 2N tasks:
one of type `storyboard_generate`, N of type `image_generate`, N of type `tts_generate` and
one of type `compose_video`; every task is queued, with attempt 0, max attempt 3, the id of
the new job, and `NextRunAt` equal to the build time. -/
theorem buildTasks_census (uuid : Nat → String) (u : Nat) (now : Time) (project : Project)
    (job : Job) :
    (buildTasks uuid u now project job).length = 2 + 2 * project.SceneCount ∧
    ((buildTasks uuid u now project job).filter
      (fun t => decide (t.TaskType = .storyboard_generate))).length = 1 ∧
    ((buildTasks uuid u now project job).filter
      (fun t => decide (t.TaskType = .image_generate))).length = project.SceneCount ∧
    ((buildTasks uuid u now project job).filter
      (fun t => decide (t.TaskType = .tts_generate))).length = project.SceneCount ∧
    ((buildTasks uuid u now project job).filter
      (fun t => decide (t.TaskType = .compose_video))).length = 1 ∧
    ∀ t ∈ buildTasks uuid u now project job,
      t.Status = .queued ∧ t.Attempt = 0 ∧ t.MaxAttempt = 3 ∧ t.JobID = job.ID ∧
      t.NextRunAt = now := by
  obtain ⟨h1, h2, h3, h4⟩ := sceneTasks_count uuid (u) now job project.SceneCount
  refine ⟨buildTasks_length uuid u now project job, ?_, ?_, ?_, ?_, ?_⟩
  · unfold buildTasks
    simp only [List.filter_append, List.length_append, h1]
    simp [List.filter_cons]
  · unfold buildTasks
    simp only [List.filter_append, List.length_append, h2]
    simp [List.filter_cons]
  · unfold buildTasks
    simp only [List.filter_append, List.length_append, h3]
    simp [List.filter_cons]
  · unfold buildTasks
    simp only [List.filter_append, List.length_append, h4]
    simp [List.filter_cons]
  · intro t ht
    unfold buildTasks at ht
    simp only [List.mem_append, List.mem_cons, List.mem_singleton, List.mem_nil_iff, or_false,
      List.mem_flatMap, List.mem_range, sceneTasks] at ht
    rcases ht with (rfl | ⟨i, _, rfl | rfl⟩) | rfl <;> exact ⟨rfl, rfl, rfl, rfl, rfl⟩



theorem scene_keys_nodup (n : Nat) :
    ((List.range n).map (fun i => "image_generate_" ++ toString i)
      ++ (List.range n).map (fun i => "tts_generate_" ++ toString i)).Nodup := by
  rw [List.nodup_append]
  refine ⟨?_, ?_, ?_⟩
  · exact List.Nodup.map (fun a b h => prefixed_key_injective _ a b h) (List.nodup_range n)
  · exact List.Nodup.map (fun a b h => prefixed_key_injective _ a b h) (List.nodup_range n)
  · intro k h1 h2
    simp only [List.mem_map, List.mem_range] at h1 h2
    obtain ⟨i, _, rfl⟩ := h1
    obtain ⟨j, _, h⟩ := h2
    exact image_key_ne_tts_key i j h.symm

/-- C13: the dependency structure of `buildTasks`, for every scene count N.  The task
with key "storyboard_generate" exists and depends on nothing; for every i below N the tasks
with keys "image_generate_i" and "tts_generate_i" (i in decimal) exist, carry scene index i
and depend on exactly ["storyboard_generate"]; the task with key "compose_video" exists and
its dependencies are exactly the keys image_generate_i and tts_generate_i for i below N,
2N keys, none repeated. -/
theorem buildTasks_dependencies (uuid : Nat → String) (u : Nat) (now : Time)
    (project : Project) (job : Job) :
    (∃ t ∈ buildTasks uuid u now project job, t.TaskKey = "storyboard_generate") ∧
    (∀ t ∈ buildTasks uuid u now project job, t.TaskKey = "storyboard_generate" →
      t.DependsOn = []) ∧
    (∀ i, i < project.SceneCount →
      (∃ t ∈ buildTasks uuid u now project job, t.TaskKey = "image_generate_" ++ toString i) ∧
      (∃ t ∈ buildTasks uuid u now project job, t.TaskKey = "tts_generate_" ++ toString i) ∧
      ∀ t ∈ buildTasks uuid u now project job,
        (t.TaskKey = "image_generate_" ++ toString i ∨
          t.TaskKey = "tts_generate_" ++ toString i) →
        t.SceneIndex = i ∧ t.DependsOn = ["storyboard_generate"]) ∧
    (∃ t ∈ buildTasks uuid u now project job, t.TaskKey = "compose_video") ∧
    (∀ t ∈ buildTasks uuid u now project job, t.TaskKey = "compose_video" →
      (∀ k, k ∈ t.DependsOn ↔
        ∃ i, i < project.SceneCount ∧
          (k = "image_generate_" ++ toString i ∨ k = "tts_generate_" ++ toString i)) ∧
      t.DependsOn.Nodup ∧ t.DependsOn.length = 2 * project.SceneCount) := by
  refine ⟨(buildTasks_has_ends uuid u now project job).1, ?_, ?_,
    (buildTasks_has_ends uuid u now project job).2, ?_⟩
  · intro t ht hk
    rcases buildTasks_classify uuid u now project job t ht with
      ⟨_, _, h⟩ | ⟨i, _, h, _⟩ | ⟨i, _, h, _⟩ | ⟨h, _⟩
    · exact h
    · rw [hk] at h; exact absurd h.symm (image_key_ne_fixed i).1
    · rw [hk] at h; exact absurd h.symm (tts_key_ne_fixed i).1
    · rw [hk] at h; exact absurd h (by decide)
  · intro i hi
    obtain ⟨⟨t1, h1, k1, _⟩, ⟨t2, h2, k2, _⟩⟩ := buildTasks_has_scene uuid u now project job i hi
    refine ⟨⟨t1, h1, k1⟩, ⟨t2, h2, k2⟩, ?_⟩
    intro t ht hk
    rcases buildTasks_classify uuid u now project job t ht with
      ⟨h, _⟩ | ⟨j, _, h, _, hs, hd⟩ | ⟨j, _, h, _, hs, hd⟩ | ⟨h, _⟩
    · rcases hk with hk | hk
      · rw [hk] at h; exact absurd h (image_key_ne_fixed i).1
      · rw [hk] at h; exact absurd h (tts_key_ne_fixed i).1
    · rcases hk with hk | hk
      · rw [hk] at h
        have := prefixed_key_injective _ i j h
        subst this
        exact ⟨hs, hd⟩
      · rw [hk] at h; exact absurd h.symm (image_key_ne_tts_key j i)
    · rcases hk with hk | hk
      · rw [hk] at h; exact absurd h (image_key_ne_tts_key i j)
      · rw [hk] at h
        have := prefixed_key_injective _ i j h
        subst this
        exact ⟨hs, hd⟩
    · rcases hk with hk | hk
      · rw [hk] at h; exact absurd h (image_key_ne_fixed i).2
      · rw [hk] at h; exact absurd h (tts_key_ne_fixed i).2
  · intro t ht hk
    rcases buildTasks_classify uuid u now project job t ht with
      ⟨h, _⟩ | ⟨i, _, h, _⟩ | ⟨i, _, h, _⟩ | ⟨_, _, h⟩
    · rw [hk] at h; exact absurd h (by decide)
    · rw [hk] at h; exact absurd h.symm (image_key_ne_fixed i).2
    · rw [hk] at h; exact absurd h.symm (tts_key_ne_fixed i).2
    · rw [h]
      refine ⟨?_, scene_keys_nodup _, ?_⟩
      · intro k
        simp only [List.mem_append, List.mem_map, List.mem_range]
        constructor
        · rintro (⟨i, hi, rfl⟩ | ⟨i, hi, rfl⟩)
          · exact ⟨i, hi, Or.inl rfl⟩
          · exact ⟨i, hi, Or.inr rfl⟩
        · rintro ⟨i, hi, rfl | rfl⟩
          · exact Or.inl ⟨i, hi, rfl⟩
          · exact Or.inr ⟨i, hi, rfl⟩
      · simp only [List.length_append, List.length_map, List.length_range]
        omega

theorem buildTasks_keys_nodup (uuid : Nat → String) (u : Nat) (now : Time) (project : Project)
    (job : Job) : ((buildTasks uuid u now project job).map (fun t => t.TaskKey)).Nodup := by
  have hkeys : (buildTasks uuid u now project job).map (fun t => t.TaskKey)
      = ["storyboard_generate"]
        ++ (List.range project.SceneCount).flatMap
            (fun i => ["image_generate_" ++ toString i, "tts_generate_" ++ toString i])
        ++ ["compose_video"] := by
    unfold buildTasks
    simp only [List.map_append, List.map_cons, List.map_nil, List.map_flatMap, sceneTasks]
  rw [hkeys, List.nodup_append, List.nodup_append]
  refine ⟨⟨List.nodup_singleton _, ?_, ?_⟩, List.nodup_singleton _, ?_⟩
  · rw [List.nodup_flatMap]
    constructor
    · intro i _
      simp only [List.nodup_cons, List.mem_singleton, List.not_mem_nil, not_false_eq_true,
        List.nodup_nil, and_true]
      exact image_key_ne_tts_key i i
    · apply List.Pairwise.imp _ (List.nodup_range _)
      intro a b hab k h1 h2
      simp only [List.mem_cons, List.mem_singleton, List.mem_nil_iff, or_false] at h1 h2
      rcases h1 with rfl | rfl <;> rcases h2 with h | h
      · exact hab (prefixed_key_injective _ a b h)
      · exact image_key_ne_tts_key a b h
      · exact image_key_ne_tts_key b a h.symm
      · exact hab (prefixed_key_injective _ a b h)
  · intro k h1 h2
    simp only [List.mem_singleton] at h1
    simp only [List.mem_flatMap, List.mem_range, List.mem_cons, List.mem_singleton,
      List.mem_nil_iff, or_false] at h2
    obtain ⟨i, _, h | h⟩ := h2
    · rw [h1] at h; exact (image_key_ne_fixed i).1 h.symm
    · rw [h1] at h; exact (tts_key_ne_fixed i).1 h.symm
  · intro k h1 h2
    simp only [List.mem_singleton] at h2
    simp only [List.mem_append, List.mem_singleton, List.mem_flatMap, List.mem_range,
      List.mem_cons, List.mem_nil_iff, or_false] at h1
    rcases h1 with h | ⟨i, _, h | h⟩
    · rw [h2] at h; exact absurd h (by decide)
    · rw [h2] at h; exact (image_key_ne_fixed i).2 h.symm
    · rw [h2] at h; exact (tts_key_ne_fixed i).2 h.symm

theorem dependsOn_layer (uuid : Nat → String) (u : Nat) (now : Time) (project : Project)
    (job : Job) (a b : JobTask)
    (h : dependsOn (buildTasks uuid u now project job) a b) : taskLayer b < taskLayer a := by
  obtain ⟨ha, hb, hdep⟩ := h
  rcases buildTasks_classify uuid u now project job a ha with
    ⟨_, _, hd⟩ | ⟨i, _, _, hty, _, hd⟩ | ⟨i, _, _, hty, _, hd⟩ | ⟨_, hty, hd⟩
  · rw [hd] at hdep; cases hdep
  · rw [hd, List.mem_singleton] at hdep
    rcases buildTasks_classify uuid u now project job b hb with
      ⟨_, hb2, _⟩ | ⟨j, _, hk, _⟩ | ⟨j, _, hk, _⟩ | ⟨hk, _⟩
    · simp [taskLayer, hty, hb2]
    · rw [hdep] at hk; exact absurd hk.symm (image_key_ne_fixed j).1
    · rw [hdep] at hk; exact absurd hk.symm (tts_key_ne_fixed j).1
    · rw [hdep] at hk; exact absurd hk (by decide)
  · rw [hd, List.mem_singleton] at hdep
    rcases buildTasks_classify uuid u now project job b hb with
      ⟨_, hb2, _⟩ | ⟨j, _, hk, _⟩ | ⟨j, _, hk, _⟩ | ⟨hk, _⟩
    · simp [taskLayer, hty, hb2]
    · rw [hdep] at hk; exact absurd hk.symm (image_key_ne_fixed j).1
    · rw [hdep] at hk; exact absurd hk.symm (tts_key_ne_fixed j).1
    · rw [hdep] at hk; exact absurd hk (by decide)
  · rw [hd] at hdep
    simp only [List.mem_append, List.mem_map, List.mem_range] at hdep
    rcases buildTasks_classify uuid u now project job b hb with
      ⟨hk, _⟩ | ⟨j, _, _, hb2, _⟩ | ⟨j, _, _, hb2, _⟩ | ⟨hk, _⟩
    · rcases hdep with ⟨i, _, h⟩ | ⟨i, _, h⟩
      · rw [hk] at h; exact absurd h (image_key_ne_fixed i).1
      · rw [hk] at h; exact absurd h (tts_key_ne_fixed i).1
    · simp [taskLayer, hty, hb2]
    · simp [taskLayer, hty, hb2]
    · rcases hdep with ⟨i, _, h⟩ | ⟨i, _, h⟩
      · rw [hk] at h; exact absurd h (image_key_ne_fixed i).2
      · rw [hk] at h; exact absurd h (tts_key_ne_fixed i).2

/-- C14: the graph of `buildTasks` is well formed, for every scene count N: the task keys
are pairwise distinct, every key listed in a `DependsOn` is the key of a task of the same
list, and no task depends, directly or through other tasks, on itself. -/
theorem buildTasks_wellformed (uuid : Nat → String) (u : Nat) (now : Time)
    (project : Project) (job : Job) :
    ((buildTasks uuid u now project job).map (fun t => t.TaskKey)).Nodup ∧
    (∀ t ∈ buildTasks uuid u now project job, ∀ d ∈ t.DependsOn,
      ∃ t2 ∈ buildTasks uuid u now project job, t2.TaskKey = d) ∧
    (∀ t, ¬ Relation.TransGen (dependsOn (buildTasks uuid u now project job)) t t) := by
  refine ⟨buildTasks_keys_nodup uuid u now project job, ?_, ?_⟩
  · intro t ht d hd
    rcases buildTasks_classify uuid u now project job t ht with
      ⟨_, _, h⟩ | ⟨i, _, _, _, _, h⟩ | ⟨i, _, _, _, _, h⟩ | ⟨_, _, h⟩
    · rw [h] at hd; cases hd
    · rw [h, List.mem_singleton] at hd
      rw [hd]; exact (buildTasks_has_ends uuid u now project job).1
    · rw [h, List.mem_singleton] at hd
      rw [hd]; exact (buildTasks_has_ends uuid u now project job).1
    · rw [h] at hd
      simp only [List.mem_append, List.mem_map, List.mem_range] at hd
      rcases hd with ⟨i, hi, rfl⟩ | ⟨i, hi, rfl⟩
      · obtain ⟨⟨t1, h1, k1, _⟩, _⟩ := buildTasks_has_scene uuid u now project job i hi
        exact ⟨t1, h1, k1⟩
      · obtain ⟨_, ⟨t2, h2, k2, _⟩⟩ := buildTasks_has_scene uuid u now project job i hi
        exact ⟨t2, h2, k2⟩
  · intro t hcyc
    have hlt : ∀ a b, Relation.TransGen (dependsOn (buildTasks uuid u now project job)) a b →
        taskLayer b < taskLayer a := by
      intro a b hab
      induction hab with
      | single h => exact dependsOn_layer uuid u now project job _ _ h
      | tail _ h ih => exact lt_trans (dependsOn_layer uuid u now project job _ _ h) ih
    exact lt_irrefl _ (hlt t t hcyc)

/-! ## Finalization (C15) -/

theorem finalRecord_cases (job : Job) (tasks : List JobTask) (now : Time) :
    (finalRecord job tasks now).ID = job.ID ∧
    ((∃ t ∈ tasks, t.Status = .failed) →
      (finalRecord job tasks now).Status = .failed ∧
      (finalRecord job tasks now).ErrorCode = "TASK_FAILED" ∧
      (finalRecord job tasks now).Retryable = true) ∧
    (¬(∃ t ∈ tasks, t.Status = .failed) →
      (job.CancelRequested = true ∨ ∃ t ∈ tasks, t.Status = .canceled) →
      (finalRecord job tasks now).Status = .canceled ∧
      (finalRecord job tasks now).ErrorCode = "CANCELED" ∧
      (finalRecord job tasks now).Retryable = false) ∧
    (¬(∃ t ∈ tasks, t.Status = .failed) →
      ¬(job.CancelRequested = true ∨ ∃ t ∈ tasks, t.Status = .canceled) →
      (finalRecord job tasks now).Status = .succeeded ∧
      (finalRecord job tasks now).ErrorCode = "" ∧
      (finalRecord job tasks now).ErrorMessage = "" ∧
      (finalRecord job tasks now).Retryable = false) := by
  have hany : ∀ st : TaskStatus, (tasks.any (fun t => decide (t.Status = st)) = true)
      ↔ ∃ t ∈ tasks, t.Status = st := by
    intro st
    simp [List.any_eq_true]
  refine ⟨?_, ?_, ?_, ?_⟩
  · unfold finalRecord
    simp only []
    split
    · rfl
    · split <;> rfl
  · intro h
    have h1 := (hany .failed).mpr h
    simp [finalRecord, h1]
  · intro h hc
    have h1 : tasks.any (fun t => decide (t.Status = .failed)) = false := by
      rw [← Bool.not_eq_true, hany]; exact h
    have h2 : (job.CancelRequested || tasks.any (fun t => decide (t.Status = .canceled)))
        = true := by
      rcases hc with hc | hc
      · simp [hc]
      · simp only [(hany .canceled).mpr hc, Bool.or_true]
    simp [finalRecord, h1, h2]
  · intro h hc
    have h1 : tasks.any (fun t => decide (t.Status = .failed)) = false := by
      rw [← Bool.not_eq_true, hany]; exact h
    have h2 : (job.CancelRequested || tasks.any (fun t => decide (t.Status = .canceled)))
        = false := by
      rw [← Bool.not_eq_true, Bool.or_eq_true, hany]; exact hc
    simp [finalRecord, h1, h2]

/-- The store after `finalizeJob`, for a job that is in the store: the terminal record is
stored under the id of the job, and one event is appended to its log, whose type is chosen
by the stored status. -/
theorem finalizeJob_effect (env : Env) (w : World) (job : Job) (tasks : List JobTask)
    (old : Job) (hj : w.store.jobs job.ID = some old) :
    ∃ e, (finalizeJob env w job tasks).store.jobs job.ID
        = some (finalRecord job tasks (some w.clock)) ∧
      (finalizeJob env w job tasks).store.tasksByJob = w.store.tasksByJob ∧
      (finalizeJob env w job tasks).store.eventsByJob job.ID
        = some ((w.store.eventsByJob job.ID).getD [] ++ [e]) ∧
      e.Typ = (match (finalRecord job tasks (some w.clock)).Status with
        | .succeeded => JobEventType.job_succeeded
        | .canceled => JobEventType.job_canceled
        | _ => JobEventType.job_failed) := by
  have hFi := (finalRecord_cases job tasks (some w.clock)).1
  unfold finalizeJob
  simp only []
  generalize finalRecord job tasks (some w.clock) = F at hFi ⊢
  obtain ⟨hu1, hu2⟩ := updateJob_ok w.store F old (by rw [hFi]; exact hj)
  have hufr := updateJob_frame w.store F
  have hjF : (w.store.UpdateJob F).2.jobs job.ID = some F := by
    rw [hu2, hFi]; simp [mapSet_apply]
  simp only [hu1]
  have hW : ∀ (W : World) (typ : JobEventType) (pl : Payload),
      W.store.jobs job.ID = some F → W.store.tasksByJob = w.store.tasksByJob →
      W.store.eventsByJob job.ID = w.store.eventsByJob job.ID →
      ∃ e, (publishEvent env W F typ pl).store.jobs job.ID = some F ∧
        (publishEvent env W F typ pl).store.tasksByJob = w.store.tasksByJob ∧
        (publishEvent env W F typ pl).store.eventsByJob job.ID
          = some ((w.store.eventsByJob job.ID).getD [] ++ [e]) ∧ e.Typ = typ := by
    intro W typ pl h1 h2 h3
    obtain ⟨e, he1, he2⟩ := publishEvent_events env W F typ pl F (by rw [hFi]; exact h1)
    rw [hFi, h3] at he1
    refine ⟨e, ?_, ?_, he1, he2⟩
    · rw [publishEvent_store, (appendJobEvent_frame _ _ _ _).2.1]; exact h1
    · rw [publishEvent_store, (appendJobEvent_frame _ _ _ _).2.2.1]; exact h2
  have hW1 : ∀ W : World, (W = { w with store := (w.store.UpdateJob F).2 } ∨
      ∃ p : Project, W = { w with store := ((w.store.UpdateJob F).2.UpdateProject p).2 }) →
      W.store.jobs job.ID = some F ∧ W.store.tasksByJob = w.store.tasksByJob ∧
      W.store.eventsByJob job.ID = w.store.eventsByJob job.ID := by
    intro W hWd
    rcases hWd with rfl | ⟨p, rfl⟩
    · exact ⟨hjF, hufr.2.1, by rw [hufr.2.2.1]⟩
    · refine ⟨?_, ?_, ?_⟩
      · show (MemoryStore.UpdateProject _ _).2.jobs job.ID = _
        rw [(updateProject_frame _ _).1]; exact hjF
      · show (MemoryStore.UpdateProject _ _).2.tasksByJob = _
        rw [(updateProject_frame _ _).2.1]; exact hufr.2.1
      · show (MemoryStore.UpdateProject _ _).2.eventsByJob job.ID = _
        rw [(updateProject_frame _ _).2.2.1, hufr.2.2.1]
  cases hs : F.Status <;> simp only [] <;> split <;>
    first
    | exact hW _ _ _ (hW1 _ (Or.inl rfl)).1 (hW1 _ (Or.inl rfl)).2.1 (hW1 _ (Or.inl rfl)).2.2
    | exact hW _ _ _ (hW1 _ (Or.inr ⟨_, rfl⟩)).1 (hW1 _ (Or.inr ⟨_, rfl⟩)).2.1
        (hW1 _ (Or.inr ⟨_, rfl⟩)).2.2

/-- C15: the finalization rule, for every task list (in particular every list whose tasks
are all terminal) and every job that is in the store.  `finalizeJob` stores the job with
status failed, error code TASK_FAILED and retryable true if some task is failed, whatever
the cancel flag and the other tasks; otherwise with status canceled, error code CANCELED and
retryable false if the cancel flag of the job is set or some task is canceled; otherwise
with status succeeded and empty error fields.  It appends exactly one event to the log of
the job, of type job_failed, job_canceled or job_succeeded respectively. -/
theorem finalizeJob_rule (env : Env) (w : World) (job : Job) (tasks : List JobTask)
    (old : Job) (hj : w.store.jobs job.ID = some old) :
    ∃ F e, (finalizeJob env w job tasks).store.jobs job.ID = some F ∧
      (finalizeJob env w job tasks).store.eventsByJob job.ID
        = some ((w.store.eventsByJob job.ID).getD [] ++ [e]) ∧
      ((∃ t ∈ tasks, t.Status = .failed) →
        F.Status = .failed ∧ F.ErrorCode = "TASK_FAILED" ∧ F.Retryable = true ∧
        e.Typ = .job_failed) ∧
      (¬(∃ t ∈ tasks, t.Status = .failed) →
        (job.CancelRequested = true ∨ ∃ t ∈ tasks, t.Status = .canceled) →
        F.Status = .canceled ∧ F.ErrorCode = "CANCELED" ∧ F.Retryable = false ∧
        e.Typ = .job_canceled) ∧
      (¬(∃ t ∈ tasks, t.Status = .failed) →
        ¬(job.CancelRequested = true ∨ ∃ t ∈ tasks, t.Status = .canceled) →
        F.Status = .succeeded ∧ F.ErrorCode = "" ∧ F.ErrorMessage = "" ∧
        e.Typ = .job_succeeded) := by
  obtain ⟨e, h1, -, h3, h4⟩ := finalizeJob_effect env w job tasks old hj
  obtain ⟨-, c1, c2, c3⟩ := finalRecord_cases job tasks (some w.clock)
  refine ⟨_, e, h1, h3, ?_, ?_, ?_⟩
  · intro h
    obtain ⟨a, b, c⟩ := c1 h
    rw [a] at h4
    exact ⟨a, b, c, h4⟩
  · intro h hc
    obtain ⟨a, b, c⟩ := c2 h hc
    rw [a] at h4
    exact ⟨a, b, c, h4⟩
  · intro h hc
    obtain ⟨a, b, c, -⟩ := c3 h hc
    rw [a] at h4
    exact ⟨a, b, c, h4⟩

/-- C15, on a service that holds the job "j1": finalizing it with the cancel flag set, one
failed task and one canceled task stores it as failed, and appends `job_failed`. -/
theorem finalizeJob_rule_witness :
    ∃ F e, (finalizeJob demoEnv demoJobWorld { demoJob with CancelRequested := true }
        [demoTask "a" .failed, demoTask "b" .canceled]).store.jobs "j1" = some F ∧
      (finalizeJob demoEnv demoJobWorld { demoJob with CancelRequested := true }
        [demoTask "a" .failed, demoTask "b" .canceled]).store.eventsByJob "j1" = some [e] ∧
      F.Status = .failed ∧ F.ErrorCode = "TASK_FAILED" ∧ e.Typ = .job_failed := by
  obtain ⟨F, e, h1, h2, h3, -⟩ := finalizeJob_rule demoEnv demoJobWorld
    { demoJob with CancelRequested := true } [demoTask "a" .failed, demoTask "b" .canceled]
    demoJob rfl
  obtain ⟨a, b, -, d⟩ := h3 ⟨demoTask "a" .failed, by simp, rfl⟩
  exact ⟨F, e, h1, h2, a, b, d⟩

/-! ## Retry (C11) -/

theorem retryResetTask_spec (t : JobTask) :
    ((t.Status = .failed ∨ t.Status = .canceled) →
      (retryResetTask t).Status = .queued ∧ (retryResetTask t).ErrorCode = "" ∧
      (retryResetTask t).ErrorMsg = "" ∧ (retryResetTask t).Retryable = false ∧
      (retryResetTask t).StartedAt = none ∧ (retryResetTask t).EndedAt = none ∧
      (retryResetTask t).NextRunAt = none ∧ (retryResetTask t).Attempt = t.Attempt ∧
      (retryResetTask t).ID = t.ID ∧ (retryResetTask t).JobID = t.JobID ∧
      (retryResetTask t).TaskKey = t.TaskKey ∧ (retryResetTask t).TaskType = t.TaskType ∧
      (retryResetTask t).MaxAttempt = t.MaxAttempt ∧
      (retryResetTask t).DependsOn = t.DependsOn ∧ (retryResetTask t).Input = t.Input ∧
      (retryResetTask t).Output = t.Output) ∧
    (¬(t.Status = .failed ∨ t.Status = .canceled) → retryResetTask t = t) := by
  constructor
  · intro h
    simp [retryResetTask, h]
  · intro h
    simp [retryResetTask, h]

/-- The admitted branch of `RetryJob`, as an equation. -/
theorem RetryJob_admitted (env : Env) (w : World) (traceID : String) (job : Job)
    (tasks : List JobTask) (hj : w.store.jobs job.ID = some job)
    (ht : w.store.tasksByJob job.ID = some tasks)
    (hst : job.Status = .failed ∨ job.Status = .canceled)
    (hcap : w.runningByUser job.UserID < w.maxUserJobs) :
    RetryJob env w job.UserID job.ID traceID
      = (.ok { job with
            Status := .queued, Progress := calcProgress (tasks.map retryResetTask)
            CancelRequested := false, ErrorCode := "", ErrorMessage := "", Retryable := false
            TraceID := traceID, StartedAt := none, EndedAt := none },
          startRunnerIfNeeded
            (publishEvent env
              { w with
                store := ((w.store.ReplaceJobTasks job.ID (tasks.map retryResetTask)).2.UpdateJob
                  { job with
                    Status := .queued, Progress := calcProgress (tasks.map retryResetTask)
                    CancelRequested := false, ErrorCode := "", ErrorMessage := ""
                    Retryable := false, TraceID := traceID, StartedAt := none
                    EndedAt := none }).2 }
              { job with
                Status := .queued, Progress := calcProgress (tasks.map retryResetTask)
                CancelRequested := false, ErrorCode := "", ErrorMessage := "", Retryable := false
                TraceID := traceID, StartedAt := none, EndedAt := none }
              .job_created [("status", .str "retry_queued")])
            { job with
              Status := .queued, Progress := calcProgress (tasks.map retryResetTask)
              CancelRequested := false, ErrorCode := "", ErrorMessage := "", Retryable := false
              TraceID := traceID, StartedAt := none, EndedAt := none }) := by
  have hst2 : ¬(job.Status ≠ .failed ∧ job.Status ≠ .canceled) := by
    rcases hst with h | h <;> simp [h]
  have hcap2 : ¬(w.runningByUser job.UserID ≥ w.maxUserJobs) := by omega
  obtain ⟨hr1, -⟩ := replaceJobTasks_ok w.store job.ID (tasks.map retryResetTask) tasks ht
  have hj2 : (w.store.ReplaceJobTasks job.ID (tasks.map retryResetTask)).2.jobs job.ID
      = some job := by
    rw [(replaceJobTasks_frame _ _ _).2.1]; exact hj
  have hup : ∀ j2 : Job, j2.ID = job.ID →
      ((w.store.ReplaceJobTasks job.ID (tasks.map retryResetTask)).2.UpdateJob j2).1
        = .ok () :=
    fun j2 h => (updateJob_ok _ j2 job (by rw [h]; exact hj2)).1
  unfold RetryJob
  simp only [MemoryStore.GetJob, hj, ne_eq, not_true_eq_false, if_false, hst2, hcap2,
    MemoryStore.GetJobTasks, ht, hr1]
  split
  · rename_i e he
    have h2 := (hup _ (by rfl)).symm.trans he
    cases h2
  · rfl

/-- C11: the postcondition of an admitted `RetryJob` in a reachable store (the job is
owned by the caller, failed or canceled, and the cap is not reached).  The stored task list
has the tasks of the old one in the same order, where every task that was failed or
canceled is now queued with error code and message empty, retryable false, `StartedAt`,
`EndedAt` and `NextRunAt` cleared and `Attempt` (and every identifying field) as before,
and every other task is unchanged.  The job is returned and stored with status queued,
progress `calcProgress` of the new list (the `float64` quotient of its terminal tasks by
its tasks, which is the exact ratio with a relative error of at most `2 ^ (-53)`), cancel
flag false, error fields empty, retryable false, `StartedAt` and `EndedAt` cleared, the
given trace id, and its id, owner, project, idempotency key and creation time as before. -/
theorem retryJob_postcondition (env : Env) (w : World) (hr : w.store.Reachable)
    (userID jobID traceID : String) (job : Job) (hj : w.store.jobs jobID = some job)
    (hu : job.UserID = userID) (hst : job.Status = .failed ∨ job.Status = .canceled)
    (hcap : w.runningByUser userID < w.maxUserJobs) :
    ∃ tasks newTasks J, w.store.tasksByJob jobID = some tasks ∧
      (RetryJob env w userID jobID traceID).1 = .ok J ∧
      (RetryJob env w userID jobID traceID).2.store.tasksByJob jobID = some newTasks ∧
      List.Forall₂ (fun t r =>
        ((t.Status = .failed ∨ t.Status = .canceled) →
          r.Status = .queued ∧ r.ErrorCode = "" ∧ r.ErrorMsg = "" ∧ r.Retryable = false ∧
          r.StartedAt = none ∧ r.EndedAt = none ∧ r.NextRunAt = none ∧
          r.Attempt = t.Attempt ∧ r.ID = t.ID ∧ r.JobID = t.JobID ∧ r.TaskKey = t.TaskKey ∧
          r.TaskType = t.TaskType ∧ r.MaxAttempt = t.MaxAttempt ∧
          r.DependsOn = t.DependsOn ∧ r.Input = t.Input ∧ r.Output = t.Output) ∧
        (¬(t.Status = .failed ∨ t.Status = .canceled) → r = t)) tasks newTasks ∧
      (RetryJob env w userID jobID traceID).2.store.jobs jobID = some J ∧
      J.Status = .queued ∧
      J.Progress = calcProgress newTasks ∧
      |J.Progress - terminalRatio newTasks| * 2 ^ 53 ≤ terminalRatio newTasks ∧
      J.CancelRequested = false ∧ J.ErrorCode = "" ∧ J.ErrorMessage = "" ∧
      J.Retryable = false ∧ J.StartedAt = none ∧ J.EndedAt = none ∧ J.TraceID = traceID ∧
      J.ID = job.ID ∧ J.UserID = job.UserID ∧ J.ProjectID = job.ProjectID ∧
      J.IdempotencyKey = job.IdempotencyKey ∧ J.CreatedAt = job.CreatedAt := by
  have hwf := wf_of_reachable _ hr
  have hid : job.ID = jobID := hwf.job_id _ _ hj
  subst hid
  subst hu
  have hts : (w.store.tasksByJob job.ID).isSome = true := by
    rw [hwf.tasks_iff, hj]; rfl
  obtain ⟨tasks, ht⟩ := Option.isSome_iff_exists.mp hts
  have heq := RetryJob_admitted env w traceID job tasks hj ht hst hcap
  obtain ⟨-, hr2⟩ := replaceJobTasks_ok w.store job.ID (tasks.map retryResetTask) tasks ht
  have hj2 : (w.store.ReplaceJobTasks job.ID (tasks.map retryResetTask)).2.jobs job.ID
      = some job := by
    rw [(replaceJobTasks_frame _ _ _).2.1]; exact hj
  have hfst : (RetryJob env w job.UserID job.ID traceID).1
      = .ok { job with
          Status := .queued, Progress := calcProgress (tasks.map retryResetTask)
          CancelRequested := false, ErrorCode := "", ErrorMessage := "", Retryable := false
          TraceID := traceID, StartedAt := none, EndedAt := none } := by
    rw [heq]
  have hsnd : (RetryJob env w job.UserID job.ID traceID).2.store
      = (publishEvent env
          { w with
            store := ((w.store.ReplaceJobTasks job.ID (tasks.map retryResetTask)).2.UpdateJob
              { job with
                Status := .queued, Progress := calcProgress (tasks.map retryResetTask)
                CancelRequested := false, ErrorCode := "", ErrorMessage := ""
                Retryable := false, TraceID := traceID, StartedAt := none
                EndedAt := none }).2 }
          { job with
            Status := .queued, Progress := calcProgress (tasks.map retryResetTask)
            CancelRequested := false, ErrorCode := "", ErrorMessage := "", Retryable := false
            TraceID := traceID, StartedAt := none, EndedAt := none }
          .job_created [("status", .str "retry_queued")]).store := by
    rw [heq]
    exact startRunnerIfNeeded_store _ _
  refine ⟨tasks, tasks.map retryResetTask, _, ht, hfst, ?_, ?_, ?_, rfl,
    rfl, calcProgress_error _, rfl, rfl, rfl, rfl, rfl, rfl, rfl, rfl, rfl, rfl, rfl, rfl⟩
  · rw [hsnd, publishEvent_store, (appendJobEvent_frame _ _ _ _).2.2.1]
    show (MemoryStore.UpdateJob _ _).2.tasksByJob job.ID = _
    rw [(updateJob_frame _ _).2.1, hr2]
    simp [mapSet_apply]
  · rw [List.forall₂_map_right_iff, List.forall₂_same]
    intro t _
    exact retryResetTask_spec t
  · rw [hsnd, publishEvent_store, (appendJobEvent_frame _ _ _ _).2.1]
    have hup2 : ∀ j2 : Job, j2.ID = job.ID →
        ((w.store.ReplaceJobTasks job.ID (tasks.map retryResetTask)).2.UpdateJob j2).2.jobs
          job.ID = some j2 := by
      intro j2 h
      rw [(updateJob_ok _ j2 job (by rw [h]; exact hj2)).2, h]
      simp [mapSet_apply]
    exact hup2 _ rfl

theorem failedJobWorld_reachable : failedJobWorld.store.Reachable :=
  MemoryStore.Reachable.step
    (.createJob failedJob [demoTask "a" .succeeded, demoTask "b" .failed] "")
    (MemoryStore.Reachable.step (.createProject (demoProject 1)) .init)

/-- C11, on a service that holds the failed job "j1" with a succeeded task "a" and a failed
task "b": after the retry the job is queued under the new trace, task "a" is as it was and
task "b" is queued. -/
theorem retryJob_postcondition_witness :
    ∃ J r, (RetryJob demoEnv failedJobWorld "u1" "j1" "t2").1 = .ok J ∧
      J.Status = .queued ∧ J.TraceID = "t2" ∧
      (RetryJob demoEnv failedJobWorld "u1" "j1" "t2").2.store.tasksByJob "j1"
        = some [demoTask "a" .succeeded, r] ∧
      r.Status = .queued ∧ r.Attempt = 1 := by
  obtain ⟨tasks, newTasks, J, h1, h2, h3, h4, -, h6, -, -, -, -, -, -, -, -, h7, -⟩ :=
    retryJob_postcondition demoEnv failedJobWorld failedJobWorld_reachable "u1" "j1" "t2"
      failedJob rfl rfl (Or.inl rfl) (by decide)
  have h0 : failedJobWorld.store.tasksByJob "j1"
      = some [demoTask "a" .succeeded, demoTask "b" .failed] := rfl
  rw [h0] at h1
  cases h1
  cases h4 with
  | cons ha hrest =>
    cases hrest with
    | cons hb hnil =>
      cases hnil
      rename_i ra rb
      have e1 := ha.2 (by decide)
      subst e1
      obtain ⟨s1, -, -, -, -, -, -, s2, -⟩ := hb.1 (Or.inl rfl)
      exact ⟨J, rb, h2, h6, h7, h3, s1, s2⟩

/-! ## Event hub (C20) -/

theorem publishedFor_cons (j : String) (a : HubAction) (acts : List HubAction) :
    publishedFor j (a :: acts) = publishedFor j [a] ++ publishedFor j acts := by
  unfold publishedFor
  rw [← List.filterMap_append]
  rfl

theorem hubInv_step (h : Hub) (pub : String → List JobEvent) (hi : HubInv h pub)
    (a : HubAction) : HubInv (h.step a) (fun j => pub j ++ publishedFor j [a]) := by
  intro j subs id s hs hm
  cases a with
  | subscribe jobID buf subID =>
    have hp : publishedFor j [HubAction.subscribe jobID buf subID] = [] := rfl
    simp only [hp, List.append_nil]
    simp only [Hub.step, Hub.Subscribe, mapSet_apply] at hs
    split at hs
    · cases hs
      rw [List.mem_append, List.mem_singleton] at hm
      rcases hm with hm | hm
      · rw [List.mem_filter] at hm
        rename_i hj
        cases hsub : h.subs jobID with
        | none => rw [hsub] at hm; simp at hm
        | some old =>
          rw [hsub] at hm
          rw [hj]
          exact hi jobID old id s hsub hm.1
      · cases hm
        exact ⟨List.nil_sublist _, Nat.zero_le _⟩
    · exact hi j subs id s hs hm
  | unsubscribe jobID subID =>
    have hp : publishedFor j [HubAction.unsubscribe jobID subID] = [] := rfl
    simp only [hp, List.append_nil]
    simp only [Hub.step, Hub.unsubscribe] at hs
    split at hs
    · exact hi j subs id s hs hm
    · rename_i old hold
      split at hs
      · exact hi j subs id s hs hm
      · split at hs
        · simp only at hs
          split at hs
          · cases hs
          · exact hi j subs id s hs hm
        · simp only [mapSet_apply] at hs
          split at hs
          · cases hs
            rename_i hj
            rw [List.mem_filter] at hm
            rw [hj]
            exact hi jobID old id s hold hm.1
          · exact hi j subs id s hs hm
  | publish jobID evt =>
    simp only [Hub.step, Hub.Publish] at hs
    by_cases hj : j = jobID
    · subst hj
      have hp : publishedFor j [HubAction.publish j evt] = [evt] := by
        simp [publishedFor]
      simp only [hp]
      cases hold : h.subs j with
      | none =>
        rw [hold] at hs
        simp only at hs
        rw [hold] at hs
        cases hs
      | some old =>
        rw [hold] at hs
        simp only [mapSet_apply, if_true] at hs
        cases hs
        rw [List.mem_map] at hm
        obtain ⟨p, hp1, hp2⟩ := hm
        cases hp2
        obtain ⟨h1, h2⟩ := hi j old p.1 p.2 hold hp1
        unfold Sink.offer
        split
        · rename_i hlt
          refine ⟨?_, ?_⟩
          · show (p.2.taken ++ (p.2.queue ++ [evt])).Sublist _
            rw [← List.append_assoc]
            exact List.Sublist.append h1 (List.Sublist.refl _)
          · show (p.2.queue ++ [evt]).length ≤ p.2.cap
            simp only [List.length_append, List.length_singleton]
            omega
        · exact ⟨h1.trans (List.sublist_append_left _ _), h2⟩
    · have hp : publishedFor j [HubAction.publish jobID evt] = [] := by
        simp [publishedFor, Ne.symm hj]
      simp only [hp, List.append_nil]
      split at hs
      · exact hi j subs id s hs hm
      · simp only [mapSet_apply, hj, if_false] at hs
        exact hi j subs id s hs hm
  | receive jobID subID =>
    have hp : publishedFor j [HubAction.receive jobID subID] = [] := rfl
    simp only [hp, List.append_nil]
    simp only [Hub.step, Hub.receive] at hs
    split at hs
    · exact hi j subs id s hs hm
    · rename_i old hold
      simp only [mapSet_apply] at hs
      split at hs
      · cases hs
        rename_i hj
        rw [hj]
        rw [List.mem_map] at hm
        obtain ⟨p, hp1, hp2⟩ := hm
        obtain ⟨h1, h2⟩ := hi jobID old p.1 p.2 hold hp1
        split at hp2
        · cases hp2
          unfold Sink.recv
          split
          · exact ⟨h1, h2⟩
          · rename_i e rest hq
            rw [hq] at h1 h2
            refine ⟨?_, ?_⟩
            · show ((p.2.taken ++ [e]) ++ rest).Sublist _
              rw [List.append_assoc]
              exact h1
            · show rest.length ≤ p.2.cap
              simp only [List.length_cons] at h2
              omega
        · cases hp2
          exact ⟨h1, h2⟩
      · exact hi j subs id s hs hm

theorem hubInv_run (acts : List HubAction) (h : Hub) (pub : String → List JobEvent)
    (hi : HubInv h pub) : HubInv (h.run acts) (fun j => pub j ++ publishedFor j acts) := by
  induction acts generalizing h pub with
  | nil =>
    have : (fun j => pub j ++ publishedFor j []) = pub := by
      funext j
      simp [publishedFor]
    rw [this]
    exact hi
  | cons a rest ih =>
    have h1 := ih (h.step a) _ (hubInv_step h pub hi a)
    have : (fun j => pub j ++ publishedFor j (a :: rest))
        = (fun j => (pub j ++ publishedFor j [a]) ++ publishedFor j rest) := by
      funext j
      rw [publishedFor_cons, List.append_assoc]
    rw [this]
    exact h1

/-- C20: `Publish` on the hub, each subscriber channel being a FIFO queue bounded by its
buffer depth.  When the job has subscribers, `Publish jobID e` appends `e` at the end of
the queue of every sink of the job that has free space and leaves every full sink of the
job as it is; it leaves the subscribers of every other job as they are, and it is the
identity when the job has no subscriber (it is a total function: it always returns).
Consequently, after any sequence of subscribe, unsubscribe, publish and receive actions on
a new hub, the events a sink has delivered and still buffers, in this order, are a
subsequence of the events published for its job, in publish order, and the buffer never
exceeds its depth. -/
theorem hub_publish_bounded_fifo :
    (∀ (h : Hub) (jobID : String) (e : JobEvent) (subs : List (String × Sink)),
      h.subs jobID = some subs →
      (h.Publish jobID e).subs jobID
        = some (subs.map (fun p =>
            (p.1, if p.2.queue.length < p.2.cap then { p.2 with queue := p.2.queue ++ [e] }
              else p.2)))) ∧
    (∀ (h : Hub) (jobID : String) (e : JobEvent) (j : String), j ≠ jobID →
      (h.Publish jobID e).subs j = h.subs j) ∧
    (∀ (h : Hub) (jobID : String) (e : JobEvent), h.subs jobID = none →
      (h.Publish jobID e).subs = h.subs) ∧
    (∀ (acts : List HubAction) (j : String) (subs : List (String × Sink)) (id : String)
      (s : Sink), (NewHub.run acts).subs j = some subs → (id, s) ∈ subs →
      (s.taken ++ s.queue).Sublist (publishedFor j acts) ∧ s.queue.length ≤ s.cap) := by
  refine ⟨?_, ?_, ?_, ?_⟩
  · intro h jobID e subs hs
    simp only [Hub.Publish, hs, mapSet_apply, if_true]
    rfl
  · intro h jobID e j hj
    unfold Hub.Publish
    split
    · rfl
    · simp only [mapSet_apply, hj, if_false]
  · intro h jobID e hs
    simp only [Hub.Publish, hs]
  · intro acts j subs id s hs hm
    have h0 : HubInv NewHub (fun _ => []) := by
      intro j subs id s hs _
      cases hs
    have h1 := hubInv_run acts NewHub _ h0 j subs id s hs hm
    simpa using h1

/-- C20, on a hub with one subscriber of depth 1 for job "j1": of two events published in
a row the first is buffered and the second is dropped. -/
theorem hub_publish_bounded_fifo_witness :
    ((NewHub.Subscribe "j1" 1 "s1").Publish "j1" (demoEvent 1)).subs "j1"
      = some [("s1", { cap := 1, queue := [demoEvent 1], taken := [] })] ∧
    (((NewHub.Subscribe "j1" 1 "s1").Publish "j1" (demoEvent 1)).Publish
      "j1" (demoEvent 2)).subs "j1"
      = some [("s1", { cap := 1, queue := [demoEvent 1], taken := [] })] := by
  constructor
  · exact hub_publish_bounded_fifo.1 (NewHub.Subscribe "j1" 1 "s1") "j1" _ _ rfl
  · exact hub_publish_bounded_fifo.1
      ((NewHub.Subscribe "j1" 1 "s1").Publish "j1" (demoEvent 1))
      "j1" _ _ rfl

/-! ## Frames of the runner steps -/

theorem frame_refl (ex : Option String) (w : World) (hwf : w.store.WF) : Frame ex w w :=
  ⟨hwf, ⟨rfl, rfl, rfl⟩, fun h => h, fun _ => rfl, fun _ _ => rfl, fun _ _ => rfl,
    fun _ => rfl⟩

theorem frame_trans (ex : Option String) (w1 w2 w3 : World) (h1 : Frame ex w1 w2)
    (h2 : Frame ex w2 w3) : Frame ex w1 w3 :=
  ⟨h2.wf,
    ⟨h2.sched.1.trans h1.sched.1, h2.sched.2.1.trans h1.sched.2.1,
      h2.sched.2.2.trans h1.sched.2.2⟩,
    fun h => h1.calm (h2.calm h),
    fun j => (h2.term j).trans (h1.term j),
    fun j hj => (h2.prog j hj).trans (h1.prog j hj),
    fun j hj => (h2.tasks j hj).trans (h1.tasks j hj),
    fun j => (h2.owner j).trans (h1.owner j)⟩

theorem frame_mono (ex : Option String) (w w2 : World) (h : Frame none w w2) : Frame ex w w2 :=
  ⟨h.wf, h.sched, h.calm, h.term, fun j _ => h.prog j (by simp),
    fun j _ => h.tasks j (by simp), h.owner⟩

/-- A step that leaves the jobs and the task lists of the store as they are. -/
theorem frame_of_same (ex : Option String) (w w2 : World) (hwf : w2.store.WF)
    (hs : SchedSame w w2) (hc : w2.panicked = false → w.panicked = false)
    (hj : w2.store.jobs = w.store.jobs) (ht : w2.store.tasksByJob = w.store.tasksByJob) :
    Frame ex w w2 :=
  ⟨hwf, hs, hc, fun j => by rw [hj], fun j _ => by rw [hj], fun j _ => by rw [ht],
    fun j => by rw [hj]⟩

theorem frame_publishEvent (ex : Option String) (env : Env) (w : World) (hwf : w.store.WF)
    (job : Job) (t : JobEventType) (p : Payload) : Frame ex w (publishEvent env w job t p) := by
  have hs := publishEvent_sched env w job t p
  apply frame_of_same ex w _ (publishEvent_wf env w job t p hwf) ⟨hs.1, hs.2.1, hs.2.2.1⟩
  · intro h
    rw [hs.2.2.2.2.1] at h
    exact h
  · rw [publishEvent_store, (appendJobEvent_frame _ _ _ _).2.1]
  · rw [publishEvent_store, (appendJobEvent_frame _ _ _ _).2.2.1]

theorem frame_createAsset (ex : Option String) (w : World) (hwf : w.store.WF) (a : Asset) :
    Frame ex w { w with store := (w.store.CreateAsset a).2 } :=
  frame_of_same ex w _ (wf_createAsset _ hwf a) ⟨rfl, rfl, rfl⟩ (fun h => h)
    (createAsset_frame _ _).2.1 (createAsset_frame _ _).2.2.1

/-- Storing a record for a job that keeps it terminal or non-terminal, keeps its owner
and, unless the job is the exempt one, keeps its progress. -/
theorem frame_updateJob (ex : Option String) (w : World) (hwf : w.store.WF) (J old : Job)
    (hold : w.store.jobs J.ID = some old)
    (hterm : isJobTerminal J.Status = isJobTerminal old.Status)
    (hprog : some J.ID ≠ ex → J.Progress = old.Progress)
    (howner : J.UserID = old.UserID) :
    Frame ex w { w with store := (w.store.UpdateJob J).2 } := by
  obtain ⟨-, h2⟩ := updateJob_ok w.store J old hold
  refine ⟨wf_updateJob _ hwf J, ⟨rfl, rfl, rfl⟩, fun h => h, ?_, ?_, ?_, ?_⟩
  rotate_right
  · intro j
    show ((w.store.UpdateJob J).2.jobs j).map _ = _
    rw [h2, mapSet_apply]
    split
    · rename_i hj
      rw [hj, hold]
      simp [howner]
    · rfl
  · intro j
    show ((w.store.UpdateJob J).2.jobs j).map _ = _
    rw [h2, mapSet_apply]
    split
    · rename_i hj
      rw [hj, hold]
      simp [hterm]
    · rfl
  · intro j hj
    show ((w.store.UpdateJob J).2.jobs j).map _ = _
    rw [h2, mapSet_apply]
    split
    · rename_i hj2
      rw [hj2, hold]
      rw [hj2] at hj
      simp [hprog hj]
    · rfl
  · intro j _
    show (w.store.UpdateJob J).2.tasksByJob j = _
    rw [(updateJob_frame _ _).2.1]

theorem frame_replaceJobTasks (w : World) (hwf : w.store.WF) (jid : String)
    (ts : List JobTask) :
    Frame (some jid) w { w with store := (w.store.ReplaceJobTasks jid ts).2 } := by
  refine ⟨wf_replaceJobTasks _ hwf jid ts, ⟨rfl, rfl, rfl⟩, fun h => h, ?_, ?_, ?_, ?_⟩
  rotate_right
  · intro j
    show ((w.store.ReplaceJobTasks jid ts).2.jobs j).map _ = _
    rw [(replaceJobTasks_frame _ _ _).2.1]
  · intro j
    show ((w.store.ReplaceJobTasks jid ts).2.jobs j).map _ = _
    rw [(replaceJobTasks_frame _ _ _).2.1]
  · intro j _
    show ((w.store.ReplaceJobTasks jid ts).2.jobs j).map _ = _
    rw [(replaceJobTasks_frame _ _ _).2.1]
  · intro j hj
    show (w.store.ReplaceJobTasks jid ts).2.tasksByJob j = _
    unfold MemoryStore.ReplaceJobTasks
    split
    · rfl
    · simp only [mapSet_apply]
      rw [if_neg]
      intro h
      exact hj (by rw [h])

theorem frame_updateTask (w : World) (hwf : w.store.WF) (jid tid : String)
    (fn : JobTask → JobTask) : Frame (some jid) w (updateTask w jid tid fn).2 := by
  unfold updateTask
  split
  · exact frame_refl _ w hwf
  · split
    · exact frame_refl _ w hwf
    · exact frame_replaceJobTasks w hwf jid _

theorem frame_updateProgress (env : Env) (w : World) (hwf : w.store.WF) (jid : String) :
    Frame (some jid) w (updateProgress env w jid) := by
  unfold updateProgress
  split
  · exact frame_refl _ w hwf
  · rename_i job hjob
    split
    · exact frame_refl _ w hwf
    · rename_i tasks _
      have hj : w.store.jobs jid = some job := by
        unfold MemoryStore.GetJob at hjob
        split at hjob
        · cases hjob
        · rename_i j hj
          cases hjob
          exact hj
      have hid : job.ID = jid := hwf.job_id _ _ hj
      have h1 := frame_updateJob (some jid) w hwf { job with Progress := calcProgress tasks } job
        (by show w.store.jobs job.ID = some job; rw [hid]; exact hj) rfl
        (fun h => absurd (by show some job.ID = some jid; rw [hid]) h) rfl
      exact frame_trans _ _ _ _ h1 (frame_publishEvent _ env _ h1.wf _ _ _)

theorem frame_CancelJob (ex : Option String) (env : Env) (w : World) (hwf : w.store.WF)
    (userID jobID : String) : Frame ex w (CancelJob env w userID jobID).2 := by
  unfold CancelJob
  split
  · exact frame_refl _ w hwf
  · rename_i job hjob
    have hj : w.store.jobs jobID = some job := by
      unfold MemoryStore.GetJob at hjob
      split at hjob
      · cases hjob
      · rename_i j hj
        cases hjob
        exact hj
    have hid : job.ID = jobID := hwf.job_id _ _ hj
    split
    · exact frame_refl _ w hwf
    · split
      · exact frame_refl _ w hwf
      · have h1 := frame_updateJob ex w hwf { job with CancelRequested := true } job
          (by show w.store.jobs job.ID = some job; rw [hid]; exact hj) rfl (fun _ => rfl) rfl
        simp only []
        split
        · exact h1
        · exact frame_trans _ _ _ _ h1 (frame_publishEvent _ env _ h1.wf _ _ _)

theorem frame_cancels (ex : Option String) (env : Env) (cs : List (String × String))
    (w : World) (hwf : w.store.WF) :
    Frame ex w (cs.foldl (fun v c => (CancelJob env v c.1 c.2).2) w) := by
  induction cs generalizing w with
  | nil => exact frame_refl _ w hwf
  | cons c rest ih =>
    have h1 := frame_CancelJob ex env w hwf c.1 c.2
    exact frame_trans _ _ _ _ h1 (ih _ h1.wf)

theorem frame_suspend (ex : Option String) (env : Env) (w : World) (hwf : w.store.WF)
    (dur : Nat) : Frame ex w (suspend env w dur) := by
  have h1 := frame_cancels ex env (env.cancels w.ticks) w hwf
  unfold suspend
  exact frame_trans _ _ _ _ h1
    (frame_of_same ex _ _ h1.wf ⟨rfl, rfl, rfl⟩ (fun h => h) rfl rfl)

theorem frame_sleepWithCancelLoop (ex : Option String) (env : Env) (jobID : String)
    (deadline polls : Nat) (w : World) (hwf : w.store.WF) :
    Frame ex w (sleepWithCancelLoop env jobID deadline polls w).2 := by
  induction polls generalizing w with
  | zero => exact frame_refl _ w hwf
  | succ n ih =>
    unfold sleepWithCancelLoop
    split
    · split
      · exact frame_refl _ w hwf
      · have h1 := frame_suspend ex env w hwf 100000000
        exact frame_trans _ _ _ _ h1 (ih _ h1.wf)
    · exact frame_refl _ w hwf

theorem frame_sleepWithCancel (ex : Option String) (env : Env) (w : World) (hwf : w.store.WF)
    (jobID : String) (d : Nat) : Frame ex w (sleepWithCancel env w jobID d).2 :=
  frame_sleepWithCancelLoop ex env jobID _ _ w hwf

theorem frame_markTaskCanceled (w : World) (hwf : w.store.WF) (jid tid code msg : String) :
    Frame (some jid) w (markTaskCanceled w jid tid code msg) :=
  frame_updateTask w hwf jid tid _

theorem frame_failTask (env : Env) (w : World) (hwf : w.store.WF) (job : Job) (task : JobTask)
    (lastErr : Option ProviderError) :
    Frame (some job.ID) w (failTask env w job task lastErr) := by
  unfold failTask
  simp only []
  have h1 := frame_updateTask w hwf job.ID task.ID (fun t =>
    { t with
      Status := .failed
      ErrorCode := (lastErr.getD
        { Category := "unknown", Code := "UNKNOWN", Retryable := false
          UserMessage := "Unknown failure"
          InternalMessage := "provider returned nil error" }).Code
      ErrorMsg := (lastErr.getD
        { Category := "unknown", Code := "UNKNOWN", Retryable := false
          UserMessage := "Unknown failure"
          InternalMessage := "provider returned nil error" }).InternalMessage
      Retryable := (lastErr.getD
        { Category := "unknown", Code := "UNKNOWN", Retryable := false
          UserMessage := "Unknown failure"
          InternalMessage := "provider returned nil error" }).Retryable
      EndedAt := some w.clock })
  have h2 := frame_publishEvent (some job.ID) env _ h1.wf job .task_failed
    [("task_id", .str task.ID), ("task_key", .str task.TaskKey),
     ("task_type", .taskType task.TaskType),
     ("error_code", .str (lastErr.getD
        { Category := "unknown", Code := "UNKNOWN", Retryable := false
          UserMessage := "Unknown failure"
          InternalMessage := "provider returned nil error" }).Code),
     ("retryable", .bool (lastErr.getD
        { Category := "unknown", Code := "UNKNOWN", Retryable := false
          UserMessage := "Unknown failure"
          InternalMessage := "provider returned nil error" }).Retryable),
     ("user_message", .str (lastErr.getD
        { Category := "unknown", Code := "UNKNOWN", Retryable := false
          UserMessage := "Unknown failure"
          InternalMessage := "provider returned nil error" }).UserMessage)]
  have h3 := frame_updateProgress env _ h2.wf job.ID
  exact frame_trans _ _ _ _ h1 (frame_trans _ _ _ _ h2 h3)

end Stv

namespace Stv

theorem getJob_some (s : MemoryStore) (jid : String) (job : Job)
    (h : s.GetJob jid = .ok job) : s.jobs jid = some job := by
  unfold MemoryStore.GetJob at h
  split at h
  · cases h
  · rename_i j hj
    cases h
    exact hj

theorem getJobTasks_some (s : MemoryStore) (jid : String) (ts : List JobTask)
    (h : s.GetJobTasks jid = .ok ts) : s.tasksByJob jid = some ts := by
  unfold MemoryStore.GetJobTasks at h
  split at h
  · cases h
  · rename_i j hj
    cases h
    exact hj

theorem frame_succeedTask (env : Env) (w : World) (hwf : w.store.WF) (job : Job)
    (task : JobTask) (out : ExecuteOutput) :
    Frame (some job.ID) w (succeedTask env w job task out) := by
  unfold succeedTask
  simp only []
  have h1 := frame_updateTask w hwf job.ID task.ID (markSucceeded w.clock out.Output)
  have h2 : Frame (some job.ID) w
      (match out.Asset with
      | none => (updateTask w job.ID task.ID (markSucceeded w.clock out.Output)).2
      | some asset =>
        match ((updateTask w job.ID task.ID
          (markSucceeded w.clock out.Output)).2.store.CreateAsset asset).1 with
        | .error _ => (updateTask w job.ID task.ID (markSucceeded w.clock out.Output)).2
        | .ok _ =>
          publishEvent env
            { (updateTask w job.ID task.ID (markSucceeded w.clock out.Output)).2 with
              store := ((updateTask w job.ID task.ID
                (markSucceeded w.clock out.Output)).2.store.CreateAsset asset).2 }
            job .asset_ready
            [("asset_id", .str asset.ID), ("asset_type", .assetType asset.Typ)]) := by
    split
    · exact h1
    · rename_i asset _
      split
      · exact h1
      · have h3 := frame_createAsset (some job.ID) _ h1.wf asset
        exact frame_trans _ _ _ _ h1
          (frame_trans _ _ _ _ h3 (frame_publishEvent _ env _ h3.wf _ _ _))
  have h4 := frame_publishEvent (some job.ID) env _ h2.wf job .task_succeeded
    [("task_id", .str task.ID), ("task_key", .str task.TaskKey),
     ("task_type", .taskType task.TaskType)]
  exact frame_trans _ _ _ _ h2 (frame_trans _ _ _ _ h4 (frame_updateProgress env _ h4.wf job.ID))

theorem frame_attemptLoop (env : Env) (job : Job) (task : JobTask) (maxAttempt : Nat)
    (rounds : Nat) : ∀ (attempt : Nat) (lastErr : Option ProviderError) (w : World),
    w.store.WF →
    Frame (some job.ID) w (attemptLoop env job task maxAttempt rounds attempt lastErr w) := by
  induction rounds with
  | zero =>
    intro attempt lastErr w hwf
    unfold attemptLoop
    exact frame_failTask env w hwf job task lastErr
  | succ n ih =>
    intro attempt lastErr w hwf
    unfold attemptLoop
    split
    · split
      · have h1 := frame_markTaskCanceled w hwf job.ID task.ID "CANCELED"
          "Canceled during execution"
        exact frame_trans _ _ _ _ h1 (frame_updateProgress env _ h1.wf job.ID)
      · simp only []
        have h1 := frame_suspend (some job.ID) env w hwf 0
        have h2 : Frame (some job.ID) w
            { suspend env w 0 with provCalls := (suspend env w 0).provCalls + 1 } :=
          frame_trans _ _ _ _ h1
            (frame_of_same _ _ _ h1.wf ⟨rfl, rfl, rfl⟩ (fun h => h) rfl rfl)
        split
        · exact frame_trans _ _ _ _ h2 (frame_succeedTask env _ h2.wf job task _)
        · rename_i pErr _
          split
          · exact frame_trans _ _ _ _ h2 (frame_failTask env _ h2.wf job task _)
          · split
            · exact frame_trans _ _ _ _ h2
                (frame_of_same _ _ _ h2.wf ⟨rfl, rfl, rfl⟩ (fun h => by cases h) rfl rfl)
            · rename_i backoff _
              have h3 : Frame (some job.ID) w
                  { suspend env w 0 with
                    provCalls := (suspend env w 0).provCalls + 1
                    rands := (suspend env w 0).rands + 1 } :=
                frame_trans _ _ _ _ h1
                  (frame_of_same _ _ _ h1.wf ⟨rfl, rfl, rfl⟩ (fun h => h) rfl rfl)
              have h4 := frame_sleepWithCancel (some job.ID) env _ h3.wf job.ID backoff.toNat
              have h5 := frame_trans _ _ _ _ h3 h4
              split
              · have h6 := frame_markTaskCanceled _ h5.wf job.ID task.ID "CANCELED"
                  "Canceled during backoff"
                exact frame_trans _ _ _ _ h5
                  (frame_trans _ _ _ _ h6 (frame_updateProgress env _ h6.wf job.ID))
              · have h6 := frame_updateTask _ h5.wf job.ID task.ID
                  (fun t => { t with Attempt := t.Attempt + 1 })
                have h7 := frame_trans _ _ _ _ h5 h6
                exact frame_trans _ _ _ _ h7 (ih _ _ _ h7.wf)
    · exact frame_failTask env w hwf job task lastErr

theorem frame_executeTask (env : Env) (w : World) (hwf : w.store.WF) (job : Job)
    (task : JobTask) : Frame (some job.ID) w (executeTask env w job task) := by
  unfold executeTask
  simp only []
  have h0 := frame_updateTask w hwf job.ID task.ID
    (markRunning w.clock ("worker-" ++ (env.uuid w.uuids).take 8))
  have h1 : Frame (some job.ID) w
      (match (updateTask w job.ID task.ID
          (markRunning w.clock ("worker-" ++ (env.uuid w.uuids).take 8))).1 with
      | .error _ => (updateTask w job.ID task.ID
          (markRunning w.clock ("worker-" ++ (env.uuid w.uuids).take 8))).2
      | .ok _ =>
        { (updateTask w job.ID task.ID
            (markRunning w.clock ("worker-" ++ (env.uuid w.uuids).take 8))).2 with
          uuids := (updateTask w job.ID task.ID
            (markRunning w.clock ("worker-" ++ (env.uuid w.uuids).take 8))).2.uuids + 1 }) := by
    split
    · exact h0
    · exact frame_trans _ _ _ _ h0
        (frame_of_same _ _ _ h0.wf ⟨rfl, rfl, rfl⟩ (fun h => h) rfl rfl)
  split
  · exact h1
  · split
    · exact h1
    · rename_i current _
      have h2 := frame_publishEvent (some job.ID) env _ h1.wf job .task_started
        [("task_id", .str current.ID), ("task_key", .str current.TaskKey),
         ("task_type", .taskType current.TaskType), ("attempt", .int current.Attempt),
         ("display_name", .str current.DisplayName)]
      exact frame_trans _ _ _ _ h1
        (frame_trans _ _ _ _ h2 (frame_attemptLoop env job task _ _ _ _ _ h2.wf))

theorem frame_wave (env : Env) (job : Job) (ready : List JobTask) (w : World)
    (hwf : w.store.WF) :
    Frame (some job.ID) w (ready.foldl (fun v t => executeTask env v job t) w) := by
  induction ready generalizing w with
  | nil => exact frame_refl _ w hwf
  | cons t rest ih =>
    have h1 := frame_executeTask env w hwf job t
    exact frame_trans _ _ _ _ h1 (ih _ h1.wf)

theorem frame_cancelQueuedTasks (env : Env) (w : World) (hwf : w.store.WF) (job : Job) :
    Frame (some job.ID) w (cancelQueuedTasks env w job).2 := by
  unfold cancelQueuedTasks
  split
  · exact frame_refl _ w hwf
  · split
    · exact frame_refl _ w hwf
    · have h1 := frame_replaceJobTasks w hwf job.ID
        ((by assumption : List JobTask).map (cancelIfQueued (some w.clock)))
      simp only []
      split
      · exact h1
      · exact frame_trans _ _ _ _ h1 (frame_updateProgress env _ h1.wf job.ID)

theorem frame_markStarted (ex : Option String) (env : Env) (w : World) (hwf : w.store.WF)
    (job : Job) (hj : w.store.jobs job.ID = some job)
    (hnt : isJobTerminal job.Status = false) : Frame ex w (markStarted env w job).2 := by
  unfold markStarted
  split
  · have h1 := frame_updateJob ex w hwf
      { job with StartedAt := some w.clock, Status := .running } job hj
      (by rw [hnt]; rfl) (fun _ => rfl) rfl
    simp only []
    split
    · exact h1
    · exact frame_trans _ _ _ _ h1 (frame_publishEvent _ env _ h1.wf _ _ _)
  · exact frame_refl _ w hwf

/-! ## The runner loop, exit by exit -/

theorem markStarted_id (env : Env) (w : World) (job : Job) :
    (markStarted env w job).1.ID = job.ID := by
  unfold markStarted
  split
  · simp only []
    split <;> rfl
  · rfl

/-- Induction on the runner loop.  If `P` holds at the start and is kept by the four kinds
of step of a round, then when the loop returns either `P` holds at an exit without
finalization (the job is absent or terminal, the task list is absent, or a worker
panicked), or the result is `finalizeJob` applied in a state where `P` holds, to a task
list that is the stored one and is all terminal. -/
theorem runJobLoop_cases (env : Env) (jid : String) (P : World → Prop)
    (hwf : ∀ w, P w → w.store.WF)
    (hstart : ∀ w job, P w → w.store.jobs jid = some job → job.ID = jid →
      isJobTerminal job.Status = false → P (markStarted env w job).2)
    (hcancel : ∀ w job, P w → job.ID = jid → P (cancelQueuedTasks env w job).2)
    (hsusp : ∀ w d, P w → P (suspend env w d))
    (hexec : ∀ w job task, P w → job.ID = jid → P (executeTask env w job task)) :
    ∀ (fuel : Nat) (w w2 : World), P w → runJobLoop env jid fuel w = some w2 →
      (P w2 ∧ ∀ job, w2.store.jobs jid = some job → isJobTerminal job.Status = true) ∨
      (P w2 ∧ w2.store.tasksByJob jid = none) ∨
      (P w2 ∧ w2.panicked = true) ∨
      (∃ w1 job tasks, P w1 ∧ job.ID = jid ∧ w1.store.tasksByJob jid = some tasks ∧
        allTasksTerminal tasks = true ∧ w2 = finalizeJob env w1 job tasks) := by
  intro fuel
  induction fuel with
  | zero =>
    intro w w2 _ h
    simp [runJobLoop] at h
  | succ n ih =>
    intro w w2 hP h
    unfold runJobLoop at h
    cases hg : w.store.GetJob jid with
    | error e =>
      simp only [hg] at h
      cases h
      refine Or.inl ⟨hP, ?_⟩
      intro job hj
      simp [MemoryStore.GetJob, hj] at hg
    | ok job =>
      have hj := getJob_some _ _ _ hg
      have hid : job.ID = jid := (hwf w hP).job_id _ _ hj
      simp only [hg] at h
      by_cases hterm : isJobTerminal job.Status = true
      · simp only [hterm, if_true] at h
        cases h
        refine Or.inl ⟨hP, ?_⟩
        intro job2 hj2
        rw [hj] at hj2
        cases hj2
        exact hterm
      · simp only [hterm, Bool.false_eq_true, if_false] at h
        have hP1 := hstart w job hP hj hid (by simpa using hterm)
        have hid1 : (markStarted env w job).1.ID = jid := by rw [markStarted_id, hid]
        have hP2 : P (if (markStarted env w job).1.CancelRequested = true
            then (cancelQueuedTasks env (markStarted env w job).2 (markStarted env w job).1).2
            else (markStarted env w job).2) := by
          split
          · exact hcancel _ _ hP1 hid1
          · exact hP1
        generalize (if (markStarted env w job).1.CancelRequested = true
            then (cancelQueuedTasks env (markStarted env w job).2 (markStarted env w job).1).2
            else (markStarted env w job).2) = w1 at h hP2
        cases ht : w1.store.GetJobTasks jid with
        | error e =>
          simp only [ht] at h
          cases h
          refine Or.inr (Or.inl ⟨hP2, ?_⟩)
          unfold MemoryStore.GetJobTasks at ht
          split at ht
          · assumption
          · cases ht
        | ok tasks =>
          simp only [ht] at h
          have hts := getJobTasks_some _ _ _ ht
          by_cases hall : allTasksTerminal tasks = true
          · simp only [hall, if_true] at h
            cases h
            exact Or.inr (Or.inr (Or.inr ⟨w1, _, tasks, hP2, hid1, hts, hall, rfl⟩))
          · simp only [hall, Bool.false_eq_true, if_false] at h
            by_cases hr : (readyTasks tasks w1.clock).isEmpty = true
            · simp only [hr, if_true] at h
              exact ih _ _ (hsusp _ _ hP2) h
            · simp only [hr, Bool.false_eq_true, if_false] at h
              have hP3 : ∀ (ready : List JobTask) (v : World), P v →
                  P (ready.foldl (fun v t => executeTask env v (markStarted env w job).1 t) v) := by
                intro ready
                induction ready with
                | nil => intro v hv; exact hv
                | cons t rest ih2 =>
                  intro v hv
                  exact ih2 _ (hexec _ _ _ hv hid1)
              have hP4 := hP3 (readyTasks tasks w1.clock) w1 hP2
              by_cases hp : ((readyTasks tasks w1.clock).foldl
                  (fun v t => executeTask env v (markStarted env w job).1 t) w1).panicked = true
              · simp only [hp, if_true] at h
                cases h
                exact Or.inr (Or.inr (Or.inl ⟨hP4, hp⟩))
              · simp only [hp, Bool.false_eq_true, if_false] at h
                exact ih _ _ hP4 h

end Stv

namespace Stv

/-! ## The scheduler calls as steps of the world -/

theorem updateJob_jobs_ne (s : MemoryStore) (J : Job) (j : String) (h : j ≠ J.ID) :
    (s.UpdateJob J).2.jobs j = s.jobs j := by
  unfold MemoryStore.UpdateJob
  split
  · rfl
  · simp [mapSet_apply, h]

/-- What `finalizeJob` leaves in place: consistency of the store, the scheduler counters,
the panic flag, all task lists, and every job but the finalized one. -/
theorem finalizeJob_frame (env : Env) (w : World) (hwf : w.store.WF) (job : Job)
    (tasks : List JobTask) :
    (finalizeJob env w job tasks).store.WF ∧ SchedSame w (finalizeJob env w job tasks) ∧
    (finalizeJob env w job tasks).panicked = w.panicked ∧
    (finalizeJob env w job tasks).store.tasksByJob = w.store.tasksByJob ∧
    ∀ j, j ≠ job.ID → (finalizeJob env w job tasks).store.jobs j = w.store.jobs j := by
  have hFi := (finalRecord_cases job tasks (some w.clock)).1
  unfold finalizeJob
  simp only []
  generalize finalRecord job tasks (some w.clock) = F at hFi ⊢
  have hufr := updateJob_frame w.store F
  have hW : ∀ (W : World) (typ : JobEventType) (pl : Payload), W.store.WF → SchedSame w W →
      W.panicked = w.panicked → W.store.tasksByJob = w.store.tasksByJob →
      (∀ j, j ≠ job.ID → W.store.jobs j = w.store.jobs j) →
      (publishEvent env W F typ pl).store.WF ∧ SchedSame w (publishEvent env W F typ pl) ∧
      (publishEvent env W F typ pl).panicked = w.panicked ∧
      (publishEvent env W F typ pl).store.tasksByJob = w.store.tasksByJob ∧
      ∀ j, j ≠ job.ID → (publishEvent env W F typ pl).store.jobs j = w.store.jobs j := by
    intro W typ pl h1 h2 h3 h4 h5
    have hs := publishEvent_sched env W F typ pl
    refine ⟨publishEvent_wf _ _ _ _ _ h1,
      ⟨hs.1.trans h2.1, hs.2.1.trans h2.2.1, hs.2.2.1.trans h2.2.2⟩,
      hs.2.2.2.2.1.trans h3, ?_, ?_⟩
    · rw [publishEvent_store, (appendJobEvent_frame _ _ _ _).2.2.1]; exact h4
    · intro j hj
      rw [publishEvent_store, (appendJobEvent_frame _ _ _ _).2.1]; exact h5 j hj
  have hW1 : ∀ W : World, (W = { w with store := (w.store.UpdateJob F).2 } ∨
      ∃ p : Project, W = { w with store := ((w.store.UpdateJob F).2.UpdateProject p).2 }) →
      W.store.WF ∧ SchedSame w W ∧ W.panicked = w.panicked ∧
      W.store.tasksByJob = w.store.tasksByJob ∧
      (∀ j, j ≠ job.ID → W.store.jobs j = w.store.jobs j) := by
    intro W hWd
    rcases hWd with rfl | ⟨p, rfl⟩
    · refine ⟨wf_updateJob _ hwf F, ⟨rfl, rfl, rfl⟩, rfl, hufr.2.1, ?_⟩
      intro j hj
      exact updateJob_jobs_ne _ _ _ (by rw [hFi]; exact hj)
    · refine ⟨wf_updateProject _ (wf_updateJob _ hwf F) p, ⟨rfl, rfl, rfl⟩, rfl, ?_, ?_⟩
      · show (MemoryStore.UpdateProject _ _).2.tasksByJob = _
        rw [(updateProject_frame _ _).2.1]; exact hufr.2.1
      · intro j hj
        show (MemoryStore.UpdateProject _ _).2.jobs j = _
        rw [(updateProject_frame _ _).1]
        exact updateJob_jobs_ne _ _ _ (by rw [hFi]; exact hj)
  split
  · exact hW1 _ (Or.inl rfl)
  · cases hs : F.Status <;> simp only [] <;> split <;>
      first
      | exact hW _ _ _ (hW1 _ (Or.inl rfl)).1 (hW1 _ (Or.inl rfl)).2.1
          (hW1 _ (Or.inl rfl)).2.2.1 (hW1 _ (Or.inl rfl)).2.2.2.1 (hW1 _ (Or.inl rfl)).2.2.2.2
      | exact hW _ _ _ (hW1 _ (Or.inr ⟨_, rfl⟩)).1 (hW1 _ (Or.inr ⟨_, rfl⟩)).2.1
          (hW1 _ (Or.inr ⟨_, rfl⟩)).2.2.1 (hW1 _ (Or.inr ⟨_, rfl⟩)).2.2.2.1
          (hW1 _ (Or.inr ⟨_, rfl⟩)).2.2.2.2

/-- The runner loop keeps the store consistent and the scheduler counters in place. -/
theorem runJobLoop_sched (env : Env) (jid : String) (fuel : Nat) (w w2 : World)
    (hwf : w.store.WF) (h : runJobLoop env jid fuel w = some w2) :
    w2.store.WF ∧ SchedSame w w2 := by
  have hc := runJobLoop_cases env jid (fun x => Frame (some jid) w x)
    (fun x hx => hx.wf)
    (fun x job hx hj hid hnt =>
      frame_trans _ _ _ _ hx (frame_markStarted _ env x hx.wf job (by rw [hid]; exact hj) hnt))
    (fun x job hx hid => by
      have := frame_cancelQueuedTasks env x hx.wf job
      rw [hid] at this
      exact frame_trans _ _ _ _ hx this)
    (fun x d hx => frame_trans _ _ _ _ hx (frame_suspend _ env x hx.wf d))
    (fun x job task hx hid => by
      have := frame_executeTask env x hx.wf job task
      rw [hid] at this
      exact frame_trans _ _ _ _ hx this)
    fuel w w2 (frame_refl _ w hwf) h
  rcases hc with ⟨hf, -⟩ | ⟨hf, -⟩ | ⟨hf, -⟩ | ⟨w1, job, tasks, hf, -, -, -, rfl⟩
  · exact ⟨hf.wf, hf.sched⟩
  · exact ⟨hf.wf, hf.sched⟩
  · exact ⟨hf.wf, hf.sched⟩
  · obtain ⟨a, b, -⟩ := finalizeJob_frame env w1 hf.wf job tasks
    exact ⟨a, ⟨b.1.trans hf.sched.1, b.2.1.trans hf.sched.2.1, b.2.2.trans hf.sched.2.2⟩⟩

theorem cap_finishRunner (w : World) (job : Job)
    (h : ∀ u, w.runningByUser u ≤ w.maxUserJobs) (u : String) :
    (finishRunner w job).runningByUser u ≤ (finishRunner w job).maxUserJobs := by
  show (if u = job.UserID then _ else _) ≤ w.maxUserJobs
  have := h job.UserID
  split
  · split <;> omega
  · exact h u

theorem cap_startRunner (w : World) (job : Job)
    (h : ∀ u, w.runningByUser u ≤ w.maxUserJobs)
    (hcap : w.runningByUser job.UserID < w.maxUserJobs) (u : String) :
    (startRunnerIfNeeded w job).runningByUser u ≤ (startRunnerIfNeeded w job).maxUserJobs := by
  unfold startRunnerIfNeeded
  split
  · exact h u
  · show (if u = job.UserID then _ else _) ≤ w.maxUserJobs
    split
    · omega
    · exact h u

/-- Under a consistent store `StartJob` either changes nothing or takes its creation
branch. -/
theorem StartJob_world (env : Env) (w : World) (hwf : w.store.WF)
    (userID projectID traceID key : String) :
    (StartJob env w userID projectID traceID key).2 = w ∨
    ∃ p, w.store.projects projectID = some p ∧ p.UserID = userID ∧
      w.runningByUser userID < w.maxUserJobs ∧
      (key = "" ∨ w.store.idempotencyToJob (userID ++ ":" ++ key) = none) ∧
      (StartJob env w userID projectID traceID key).2
        = startRunnerIfNeeded
          (publishEvent env
            { w with
              uuids := w.uuids + 1 + (buildTasks env.uuid (w.uuids + 1) (some w.clock) p
                (newJob env w userID projectID traceID key)).length
              store := ((w.store.CreateJob (newJob env w userID projectID traceID key)
                (buildTasks env.uuid (w.uuids + 1) (some w.clock) p
                  (newJob env w userID projectID traceID key)) key).2.UpdateProject
                { p with
                  CurrentJobID := (newJob env w userID projectID traceID key).ID
                  Status := "running", UpdatedAt := some w.clock }).2 }
            (newJob env w userID projectID traceID key) .job_created
            [("status", .jobStatus (newJob env w userID projectID traceID key).Status),
             ("tasks", .int (buildTasks env.uuid (w.uuids + 1) (some w.clock) p
                (newJob env w userID projectID traceID key)).length)])
          (newJob env w userID projectID traceID key) := by
  cases hg : w.store.GetJobByIdempotency userID key with
  | some j => left; rw [StartJob_hit env w userID projectID traceID key j hg]
  | none =>
    cases hp : w.store.projects projectID with
    | none => left; rw [StartJob_notFound env w userID projectID traceID key hg hp]
    | some p =>
      by_cases hu : p.UserID = userID
      · by_cases hcap : w.runningByUser userID ≥ w.maxUserJobs
        · left; rw [StartJob_tooMany env w userID projectID traceID key hg p hp hu hcap]
        · right
          have hidx := reachable_miss_index w.store hwf userID key hg
          refine ⟨p, rfl, hu, by omega, hidx, ?_⟩
          rw [StartJob_created env w userID projectID traceID key hg p hp hu (by omega) hidx]
      · left; rw [StartJob_forbidden env w userID projectID traceID key hg p hp hu]

/-- Under a consistent store `RetryJob` either changes nothing or takes its admitted
branch. -/
theorem RetryJob_world (env : Env) (w : World) (hwf : w.store.WF)
    (userID jobID traceID : String) :
    (RetryJob env w userID jobID traceID).2 = w ∨
    ∃ job tasks, w.store.jobs jobID = some job ∧ job.ID = jobID ∧ job.UserID = userID ∧
      w.store.tasksByJob jobID = some tasks ∧
      (job.Status = .failed ∨ job.Status = .canceled) ∧
      w.runningByUser userID < w.maxUserJobs ∧
      (RetryJob env w userID jobID traceID).2
        = startRunnerIfNeeded
            (publishEvent env
              { w with
                store := ((w.store.ReplaceJobTasks jobID (tasks.map retryResetTask)).2.UpdateJob
                  { job with
                    Status := .queued, Progress := calcProgress (tasks.map retryResetTask)
                    CancelRequested := false, ErrorCode := "", ErrorMessage := ""
                    Retryable := false, TraceID := traceID, StartedAt := none
                    EndedAt := none }).2 }
              { job with
                Status := .queued, Progress := calcProgress (tasks.map retryResetTask)
                CancelRequested := false, ErrorCode := "", ErrorMessage := "", Retryable := false
                TraceID := traceID, StartedAt := none, EndedAt := none }
              .job_created [("status", .str "retry_queued")])
            { job with
              Status := .queued, Progress := calcProgress (tasks.map retryResetTask)
              CancelRequested := false, ErrorCode := "", ErrorMessage := "", Retryable := false
              TraceID := traceID, StartedAt := none, EndedAt := none } := by
  cases hj : w.store.jobs jobID with
  | none =>
    left
    simp [RetryJob, MemoryStore.GetJob, hj]
  | some job =>
    have hid : job.ID = jobID := hwf.job_id _ _ hj
    subst hid
    by_cases hu : job.UserID = userID
    · subst hu
      by_cases hst : job.Status = .failed ∨ job.Status = .canceled
      · by_cases hcap : w.runningByUser job.UserID ≥ w.maxUserJobs
        · left
          have hst2 : ¬(job.Status ≠ .failed ∧ job.Status ≠ .canceled) := by
            rcases hst with h | h <;> simp [h]
          simp [RetryJob, MemoryStore.GetJob, hj, hst2, hcap]
        · right
          have hts : (w.store.tasksByJob job.ID).isSome = true := by
            rw [hwf.tasks_iff, hj]; rfl
          obtain ⟨tasks, ht⟩ := Option.isSome_iff_exists.mp hts
          refine ⟨job, tasks, rfl, rfl, rfl, ht, hst, by omega, ?_⟩
          rw [RetryJob_admitted env w traceID job tasks hj ht hst (by omega)]
      · left
        have hst2 : job.Status ≠ .failed ∧ job.Status ≠ .canceled := by
          simpa [not_or] using hst
        simp [RetryJob, MemoryStore.GetJob, hj, hst2]
    · left
      simp [RetryJob, MemoryStore.GetJob, hj, hu]

end Stv

namespace Stv

/-! ## Admission (C19) -/

theorem StartJob_wf (env : Env) (w : World) (hwf : w.store.WF)
    (userID projectID traceID key : String) :
    (StartJob env w userID projectID traceID key).2.store.WF := by
  rcases StartJob_world env w hwf userID projectID traceID key with h | ⟨p, -, -, -, -, h⟩
  · rw [h]; exact hwf
  · rw [h, startRunnerIfNeeded_store]
    apply publishEvent_wf
    exact wf_updateProject _ (wf_createJob _ hwf _ _ _) _

theorem RetryJob_wf (env : Env) (w : World) (hwf : w.store.WF)
    (userID jobID traceID : String) : (RetryJob env w userID jobID traceID).2.store.WF := by
  rcases RetryJob_world env w hwf userID jobID traceID with h | ⟨job, tasks, -, -, -, -, -, -, h⟩
  · rw [h]; exact hwf
  · rw [h, startRunnerIfNeeded_store]
    apply publishEvent_wf
    exact wf_updateJob _ (wf_replaceJobTasks _ hwf _ _) _

theorem runJob_wf (env : Env) (jid : String) (fuel : Nat) (w w2 : World) (hwf : w.store.WF)
    (h : runJob env jid fuel w = some w2) : w2.store.WF := by
  unfold runJob at h
  cases hl : runJobLoop env jid fuel w with
  | none => simp [hl] at h
  | some w1 =>
    have h1 := (runJobLoop_sched env jid fuel w w1 hwf hl).1
    simp only [hl] at h
    split at h
    · cases h; exact h1
    · split at h
      · cases h; exact h1
      · cases h; exact h1

/-- Every reachable service state has a consistent store. -/
theorem reachable_wf (env : Env) (w : World) (h : World.Reachable env w) : w.store.WF := by
  induction h with
  | fresh st mc mu ms clock hst => exact wf_of_reachable _ hst
  | startJob userID projectID traceID key _ ih => exact StartJob_wf env _ ih _ _ _ _
  | cancelJob userID jobID _ ih => exact (frame_CancelJob none env _ ih userID jobID).wf
  | retryJob userID jobID traceID _ ih => exact RetryJob_wf env _ ih _ _ _
  | runner jobID fuel _ hrun ih => exact runJob_wf env jobID fuel _ _ ih hrun

theorem StartJob_cap (env : Env) (w : World) (hwf : w.store.WF)
    (hcap : ∀ u, w.runningByUser u ≤ w.maxUserJobs) (userID projectID traceID key : String)
    (u : String) :
    (StartJob env w userID projectID traceID key).2.runningByUser u
      ≤ (StartJob env w userID projectID traceID key).2.maxUserJobs := by
  rcases StartJob_world env w hwf userID projectID traceID key with h | ⟨p, -, -, hlt, -, h⟩
  · rw [h]; exact hcap u
  · rw [h]
    apply cap_startRunner
    · intro v
      rw [(publishEvent_sched _ _ _ _ _).1, (publishEvent_sched _ _ _ _ _).2.2.1]
      exact hcap v
    · rw [(publishEvent_sched _ _ _ _ _).1, (publishEvent_sched _ _ _ _ _).2.2.1]
      exact hlt

theorem RetryJob_cap (env : Env) (w : World) (hwf : w.store.WF)
    (hcap : ∀ u, w.runningByUser u ≤ w.maxUserJobs) (userID jobID traceID : String)
    (u : String) :
    (RetryJob env w userID jobID traceID).2.runningByUser u
      ≤ (RetryJob env w userID jobID traceID).2.maxUserJobs := by
  rcases RetryJob_world env w hwf userID jobID traceID with
    h | ⟨job, tasks, -, -, hu, -, -, hlt, h⟩
  · rw [h]; exact hcap u
  · rw [h]
    apply cap_startRunner
    · intro v
      rw [(publishEvent_sched _ _ _ _ _).1, (publishEvent_sched _ _ _ _ _).2.2.1]
      exact hcap v
    · rw [(publishEvent_sched _ _ _ _ _).1, (publishEvent_sched _ _ _ _ _).2.2.1]
      show w.runningByUser job.UserID < w.maxUserJobs
      rw [hu]
      exact hlt

theorem runJob_cap (env : Env) (jid : String) (fuel : Nat) (w w2 : World) (hwf : w.store.WF)
    (hcap : ∀ u, w.runningByUser u ≤ w.maxUserJobs)
    (h : runJob env jid fuel w = some w2) (u : String) :
    w2.runningByUser u ≤ w2.maxUserJobs := by
  unfold runJob at h
  cases hl : runJobLoop env jid fuel w with
  | none => simp [hl] at h
  | some w1 =>
    have h1 := (runJobLoop_sched env jid fuel w w1 hwf hl).2
    have hcap1 : ∀ v, w1.runningByUser v ≤ w1.maxUserJobs := by
      intro v
      rw [h1.1, h1.2.2]
      exact hcap v
    simp only [hl] at h
    split at h
    · cases h; exact hcap1 u
    · split at h
      · cases h; exact hcap1 u
      · cases h; exact cap_finishRunner w1 _ hcap1 u

/-- C19: the admission invariant.  In every service state reachable from a fresh service
(over any reachable store, with any configured caps) by any sequence of `StartJob`,
`CancelJob`, `RetryJob` and returning runs of `runJob`, each taken as one atomic step,
`runningByUser[u] <= maxUserJobs` holds for every user u. -/
theorem admission_cap (env : Env) (w : World) (h : World.Reachable env w) (u : String) :
    w.runningByUser u ≤ w.maxUserJobs := by
  induction h generalizing u with
  | fresh st mc mu ms clock hst =>
    show (0 : Int) ≤ if mu < 1 then 2 else mu
    split <;> omega
  | startJob userID projectID traceID key hw ih =>
    exact StartJob_cap env _ (reachable_wf env _ hw) ih _ _ _ _ u
  | cancelJob userID jobID hw ih =>
    have hf := frame_CancelJob none env _ (reachable_wf env _ hw) userID jobID
    rw [hf.sched.1, hf.sched.2.2]
    exact ih u
  | retryJob userID jobID traceID hw ih =>
    exact RetryJob_cap env _ (reachable_wf env _ hw) ih _ _ _ u
  | runner jobID fuel hw hrun ih =>
    exact runJob_cap env jobID fuel _ _ (reachable_wf env _ hw) ih hrun u

/-- C19, after two `StartJob` calls of user "u1" on a fresh service with cap 2: the state
is reachable and the user is within the cap. -/
theorem admission_cap_witness :
    World.Reachable demoEnv
      (StartJob demoEnv (StartJob demoEnv (demoWorld 1) "u1" "p1" "t1" "").2
        "u1" "p1" "t2" "").2 ∧
    (StartJob demoEnv (StartJob demoEnv (demoWorld 1) "u1" "p1" "t1" "").2
      "u1" "p1" "t2" "").2.runningByUser "u1"
      ≤ (StartJob demoEnv (StartJob demoEnv (demoWorld 1) "u1" "p1" "t1" "").2
          "u1" "p1" "t2" "").2.maxUserJobs :=
  ⟨.startJob "u1" "p1" "t2" ""
      (.startJob "u1" "p1" "t1" "" (.fresh _ 20 2 6 5 (demoWorld_reachable 1))),
    admission_cap demoEnv _
      (.startJob "u1" "p1" "t2" ""
        (.startJob "u1" "p1" "t1" "" (.fresh _ 20 2 6 5 (demoWorld_reachable 1)))) "u1"⟩

/-! ## The job and task maps after `StartJob` and `RetryJob` -/

theorem createJob_maps (s : MemoryStore) (job : Job) (tasks : List JobTask) (key : String)
    (hidx : key = "" ∨ s.idempotencyToJob (job.UserID ++ ":" ++ key) = none) :
    (s.CreateJob job tasks key).2.jobs = mapSet s.jobs job.ID job ∧
    (s.CreateJob job tasks key).2.tasksByJob = mapSet s.tasksByJob job.ID tasks := by
  unfold MemoryStore.CreateJob
  by_cases hk : key = ""
  · simp [hk]
  · rcases hidx with h | h
    · exact absurd h hk
    · simp [hk, h]

/-- The job and task maps after the creation branch of `StartJob`. -/
theorem StartJob_maps (env : Env) (w : World) (hwf : w.store.WF)
    (userID projectID traceID key : String) :
    (StartJob env w userID projectID traceID key).2 = w ∨
    ∃ p, w.store.projects projectID = some p ∧
      (StartJob env w userID projectID traceID key).2.store.jobs
        = mapSet w.store.jobs (newJob env w userID projectID traceID key).ID
            (newJob env w userID projectID traceID key) ∧
      (StartJob env w userID projectID traceID key).2.store.tasksByJob
        = mapSet w.store.tasksByJob (newJob env w userID projectID traceID key).ID
            (buildTasks env.uuid (w.uuids + 1) (some w.clock) p
              (newJob env w userID projectID traceID key)) := by
  rcases StartJob_world env w hwf userID projectID traceID key with h | ⟨p, hp, -, -, hidx, h⟩
  · exact Or.inl h
  · right
    have hm := createJob_maps w.store (newJob env w userID projectID traceID key)
      (buildTasks env.uuid (w.uuids + 1) (some w.clock) p
        (newJob env w userID projectID traceID key)) key hidx
    refine ⟨p, hp, ?_, ?_⟩
    · rw [h, startRunnerIfNeeded_store, publishEvent_store, (appendJobEvent_frame _ _ _ _).2.1]
      show (MemoryStore.UpdateProject _ _).2.jobs = _
      rw [(updateProject_frame _ _).1, hm.1]
    · rw [h, startRunnerIfNeeded_store, publishEvent_store,
        (appendJobEvent_frame _ _ _ _).2.2.1]
      show (MemoryStore.UpdateProject _ _).2.tasksByJob = _
      rw [(updateProject_frame _ _).2.1, hm.2]

/-- The job and task maps after the admitted branch of `RetryJob`. -/
theorem RetryJob_maps (env : Env) (w : World) (hwf : w.store.WF)
    (userID jobID traceID : String) :
    (RetryJob env w userID jobID traceID).2 = w ∨
    ∃ job tasks J, w.store.jobs jobID = some job ∧ w.store.tasksByJob jobID = some tasks ∧
      J.Status = .queued ∧ J.Progress = calcProgress (tasks.map retryResetTask) ∧
      (RetryJob env w userID jobID traceID).2.store.jobs = mapSet w.store.jobs jobID J ∧
      (RetryJob env w userID jobID traceID).2.store.tasksByJob
        = mapSet w.store.tasksByJob jobID (tasks.map retryResetTask) := by
  rcases RetryJob_world env w hwf userID jobID traceID with
    h | ⟨job, tasks, hj, hid, -, ht, -, -, h⟩
  · exact Or.inl h
  · right
    subst hid
    obtain ⟨-, hr2⟩ := replaceJobTasks_ok w.store job.ID (tasks.map retryResetTask) tasks ht
    have hj2 : (w.store.ReplaceJobTasks job.ID (tasks.map retryResetTask)).2.jobs job.ID
        = some job := by
      rw [(replaceJobTasks_frame _ _ _).2.1]; exact hj
    have hup2 : ∀ j2 : Job, j2.ID = job.ID →
        ((w.store.ReplaceJobTasks job.ID (tasks.map retryResetTask)).2.UpdateJob j2).2.jobs
          = mapSet w.store.jobs job.ID j2 := by
      intro j2 h2
      rw [(updateJob_ok _ j2 job (by rw [h2]; exact hj2)).2, h2,
        (replaceJobTasks_frame _ _ _).2.1]
    refine ⟨job, tasks,
      { job with
        Status := .queued, Progress := calcProgress (tasks.map retryResetTask)
        CancelRequested := false, ErrorCode := "", ErrorMessage := "", Retryable := false
        TraceID := traceID, StartedAt := none, EndedAt := none },
      hj, ht, rfl, rfl, ?_, ?_⟩
    · rw [h, startRunnerIfNeeded_store, publishEvent_store, (appendJobEvent_frame _ _ _ _).2.1]
      exact hup2 _ rfl
    · rw [h, startRunnerIfNeeded_store, publishEvent_store,
        (appendJobEvent_frame _ _ _ _).2.2.1]
      show (MemoryStore.UpdateJob _ _).2.tasksByJob = _
      rw [(updateJob_frame _ _).2.1, hr2]

/-! ## Terminal jobs and terminal tasks (C17) -/

theorem terminalAt_of_frame (ex : Option String) (w w2 : World) (h : Frame ex w w2)
    (j : String) (hj : some j ≠ ex) (ht : TerminalAt w.store j) : TerminalAt w2.store j := by
  intro job tasks h1 h2
  have h3 := h.term j
  rw [h1] at h3
  rw [h.tasks j hj] at h2
  cases h4 : w.store.jobs j with
  | none => rw [h4] at h3; cases h3
  | some old =>
    rw [h4] at h3
    simp only [Option.map_some', Option.some.injEq] at h3
    rw [h3]
    exact ht old tasks h4 h2

theorem terminalInv_of_frame (w w2 : World) (h : Frame none w w2)
    (ht : TerminalInv w.store) : TerminalInv w2.store :=
  fun j => terminalAt_of_frame none w w2 h j (by simp) (ht j)

theorem finalRecord_terminal (job : Job) (tasks : List JobTask) (now : Time) :
    isJobTerminal (finalRecord job tasks now).Status = true := by
  obtain ⟨-, c1, c2, c3⟩ := finalRecord_cases job tasks now
  by_cases h : ∃ t ∈ tasks, t.Status = .failed
  · rw [(c1 h).1]; rfl
  · by_cases hc : job.CancelRequested = true ∨ ∃ t ∈ tasks, t.Status = .canceled
    · rw [(c2 h hc).1]; rfl
    · rw [(c3 h hc).1]; rfl

end Stv

namespace Stv

theorem runJobLoop_exit_now (env : Env) (jid : String) (fuel : Nat) (w w2 : World)
    (hnow : ∀ job, w.store.jobs jid = some job → isJobTerminal job.Status = true)
    (h : runJobLoop env jid fuel w = some w2) : w2 = w := by
  cases fuel with
  | zero => simp [runJobLoop] at h
  | succ n =>
    unfold runJobLoop at h
    cases hg : w.store.GetJob jid with
    | error e =>
      simp only [hg] at h
      cases h
      rfl
    | ok job =>
      simp only [hg, hnow job (getJob_some _ _ _ hg), if_true] at h
      cases h
      rfl

theorem terminalInv_StartJob (env : Env) (w : World) (hwf : w.store.WF)
    (hinv : TerminalInv w.store) (userID projectID traceID key : String) :
    TerminalInv (StartJob env w userID projectID traceID key).2.store := by
  rcases StartJob_maps env w hwf userID projectID traceID key with h | ⟨p, -, hj, ht⟩
  · rw [h]; exact hinv
  · intro j job tasks h1 h2
    rw [hj, mapSet_apply] at h1
    rw [ht, mapSet_apply] at h2
    split at h1
    · rename_i hjid
      rw [if_pos hjid] at h2
      cases h1
      cases h2
      obtain ⟨t, htm, -⟩ := (buildTasks_has_ends env.uuid (w.uuids + 1) (some w.clock) p
        (newJob env w userID projectID traceID key)).1
      have hq := (buildTasks_fresh env.uuid (w.uuids + 1) (some w.clock) p
        (newJob env w userID projectID traceID key) t htm).1
      constructor
      · intro hc
        cases hc
      · intro hall
        have := hall t htm
        rw [hq] at this
        cases this
    · rename_i hjid
      rw [if_neg hjid] at h2
      exact hinv j job tasks h1 h2

theorem terminalInv_RetryJob (env : Env) (w : World) (hwf : w.store.WF)
    (hinv : TerminalInv w.store) (userID jobID traceID : String)
    (hsome : ∀ tasks, w.store.tasksByJob jobID = some tasks →
      ∃ x ∈ tasks, x.Status = .failed ∨ x.Status = .canceled) :
    TerminalInv (RetryJob env w userID jobID traceID).2.store := by
  rcases RetryJob_maps env w hwf userID jobID traceID with
    h | ⟨job, tasks, J, -, hts, hJ, -, hj, ht⟩
  · rw [h]; exact hinv
  · intro j job2 tasks2 h1 h2
    rw [hj, mapSet_apply] at h1
    rw [ht, mapSet_apply] at h2
    split at h1
    · rename_i hjid
      rw [if_pos hjid] at h2
      cases h1
      cases h2
      obtain ⟨x, hx, hst⟩ := hsome tasks hts
      constructor
      · intro hc
        rw [hJ] at hc
        cases hc
      · intro hall
        have := hall (retryResetTask x) (List.mem_map_of_mem _ hx)
        rw [((retryResetTask_spec x).1 hst).1] at this
        cases this
    · rename_i hjid
      rw [if_neg hjid] at h2
      exact hinv j job2 tasks2 h1 h2

theorem terminalInv_runJobLoop (env : Env) (jid : String) (fuel : Nat) (w w2 : World)
    (hwf : w.store.WF) (hinv : TerminalInv w.store)
    (h : runJobLoop env jid fuel w = some w2) (hcalm : w2.panicked = false) :
    TerminalInv w2.store := by
  by_cases hnow : ∀ job, w.store.jobs jid = some job → isJobTerminal job.Status = true
  · rw [runJobLoop_exit_now env jid fuel w w2 hnow h]
    exact hinv
  · simp only [not_forall] at hnow
    obtain ⟨job0, hj0, hnt0⟩ := hnow
    have hpres : ∀ x, Frame (some jid) w x →
        ∃ job, x.store.jobs jid = some job ∧ isJobTerminal job.Status = false := by
      intro x hx
      have := hx.term jid
      rw [hj0] at this
      cases hxj : x.store.jobs jid with
      | none => rw [hxj] at this; cases this
      | some job =>
        rw [hxj] at this
        simp only [Option.map_some', Option.some.injEq] at this
        exact ⟨job, rfl, by rw [this]; simpa using hnt0⟩
    have hc := runJobLoop_cases env jid
      (fun x => Frame (some jid) w x ∧ ∀ j, j ≠ jid → TerminalAt x.store j)
      (fun x hx => hx.1.wf)
      (fun x job hx hj hid hnt => by
        have hf := frame_markStarted (some jid) env x hx.1.wf job (by rw [hid]; exact hj) hnt
        exact ⟨frame_trans _ _ _ _ hx.1 hf,
          fun j hne => terminalAt_of_frame _ _ _ hf j (by simpa using hne) (hx.2 j hne)⟩)
      (fun x job hx hid => by
        have hf := frame_cancelQueuedTasks env x hx.1.wf job
        rw [hid] at hf
        exact ⟨frame_trans _ _ _ _ hx.1 hf,
          fun j hne => terminalAt_of_frame _ _ _ hf j (by simpa using hne) (hx.2 j hne)⟩)
      (fun x d hx => by
        have hf := frame_suspend (some jid) env x hx.1.wf d
        exact ⟨frame_trans _ _ _ _ hx.1 hf,
          fun j hne => terminalAt_of_frame _ _ _ hf j (by simpa using hne) (hx.2 j hne)⟩)
      (fun x job task hx hid => by
        have hf := frame_executeTask env x hx.1.wf job task
        rw [hid] at hf
        exact ⟨frame_trans _ _ _ _ hx.1 hf,
          fun j hne => terminalAt_of_frame _ _ _ hf j (by simpa using hne) (hx.2 j hne)⟩)
      fuel w w2 ⟨frame_refl _ w hwf, fun j _ => hinv j⟩ h
    rcases hc with ⟨hP, hA⟩ | ⟨hP, hB⟩ | ⟨-, hE⟩ | ⟨w1, job, tasks, hP, hid, hts, hall, rfl⟩
    · obtain ⟨job, hj, hnt⟩ := hpres w2 hP.1
      rw [hA job hj] at hnt
      cases hnt
    · obtain ⟨job, hj, -⟩ := hpres w2 hP.1
      have := hP.1.wf.tasks_iff jid
      rw [hB, hj] at this
      cases this
    · rw [hE] at hcalm
      cases hcalm
    · obtain ⟨old, hold, -⟩ := hpres w1 hP.1
      subst hid
      obtain ⟨e, hF, hT, -⟩ := finalizeJob_effect env w1 job tasks old hold
      obtain ⟨-, -, -, -, hO⟩ := finalizeJob_frame env w1 hP.1.wf job tasks
      intro j job2 tasks2 h1 h2
      rw [hT] at h2
      by_cases hj : j = job.ID
      · subst hj
        rw [hF] at h1
        rw [hts] at h2
        cases h1
        cases h2
        constructor
        · intro _
          unfold allTasksTerminal at hall
          rw [List.all_eq_true] at hall
          exact hall
        · intro _
          exact finalRecord_terminal _ _ _
      · rw [hO j hj] at h1
        exact hP.2 j hj job2 tasks2 h1 h2

theorem terminalInv_runJob (env : Env) (jid : String) (fuel : Nat) (w w2 : World)
    (hwf : w.store.WF) (hinv : TerminalInv w.store)
    (h : runJob env jid fuel w = some w2) (hcalm : w2.panicked = false) :
    TerminalInv w2.store := by
  unfold runJob at h
  cases hl : runJobLoop env jid fuel w with
  | none => simp [hl] at h
  | some w1 =>
    simp only [hl] at h
    split at h
    · cases h
      exact terminalInv_runJobLoop env jid fuel w _ hwf hinv hl hcalm
    · split at h
      · cases h
        exact terminalInv_runJobLoop env jid fuel w _ hwf hinv hl hcalm
      · cases h
        exact terminalInv_runJobLoop env jid fuel w w1 hwf hinv hl hcalm

/-- The runner loop is the loop under the schedule that runs the workers of a wave one
after another. -/
theorem runJobLoop_eq_with (env : Env) (jid : String) (fuel : Nat) (w : World) :
    runJobLoop env jid fuel w = runJobLoopWith env (seqWave env) jid fuel w := by
  induction fuel generalizing w with
  | zero => rfl
  | succ n ih =>
    unfold runJobLoop runJobLoopWith
    simp only [ih, seqWave]

/-- The method `runJob` is `runJobWith` under the schedule that runs the workers of a wave
one after another. -/
theorem runJob_eq_with (env : Env) (jid : String) (fuel : Nat) (w : World) :
    runJob env jid fuel w = runJobWith env (seqWave env) jid fuel w := by
  unfold runJob runJobWith
  rw [runJobLoop_eq_with]

/-- Induction on the runner loop under a schedule of the waves, as `runJobLoop_cases`. -/
theorem runJobLoopWith_cases (env : Env) (wave : World → Job → List JobTask → World)
    (jid : String) (P : World → Prop)
    (hwf : ∀ w, P w → w.store.WF)
    (hstart : ∀ w job, P w → w.store.jobs jid = some job → job.ID = jid →
      isJobTerminal job.Status = false → P (markStarted env w job).2)
    (hcancel : ∀ w job, P w → job.ID = jid → P (cancelQueuedTasks env w job).2)
    (hsusp : ∀ w d, P w → P (suspend env w d))
    (hwave : ∀ w job ready, P w → job.ID = jid → P (wave w job ready)) :
    ∀ (fuel : Nat) (w w2 : World), P w → runJobLoopWith env wave jid fuel w = some w2 →
      (P w2 ∧ ∀ job, w2.store.jobs jid = some job → isJobTerminal job.Status = true) ∨
      (P w2 ∧ w2.store.tasksByJob jid = none) ∨
      (P w2 ∧ w2.panicked = true) ∨
      (∃ w1 job tasks, P w1 ∧ job.ID = jid ∧ w1.store.tasksByJob jid = some tasks ∧
        allTasksTerminal tasks = true ∧ w2 = finalizeJob env w1 job tasks) := by
  intro fuel
  induction fuel with
  | zero =>
    intro w w2 _ h
    simp [runJobLoopWith] at h
  | succ n ih =>
    intro w w2 hP h
    unfold runJobLoopWith at h
    cases hg : w.store.GetJob jid with
    | error e =>
      simp only [hg] at h
      cases h
      refine Or.inl ⟨hP, ?_⟩
      intro job hj
      simp [MemoryStore.GetJob, hj] at hg
    | ok job =>
      have hj := getJob_some _ _ _ hg
      have hid : job.ID = jid := (hwf w hP).job_id _ _ hj
      simp only [hg] at h
      by_cases hterm : isJobTerminal job.Status = true
      · simp only [hterm, if_true] at h
        cases h
        refine Or.inl ⟨hP, ?_⟩
        intro job2 hj2
        rw [hj] at hj2
        cases hj2
        exact hterm
      · simp only [hterm, Bool.false_eq_true, if_false] at h
        have hP1 := hstart w job hP hj hid (by simpa using hterm)
        have hid1 : (markStarted env w job).1.ID = jid := by rw [markStarted_id, hid]
        have hP2 : P (if (markStarted env w job).1.CancelRequested = true
            then (cancelQueuedTasks env (markStarted env w job).2 (markStarted env w job).1).2
            else (markStarted env w job).2) := by
          split
          · exact hcancel _ _ hP1 hid1
          · exact hP1
        generalize (if (markStarted env w job).1.CancelRequested = true
            then (cancelQueuedTasks env (markStarted env w job).2 (markStarted env w job).1).2
            else (markStarted env w job).2) = w1 at h hP2
        cases ht : w1.store.GetJobTasks jid with
        | error e =>
          simp only [ht] at h
          cases h
          refine Or.inr (Or.inl ⟨hP2, ?_⟩)
          unfold MemoryStore.GetJobTasks at ht
          split at ht
          · assumption
          · cases ht
        | ok tasks =>
          simp only [ht] at h
          have hts := getJobTasks_some _ _ _ ht
          by_cases hall : allTasksTerminal tasks = true
          · simp only [hall, if_true] at h
            cases h
            exact Or.inr (Or.inr (Or.inr ⟨w1, _, tasks, hP2, hid1, hts, hall, rfl⟩))
          · simp only [hall, Bool.false_eq_true, if_false] at h
            by_cases hr : (readyTasks tasks w1.clock).isEmpty = true
            · simp only [hr, if_true] at h
              exact ih _ _ (hsusp _ _ hP2) h
            · simp only [hr, Bool.false_eq_true, if_false] at h
              have hP4 := hwave w1 (markStarted env w job).1 (readyTasks tasks w1.clock) hP2 hid1
              by_cases hp : (wave w1 (markStarted env w job).1
                  (readyTasks tasks w1.clock)).panicked = true
              · simp only [hp, if_true] at h
                cases h
                exact Or.inr (Or.inr (Or.inl ⟨hP4, hp⟩))
              · simp only [hp, Bool.false_eq_true, if_false] at h
                exact ih _ _ hP4 h

theorem runJobLoopWith_exit_now (env : Env) (wave : World → Job → List JobTask → World)
    (jid : String) (fuel : Nat) (w w2 : World)
    (hnow : ∀ job, w.store.jobs jid = some job → isJobTerminal job.Status = true)
    (h : runJobLoopWith env wave jid fuel w = some w2) : w2 = w := by
  cases fuel with
  | zero => simp [runJobLoopWith] at h
  | succ n =>
    unfold runJobLoopWith at h
    cases hg : w.store.GetJob jid with
    | error e =>
      simp only [hg] at h
      cases h
      rfl
    | ok job =>
      simp only [hg, hnow job (getJob_some _ _ _ hg), if_true] at h
      cases h
      rfl

/-- Under a schedule that keeps the frame, the runner loop keeps the store consistent. -/
theorem runJobLoopWith_wf (env : Env) (wave : World → Job → List JobTask → World)
    (hw : WaveFrame wave) (jid : String) (fuel : Nat) (w w2 : World)
    (hwf : w.store.WF) (h : runJobLoopWith env wave jid fuel w = some w2) : w2.store.WF := by
  have hc := runJobLoopWith_cases env wave jid (fun x => Frame (some jid) w x)
    (fun x hx => hx.wf)
    (fun x job hx hj hid hnt =>
      frame_trans _ _ _ _ hx (frame_markStarted _ env x hx.wf job (by rw [hid]; exact hj) hnt))
    (fun x job hx hid => by
      have := frame_cancelQueuedTasks env x hx.wf job
      rw [hid] at this
      exact frame_trans _ _ _ _ hx this)
    (fun x d hx => frame_trans _ _ _ _ hx (frame_suspend _ env x hx.wf d))
    (fun x job ready hx hid => by
      have := hw x job ready hx.wf
      rw [hid] at this
      exact frame_trans _ _ _ _ hx this)
    fuel w w2 (frame_refl _ w hwf) h
  rcases hc with ⟨hf, -⟩ | ⟨hf, -⟩ | ⟨hf, -⟩ | ⟨w1, job, tasks, hf, -, -, -, rfl⟩
  · exact hf.wf
  · exact hf.wf
  · exact hf.wf
  · exact (finalizeJob_frame env w1 hf.wf job tasks).1

theorem runJobWith_wf (env : Env) (wave : World → Job → List JobTask → World)
    (hw : WaveFrame wave) (jid : String) (fuel : Nat) (w w2 : World) (hwf : w.store.WF)
    (h : runJobWith env wave jid fuel w = some w2) : w2.store.WF := by
  unfold runJobWith at h
  cases hl : runJobLoopWith env wave jid fuel w with
  | none => simp [hl] at h
  | some w1 =>
    have h1 := runJobLoopWith_wf env wave hw jid fuel w w1 hwf hl
    simp only [hl] at h
    split at h
    · cases h; exact h1
    · split at h
      · cases h; exact h1
      · cases h; exact h1

theorem terminalInv_runJobLoopWith (env : Env) (wave : World → Job → List JobTask → World)
    (hw : WaveFrame wave) (jid : String) (fuel : Nat) (w w2 : World)
    (hwf : w.store.WF) (hinv : TerminalInv w.store)
    (h : runJobLoopWith env wave jid fuel w = some w2) (hcalm : w2.panicked = false) :
    TerminalInv w2.store := by
  by_cases hnow : ∀ job, w.store.jobs jid = some job → isJobTerminal job.Status = true
  · rw [runJobLoopWith_exit_now env wave jid fuel w w2 hnow h]
    exact hinv
  · simp only [not_forall] at hnow
    obtain ⟨job0, hj0, hnt0⟩ := hnow
    have hpres : ∀ x, Frame (some jid) w x →
        ∃ job, x.store.jobs jid = some job ∧ isJobTerminal job.Status = false := by
      intro x hx
      have := hx.term jid
      rw [hj0] at this
      cases hxj : x.store.jobs jid with
      | none => rw [hxj] at this; cases this
      | some job =>
        rw [hxj] at this
        simp only [Option.map_some', Option.some.injEq] at this
        exact ⟨job, rfl, by rw [this]; simpa using hnt0⟩
    have hc := runJobLoopWith_cases env wave jid
      (fun x => Frame (some jid) w x ∧ ∀ j, j ≠ jid → TerminalAt x.store j)
      (fun x hx => hx.1.wf)
      (fun x job hx hj hid hnt => by
        have hf := frame_markStarted (some jid) env x hx.1.wf job (by rw [hid]; exact hj) hnt
        exact ⟨frame_trans _ _ _ _ hx.1 hf,
          fun j hne => terminalAt_of_frame _ _ _ hf j (by simpa using hne) (hx.2 j hne)⟩)
      (fun x job hx hid => by
        have hf := frame_cancelQueuedTasks env x hx.1.wf job
        rw [hid] at hf
        exact ⟨frame_trans _ _ _ _ hx.1 hf,
          fun j hne => terminalAt_of_frame _ _ _ hf j (by simpa using hne) (hx.2 j hne)⟩)
      (fun x d hx => by
        have hf := frame_suspend (some jid) env x hx.1.wf d
        exact ⟨frame_trans _ _ _ _ hx.1 hf,
          fun j hne => terminalAt_of_frame _ _ _ hf j (by simpa using hne) (hx.2 j hne)⟩)
      (fun x job ready hx hid => by
        have hf := hw x job ready hx.1.wf
        rw [hid] at hf
        exact ⟨frame_trans _ _ _ _ hx.1 hf,
          fun j hne => terminalAt_of_frame _ _ _ hf j (by simpa using hne) (hx.2 j hne)⟩)
      fuel w w2 ⟨frame_refl _ w hwf, fun j _ => hinv j⟩ h
    rcases hc with ⟨hP, hA⟩ | ⟨hP, hB⟩ | ⟨-, hE⟩ | ⟨w1, job, tasks, hP, hid, hts, hall, rfl⟩
    · obtain ⟨job, hj, hnt⟩ := hpres w2 hP.1
      rw [hA job hj] at hnt
      cases hnt
    · obtain ⟨job, hj, -⟩ := hpres w2 hP.1
      have := hP.1.wf.tasks_iff jid
      rw [hB, hj] at this
      cases this
    · rw [hE] at hcalm
      cases hcalm
    · obtain ⟨old, hold, -⟩ := hpres w1 hP.1
      subst hid
      obtain ⟨e, hF, hT, -⟩ := finalizeJob_effect env w1 job tasks old hold
      obtain ⟨-, -, -, -, hO⟩ := finalizeJob_frame env w1 hP.1.wf job tasks
      intro j job2 tasks2 h1 h2
      rw [hT] at h2
      by_cases hj : j = job.ID
      · subst hj
        rw [hF] at h1
        rw [hts] at h2
        cases h1
        cases h2
        constructor
        · intro _
          unfold allTasksTerminal at hall
          rw [List.all_eq_true] at hall
          exact hall
        · intro _
          exact finalRecord_terminal _ _ _
      · rw [hO j hj] at h1
        exact hP.2 j hj job2 tasks2 h1 h2

theorem terminalInv_runJobWith (env : Env) (wave : World → Job → List JobTask → World)
    (hw : WaveFrame wave) (jid : String) (fuel : Nat) (w w2 : World)
    (hwf : w.store.WF) (hinv : TerminalInv w.store)
    (h : runJobWith env wave jid fuel w = some w2) (hcalm : w2.panicked = false) :
    TerminalInv w2.store := by
  unfold runJobWith at h
  cases hl : runJobLoopWith env wave jid fuel w with
  | none => simp [hl] at h
  | some w1 =>
    simp only [hl] at h
    split at h
    · cases h
      exact terminalInv_runJobLoopWith env wave hw jid fuel w _ hwf hinv hl hcalm
    · split at h
      · cases h
        exact terminalInv_runJobLoopWith env wave hw jid fuel w _ hwf hinv hl hcalm
      · cases h
        exact terminalInv_runJobLoopWith env wave hw jid fuel w w1 hwf hinv hl hcalm

/-- Running the workers of a wave one after another keeps the frame. -/
theorem waveFrame_seqWave (env : Env) : WaveFrame (seqWave env) :=
  fun v job ready hwf => frame_wave env job ready v hwf

theorem frame_workerStep (w : World) (hwf : w.store.WF) (jid : String) (k : Worker) :
    Frame (some jid) w { w with store := (Worker.step jid w.store k).1 } := by
  unfold Worker.step
  split
  · split
    · exact frame_refl _ w hwf
    · exact frame_refl _ w hwf
  · split
    · exact frame_refl _ w hwf
    · exact frame_replaceJobTasks w hwf jid _
  · exact frame_refl _ w hwf

theorem frame_runWorkers (w : World) (jid : String) (turns : List Turn) :
    ∀ (s : MemoryStore) (a b : Worker), Frame (some jid) w { w with store := s } →
      Frame (some jid) w { w with store := (runWorkers jid turns s a b).1 } := by
  induction turns with
  | nil =>
    intro s a b h
    exact h
  | cons t rest ih =>
    intro s a b h
    cases t with
    | first =>
      have h1 := frame_workerStep { w with store := s } h.wf jid a
      exact ih (Worker.step jid s a).1 (Worker.step jid s a).2 b (frame_trans _ _ _ _ h h1)
    | second =>
      have h1 := frame_workerStep { w with store := s } h.wf jid b
      exact ih (Worker.step jid s b).1 a (Worker.step jid s b).2 (frame_trans _ _ _ _ h h1)

theorem frame_enterTask (env : Env) (w : World) (hwf : w.store.WF) (job : Job)
    (task cur : JobTask) (w2 : World) (h : enterTask env w job task = some (cur, w2)) :
    Frame (some job.ID) w w2 := by
  have h0 := frame_updateTask w hwf job.ID task.ID
    (markRunning w.clock ("worker-" ++ (env.uuid w.uuids).take 8))
  unfold enterTask at h
  cases hr : (updateTask w job.ID task.ID
      (markRunning w.clock ("worker-" ++ (env.uuid w.uuids).take 8))).1 with
  | error e =>
    simp only [hr] at h
    cases hg : (updateTask w job.ID task.ID
        (markRunning w.clock ("worker-" ++ (env.uuid w.uuids).take 8))).2.store.GetJobTasks
        job.ID with
    | error e2 => simp [hg] at h
    | ok tasks =>
      simp only [hg] at h
      cases hf : findTaskByID tasks task.ID with
      | none => simp [hf] at h
      | some current =>
        simp only [hf, Option.some.injEq, Prod.mk.injEq] at h
        rw [← h.2]
        exact frame_trans _ _ _ _ h0 (frame_publishEvent _ env _ h0.wf _ _ _)
  | ok u =>
    simp only [hr] at h
    have h1 : Frame (some job.ID) w
        { (updateTask w job.ID task.ID
            (markRunning w.clock ("worker-" ++ (env.uuid w.uuids).take 8))).2 with
          uuids := (updateTask w job.ID task.ID
            (markRunning w.clock ("worker-" ++ (env.uuid w.uuids).take 8))).2.uuids + 1 } :=
      frame_trans _ _ _ _ h0
        (frame_of_same _ _ _ h0.wf ⟨rfl, rfl, rfl⟩ (fun h => h) rfl rfl)
    cases hg : (updateTask w job.ID task.ID
        (markRunning w.clock ("worker-" ++ (env.uuid w.uuids).take 8))).2.store.GetJobTasks
        job.ID with
    | error e2 => simp [hg] at h
    | ok tasks =>
      simp only [hg] at h
      cases hf : findTaskByID tasks task.ID with
      | none => simp [hf] at h
      | some current =>
        simp only [hf, Option.some.injEq, Prod.mk.injEq] at h
        rw [← h.2]
        exact frame_trans _ _ _ _ h1 (frame_publishEvent _ env _ h1.wf _ _ _)

theorem frame_afterCall (ex : Option String) (env : Env) (w : World) (hwf : w.store.WF) :
    Frame ex w (afterCall env w) := by
  have h1 := frame_suspend ex env w hwf 0
  exact frame_trans _ _ _ _ h1
    (frame_of_same ex _ _ h1.wf ⟨rfl, rfl, rfl⟩ (fun h => h) rfl rfl)

theorem frame_firstCall (env : Env) (w : World) (hwf : w.store.WF) (job : Job)
    (task cur : JobTask) (res : Except ProviderError ExecuteOutput) (w2 : World)
    (h : firstCall env w job task cur = some (res, w2)) : Frame (some job.ID) w w2 := by
  unfold firstCall at h
  split at h
  · simp only [Option.some.injEq, Prod.mk.injEq] at h
    rw [← h.2]
    exact frame_afterCall _ env w hwf
  · cases h

theorem frame_succeedRest (env : Env) (w : World) (hwf : w.store.WF) (job : Job)
    (task : JobTask) (out : ExecuteOutput) :
    Frame (some job.ID) w (succeedRest env w job task out) := by
  unfold succeedRest
  simp only []
  have h2 : Frame (some job.ID) w
      (match out.Asset with
      | none => w
      | some asset =>
        match (w.store.CreateAsset asset).1 with
        | .error _ => w
        | .ok _ =>
          publishEvent env { w with store := (w.store.CreateAsset asset).2 } job .asset_ready
            [("asset_id", .str asset.ID), ("asset_type", .assetType asset.Typ)]) := by
    split
    · exact frame_refl _ w hwf
    · rename_i asset _
      split
      · exact frame_refl _ w hwf
      · have h3 := frame_createAsset (some job.ID) w hwf asset
        exact frame_trans _ _ _ _ h3 (frame_publishEvent _ env _ h3.wf _ _ _)
  have h4 := frame_publishEvent (some job.ID) env _ h2.wf job .task_succeeded
    [("task_id", .str task.ID), ("task_key", .str task.TaskKey),
     ("task_type", .taskType task.TaskType)]
  exact frame_trans _ _ _ _ h2 (frame_trans _ _ _ _ h4 (frame_updateProgress env _ h4.wf job.ID))

theorem frame_racedPair (env : Env) (turns : List Turn) (w : World) (hwf : w.store.WF)
    (job : Job) (a b : JobTask) : Frame (some job.ID) w (racedPair env turns w job a b) := by
  have hseq : Frame (some job.ID) w (executeTask env (executeTask env w job a) job b) := by
    have h1 := frame_executeTask env w hwf job a
    exact frame_trans _ _ _ _ h1 (frame_executeTask env _ h1.wf job b)
  unfold racedPair
  cases h1 : enterTask env w job a with
  | none => exact hseq
  | some r1 =>
    obtain ⟨ca, wa⟩ := r1
    have f1 := frame_enterTask env w hwf job a ca wa h1
    simp only []
    cases h2 : firstCall env wa job a ca with
    | none => exact hseq
    | some r2 =>
      obtain ⟨resA, wa2⟩ := r2
      have f2 := frame_trans _ _ _ _ f1 (frame_firstCall env wa f1.wf job a ca resA wa2 h2)
      cases resA with
      | error e => exact hseq
      | ok outA =>
        simp only []
        cases h3 : enterTask env wa2 job b with
        | none => exact hseq
        | some r3 =>
          obtain ⟨cb, wb⟩ := r3
          have f3 := frame_trans _ _ _ _ f2 (frame_enterTask env wa2 f2.wf job b cb wb h3)
          simp only []
          cases h4 : firstCall env wb job b cb with
          | none => exact hseq
          | some r4 =>
            obtain ⟨resB, wb2⟩ := r4
            have f4 := frame_trans _ _ _ _ f3
              (frame_firstCall env wb f3.wf job b cb resB wb2 h4)
            cases resB with
            | error e => exact hseq
            | ok outB =>
              simp only []
              have f5 := frame_runWorkers wb2 job.ID turns wb2.store
                { taskID := a.ID, fn := markSucceeded wb2.clock outA.Output, phase := .start }
                { taskID := b.ID, fn := markSucceeded wb2.clock outB.Output, phase := .start }
                (frame_refl _ wb2 f4.wf)
              have f6 := frame_trans _ _ _ _ f4 f5
              have f7 := frame_trans _ _ _ _ f6 (frame_succeedRest env _ f6.wf job a outA)
              exact frame_trans _ _ _ _ f7 (frame_succeedRest env _ f7.wf job b outB)

/-- The schedule in which the first two workers of a wave overlap keeps the frame, however
the store calls of their two `updateTask` invocations are interleaved. -/
theorem waveFrame_racedWave (env : Env) (turns : List Turn) :
    WaveFrame (racedWave env turns) := by
  intro v job ready hwf
  unfold racedWave
  split
  · rename_i a b rest
    have h1 := frame_racedPair env turns v hwf job a b
    exact frame_trans _ _ _ _ h1 (frame_wave env job rest _ h1.wf)
  · exact frame_wave env job ready v hwf

set_option maxRecDepth 100000 in
/-- C17 fails after `RetryJob`.  On a project with one scene, with a provider that
succeeds on every call, user "u1" calls `CancelJob` while the provider call of the last
task, `compose_video`, is in progress.  The runner returns with the job canceled and all
four tasks succeeded.  `RetryJob` then stores the job as queued while all its tasks are
still succeeded: a reachable state in which a job that is not terminal has only terminal
tasks. -/
theorem retry_requeues_job_with_terminal_tasks :
    (runJob lateCancelEnv (demoUuid 0) 10
      (StartJob lateCancelEnv (demoWorld 1) "u1" "p1" "t1" "").2).map
      (fun w =>
        ((w.store.jobs (demoUuid 0)).map (fun j => j.Status),
         ((RetryJob lateCancelEnv w "u1" (demoUuid 0) "t2").2.store.jobs (demoUuid 0)).map
           (fun j => j.Status),
         (((RetryJob lateCancelEnv w "u1" (demoUuid 0) "t2").2.store.tasksByJob
           (demoUuid 0)).getD []).map (fun t => t.Status)))
      = some (some .canceled, some .queued,
          [.succeeded, .succeeded, .succeeded, .succeeded]) ∧
    ∃ w, World.Reachable lateCancelEnv w ∧ ¬ TerminalInv w.store := by
  have hd : (runJob lateCancelEnv (demoUuid 0) 10
      (StartJob lateCancelEnv (demoWorld 1) "u1" "p1" "t1" "").2).map
      (fun w =>
        ((w.store.jobs (demoUuid 0)).map (fun j => j.Status),
         ((RetryJob lateCancelEnv w "u1" (demoUuid 0) "t2").2.store.jobs (demoUuid 0)).map
           (fun j => j.Status),
         (((RetryJob lateCancelEnv w "u1" (demoUuid 0) "t2").2.store.tasksByJob
           (demoUuid 0)).getD []).map (fun t => t.Status)))
      = some (some .canceled, some .queued,
          [.succeeded, .succeeded, .succeeded, .succeeded]) := by
    decide
  refine ⟨hd, ?_⟩
  cases hrun : runJob lateCancelEnv (demoUuid 0) 10
      (StartJob lateCancelEnv (demoWorld 1) "u1" "p1" "t1" "").2 with
  | none =>
    rw [hrun] at hd
    cases hd
  | some w2 =>
    rw [hrun] at hd
    simp only [Option.map_some', Option.some.injEq, Prod.mk.injEq] at hd
    obtain ⟨-, hjob, htasks⟩ := hd
    refine ⟨(RetryJob lateCancelEnv w2 "u1" (demoUuid 0) "t2").2,
      .retryJob "u1" (demoUuid 0) "t2"
        (.runner (demoUuid 0) 10
          (.startJob "u1" "p1" "t1" "" (.fresh _ 20 2 6 5 (demoWorld_reachable 1))) hrun), ?_⟩
    intro hinv
    cases hj : (RetryJob lateCancelEnv w2 "u1" (demoUuid 0) "t2").2.store.jobs (demoUuid 0) with
    | none =>
      rw [hj] at hjob
      cases hjob
    | some job =>
      rw [hj] at hjob
      simp only [Option.map_some', Option.some.injEq] at hjob
      cases ht : (RetryJob lateCancelEnv w2 "u1" (demoUuid 0) "t2").2.store.tasksByJob
          (demoUuid 0) with
      | none =>
        rw [ht] at htasks
        cases htasks
      | some tasks =>
        rw [ht] at htasks
        simp only [Option.getD_some] at htasks
        have hall : ∀ t ∈ tasks, isTaskTerminal t.Status = true := by
          intro t hm
          have : t.Status ∈ tasks.map (fun t => t.Status) := List.mem_map_of_mem _ hm
          rw [htasks] at this
          simp only [List.mem_cons, List.mem_singleton, List.mem_nil_iff, or_false,
            or_self] at this
          rw [this]
          rfl
        have := (hinv (demoUuid 0) job tasks hj ht).mpr hall
        rw [hjob] at this
        cases this

/-- A refused `RetryJob` leaves the world as it was. -/
theorem RetryJob_refused (env : Env) (w : World) (hwf : w.store.WF)
    (userID jobID traceID : String) (e : Err)
    (h : (RetryJob env w userID jobID traceID).1 = .error e) :
    (RetryJob env w userID jobID traceID).2 = w := by
  rcases RetryJob_world env w hwf userID jobID traceID with
    h0 | ⟨job, tasks, hj, hid, hu, ht, hst, hcap, -⟩
  · exact h0
  · subst hid
    subst hu
    rw [RetryJob_admitted env w traceID job tasks hj ht hst hcap] at h
    cases h

set_option maxRecDepth 100000 in
/-- The run of `TestJobCancel` on a project with one scene, and the retry after it. -/
theorem cancelRun_facts :
    (runJob cancelEnv (demoUuid 0) 10
      (StartJob cancelEnv (demoWorld 1) "u1" "p1" "t1" "").2).map
      (fun w =>
        (w.panicked, (w.store.jobs (demoUuid 0)).map (fun j => j.Status),
         ((w.store.tasksByJob (demoUuid 0)).getD []).map (fun t => t.Status),
         ((RetryJob cancelEnv w "u1" (demoUuid 0) "t2").2.store.jobs (demoUuid 0)).map
           (fun j => j.Status),
         (((RetryJob cancelEnv w "u1" (demoUuid 0) "t2").2.store.tasksByJob
           (demoUuid 0)).getD []).map (fun t => t.Status)))
      = some (false, some .failed, [.failed, .canceled, .canceled, .canceled],
          some .queued, [.queued, .queued, .queued, .queued]) := by
  decide

/-- C17 as amended.  In every state reached from a fresh service over a store without jobs
by complete scheduler operations, namely `StartJob`, `CancelJob`, runs of the runner that
return without a worker panic (a run ends with the finalization, or finds the job already
terminal), and `RetryJob` calls each of which is refused or finds at least one failed or
canceled task of the job to reset, the store is consistent and every stored job is terminal
exactly when all its stored tasks are terminal.  The workers of a wave of the runner may be
scheduled in any way that keeps the frame (`WaveFrame`): one after another (`seqWave`,
the schedule of `runJob`), or with two workers that overlap (`racedWave`). -/
theorem terminal_iff_invariant (env : Env) (w : World) (h : World.Settled env w) :
    w.store.WF ∧
    ∀ j job tasks, w.store.jobs j = some job → w.store.tasksByJob j = some tasks →
      (isJobTerminal job.Status = true ↔ ∀ t ∈ tasks, isTaskTerminal t.Status = true) := by
  induction h with
  | fresh st mc mu ms clock hst hnone =>
    refine ⟨wf_of_reachable _ hst, ?_⟩
    intro j job tasks hj _
    have : st.jobs j = some job := hj
    rw [hnone j] at this
    cases this
  | startJob userID projectID traceID key _ ih =>
    exact ⟨StartJob_wf env _ ih.1 _ _ _ _, terminalInv_StartJob env _ ih.1 ih.2 _ _ _ _⟩
  | cancelJob userID jobID _ ih =>
    have hf := frame_CancelJob none env _ ih.1 userID jobID
    exact ⟨hf.wf, terminalInv_of_frame _ _ hf ih.2⟩
  | runner wave jobID fuel _ hw hrun hcalm ih =>
    exact ⟨runJobWith_wf env wave hw jobID fuel _ _ ih.1 hrun,
      terminalInv_runJobWith env wave hw jobID fuel _ _ ih.1 ih.2 hrun hcalm⟩
  | @retryJob w userID jobID traceID _ hguard ih =>
    refine ⟨RetryJob_wf env _ ih.1 _ _ _, ?_⟩
    rcases hguard with ⟨e, he⟩ | ⟨tasks, x, ht, hx, hst⟩
    · rw [RetryJob_refused env w ih.1 userID jobID traceID e he]
      exact ih.2
    · apply terminalInv_RetryJob env w ih.1 ih.2
      intro tasks2 ht2
      rw [ht] at ht2
      cases ht2
      exact ⟨x, hx, hst⟩

/-- C17 as amended, on the scenario of `TestJobCancel` followed by a retry: the runner
returns with the job failed and all four tasks failed or canceled, a state in which the job
and all its tasks are terminal; `RetryJob` then finds tasks to reset and stores the job
queued with its tasks queued, a state in which neither the job nor all its tasks are
terminal.  The equivalence holds in both states. -/
theorem terminal_iff_invariant_witness :
    ∃ w2, runJob cancelEnv (demoUuid 0) 10
        (StartJob cancelEnv (demoWorld 1) "u1" "p1" "t1" "").2 = some w2 ∧
      (∃ job tasks, w2.store.jobs (demoUuid 0) = some job ∧
        w2.store.tasksByJob (demoUuid 0) = some tasks ∧ job.Status = .failed ∧
        (isJobTerminal job.Status = true ↔ ∀ t ∈ tasks, isTaskTerminal t.Status = true)) ∧
      (∃ job tasks,
        (RetryJob cancelEnv w2 "u1" (demoUuid 0) "t2").2.store.jobs (demoUuid 0) = some job ∧
        (RetryJob cancelEnv w2 "u1" (demoUuid 0) "t2").2.store.tasksByJob (demoUuid 0)
          = some tasks ∧ job.Status = .queued ∧
        (isJobTerminal job.Status = true ↔ ∀ t ∈ tasks, isTaskTerminal t.Status = true)) := by
  have hd := cancelRun_facts
  cases hrun : runJob cancelEnv (demoUuid 0) 10
      (StartJob cancelEnv (demoWorld 1) "u1" "p1" "t1" "").2 with
  | none =>
    rw [hrun] at hd
    cases hd
  | some w2 =>
    rw [hrun] at hd
    simp only [Option.map_some', Option.some.injEq, Prod.mk.injEq] at hd
    obtain ⟨hcalm, hjob, htasks, hjob2, htasks2⟩ := hd
    have hs1 : World.Settled cancelEnv w2 :=
      .runner (seqWave cancelEnv) (demoUuid 0) 10
        (.startJob "u1" "p1" "t1" ""
          (.fresh _ 20 2 6 5 (demoWorld_reachable 1) (fun _ => rfl)))
        (waveFrame_seqWave cancelEnv) (by rw [← runJob_eq_with]; exact hrun) hcalm
    cases hj : w2.store.jobs (demoUuid 0) with
    | none => rw [hj] at hjob; cases hjob
    | some job =>
      cases ht : w2.store.tasksByJob (demoUuid 0) with
      | none => rw [ht] at htasks; cases htasks
      | some tasks =>
        rw [hj] at hjob
        rw [ht] at htasks
        simp only [Option.map_some', Option.some.injEq, Option.getD_some] at hjob htasks
        cases tasks with
        | nil => cases htasks
        | cons x rest =>
          simp only [List.map_cons, List.cons.injEq] at htasks
          have hs2 : World.Settled cancelEnv (RetryJob cancelEnv w2 "u1" (demoUuid 0) "t2").2 :=
            .retryJob "u1" (demoUuid 0) "t2" hs1
              (Or.inr ⟨x :: rest, x, ht, List.mem_cons_self _ _, Or.inl htasks.1⟩)
          cases hj2 : (RetryJob cancelEnv w2 "u1" (demoUuid 0) "t2").2.store.jobs (demoUuid 0) with
          | none => rw [hj2] at hjob2; cases hjob2
          | some job2 =>
            cases ht2 : (RetryJob cancelEnv w2 "u1" (demoUuid 0) "t2").2.store.tasksByJob
                (demoUuid 0) with
            | none => rw [ht2] at htasks2; cases htasks2
            | some tasks2 =>
              rw [hj2] at hjob2
              simp only [Option.map_some', Option.some.injEq] at hjob2
              exact ⟨_, rfl, ⟨job, x :: rest, hj, ht, hjob,
                  (terminal_iff_invariant cancelEnv w2 hs1).2 (demoUuid 0) job (x :: rest) hj ht⟩,
                ⟨job2, tasks2, hj2, ht2, hjob2,
                  (terminal_iff_invariant cancelEnv _ hs2).2 (demoUuid 0) job2 tasks2 hj2 ht2⟩⟩

/-! ## Progress (C16) -/

theorem publishEvent_appends (env : Env) (w : World) (job : Job) (t : JobEventType)
    (p : Payload) (old : Job) (hj : w.store.jobs job.ID = some old) :
    ∃ e, (publishEvent env w job t p).store.eventsByJob job.ID
        = some ((w.store.eventsByJob job.ID).getD [] ++ [e]) ∧ e.Typ = t ∧ e.Payload = p := by
  refine ⟨{ EventID := env.uuid w.uuids, Seq := (w.store.eventSeqByJob job.ID).getD 0 + 1
            TraceID := job.TraceID, JobID := job.ID, ProjectID := job.ProjectID, Typ := t
            TS := some w.clock, Payload := p }, ?_, rfl, rfl⟩
  rw [publishEvent_store, (appendJobEvent_ok _ _ _ _ old hj).2]
  simp [mapSet_apply]

theorem applyFirst_find (tid : String) (fn : JobTask → JobTask) (hfn : ∀ t, (fn t).ID = t.ID)
    (ts ts2 : List JobTask) (h : applyFirst tid fn ts = some ts2) :
    ∃ c, findTaskByID ts2 tid = some c := by
  induction ts generalizing ts2 with
  | nil => simp [applyFirst] at h
  | cons t rest ih =>
    unfold applyFirst at h
    split at h
    · rename_i hid
      cases h
      refine ⟨fn t, ?_⟩
      simp [findTaskByID, List.find?, hfn, hid]
    · rename_i hid
      cases hr : applyFirst tid fn rest with
      | none => rw [hr] at h; cases h
      | some r =>
        rw [hr] at h
        cases h
        obtain ⟨c, hc⟩ := ih r hr
        refine ⟨c, ?_⟩
        unfold findTaskByID at hc ⊢
        simp [List.find?, hid, hc]

/-- The store after `updateProgress` on a job that is stored with its tasks. -/
theorem updateProgress_effect (env : Env) (w : World) (hwf : w.store.WF) (jid : String)
    (job : Job) (tasks : List JobTask) (hj : w.store.jobs jid = some job)
    (ht : w.store.tasksByJob jid = some tasks) :
    ∃ e, (updateProgress env w jid).store.jobs jid
        = some { job with Progress := calcProgress tasks } ∧
      (updateProgress env w jid).store.tasksByJob = w.store.tasksByJob ∧
      (updateProgress env w jid).store.eventsByJob jid
        = some ((w.store.eventsByJob jid).getD [] ++ [e]) ∧
      e.Typ = .job_progress ∧
      e.Payload = [("status", .jobStatus job.Status), ("progress", .num (calcProgress tasks))] := by
  have hid : job.ID = jid := hwf.job_id _ _ hj
  subst hid
  have hup := updateJob_ok w.store { job with Progress := calcProgress tasks } job hj
  have hj2 : (w.store.UpdateJob { job with Progress := calcProgress tasks }).2.jobs job.ID
      = some { job with Progress := calcProgress tasks } := by
    rw [hup.2]
    show mapSet w.store.jobs job.ID _ job.ID = _
    simp [mapSet_apply]
  have hufr := updateJob_frame w.store { job with Progress := calcProgress tasks }
  obtain ⟨e, he1, he2, he3⟩ := publishEvent_appends env
    { w with store := (w.store.UpdateJob { job with Progress := calcProgress tasks }).2 }
    { job with Progress := calcProgress tasks } .job_progress
    [("status", .jobStatus job.Status), ("progress", .num (calcProgress tasks))]
    { job with Progress := calcProgress tasks } hj2
  have heq : updateProgress env w job.ID
      = publishEvent env
          { w with store := (w.store.UpdateJob { job with Progress := calcProgress tasks }).2 }
          { job with Progress := calcProgress tasks } .job_progress
          [("status", .jobStatus job.Status), ("progress", .num (calcProgress tasks))] := by
    simp [updateProgress, MemoryStore.GetJob, MemoryStore.GetJobTasks, hj, ht]
  rw [heq]
  refine ⟨e, ?_, ?_, ?_, he2, he3⟩
  · rw [publishEvent_store, (appendJobEvent_frame _ _ _ _).2.1]
    exact hj2
  · rw [publishEvent_store, (appendJobEvent_frame _ _ _ _).2.2.1]
    exact hufr.2.1
  · rw [he1]
    show some (((w.store.UpdateJob _).2.eventsByJob job.ID).getD [] ++ [e]) = _
    rw [hufr.2.2.1]

/-- After `updateProgress` the stored progress of the job is `calcProgress` of its task
list. -/
theorem updateProgress_at (env : Env) (w : World) (hwf : w.store.WF) (jid : String) :
    ProgressAt (updateProgress env w jid).store jid := by
  cases hj : w.store.jobs jid with
  | none =>
    have : updateProgress env w jid = w := by
      simp [updateProgress, MemoryStore.GetJob, hj]
    rw [this]
    intro job tasks h1 _
    rw [hj] at h1
    cases h1
  | some job =>
    cases ht : w.store.tasksByJob jid with
    | none =>
      have : updateProgress env w jid = w := by
        simp [updateProgress, MemoryStore.GetJob, MemoryStore.GetJobTasks, hj, ht]
      rw [this]
      intro job tasks _ h2
      rw [ht] at h2
      cases h2
    | some tasks =>
      obtain ⟨e, h1, h2, -⟩ := updateProgress_effect env w hwf jid job tasks hj ht
      intro job2 tasks2 h3 h4
      rw [h1] at h3
      rw [h2, ht] at h4
      cases h3
      cases h4
      rfl

theorem progressAt_of_frame (ex : Option String) (w w2 : World) (h : Frame ex w w2)
    (j : String) (hj : some j ≠ ex) (hp : ProgressAt w.store j) : ProgressAt w2.store j := by
  intro job tasks h1 h2
  have h3 := h.prog j hj
  rw [h1] at h3
  rw [h.tasks j hj] at h2
  cases h4 : w.store.jobs j with
  | none => rw [h4] at h3; cases h3
  | some old =>
    rw [h4] at h3
    simp only [Option.map_some', Option.some.injEq] at h3
    rw [h3]
    exact hp old tasks h4 h2

theorem progressInv_of_frame (w w2 : World) (h : Frame none w w2)
    (hp : ProgressInv w.store) : ProgressInv w2.store :=
  fun j => progressAt_of_frame none w w2 h j (by simp) (hp j)

theorem failTask_progress (env : Env) (w : World) (hwf : w.store.WF) (job : Job)
    (task : JobTask) (lastErr : Option ProviderError) :
    ProgressAt (failTask env w job task lastErr).store job.ID := by
  unfold failTask
  simp only []
  apply updateProgress_at
  apply publishEvent_wf
  exact (frame_updateTask w hwf job.ID task.ID _).wf

theorem succeedTask_progress (env : Env) (w : World) (hwf : w.store.WF) (job : Job)
    (task : JobTask) (out : ExecuteOutput) :
    ProgressAt (succeedTask env w job task out).store job.ID := by
  unfold succeedTask
  simp only []
  apply updateProgress_at
  apply publishEvent_wf
  have h1 := frame_updateTask w hwf job.ID task.ID (markSucceeded w.clock out.Output)
  split
  · exact h1.wf
  · split
    · exact h1.wf
    · apply publishEvent_wf
      exact wf_createAsset _ h1.wf _

/-- Every exit of the retry loop but the panic ends with `updateProgress`. -/
theorem attemptLoop_progress (env : Env) (job : Job) (task : JobTask) (maxAttempt : Nat)
    (rounds : Nat) : ∀ (attempt : Nat) (lastErr : Option ProviderError) (w : World),
    w.store.WF →
    (attemptLoop env job task maxAttempt rounds attempt lastErr w).panicked = true ∨
    ProgressAt (attemptLoop env job task maxAttempt rounds attempt lastErr w).store job.ID := by
  induction rounds with
  | zero =>
    intro attempt lastErr w hwf
    unfold attemptLoop
    exact Or.inr (failTask_progress env w hwf job task lastErr)
  | succ n ih =>
    intro attempt lastErr w hwf
    unfold attemptLoop
    split
    · split
      · right
        apply updateProgress_at
        exact (frame_markTaskCanceled w hwf job.ID task.ID _ _).wf
      · simp only []
        have h1 := frame_suspend (some job.ID) env w hwf 0
        have hw2 : ({ suspend env w 0 with
            provCalls := (suspend env w 0).provCalls + 1 } : World).store.WF := h1.wf
        split
        · exact Or.inr (succeedTask_progress env
            { suspend env w 0 with provCalls := (suspend env w 0).provCalls + 1 }
            hw2 job task _)
        · split
          · exact Or.inr (failTask_progress env
              { suspend env w 0 with provCalls := (suspend env w 0).provCalls + 1 }
              hw2 job task _)
          · split
            · exact Or.inl rfl
            · rename_i backoff _
              have h4 := frame_sleepWithCancel (some job.ID) env
                { suspend env w 0 with
                  provCalls := (suspend env w 0).provCalls + 1
                  rands := (suspend env w 0).rands + 1 } h1.wf job.ID backoff.toNat
              split
              · right
                apply updateProgress_at
                exact (frame_markTaskCanceled _ h4.wf job.ID task.ID _ _).wf
              · exact ih _ _ _ (frame_updateTask _ h4.wf job.ID task.ID _).wf
    · exact Or.inr (failTask_progress env w hwf job task lastErr)

end Stv

namespace Stv

theorem updateTask_cases (w : World) (jid tid : String) (fn : JobTask → JobTask) :
    (∃ e, updateTask w jid tid fn = (.error e, w)) ∨
    ∃ tasks updated, w.store.tasksByJob jid = some tasks ∧
      applyFirst tid fn tasks = some updated ∧
      updateTask w jid tid fn
        = (.ok (), { w with store := (w.store.ReplaceJobTasks jid updated).2 }) ∧
      (w.store.ReplaceJobTasks jid updated).2.tasksByJob jid = some updated := by
  cases ht : w.store.tasksByJob jid with
  | none =>
    left
    exact ⟨.notFound, by simp [updateTask, MemoryStore.GetJobTasks, ht]⟩
  | some tasks =>
    cases ha : applyFirst tid fn tasks with
    | none =>
      left
      exact ⟨.notFound, by simp [updateTask, MemoryStore.GetJobTasks, ht, ha]⟩
    | some updated =>
      right
      obtain ⟨h1, h2⟩ := replaceJobTasks_ok w.store jid updated tasks ht
      refine ⟨tasks, updated, rfl, ha, ?_, ?_⟩
      · simp only [updateTask, MemoryStore.GetJobTasks, ht, ha]
        rw [← h1]
      · rw [h2]
        simp [mapSet_apply]

/-- A run of `executeTask` ends with a panic, or with `updateProgress`, or changes
nothing. -/
theorem executeTask_progress (env : Env) (w : World) (hwf : w.store.WF) (job : Job)
    (task : JobTask) :
    (executeTask env w job task).panicked = true ∨
    ProgressAt (executeTask env w job task).store job.ID ∨
    executeTask env w job task = w := by
  rcases updateTask_cases w job.ID task.ID
      (markRunning w.clock ("worker-" ++ (env.uuid w.uuids).take 8)) with
    ⟨e, he⟩ | ⟨tasks, updated, -, ha, hu, ht⟩
  · unfold executeTask
    simp only [he]
    split
    · exact Or.inr (Or.inr rfl)
    · split
      · exact Or.inr (Or.inr rfl)
      · rename_i current _
        rcases attemptLoop_progress env job task current.MaxAttempt
            (current.MaxAttempt + 1 - current.Attempt) current.Attempt none
            (publishEvent env w job .task_started
              [("task_id", .str current.ID), ("task_key", .str current.TaskKey),
               ("task_type", .taskType current.TaskType), ("attempt", .int current.Attempt),
               ("display_name", .str current.DisplayName)])
            (publishEvent_wf _ _ _ _ _ hwf) with h | h
        · exact Or.inl h
        · exact Or.inr (Or.inl h)
  · unfold executeTask
    simp only [hu]
    have hW : ({ w with store := (w.store.ReplaceJobTasks job.ID updated).2 } : World).store.WF :=
      wf_replaceJobTasks _ hwf _ _
    have hg : (w.store.ReplaceJobTasks job.ID updated).2.GetJobTasks job.ID = .ok updated := by
      simp [MemoryStore.GetJobTasks, ht]
    simp only [hg]
    obtain ⟨c, hc⟩ := applyFirst_find task.ID
      (markRunning w.clock ("worker-" ++ (env.uuid w.uuids).take 8)) (fun _ => rfl)
      tasks updated ha
    simp only [hc]
    rcases attemptLoop_progress env job task c.MaxAttempt
        (c.MaxAttempt + 1 - c.Attempt) c.Attempt none
        (publishEvent env
          { w with
            store := (w.store.ReplaceJobTasks job.ID updated).2
            uuids := w.uuids + 1 } job .task_started
          [("task_id", .str c.ID), ("task_key", .str c.TaskKey),
           ("task_type", .taskType c.TaskType), ("attempt", .int c.Attempt),
           ("display_name", .str c.DisplayName)])
        (publishEvent_wf _ _ _ _ _ hW) with h | h
    · exact Or.inl h
    · exact Or.inr (Or.inl h)

theorem cancelQueuedTasks_progress (env : Env) (w : World) (hwf : w.store.WF) (job : Job) :
    (cancelQueuedTasks env w job).2 = w ∨
    ProgressAt (cancelQueuedTasks env w job).2.store job.ID := by
  unfold cancelQueuedTasks
  cases hg : w.store.GetJobTasks job.ID with
  | error e => exact Or.inl rfl
  | ok tasks =>
    simp only []
    split
    · exact Or.inl rfl
    · have ht := getJobTasks_some _ _ _ hg
      obtain ⟨h1, -⟩ := replaceJobTasks_ok w.store job.ID
        (tasks.map (cancelIfQueued (some w.clock))) tasks ht
      simp only [h1]
      right
      apply updateProgress_at
      exact wf_replaceJobTasks _ hwf _ _

theorem finalRecord_progress (job : Job) (tasks : List JobTask) (now : Time) :
    (finalRecord job tasks now).Progress = calcProgress tasks := by
  unfold finalRecord
  simp only []

theorem finalizeJob_progress (env : Env) (w : World) (hwf : w.store.WF) (job : Job)
    (tasks : List JobTask) (ht : w.store.tasksByJob job.ID = some tasks)
    (hothers : ∀ j, j ≠ job.ID → ProgressAt w.store j) :
    ProgressInv (finalizeJob env w job tasks).store := by
  have hsome : (w.store.jobs job.ID).isSome = true := by
    rw [← hwf.tasks_iff, ht]; rfl
  obtain ⟨old, hold⟩ := Option.isSome_iff_exists.mp hsome
  obtain ⟨e, hF, hT, -⟩ := finalizeJob_effect env w job tasks old hold
  obtain ⟨-, -, -, -, hO⟩ := finalizeJob_frame env w hwf job tasks
  intro j job2 tasks2 h1 h2
  rw [hT] at h2
  by_cases hj : j = job.ID
  · subst hj
    rw [hF] at h1
    rw [ht] at h2
    cases h1
    cases h2
    rw [finalRecord_progress]
  · rw [hO j hj] at h1
    exact hothers j hj job2 tasks2 h1 h2

theorem progressInv_runJobLoop (env : Env) (jid : String) (fuel : Nat) (w w2 : World)
    (hwf : w.store.WF) (hinv : ProgressInv w.store)
    (h : runJobLoop env jid fuel w = some w2) (hcalm : w2.panicked = false) :
    ProgressInv w2.store := by
  have hc := runJobLoop_cases env jid
    (fun x => x.store.WF ∧ (∀ j, j ≠ jid → ProgressAt x.store j) ∧
      (x.panicked = false → ProgressAt x.store jid))
    (fun x hx => hx.1)
    (fun x job hx hj hid hnt => by
      have hf := frame_markStarted none env x hx.1 job (by rw [hid]; exact hj) hnt
      exact ⟨hf.wf, fun j hne => progressAt_of_frame _ _ _ hf j (by simp) (hx.2.1 j hne),
        fun hc => progressAt_of_frame _ _ _ hf jid (by simp) (hx.2.2 (hf.calm hc))⟩)
    (fun x job hx hid => by
      have hf := frame_cancelQueuedTasks env x hx.1 job
      rw [hid] at hf
      refine ⟨hf.wf,
        fun j hne => progressAt_of_frame _ _ _ hf j (by simpa using hne) (hx.2.1 j hne), ?_⟩
      intro hc
      rcases cancelQueuedTasks_progress env x hx.1 job with h1 | h1
      · rw [h1] at hc ⊢
        exact hx.2.2 hc
      · rw [hid] at h1
        exact h1)
    (fun x d hx => by
      have hf := frame_suspend none env x hx.1 d
      exact ⟨hf.wf, fun j hne => progressAt_of_frame _ _ _ hf j (by simp) (hx.2.1 j hne),
        fun hc => progressAt_of_frame _ _ _ hf jid (by simp) (hx.2.2 (hf.calm hc))⟩)
    (fun x job task hx hid => by
      have hf := frame_executeTask env x hx.1 job task
      rw [hid] at hf
      refine ⟨hf.wf,
        fun j hne => progressAt_of_frame _ _ _ hf j (by simpa using hne) (hx.2.1 j hne), ?_⟩
      intro hc
      rcases executeTask_progress env x hx.1 job task with h1 | h1 | h1
      · rw [h1] at hc
        cases hc
      · rw [hid] at h1
        exact h1
      · rw [h1] at hc ⊢
        exact hx.2.2 hc)
    fuel w w2 ⟨hwf, fun j _ => hinv j, fun _ => hinv jid⟩ h
  have hfin : ∀ x : World, (x.store.WF ∧ (∀ j, j ≠ jid → ProgressAt x.store j) ∧
      (x.panicked = false → ProgressAt x.store jid)) → x.panicked = false →
      ProgressInv x.store := by
    intro x hx hc j
    by_cases hj : j = jid
    · rw [hj]; exact hx.2.2 hc
    · exact hx.2.1 j hj
  rcases hc with ⟨hP, -⟩ | ⟨hP, -⟩ | ⟨hP, -⟩ | ⟨w1, job, tasks, hP, hid, hts, -, rfl⟩
  · exact hfin w2 hP hcalm
  · exact hfin w2 hP hcalm
  · exact hfin w2 hP hcalm
  · subst hid
    exact finalizeJob_progress env w1 hP.1 job tasks hts hP.2.1

theorem progressInv_runJob (env : Env) (jid : String) (fuel : Nat) (w w2 : World)
    (hwf : w.store.WF) (hinv : ProgressInv w.store)
    (h : runJob env jid fuel w = some w2) (hcalm : w2.panicked = false) :
    ProgressInv w2.store := by
  unfold runJob at h
  cases hl : runJobLoop env jid fuel w with
  | none => simp [hl] at h
  | some w1 =>
    simp only [hl] at h
    split at h
    · cases h
      exact progressInv_runJobLoop env jid fuel w _ hwf hinv hl hcalm
    · split at h
      · cases h
        exact progressInv_runJobLoop env jid fuel w _ hwf hinv hl hcalm
      · cases h
        exact progressInv_runJobLoop env jid fuel w w1 hwf hinv hl hcalm

theorem progressInv_StartJob (env : Env) (w : World) (hwf : w.store.WF)
    (hinv : ProgressInv w.store) (userID projectID traceID key : String) :
    ProgressInv (StartJob env w userID projectID traceID key).2.store := by
  rcases StartJob_maps env w hwf userID projectID traceID key with h | ⟨p, -, hj, ht⟩
  · rw [h]; exact hinv
  · intro j job tasks h1 h2
    rw [hj, mapSet_apply] at h1
    rw [ht, mapSet_apply] at h2
    split at h1
    · rename_i hjid
      rw [if_pos hjid] at h2
      cases h1
      cases h2
      have hnone : (buildTasks env.uuid (w.uuids + 1) (some w.clock) p
          (newJob env w userID projectID traceID key)).filter
            (fun t => isTaskTerminal t.Status) = [] := by
        rw [List.filter_eq_nil_iff]
        intro t htm
        rw [(buildTasks_fresh env.uuid (w.uuids + 1) (some w.clock) p
          (newJob env w userID projectID traceID key) t htm).1]
        decide
      unfold calcProgress
      rw [hnone]
      show (0 : ℚ) = _
      simp [float64Div]
    · rename_i hjid
      rw [if_neg hjid] at h2
      exact hinv j job tasks h1 h2

theorem progressInv_RetryJob (env : Env) (w : World) (hwf : w.store.WF)
    (hinv : ProgressInv w.store) (userID jobID traceID : String) :
    ProgressInv (RetryJob env w userID jobID traceID).2.store := by
  rcases RetryJob_maps env w hwf userID jobID traceID with
    h | ⟨job, tasks, J, -, -, -, hJ, hj, ht⟩
  · rw [h]; exact hinv
  · intro j job2 tasks2 h1 h2
    rw [hj, mapSet_apply] at h1
    rw [ht, mapSet_apply] at h2
    split at h1
    · rename_i hjid
      rw [if_pos hjid] at h2
      cases h1
      cases h2
      rw [hJ]
    · rename_i hjid
      rw [if_neg hjid] at h2
      exact hinv j job2 tasks2 h1 h2

end Stv

namespace Stv

/-- Storing a record whose progress is `calcProgress` of the stored task list and publishing
`job_progress` with that progress appends a progress event with that value. -/
theorem appendsProgress_of_update (env : Env) (w : World) (J old : Job)
    (tasks : List JobTask) (pl : Payload) (hold : w.store.jobs J.ID = some old)
    (ht : w.store.tasksByJob J.ID = some tasks)
    (hJ : J.Progress = calcProgress tasks)
    (hpl : ("progress", Val.num J.Progress) ∈ pl) :
    AppendsProgress w.store
      (publishEvent env { w with store := (w.store.UpdateJob J).2 } J .job_progress pl).store
      J.ID := by
  have hup := updateJob_ok w.store J old hold
  have hj2 : (w.store.UpdateJob J).2.jobs J.ID = some J := by
    rw [hup.2]
    simp [mapSet_apply]
  have hufr := updateJob_frame w.store J
  obtain ⟨e, he1, he2, he3⟩ := publishEvent_appends env
    { w with store := (w.store.UpdateJob J).2 } J .job_progress pl J hj2
  refine ⟨tasks, e, ?_, ?_, he2, ?_⟩
  · rw [publishEvent_store, (appendJobEvent_frame _ _ _ _).2.2.1]
    show (w.store.UpdateJob J).2.tasksByJob J.ID = _
    rw [hufr.2.1]
    exact ht
  · rw [he1]
    show some (((w.store.UpdateJob J).2.eventsByJob J.ID).getD [] ++ [e]) = _
    rw [hufr.2.2.1]
  · rw [he3, ← hJ]
    exact hpl

theorem updateProgress_appends (env : Env) (w : World) (hwf : w.store.WF) (jid : String)
    (job : Job) (hj : w.store.jobs jid = some job) :
    AppendsProgress w.store (updateProgress env w jid).store jid := by
  have hts : (w.store.tasksByJob jid).isSome = true := by
    rw [hwf.tasks_iff, hj]; rfl
  obtain ⟨tasks, ht⟩ := Option.isSome_iff_exists.mp hts
  obtain ⟨e, -, h2, h3, h4, h5⟩ := updateProgress_effect env w hwf jid job tasks hj ht
  refine ⟨tasks, e, by rw [h2]; exact ht, h3, h4, ?_⟩
  rw [h5]
  simp

theorem CancelJob_appends (env : Env) (w : World) (hwf : w.store.WF) (job : Job)
    (hj : w.store.jobs job.ID = some job) (hnt : isJobTerminal job.Status = false)
    (hp : ProgressAt w.store job.ID) :
    AppendsProgress w.store (CancelJob env w job.UserID job.ID).2.store job.ID := by
  have hts : (w.store.tasksByJob job.ID).isSome = true := by
    rw [hwf.tasks_iff, hj]; rfl
  obtain ⟨tasks, ht⟩ := Option.isSome_iff_exists.mp hts
  have hj2 : w.store.jobs ({ job with CancelRequested := true } : Job).ID = some job := hj
  obtain ⟨hu1, -⟩ := updateJob_ok w.store { job with CancelRequested := true } job hj2
  have hce : (CancelJob env w job.UserID job.ID).2 =
      publishEvent env
        { w with store := (w.store.UpdateJob { job with CancelRequested := true }).2 }
        { job with CancelRequested := true } .job_progress
        [("status", .jobStatus job.Status), ("cancel_requested", .bool true),
         ("progress", .num job.Progress)] := by
    simp [CancelJob, MemoryStore.GetJob, hj, hnt, hu1]
  rw [hce]
  exact appendsProgress_of_update env w { job with CancelRequested := true } job tasks _ hj ht
    (hp job tasks hj ht) (by simp)

theorem markStarted_appends (env : Env) (w : World) (hwf : w.store.WF) (job : Job)
    (hj : w.store.jobs job.ID = some job) (hs : job.StartedAt = none)
    (hp : ProgressAt w.store job.ID) :
    AppendsProgress w.store (markStarted env w job).2.store job.ID := by
  have hts : (w.store.tasksByJob job.ID).isSome = true := by
    rw [hwf.tasks_iff, hj]; rfl
  obtain ⟨tasks, ht⟩ := Option.isSome_iff_exists.mp hts
  have hj2 : w.store.jobs ({ job with StartedAt := some w.clock, Status := .running } : Job).ID
      = some job := hj
  obtain ⟨hu1, -⟩ := updateJob_ok w.store
    { job with StartedAt := some w.clock, Status := .running } job hj2
  have hms : (markStarted env w job).2 =
      publishEvent env
        { w with
          store := (w.store.UpdateJob
            { job with StartedAt := some w.clock, Status := .running }).2 }
        { job with StartedAt := some w.clock, Status := .running } .job_progress
        [("status", .jobStatus .running), ("progress", .num job.Progress)] := by
    simp [markStarted, hs, hu1]
  rw [hms]
  exact appendsProgress_of_update env w
    { job with StartedAt := some w.clock, Status := .running } job tasks _ hj ht
    (hp job tasks hj ht) (by simp)

/-- In every state reached by complete operations the store is consistent and the progress
of every job is what `calcProgress` returns for its task list. -/
theorem operated_inv (env : Env) (w : World) (h : World.Operated env w) :
    w.store.WF ∧ ProgressInv w.store := by
  induction h with
  | fresh st mc mu ms clock hst hnone =>
    refine ⟨wf_of_reachable _ hst, ?_⟩
    intro j job tasks hj _
    have : st.jobs j = some job := hj
    rw [hnone j] at this
    cases this
  | startJob userID projectID traceID key _ ih =>
    exact ⟨StartJob_wf env _ ih.1 _ _ _ _, progressInv_StartJob env _ ih.1 ih.2 _ _ _ _⟩
  | cancelJob userID jobID _ ih =>
    have hf := frame_CancelJob none env _ ih.1 userID jobID
    exact ⟨hf.wf, progressInv_of_frame _ _ hf ih.2⟩
  | retryJob userID jobID traceID _ ih =>
    exact ⟨RetryJob_wf env _ ih.1 _ _ _, progressInv_RetryJob env _ ih.1 ih.2 _ _ _⟩
  | started job _ hj hnt ih =>
    have hf := frame_markStarted none env _ ih.1 job hj hnt
    exact ⟨hf.wf, progressInv_of_frame _ _ hf ih.2⟩
  | @cancelQueued w job _ ih =>
    have hf := frame_cancelQueuedTasks env w ih.1 job
    refine ⟨hf.wf, ?_⟩
    intro j
    by_cases hj : j = job.ID
    · rcases cancelQueuedTasks_progress env w ih.1 job with h | h
      · rw [h]; exact ih.2 j
      · rw [hj]; exact h
    · exact progressAt_of_frame _ _ _ hf j (by simpa using hj) (ih.2 j)
  | @execute w job task _ hcalm ih =>
    have hf := frame_executeTask env w ih.1 job task
    refine ⟨hf.wf, ?_⟩
    intro j
    by_cases hj : j = job.ID
    · rcases executeTask_progress env w ih.1 job task with h | h | h
      · rw [h] at hcalm
        cases hcalm
      · rw [hj]; exact h
      · rw [h]; exact ih.2 j
    · exact progressAt_of_frame _ _ _ hf j (by simpa using hj) (ih.2 j)
  | @finalize w job tasks _ ht ih =>
    exact ⟨(finalizeJob_frame env w ih.1 job tasks).1,
      finalizeJob_progress env w ih.1 job tasks ht (fun j _ => ih.2 j)⟩

/-- A wave of `executeTask` runs, one after another and without panic, is a sequence of
complete operations. -/
theorem operated_wave (env : Env) (job : Job) (ready : List JobTask) (w : World)
    (h : World.Operated env w)
    (hcalm : (ready.foldl (fun v t => executeTask env v job t) w).panicked = false) :
    World.Operated env (ready.foldl (fun v t => executeTask env v job t) w) := by
  induction ready generalizing w with
  | nil => exact h
  | cons t rest ih =>
    have hwf := (operated_inv env w h).1
    have hf1 := frame_executeTask env w hwf job t
    have hf2 := frame_wave env job rest (executeTask env w job t) hf1.wf
    exact ih _ (World.Operated.execute job t h (hf2.calm hcalm)) hcalm

set_option maxRecDepth 100000 in
theorem successRound1_facts :
    successStartWorld.store.jobs successJob.ID = some successJob ∧
    successRound1.panicked = false ∧
    (successRound1.store.jobs (demoUuid 0)).map (fun j => j.Progress)
      = some (mkRat 6004799503160661 36028797018963968) ∧
    (successRound1.store.tasksByJob (demoUuid 0)).map
      (fun ts => ts.map (fun t => (t.TaskKey, t.Status)))
      = some [("storyboard_generate", .succeeded),
          ("image_generate_0", .queued), ("tts_generate_0", .queued),
          ("image_generate_1", .queued), ("tts_generate_1", .queued),
          ("compose_video", .queued)] := by
  decide

theorem successRound1_operated : World.Operated successEnv successRound1 := by
  obtain ⟨f1, f2, -⟩ := successRound1_facts
  have h0 : World.Operated successEnv (demoWorld 2) :=
    World.Operated.fresh _ 20 2 6 5 (demoWorld_reachable 2) (fun _ => rfl)
  have h1 : World.Operated successEnv successStartWorld :=
    World.Operated.startJob "u1" "p1" "t1" "" h0
  have h2 := World.Operated.started successJob h1 f1 (by decide)
  exact operated_wave successEnv _ _ _ h2 f2

set_option maxRecDepth 100000 in
theorem successRound1_counts :
    (successRound1.store.tasksByJob (demoUuid 0)).map
      (fun ts => ((ts.filter (fun t => isTaskTerminal t.Status)).length, ts.length))
      = some (1, 6) := by
  decide

/-- C16 fails as stated, the stored progress being a `float64`.  On the project of
`TestJobSuccess` (two scenes, six tasks), with a provider that always succeeds: after
`StartJob`, the start block of the runner and the run of `executeTask` on
`storyboard_generate`, one task of six is terminal, and the stored progress is the
`float64` nearest to 1/6, the number 6004799503160661 / 2^55, which is not 1/6. -/
theorem progress_is_rounded_ratio :
    World.Operated successEnv successRound1 ∧
    ∃ job tasks, successRound1.store.jobs (demoUuid 0) = some job ∧
      successRound1.store.tasksByJob (demoUuid 0) = some tasks ∧
      terminalRatio tasks = 1 / 6 ∧
      job.Progress = mkRat 6004799503160661 36028797018963968 ∧
      job.Progress ≠ terminalRatio tasks := by
  refine ⟨successRound1_operated, ?_⟩
  obtain ⟨-, -, f3, -⟩ := successRound1_facts
  have f4 := successRound1_counts
  cases hj : successRound1.store.jobs (demoUuid 0) with
  | none => rw [hj] at f3; cases f3
  | some job =>
    cases ht : successRound1.store.tasksByJob (demoUuid 0) with
    | none => rw [ht] at f4; cases f4
    | some tasks =>
      rw [hj] at f3
      rw [ht] at f4
      simp only [Option.map_some', Option.some.injEq, Prod.mk.injEq] at f3 f4
      have hratio : terminalRatio tasks = 1 / 6 := by
        unfold terminalRatio
        rw [f4.1, f4.2]
        norm_num
      refine ⟨job, tasks, rfl, rfl, hratio, f3, ?_⟩
      rw [f3, hratio, Rat.mkRat_eq_div]
      norm_num

/-- C16 as amended.  In every state reached from a fresh service over a store without jobs
by `StartJob`, `CancelJob`, `RetryJob`, the start block of the runner, `cancelQueuedTasks`,
runs of `executeTask` (without worker panic) and `finalizeJob` on the stored task list,
each run to its end before the next starts, the stored progress of every job is what
`calcProgress` returns for its stored task list, the quotient
`float64(terminal) / float64(total)`; it lies in [0, 1] and is the exact ratio
terminal / total with a relative error of at most `2 ^ (-53)`.  Moreover each of the three
places that publish `job_progress` appends one event whose payload carries that quotient
for the task list stored at that moment: `updateProgress` in any consistent store that
holds the job, an admitted `CancelJob`, and the start block of the runner. -/
theorem progress_invariant (env : Env) (w : World) (h : World.Operated env w) :
    (∀ j job tasks, w.store.jobs j = some job → w.store.tasksByJob j = some tasks →
      job.Progress = calcProgress tasks ∧ 0 ≤ job.Progress ∧ job.Progress ≤ 1 ∧
      |job.Progress - terminalRatio tasks| * 2 ^ 53 ≤ terminalRatio tasks) ∧
    (∀ (v : World) jobID job, v.store.WF → v.store.jobs jobID = some job →
      AppendsProgress v.store (updateProgress env v jobID).store jobID) ∧
    (∀ job, w.store.jobs job.ID = some job → isJobTerminal job.Status = false →
      AppendsProgress w.store (CancelJob env w job.UserID job.ID).2.store job.ID) ∧
    (∀ job, w.store.jobs job.ID = some job → job.StartedAt = none →
      AppendsProgress w.store (markStarted env w job).2.store job.ID) := by
  obtain ⟨hwf, hinv⟩ := operated_inv env w h
  refine ⟨?_, ?_, ?_, ?_⟩
  · intro j job tasks hj ht
    have hp := hinv j job tasks hj ht
    refine ⟨hp, ?_⟩
    rw [hp]
    exact ⟨(calcProgress_range tasks).1, (calcProgress_range tasks).2,
      calcProgress_error tasks⟩
  · intro v jobID job hv hj
    exact updateProgress_appends env v hv jobID job hj
  · intro job hj hnt
    exact CancelJob_appends env w hwf job hj hnt (hinv job.ID)
  · intro job hj hs
    exact markStarted_appends env w hwf job hj hs (hinv job.ID)

/-- C16 as amended, on the project of `TestJobSuccess` after `StartJob`, the start block of
the runner and the run of `storyboard_generate`: the job is stored with six tasks, one of
them terminal; its progress is `calcProgress` of the list, between 0 and 1, and a further
`updateProgress` appends a `job_progress` event with that value. -/
theorem progress_invariant_witness :
    ∃ job tasks, successRound1.store.jobs (demoUuid 0) = some job ∧
      successRound1.store.tasksByJob (demoUuid 0) = some tasks ∧
      tasks.length = 6 ∧
      (job.Progress = calcProgress tasks ∧ 0 ≤ job.Progress ∧ job.Progress ≤ 1 ∧
        |job.Progress - terminalRatio tasks| * 2 ^ 53 ≤ terminalRatio tasks) ∧
      AppendsProgress successRound1.store
        (updateProgress successEnv successRound1 (demoUuid 0)).store (demoUuid 0) := by
  have f4 := successRound1_counts
  cases hj : successRound1.store.jobs (demoUuid 0) with
  | none =>
    have f3 := successRound1_facts.2.2.1
    rw [hj] at f3
    cases f3
  | some job =>
    cases ht : successRound1.store.tasksByJob (demoUuid 0) with
    | none => rw [ht] at f4; cases f4
    | some tasks =>
      rw [ht] at f4
      simp only [Option.map_some', Option.some.injEq, Prod.mk.injEq] at f4
      exact ⟨job, tasks, rfl, rfl, f4.2,
        (progress_invariant successEnv successRound1 successRound1_operated).1
          (demoUuid 0) job tasks hj ht,
        (progress_invariant successEnv successRound1 successRound1_operated).2.1 successRound1
          (demoUuid 0) job (operated_inv successEnv successRound1 successRound1_operated).1 hj⟩

/-! ## Assets of a succeeded task (C18) -/

theorem queuedTaskWorld_reachable : queuedTaskWorld.store.Reachable :=
  MemoryStore.Reachable.step (.createJob demoJob [demoTask "a" .queued] "")
    (MemoryStore.Reachable.step (.createProject (demoProject 1)) .init)

/-! ## Ready tasks (C23) -/

/-- C23: for every task list and every time `now`, `readyTasks` is the list filtered, in
its original order, by a test that holds of a task exactly when its status is queued, its
`NextRunAt` is unset or not after `now`, and every key in its `DependsOn` is the key of
some task of the list whose status is succeeded (so a key that names no task, or only
tasks that are not succeeded, blocks it). -/
theorem readyTasks_exact (tasks : List JobTask) (now : Nat) :
    ∃ p : JobTask → Bool, readyTasks tasks now = tasks.filter p ∧
      ∀ t, p t = true ↔
        (t.Status = .queued ∧
          (t.NextRunAt = none ∨ ∃ a, t.NextRunAt = some a ∧ a ≤ now) ∧
          ∀ d ∈ t.DependsOn, ∃ s ∈ tasks, s.TaskKey = d ∧ s.Status = .succeeded) := by
  refine ⟨fun t =>
    decide (t.Status = .queued) &&
    !(match t.NextRunAt with
      | none => false
      | some at_ => decide (now < at_)) &&
    t.DependsOn.all (fun key =>
      tasks.any (fun t => decide (t.Status = .succeeded) && decide (t.TaskKey = key))),
    rfl, ?_⟩
  intro t
  simp only [Bool.and_eq_true, decide_eq_true_eq, Bool.not_eq_true', List.all_eq_true,
    List.any_eq_true]
  constructor
  · rintro ⟨⟨h1, h2⟩, h3⟩
    refine ⟨h1, ?_, ?_⟩
    · cases hn : t.NextRunAt with
      | none => exact Or.inl rfl
      | some a =>
        rw [hn] at h2
        exact Or.inr ⟨a, rfl, by simpa using h2⟩
    · intro d hd
      obtain ⟨s, hs, h4, h5⟩ := h3 d hd
      exact ⟨s, hs, h5, h4⟩
  · rintro ⟨h1, h2, h3⟩
    refine ⟨⟨h1, ?_⟩, ?_⟩
    · rcases h2 with h2 | ⟨a, ha, hle⟩
      · rw [h2]
      · rw [ha]
        simpa using hle
    · intro d hd
      obtain ⟨s, hs, h4, h5⟩ := h3 d hd
      exact ⟨s, hs, h5, h4⟩

/-! ## Retry backoff (C26) -/

theorem wrapInt64_id (x : Int) (h1 : -(2 ^ 63) ≤ x) (h2 : x < 2 ^ 63) : wrapInt64 x = x := by
  unfold wrapInt64
  norm_num at h1 h2 ⊢
  omega

/-- C26 fails at attempt 34.  One second shifted by 33 bits still fits in a signed 64-bit
integer, but with the jitter sample 10^18, which is below one fifth of it, the sum wraps
around: the result is negative, so it is not the base plus a non-negative jitter. -/
theorem retryBackoff_overflows_at_34 :
    (1000000000 : Int) * 2 ^ 33 < 2 ^ 63 ∧
    (1000000000000000000 : Int) < 1000000000 * 2 ^ 33 / 5 ∧
    retryBackoff 34 1000000000000000000 = some (-8856809481709551616) ∧
    ¬ ∃ j : Int, 0 ≤ j ∧
      retryBackoff 34 1000000000000000000 = some (1000000000 * 2 ^ 33 + j) := by
  have h : retryBackoff 34 1000000000000000000 = some (-8856809481709551616) := by
    decide
  refine ⟨by norm_num, by norm_num, h, ?_⟩
  rintro ⟨j, hj, he⟩
  rw [h] at he
  have := Option.some.inj he
  norm_num at this
  omega

/-- C26 as amended: for every attempt a with 1 <= a <= 33 (that is, whenever six fifths of
2^(a-1) seconds, in nanoseconds, fit in a signed 64-bit integer) and every jitter sample,
`retryBackoff a` returns 2^(a-1) s + j in exact integer nanoseconds with
0 <= j < (2^(a-1) s)/5, so the jitter range is not empty and the sampling never fails.  In
particular 1 s <= retryBackoff(1) < 1.25 s, and for a = 1, 2, 3 the base is 1 s, 2 s, 4 s. -/
theorem retryBackoff_exact (a : Int) (r : Nat) (h1 : 1 ≤ a) (h2 : a ≤ 33) :
    (∃ j : Int, retryBackoff a r = some (1000000000 * 2 ^ (a - 1).toNat + j) ∧
      0 ≤ j ∧ j < 1000000000 * 2 ^ (a - 1).toNat / 5 ∧
      j = (r : Int) % (1000000000 * 2 ^ (a - 1).toNat / 5)) ∧
    (a = 1 → ∃ d : Int, retryBackoff a r = some d ∧ 1000000000 ≤ d ∧ d < 1250000000) ∧
    (a = 1 → (1000000000 : Int) * 2 ^ (a - 1).toNat = 1000000000) ∧
    (a = 2 → (1000000000 : Int) * 2 ^ (a - 1).toNat = 2000000000) ∧
    (a = 3 → (1000000000 : Int) * 2 ^ (a - 1).toNat = 4000000000) := by
  have hk : (max (a - 1) 0).toNat = (a - 1).toNat := by
    rw [max_eq_left (by omega)]
  have hkle : (a - 1).toNat ≤ 32 := by omega
  have hpow : (2 : Int) ^ (a - 1).toNat ≤ 2 ^ 32 :=
    pow_le_pow_right₀ (by norm_num) hkle
  have hpos : (1 : Int) ≤ 2 ^ (a - 1).toNat := one_le_pow₀ (by norm_num)
  have hmain : ∃ j : Int, retryBackoff a r = some (1000000000 * 2 ^ (a - 1).toNat + j) ∧
      0 ≤ j ∧ j < 1000000000 * 2 ^ (a - 1).toNat / 5 ∧
      j = (r : Int) % (1000000000 * 2 ^ (a - 1).toNat / 5) := by
    generalize hB : (2 : Int) ^ (a - 1).toNat = B at hpow hpos ⊢
    norm_num at hpow
    have hb1 : wrapInt64 (1000000000 * B) = 1000000000 * B :=
      wrapInt64_id _ (by norm_num; omega) (by norm_num; omega)
    have hdiv : Int.tdiv (1000000000 * B) 5 = 1000000000 * B / 5 :=
      Int.tdiv_eq_ediv (by omega) (by norm_num)
    have hbound : 0 < 1000000000 * B / 5 := by omega
    have hj0 : 0 ≤ (r : Int) % (1000000000 * B / 5) := Int.emod_nonneg _ (by omega)
    have hj1 : (r : Int) % (1000000000 * B / 5) < 1000000000 * B / 5 :=
      Int.emod_lt_of_pos _ hbound
    refine ⟨(r : Int) % (1000000000 * B / 5), ?_, hj0, hj1, rfl⟩
    unfold retryBackoff
    simp only [hk, hB, hb1, hdiv]
    rw [if_neg (by omega)]
    rw [wrapInt64_id _ (by norm_num; omega) (by norm_num; omega)]
  refine ⟨hmain, ?_, ?_, ?_, ?_⟩
  · intro ha
    subst ha
    obtain ⟨j, hj, h0, h3, -⟩ := hmain
    norm_num at hj h3
    exact ⟨_, hj, by omega, by omega⟩
  · intro ha; subst ha; decide
  · intro ha; subst ha; decide
  · intro ha; subst ha; decide

/-- C26 as amended, for the first retry with a raw sample of 7: the pause is one second
and seven nanoseconds. -/
theorem retryBackoff_exact_witness : retryBackoff 1 7 = some 1000000007 := by
  obtain ⟨j, hj, -, -, hj2⟩ := (retryBackoff_exact 1 7 (by decide) (by decide)).1
  rw [hj, hj2]
  norm_num

end Stv

namespace Stv

/-! ## Cancelling the queued tasks (C27) -/

theorem cancelIfQueued_spec (now : Time) (t : JobTask) :
    (t.Status = .queued →
      cancelIfQueued now t
        = { t with
            Status := .canceled, EndedAt := now, ErrorCode := "CANCELED"
            ErrorMsg := "Canceled before execution" }) ∧
    (t.Status ≠ .queued → cancelIfQueued now t = t) := by
  constructor
  · intro h
    simp [cancelIfQueued, h]
  · intro h
    simp [cancelIfQueued, h]

/-- C27: `cancelQueuedTasks` in a reachable store that holds the task list of the job.  If
some task is queued, the call succeeds and stores a list with the tasks of the old one in
the same order, where every queued task is now canceled with error code CANCELED, message
"Canceled before execution" and `EndedAt` stamped with the clock, and every other task is
unchanged; no task of the new list is queued; and exactly one event is appended to the log
of the job, a `job_progress` event carrying the progress that `calcProgress` returns for
the new list.  If no task is queued, the call succeeds and leaves the whole world, store
and event log included, as it was. -/
theorem cancelQueuedTasks_effect (env : Env) (w : World) (hr : w.store.Reachable) (job : Job)
    (tasks : List JobTask) (ht : w.store.tasksByJob job.ID = some tasks) :
    ((∃ t ∈ tasks, t.Status = .queued) →
      ∃ newTasks, (cancelQueuedTasks env w job).1 = .ok () ∧
        (cancelQueuedTasks env w job).2.store.tasksByJob job.ID = some newTasks ∧
        List.Forall₂ (fun t r =>
          (t.Status = .queued →
            r = { t with
                  Status := .canceled, EndedAt := some w.clock, ErrorCode := "CANCELED"
                  ErrorMsg := "Canceled before execution" }) ∧
          (t.Status ≠ .queued → r = t)) tasks newTasks ∧
        (∀ r ∈ newTasks, r.Status ≠ .queued) ∧
        AppendsProgress w.store (cancelQueuedTasks env w job).2.store job.ID) ∧
    ((¬ ∃ t ∈ tasks, t.Status = .queued) → cancelQueuedTasks env w job = (.ok (), w)) := by
  have hwf := wf_of_reachable _ hr
  constructor
  · intro hq
    have hany : tasks.any (fun t => decide (t.Status = .queued)) = true := by
      rw [List.any_eq_true]
      obtain ⟨t, h1, h2⟩ := hq
      exact ⟨t, h1, by simpa using h2⟩
    obtain ⟨hr1, hr2⟩ := replaceJobTasks_ok w.store job.ID
      (tasks.map (cancelIfQueued (some w.clock))) tasks ht
    have heq : cancelQueuedTasks env w job
        = (.ok (), updateProgress env
            { w with
              store := (w.store.ReplaceJobTasks job.ID
                (tasks.map (cancelIfQueued (some w.clock)))).2 } job.ID) := by
      simp [cancelQueuedTasks, MemoryStore.GetJobTasks, ht, hany, hr1]
    have hjs : (w.store.jobs job.ID).isSome = true := by
      rw [← hwf.tasks_iff, ht]; rfl
    obtain ⟨old, hold⟩ := Option.isSome_iff_exists.mp hjs
    have hfr := replaceJobTasks_frame w.store job.ID (tasks.map (cancelIfQueued (some w.clock)))
    have hW : ({ w with
        store := (w.store.ReplaceJobTasks job.ID
          (tasks.map (cancelIfQueued (some w.clock)))).2 } : World).store.WF :=
      wf_replaceJobTasks _ hwf _ _
    have hj0 : ({ w with
        store := (w.store.ReplaceJobTasks job.ID
          (tasks.map (cancelIfQueued (some w.clock)))).2 } : World).store.jobs job.ID
        = some old := by
      show (MemoryStore.ReplaceJobTasks _ _ _).2.jobs job.ID = _
      rw [hfr.2.1]; exact hold
    have ht0 : ({ w with
        store := (w.store.ReplaceJobTasks job.ID
          (tasks.map (cancelIfQueued (some w.clock)))).2 } : World).store.tasksByJob job.ID
        = some (tasks.map (cancelIfQueued (some w.clock))) := by
      show (MemoryStore.ReplaceJobTasks _ _ _).2.tasksByJob job.ID = _
      rw [hr2]; simp [mapSet_apply]
    obtain ⟨ts2, e, h1, h2, h3, h4⟩ := updateProgress_appends env
      { w with
        store := (w.store.ReplaceJobTasks job.ID
          (tasks.map (cancelIfQueued (some w.clock)))).2 } hW job.ID old hj0
    have hts2 : ts2 = tasks.map (cancelIfQueued (some w.clock)) := by
      obtain ⟨_, -, hx, -⟩ := updateProgress_effect env _ hW job.ID old _ hj0 ht0
      rw [hx, ht0] at h1
      exact (Option.some.inj h1).symm
    subst hts2
    refine ⟨tasks.map (cancelIfQueued (some w.clock)), by rw [heq], by rw [heq]; exact h1,
      ?_, ?_, ?_⟩
    · rw [List.forall₂_map_right_iff, List.forall₂_same]
      intro t _
      exact cancelIfQueued_spec (some w.clock) t
    · intro r hr
      rw [List.mem_map] at hr
      obtain ⟨t, -, rfl⟩ := hr
      by_cases hs : t.Status = .queued
      · rw [(cancelIfQueued_spec (some w.clock) t).1 hs]
        simp
      · rw [(cancelIfQueued_spec (some w.clock) t).2 hs]
        exact hs
    · rw [heq]
      refine ⟨_, e, h1, ?_, h3, h4⟩
      rw [h2]
      show some (((MemoryStore.ReplaceJobTasks _ _ _).2.eventsByJob job.ID).getD [] ++ [e]) = _
      rw [hfr.2.2.1]
  · intro hq
    have hany : tasks.any (fun t => decide (t.Status = .queued)) = false := by
      rw [List.any_eq_false]
      intro t h1
      simp only [decide_eq_true_eq]
      exact fun h2 => hq ⟨t, h1, h2⟩
    simp [cancelQueuedTasks, MemoryStore.GetJobTasks, ht, hany]

/-- C27, on the service that holds the job "j1" with the single queued task "a": the task
is stored as canceled with code CANCELED, and nothing is queued any more. -/
theorem cancelQueuedTasks_effect_witness :
    ∃ newTasks, (cancelQueuedTasks demoEnv queuedTaskWorld demoJob).2.store.tasksByJob "j1"
        = some newTasks ∧
      (∀ r ∈ newTasks, r.Status ≠ .queued) ∧
      AppendsProgress queuedTaskWorld.store
        (cancelQueuedTasks demoEnv queuedTaskWorld demoJob).2.store "j1" := by
  obtain ⟨newTasks, -, h2, -, h4, h5⟩ :=
    (cancelQueuedTasks_effect demoEnv queuedTaskWorld queuedTaskWorld_reachable demoJob
      [demoTask "a" .queued] rfl).1 ⟨demoTask "a" .queued, by simp, rfl⟩
  exact ⟨newTasks, h2, h4, h5⟩

/-! ## A failed task with dependents (C22) -/

theorem suspend_quiet (env : Env) (w : World) (d : Nat) (hc : env.cancels w.ticks = []) :
    suspend env w d = { w with clock := w.clock + d, ticks := w.ticks + 1 } := by
  unfold suspend
  rw [hc]
  rfl

/-- A task list without a succeeded task, in which every queued task has a dependency,
has no ready task at any time. -/
theorem readyTasks_blocked (ts : List JobTask) (c : Nat)
    (hns : ∀ t ∈ ts, t.Status ≠ .succeeded)
    (hdep : ∀ t ∈ ts, t.Status = .queued → t.DependsOn ≠ []) : readyTasks ts c = [] := by
  rw [List.eq_nil_iff_forall_not_mem]
  intro t ht
  rw [mem_readyTasks] at ht
  obtain ⟨hm, hq, -, hd⟩ := ht
  cases hl : t.DependsOn with
  | nil => exact hdep t hm hq hl
  | cons d rest =>
    obtain ⟨x, hx, hs, -⟩ := hd d (by rw [hl]; exact List.mem_cons_self _ _)
    exact hns x hx hs

/-- A runner whose job is started and not cancel-requested, whose stored tasks are not
all terminal and never ready, and which nobody cancels, does not return: every round
sleeps and starts over. -/
theorem runJobLoop_stuck (env : Env) (jid : String) (hc : ∀ n, env.cancels n = [])
    (job : Job) (ts : List JobTask) (hnt : isJobTerminal job.Status = false)
    (hst : job.StartedAt ≠ none) (hcr : job.CancelRequested = false)
    (hall : allTasksTerminal ts = false) (hready : ∀ c, readyTasks ts c = []) :
    ∀ (fuel : Nat) (w : World), w.store.jobs jid = some job →
      w.store.tasksByJob jid = some ts → runJobLoop env jid fuel w = none := by
  intro fuel
  induction fuel with
  | zero =>
    intro w _ _
    rfl
  | succ n ih =>
    intro w hj ht
    unfold runJobLoop
    have hg : w.store.GetJob jid = .ok job := by
      simp [MemoryStore.GetJob, hj]
    have hms : markStarted env w job = (job, w) := by
      simp [markStarted, hst]
    have hgt : w.store.GetJobTasks jid = .ok ts := by
      simp [MemoryStore.GetJobTasks, ht]
    simp only [hg, hnt, Bool.false_eq_true, if_false, hms, hcr, hgt, hall, hready,
      List.isEmpty_nil, if_true]
    apply ih
    · rw [suspend_quiet env w _ (hc _)]
      exact hj
    · rw [suspend_quiet env w _ (hc _)]
      exact ht

/-- One round of the runner loop that runs a wave and goes on. -/
theorem runJobLoop_wave (env : Env) (jid : String) (fuel : Nat) (w : World) (job : Job)
    (tasks : List JobTask) (hg : w.store.GetJob jid = .ok job)
    (hnt : isJobTerminal job.Status = false)
    (hcr : (markStarted env w job).1.CancelRequested = false)
    (ht : (markStarted env w job).2.store.GetJobTasks jid = .ok tasks)
    (hall : allTasksTerminal tasks = false)
    (hready : (readyTasks tasks (markStarted env w job).2.clock).isEmpty = false)
    (hcalm : ((readyTasks tasks (markStarted env w job).2.clock).foldl
      (fun v t => executeTask env v (markStarted env w job).1 t)
      (markStarted env w job).2).panicked = false) :
    runJobLoop env jid (fuel + 1) w
      = runJobLoop env jid fuel
          ((readyTasks tasks (markStarted env w job).2.clock).foldl
            (fun v t => executeTask env v (markStarted env w job).1 t)
            (markStarted env w job).2) := by
  rw [runJobLoop]
  simp only [hg, hnt, Bool.false_eq_true, if_false, hcr, ht, hall, hready, hcalm]

end Stv

namespace Stv

set_option maxRecDepth 100000 in
theorem failRoundWorld_facts :
    failStartWorld.store.jobs (demoUuid 0) = some failJob ∧
    (markStarted failEnv failStartWorld failJob).1.CancelRequested = false ∧
    (markStarted failEnv failStartWorld failJob).2.store.tasksByJob (demoUuid 0)
      = some (buildTasks demoUuid 1 (some 5) (demoProject 1) failJob) ∧
    (readyTasks (buildTasks demoUuid 1 (some 5) (demoProject 1) failJob)
      (markStarted failEnv failStartWorld failJob).2.clock).isEmpty = false ∧
    failRoundWorld.panicked = false ∧
    (failRoundWorld.store.jobs (demoUuid 0)).map
      (fun j => (j.Status, j.CancelRequested, j.StartedAt)) = some (.running, false, some 5) ∧
    (failRoundWorld.store.tasksByJob (demoUuid 0)).map
      (fun ts => ts.map (fun t => (t.TaskKey, t.Status, t.ErrorCode, t.DependsOn)))
      = some [("storyboard_generate", .failed, "BAD_INPUT", []),
          ("image_generate_0", .queued, "", ["storyboard_generate"]),
          ("tts_generate_0", .queued, "", ["storyboard_generate"]),
          ("compose_video", .queued, "", ["image_generate_0", "tts_generate_0"])] := by
  decide

end Stv

namespace Stv

/-- C22, at the failing input: a project with one scene and a provider that rejects
`storyboard_generate` with an error that is not retryable; nobody cancels.  After the first
round the job is running, `storyboard_generate` is failed and the three tasks that depend on
it, directly or through others, are still queued: no task is running, not all tasks are
terminal, and `readyTasks` is empty at every time.  From there every round of the runner
sleeps and starts over, so `runJob` does not return, whatever number of rounds it is given:
the job is never finalized and never becomes failed. -/
theorem failed_task_blocks_runner :
    (failRoundWorld.store.jobs (demoUuid 0)).map
      (fun j => (j.Status, j.CancelRequested, j.StartedAt)) = some (.running, false, some 5) ∧
    (failRoundWorld.store.tasksByJob (demoUuid 0)).map
      (fun ts => ts.map (fun t => (t.TaskKey, t.Status, t.ErrorCode, t.DependsOn)))
      = some [("storyboard_generate", .failed, "BAD_INPUT", []),
          ("image_generate_0", .queued, "", ["storyboard_generate"]),
          ("tts_generate_0", .queued, "", ["storyboard_generate"]),
          ("compose_video", .queued, "", ["image_generate_0", "tts_generate_0"])] ∧
    (∀ ts, failRoundWorld.store.tasksByJob (demoUuid 0) = some ts →
      allTasksTerminal ts = false ∧ ∀ c, readyTasks ts c = []) ∧
    (∀ fuel, runJobLoop failEnv (demoUuid 0) (fuel + 1) failStartWorld
      = runJobLoop failEnv (demoUuid 0) fuel failRoundWorld) ∧
    (∀ fuel, runJob failEnv (demoUuid 0) fuel
      (StartJob failEnv (demoWorld 1) "u1" "p1" "t1" "").2 = none) := by
  obtain ⟨f1, f2, f3, f4, f5, f6, f7⟩ := failRoundWorld_facts
  have hblocked : ∀ ts, failRoundWorld.store.tasksByJob (demoUuid 0) = some ts →
      allTasksTerminal ts = false ∧ ∀ c, readyTasks ts c = [] := by
    intro ts hts
    rw [hts] at f7
    simp only [Option.map_some', Option.some.injEq] at f7
    have hmem : ∀ t ∈ ts, (t.TaskKey, t.Status, t.ErrorCode, t.DependsOn) ∈
        [("storyboard_generate", TaskStatus.failed, "BAD_INPUT", ([] : List String)),
          ("image_generate_0", .queued, "", ["storyboard_generate"]),
          ("tts_generate_0", .queued, "", ["storyboard_generate"]),
          ("compose_video", .queued, "", ["image_generate_0", "tts_generate_0"])] := by
      intro t ht
      rw [← f7]
      exact List.mem_map_of_mem (fun t => (t.TaskKey, t.Status, t.ErrorCode, t.DependsOn)) ht
    constructor
    · cases ts with
      | nil => cases f7
      | cons t rest =>
        cases rest with
        | nil => simp at f7
        | cons t2 rest2 =>
          simp only [List.map_cons, List.cons.injEq, Prod.mk.injEq] at f7
          have h2 : t2.Status = .queued := f7.2.1.2.1
          simp [allTasksTerminal, isTaskTerminal, h2]
    · intro c
      apply readyTasks_blocked
      · intro t ht hs
        have := hmem t ht
        simp only [List.mem_cons, Prod.mk.injEq, List.mem_singleton, List.mem_nil_iff,
          or_false] at this
        rcases this with h | h | h | h <;> rw [hs] at h <;> exact absurd h.2.1 (by decide)
      · intro t ht _ hd
        have := hmem t ht
        simp only [List.mem_cons, Prod.mk.injEq, List.mem_singleton, List.mem_nil_iff,
          or_false] at this
        rcases this with h | h | h | h
        · rename_i hq
          rw [hq] at h
          exact absurd h.2.1 (by decide)
        · rw [hd] at h; exact absurd h.2.2.2 (by decide)
        · rw [hd] at h; exact absurd h.2.2.2 (by decide)
        · rw [hd] at h; exact absurd h.2.2.2 (by decide)
  have hround : ∀ fuel, runJobLoop failEnv (demoUuid 0) (fuel + 1) failStartWorld
      = runJobLoop failEnv (demoUuid 0) fuel failRoundWorld := by
    intro fuel
    exact runJobLoop_wave failEnv (demoUuid 0) fuel failStartWorld failJob
      (buildTasks demoUuid 1 (some 5) (demoProject 1) failJob)
      (by simp [MemoryStore.GetJob, f1]) (by decide) f2
      (by simp [MemoryStore.GetJobTasks, f3]) (by decide) f4 f5
  refine ⟨f6, f7, hblocked, hround, ?_⟩
  intro fuel
  have hloop : runJobLoop failEnv (demoUuid 0) fuel failStartWorld = none := by
    cases fuel with
    | zero => rfl
    | succ n =>
      rw [hround n]
      cases hj : failRoundWorld.store.jobs (demoUuid 0) with
      | none => rw [hj] at f6; cases f6
      | some job =>
        rw [hj] at f6
        simp only [Option.map_some', Option.some.injEq, Prod.mk.injEq] at f6
        cases ht : failRoundWorld.store.tasksByJob (demoUuid 0) with
        | none => rw [ht] at f7; cases f7
        | some ts =>
          obtain ⟨ha, hr⟩ := hblocked ts ht
          exact runJobLoop_stuck failEnv (demoUuid 0) (fun _ => rfl) job ts
            (by rw [f6.1]; rfl) (by rw [f6.2.2]; simp) f6.2.1 ha hr n failRoundWorld hj ht
  show runJob failEnv (demoUuid 0) fuel failStartWorld = none
  unfold runJob
  rw [hloop]

/-! ## Concurrent task updates (C29) -/

/-- A worker that runs alone makes exactly the two store calls of `updateTask`. -/
theorem worker_alone_is_updateTask (w : World) (jobID taskID : String)
    (fn : JobTask → JobTask) :
    (Worker.step jobID
      (Worker.step jobID w.store { taskID := taskID, fn := fn, phase := .start }).1
      (Worker.step jobID w.store { taskID := taskID, fn := fn, phase := .start }).2).1
      = (updateTask w jobID taskID fn).2.store := by
  unfold updateTask
  cases hg : w.store.GetJobTasks jobID with
  | error e => simp [Worker.step, hg]
  | ok tasks =>
    cases ha : applyFirst taskID fn tasks with
    | none => simp [Worker.step, hg, ha]
    | some updated => simp [Worker.step, hg, ha]

/-- C29, at the failing schedules: the job "j1" has the queued tasks "a" and "b"; one
worker marks "a" running and the other marks "b" running, each through `updateTask`.  When
the two calls do not overlap, the list stored at the end has both tasks running.  In each
of the four schedules in which both workers read the list before either replaces it, the
list stored at the end is the one of the worker that writes last, and the update of the
other worker is lost: its task is still queued. -/
theorem concurrent_updateTask_loses_update :
    (((runWorkers "j1" [.first, .first, .second, .second] pairStore
        { taskID := "a", fn := markRunning 5 "worker-1", phase := .start }
        { taskID := "b", fn := markRunning 5 "worker-2", phase := .start }).1.tasksByJob
      "j1").map (fun ts => ts.map (fun t => (t.ID, t.Status)))
      = some [("a", .running), ("b", .running)]) ∧
    (((runWorkers "j1" [.second, .second, .first, .first] pairStore
        { taskID := "a", fn := markRunning 5 "worker-1", phase := .start }
        { taskID := "b", fn := markRunning 5 "worker-2", phase := .start }).1.tasksByJob
      "j1").map (fun ts => ts.map (fun t => (t.ID, t.Status)))
      = some [("a", .running), ("b", .running)]) ∧
    (((runWorkers "j1" [.first, .second, .first, .second] pairStore
        { taskID := "a", fn := markRunning 5 "worker-1", phase := .start }
        { taskID := "b", fn := markRunning 5 "worker-2", phase := .start }).1.tasksByJob
      "j1").map (fun ts => ts.map (fun t => (t.ID, t.Status)))
      = some [("a", .queued), ("b", .running)]) ∧
    (((runWorkers "j1" [.second, .first, .first, .second] pairStore
        { taskID := "a", fn := markRunning 5 "worker-1", phase := .start }
        { taskID := "b", fn := markRunning 5 "worker-2", phase := .start }).1.tasksByJob
      "j1").map (fun ts => ts.map (fun t => (t.ID, t.Status)))
      = some [("a", .queued), ("b", .running)]) ∧
    (((runWorkers "j1" [.first, .second, .second, .first] pairStore
        { taskID := "a", fn := markRunning 5 "worker-1", phase := .start }
        { taskID := "b", fn := markRunning 5 "worker-2", phase := .start }).1.tasksByJob
      "j1").map (fun ts => ts.map (fun t => (t.ID, t.Status)))
      = some [("a", .running), ("b", .queued)]) ∧
    (((runWorkers "j1" [.second, .first, .second, .first] pairStore
        { taskID := "a", fn := markRunning 5 "worker-1", phase := .start }
        { taskID := "b", fn := markRunning 5 "worker-2", phase := .start }).1.tasksByJob
      "j1").map (fun ts => ts.map (fun t => (t.ID, t.Status)))
      = some [("a", .running), ("b", .queued)]) := by
  decide

/-! ## Replay and live tail (C21) -/

theorem publishEventHub_world (env : Env) (w : World) (h : Hub) (job : Job)
    (t : JobEventType) (p : Payload) :
    (publishEventHub env w h job t p).1 = publishEvent env w job t p := by
  unfold publishEventHub publishEvent
  simp only []
  split <;> rfl

/-- C21, at the failing schedule: the job "j1" of user "u1" has an empty log; the handler
of "u1" reads the backlog from cursor 0, then the runner publishes an event, then the
handler subscribes.  The event is in the log with sequence number 1, above the cursor; it
is not in the backlog the handler writes, and the channel of its subscription is empty: the
event falls in the gap between replay and live tail. -/
theorem event_lost_between_replay_and_subscribe :
    (streamJobEvents demoJobWorld NewHub "u1" "j1" 0 "s1"
      (fun st => publishEventHub demoEnv st.1 st.2 demoJob .job_progress [])).1 = .ok [] ∧
    ((streamJobEvents demoJobWorld NewHub "u1" "j1" 0 "s1"
      (fun st => publishEventHub demoEnv st.1 st.2 demoJob .job_progress [])).2.1.store.eventsByJob
        "j1").map (fun evs => evs.map (fun e => (e.Seq, e.Typ)))
      = some [(1, .job_progress)] ∧
    (streamJobEvents demoJobWorld NewHub "u1" "j1" 0 "s1"
      (fun st => publishEventHub demoEnv st.1 st.2 demoJob .job_progress [])).2.2.subs "j1"
      = some [("s1", { cap := 128, queue := [], taken := [] })] := by
  refine ⟨?_, ?_, ?_⟩
  · rfl
  · decide
  · decide

/-! ## The task list through a run of `executeTask`, for any provider and any cancels -/

theorem tasks_publishEvent (env : Env) (w : World) (job : Job) (t : JobEventType)
    (p : Payload) : (publishEvent env w job t p).store.tasksByJob = w.store.tasksByJob := by
  rw [publishEvent_store, (appendJobEvent_frame _ _ _ _).2.2.1]

theorem tasks_updateProgress (env : Env) (w : World) (jid : String) :
    (updateProgress env w jid).store.tasksByJob = w.store.tasksByJob := by
  unfold updateProgress
  split
  · rfl
  · split
    · rfl
    · rw [tasks_publishEvent]
      exact (updateJob_frame _ _).2.1

theorem tasks_updateTask (w : World) (jid tid : String) (g : JobTask → JobTask)
    (ts : List JobTask) (ht : w.store.tasksByJob jid = some ts)
    (hnd : (ts.map (fun t => t.ID)).Nodup) (hmem : ∃ t ∈ ts, t.ID = tid) :
    (updateTask w jid tid g).1 = .ok () ∧
    (updateTask w jid tid g).2.store.tasksByJob jid = some (updateAt tid g ts) := by
  unfold updateTask
  simp only [MemoryStore.GetJobTasks, ht, applyFirst_eq_updateAt tid g ts hnd hmem]
  obtain ⟨h1, h2⟩ := replaceJobTasks_ok w.store jid (updateAt tid g ts) ts ht
  refine ⟨h1, ?_⟩
  show (MemoryStore.ReplaceJobTasks _ _ _).2.tasksByJob jid = _
  rw [h2]
  simp [mapSet_apply]

theorem updateAt_mem_ids (tid : String) (g : JobTask → JobTask) (hg : ∀ t, (g t).ID = t.ID)
    (ts : List JobTask) (x : String) (h : ∃ t ∈ ts, t.ID = x) :
    ∃ t ∈ updateAt tid g ts, t.ID = x := by
  obtain ⟨t, ht, hx⟩ := h
  have : x ∈ (updateAt tid g ts).map (fun t => t.ID) := by
    rw [updateAt_ids tid g hg ts, ← hx]
    exact List.mem_map_of_mem (fun t => t.ID) ht
  rw [List.mem_map] at this
  obtain ⟨t2, h1, h2⟩ := this
  exact ⟨t2, h1, h2⟩

theorem updateAt_self (tid : String) (ts : List JobTask) :
    updateAt tid (fun t => t) ts = ts := by
  unfold updateAt
  have : (fun t : JobTask => if t.ID = tid then t else t) = id := by
    funext t
    simp
  rw [this, List.map_id]

theorem failTask_tasks (env : Env) (w : World) (job : Job) (task : JobTask)
    (lastErr : Option ProviderError) (ts : List JobTask)
    (ht : w.store.tasksByJob job.ID = some ts) (hnd : (ts.map (fun t => t.ID)).Nodup)
    (hmem : ∃ t ∈ ts, t.ID = task.ID) :
    (failTask env w job task lastErr).store.tasksByJob job.ID
      = some (updateAt task.ID (markFailed w.clock (lastErr.getD unknownFailure)) ts) := by
  have h1 := (tasks_updateTask w job.ID task.ID
    (markFailed w.clock (lastErr.getD unknownFailure)) ts ht hnd hmem).2
  unfold failTask
  simp only []
  rw [tasks_updateProgress, tasks_publishEvent]
  exact h1

theorem succeedTask_tasks (env : Env) (w : World) (job : Job) (task : JobTask)
    (out : ExecuteOutput) (ts : List JobTask)
    (ht : w.store.tasksByJob job.ID = some ts) (hnd : (ts.map (fun t => t.ID)).Nodup)
    (hmem : ∃ t ∈ ts, t.ID = task.ID) :
    (succeedTask env w job task out).store.tasksByJob job.ID
      = some (updateAt task.ID (markSucceeded w.clock out.Output) ts) := by
  have h1 := (tasks_updateTask w job.ID task.ID (markSucceeded w.clock out.Output) ts ht hnd
    hmem).2
  unfold succeedTask
  simp only []
  rw [tasks_updateProgress, tasks_publishEvent]
  split
  · exact h1
  · split
    · exact h1
    · rw [tasks_publishEvent]
      show (MemoryStore.CreateAsset _ _).2.tasksByJob job.ID = _
      rw [(createAsset_frame _ _).2.2.1]
      exact h1

theorem cancelTask_tasks (env : Env) (w : World) (jid tid code msg : String)
    (ts : List JobTask) (ht : w.store.tasksByJob jid = some ts)
    (hnd : (ts.map (fun t => t.ID)).Nodup) (hmem : ∃ t ∈ ts, t.ID = tid) :
    (updateProgress env (markTaskCanceled w jid tid code msg) jid).store.tasksByJob jid
      = some (updateAt tid (markCanceled w.clock code msg) ts) := by
  have h1 := (tasks_updateTask w jid tid (markCanceled w.clock code msg) ts ht hnd hmem).2
  unfold markTaskCanceled
  rw [tasks_updateProgress]
  exact h1

end Stv

namespace Stv

/-- The seven ways through one round of the retry loop. -/
theorem attemptLoop_cases (env : Env) (job : Job) (task : JobTask) (maxAttempt n attempt : Nat)
    (lastErr : Option ProviderError) (w : World) :
    (¬ attempt ≤ maxAttempt ∧
      attemptLoop env job task maxAttempt (n + 1) attempt lastErr w
        = failTask env w job task lastErr) ∨
    (attempt ≤ maxAttempt ∧ isJobCanceled w job.ID = true ∧
      attemptLoop env job task maxAttempt (n + 1) attempt lastErr w
        = updateProgress env
            (markTaskCanceled w job.ID task.ID "CANCELED" "Canceled during execution")
            job.ID) ∨
    (attempt ≤ maxAttempt ∧ isJobCanceled w job.ID = false ∧
      ∃ out, callResult env w job task = .ok out ∧
        attemptLoop env job task maxAttempt (n + 1) attempt lastErr w
          = succeedTask env (afterCall env w) job task out) ∨
    (attempt ≤ maxAttempt ∧ isJobCanceled w job.ID = false ∧
      ∃ pErr, callResult env w job task = .error pErr ∧
        (pErr.Retryable = false ∨ maxAttempt ≤ attempt) ∧
        attemptLoop env job task maxAttempt (n + 1) attempt lastErr w
          = failTask env (afterCall env w) job task (some pErr)) ∨
    (attempt < maxAttempt ∧ isJobCanceled w job.ID = false ∧
      ∃ pErr, callResult env w job task = .error pErr ∧ pErr.Retryable = true ∧
        backoffSleep env w job attempt = none ∧
        attemptLoop env job task maxAttempt (n + 1) attempt lastErr w
          = { afterCall env w with rands := (afterCall env w).rands + 1, panicked := true }) ∨
    (attempt < maxAttempt ∧ isJobCanceled w job.ID = false ∧
      ∃ pErr r, callResult env w job task = .error pErr ∧ pErr.Retryable = true ∧
        backoffSleep env w job attempt = some r ∧ r.1 = false ∧
        attemptLoop env job task maxAttempt (n + 1) attempt lastErr w
          = updateProgress env
              (markTaskCanceled r.2 job.ID task.ID "CANCELED" "Canceled during backoff")
              job.ID) ∨
    (attempt < maxAttempt ∧ isJobCanceled w job.ID = false ∧
      ∃ pErr r, callResult env w job task = .error pErr ∧ pErr.Retryable = true ∧
        backoffSleep env w job attempt = some r ∧ r.1 = true ∧
        attemptLoop env job task maxAttempt (n + 1) attempt lastErr w
          = attemptLoop env job task maxAttempt n (attempt + 1) (some pErr)
              (updateTask r.2 job.ID task.ID bumpAttempt).2) := by
  by_cases h1 : attempt ≤ maxAttempt
  swap
  · left
    exact ⟨h1, by rw [attemptLoop, if_neg h1]⟩
  right
  cases h2 : isJobCanceled w job.ID
  swap
  · left
    exact ⟨h1, rfl, by rw [attemptLoop, if_pos h1, if_pos h2]⟩
  right
  have hres : env.prov (suspend env w 0).provCalls
      { UserID := job.UserID, ProjectID := job.ProjectID, JobID := job.ID
        TaskID := task.ID, TaskType := task.TaskType, SceneIndex := task.SceneIndex
        TraceID := job.TraceID, Payload := task.Input }
      (isJobCanceled (suspend env w 0) job.ID) = callResult env w job task := rfl
  cases h3 : callResult env w job task with
  | ok out =>
    left
    refine ⟨h1, rfl, out, rfl, ?_⟩
    rw [h3] at hres
    rw [attemptLoop, if_pos h1, if_neg (by rw [h2]; decide)]
    simp only [hres]
    rfl
  | error pErr =>
    right
    rw [h3] at hres
    by_cases h4 : pErr.Retryable = false ∨ maxAttempt ≤ attempt
    · left
      refine ⟨h1, rfl, pErr, rfl, h4, ?_⟩
      have h4b : (!pErr.Retryable || decide (attempt ≥ maxAttempt)) = true := by
        rcases h4 with h | h
        · rw [h]; rfl
        · simp [h]
      rw [attemptLoop, if_pos h1, if_neg (by rw [h2]; decide)]
      simp only [hres, h4b, if_true]
      rfl
    · right
      have h5 : pErr.Retryable = true := by
        cases h : pErr.Retryable
        · exact absurd (Or.inl h) h4
        · rfl
      have h6 : attempt < maxAttempt := by
        by_contra h
        exact h4 (Or.inr (Nat.le_of_not_lt h))
      have h4b : (!pErr.Retryable || decide (attempt ≥ maxAttempt)) = false := by
        rw [h5]
        simp [h6]
      have hback : retryBackoff attempt (env.rand (suspend env w 0).rands)
          = retryBackoff attempt (env.rand (afterCall env w).rands) := rfl
      cases h7 : retryBackoff attempt (env.rand (afterCall env w).rands) with
      | none =>
        left
        rw [h7] at hback
        refine ⟨h6, rfl, pErr, rfl, h5, ?_, ?_⟩
        · simp [backoffSleep, h7]
        · rw [attemptLoop, if_pos h1, if_neg (by rw [h2]; decide)]
          simp only [hres, h4b, hback, Bool.false_eq_true, if_false]
          rfl
      | some backoff =>
        right
        rw [h7] at hback
        have hsl : backoffSleep env w job attempt
            = some (sleepWithCancel env
                { afterCall env w with rands := (afterCall env w).rands + 1 } job.ID
                backoff.toNat) := by
          simp [backoffSleep, h7]
        rcases Bool.eq_false_or_eq_true (sleepWithCancel env
            { afterCall env w with rands := (afterCall env w).rands + 1 } job.ID
            backoff.toNat).1 with h8 | h8
        · right
          refine ⟨h6, rfl, pErr, _, rfl, h5, hsl, h8, ?_⟩
          have h8b : (sleepWithCancel env
              { suspend env w 0 with
                provCalls := (suspend env w 0).provCalls + 1
                rands := (suspend env w 0).rands + 1 } job.ID backoff.toNat).1 = true := h8
          rw [attemptLoop, if_pos h1, if_neg (by rw [h2]; decide)]
          simp only [hres, h4b, hback, h8b, Bool.false_eq_true, if_false, Bool.not_true,
            Bool.not_false, if_true]
          rfl
        · left
          refine ⟨h6, rfl, pErr, _, rfl, h5, hsl, h8, ?_⟩
          have h8b : (sleepWithCancel env
              { suspend env w 0 with
                provCalls := (suspend env w 0).provCalls + 1
                rands := (suspend env w 0).rands + 1 } job.ID backoff.toNat).1 = false := h8
          rw [attemptLoop, if_pos h1, if_neg (by rw [h2]; decide)]
          simp only [hres, h4b, hback, h8b, Bool.false_eq_true, if_false, Bool.not_true,
            Bool.not_false, if_true]
          rfl

end Stv

namespace Stv

theorem backoffSleep_frame (env : Env) (w : World) (hwf : w.store.WF) (job : Job)
    (attempt : Nat) (r : Bool × World) (h : backoffSleep env w job attempt = some r) :
    Frame none w r.2 := by
  unfold backoffSleep at h
  cases hb : retryBackoff attempt (env.rand (afterCall env w).rands) with
  | none => rw [hb] at h; cases h
  | some backoff =>
    rw [hb] at h
    simp only [Option.map_some', Option.some.injEq] at h
    rw [← h]
    have hf1 := frame_suspend none env w hwf 0
    have hf2 : Frame none w
        { afterCall env w with rands := (afterCall env w).rands + 1 } :=
      frame_trans _ _ _ _ hf1
        (frame_of_same _ _ _ hf1.wf ⟨rfl, rfl, rfl⟩ (fun h => h) rfl rfl)
    exact frame_trans _ _ _ _ hf2 (frame_sleepWithCancel none env _ hf2.wf job.ID backoff.toNat)

/-- The retry loop changes at most the task it runs: its status stays or becomes
terminal. -/
theorem attemptLoop_tasks (env : Env) (job : Job) (task : JobTask) (maxAttempt : Nat)
    (rounds : Nat) : ∀ (attempt : Nat) (lastErr : Option ProviderError) (w : World)
    (ts : List JobTask), w.store.WF → w.store.tasksByJob job.ID = some ts →
    (ts.map (fun t => t.ID)).Nodup → (∃ t ∈ ts, t.ID = task.ID) →
    ∃ g, (attemptLoop env job task maxAttempt rounds attempt lastErr w).store.tasksByJob job.ID
        = some (updateAt task.ID g ts) ∧
      ∀ t, (g t).ID = t.ID ∧
        ((g t).Status = t.Status ∨ isTaskTerminal (g t).Status = true) := by
  induction rounds with
  | zero =>
    intro attempt lastErr w ts hwf ht hnd hmem
    unfold attemptLoop
    exact ⟨markFailed w.clock (lastErr.getD unknownFailure),
      failTask_tasks env w job task lastErr ts ht hnd hmem, fun t => ⟨rfl, Or.inr rfl⟩⟩
  | succ n ih =>
    intro attempt lastErr w ts hwf ht hnd hmem
    have hf1 := frame_suspend none env w hwf 0
    have hts : (afterCall env w).store.tasksByJob job.ID = some ts := by
      show (suspend env w 0).store.tasksByJob job.ID = some ts
      rw [hf1.tasks job.ID (by simp)]
      exact ht
    rcases attemptLoop_cases env job task maxAttempt n attempt lastErr w with
      ⟨-, he⟩ | ⟨-, -, he⟩ | ⟨-, -, out, -, he⟩ | ⟨-, -, pErr, -, -, he⟩ |
      ⟨-, -, pErr, -, -, -, he⟩ | ⟨-, -, pErr, r, -, -, hs, -, he⟩ |
      ⟨-, -, pErr, r, -, -, hs, -, he⟩
    · rw [he]
      exact ⟨markFailed w.clock (lastErr.getD unknownFailure),
        failTask_tasks env w job task lastErr ts ht hnd hmem, fun t => ⟨rfl, Or.inr rfl⟩⟩
    · rw [he]
      exact ⟨markCanceled w.clock "CANCELED" "Canceled during execution",
        cancelTask_tasks env w job.ID task.ID _ _ ts ht hnd hmem,
        fun t => ⟨rfl, Or.inr rfl⟩⟩
    · rw [he]
      exact ⟨markSucceeded (afterCall env w).clock out.Output,
        succeedTask_tasks env (afterCall env w) job task out ts hts hnd hmem,
        fun t => ⟨rfl, Or.inr rfl⟩⟩
    · rw [he]
      exact ⟨markFailed (afterCall env w).clock pErr,
        failTask_tasks env (afterCall env w) job task (some pErr) ts hts hnd hmem,
        fun t => ⟨rfl, Or.inr rfl⟩⟩
    · rw [he]
      refine ⟨fun t => t, ?_, fun t => ⟨rfl, Or.inl rfl⟩⟩
      rw [updateAt_self]
      exact hts
    · rw [he]
      have hf := backoffSleep_frame env w hwf job attempt r hs
      have htr : r.2.store.tasksByJob job.ID = some ts := by
        rw [hf.tasks job.ID (by simp)]
        exact ht
      exact ⟨markCanceled r.2.clock "CANCELED" "Canceled during backoff",
        cancelTask_tasks env r.2 job.ID task.ID _ _ ts htr hnd hmem,
        fun t => ⟨rfl, Or.inr rfl⟩⟩
    · rw [he]
      have hf := backoffSleep_frame env w hwf job attempt r hs
      have htr : r.2.store.tasksByJob job.ID = some ts := by
        rw [hf.tasks job.ID (by simp)]
        exact ht
      have hu := tasks_updateTask r.2 job.ID task.ID bumpAttempt ts htr hnd hmem
      have hwf5 := (frame_updateTask r.2 hf.wf job.ID task.ID bumpAttempt).wf
      obtain ⟨g, h1, h2⟩ := ih (attempt + 1) (some pErr)
        (updateTask r.2 job.ID task.ID bumpAttempt).2
        (updateAt task.ID bumpAttempt ts) hwf5 hu.2
        (by rw [updateAt_ids task.ID bumpAttempt (fun _ => rfl) ts]; exact hnd)
        (updateAt_mem_ids task.ID bumpAttempt (fun _ => rfl) ts task.ID hmem)
      refine ⟨fun t => g (bumpAttempt t), ?_, fun t => h2 (bumpAttempt t)⟩
      rw [← updateAt_updateAt task.ID bumpAttempt g (fun _ => rfl) ts]
      exact h1

end Stv

namespace Stv

/-! ## The retry loop when nobody cancels -/

theorem calls_publishEvent (env : Env) (w : World) (job : Job) (t : JobEventType)
    (p : Payload) : (publishEvent env w job t p).provCalls = w.provCalls := by
  unfold publishEvent
  simp only []
  split <;> rfl

theorem calls_updateTask (w : World) (jid tid : String) (g : JobTask → JobTask) :
    (updateTask w jid tid g).2.provCalls = w.provCalls := by
  unfold updateTask
  split
  · rfl
  · split <;> rfl

theorem calls_updateProgress (env : Env) (w : World) (jid : String) :
    (updateProgress env w jid).provCalls = w.provCalls := by
  unfold updateProgress
  split
  · rfl
  · split
    · rfl
    · rw [calls_publishEvent]

theorem calls_failTask (env : Env) (w : World) (job : Job) (task : JobTask)
    (lastErr : Option ProviderError) :
    (failTask env w job task lastErr).provCalls = w.provCalls := by
  unfold failTask
  simp only []
  rw [calls_updateProgress, calls_publishEvent, calls_updateTask]

theorem calls_succeedTask (env : Env) (w : World) (job : Job) (task : JobTask)
    (out : ExecuteOutput) : (succeedTask env w job task out).provCalls = w.provCalls := by
  unfold succeedTask
  simp only []
  rw [calls_updateProgress, calls_publishEvent]
  split
  · exact calls_updateTask _ _ _ _
  · split
    · exact calls_updateTask _ _ _ _
    · rw [calls_publishEvent]
      exact calls_updateTask _ _ _ _

theorem jobs_publishEvent (env : Env) (w : World) (job : Job) (t : JobEventType)
    (p : Payload) : (publishEvent env w job t p).store.jobs = w.store.jobs := by
  rw [publishEvent_store, (appendJobEvent_frame _ _ _ _).2.1]

theorem jobs_updateTask (w : World) (jid tid : String) (g : JobTask → JobTask) :
    (updateTask w jid tid g).2.store.jobs = w.store.jobs := by
  unfold updateTask
  split
  · rfl
  · split
    · rfl
    · exact (replaceJobTasks_frame _ _ _).2.1

theorem isJobCanceled_false (w : World) (jid : String) (j : Job)
    (hj : w.store.jobs jid = some j) (hn : j.CancelRequested = false) :
    isJobCanceled w jid = false := by
  simp [isJobCanceled, MemoryStore.GetJob, hj, hn]

theorem retryBackoff_some (a r : Nat) (h1 : 1 ≤ a) (h2 : a ≤ 33) :
    ∃ d, retryBackoff (a : Int) r = some d := by
  have hk : (max ((a : Int) - 1) 0).toNat = a - 1 := by
    rw [max_eq_left (by omega)]
    omega
  have hpow : (2 : Int) ^ (a - 1) ≤ 2 ^ 32 :=
    pow_le_pow_right₀ (by norm_num) (by omega)
  have hpos : (1 : Int) ≤ 2 ^ (a - 1) := one_le_pow₀ (by norm_num)
  generalize hB : (2 : Int) ^ (a - 1) = B at hpow hpos
  norm_num at hpow
  have hb1 : wrapInt64 (1000000000 * B) = 1000000000 * B :=
    wrapInt64_id _ (by norm_num; omega) (by norm_num; omega)
  have hdiv : Int.tdiv (1000000000 * B) 5 = 1000000000 * B / 5 :=
    Int.tdiv_eq_ediv (by omega) (by norm_num)
  unfold retryBackoff
  simp only [hk, hB, hb1, hdiv]
  rw [if_neg (by omega)]
  exact ⟨_, rfl⟩

theorem sleepWithCancelLoop_quiet (env : Env) (hc : ∀ n, env.cancels n = []) (jid : String)
    (deadline : Nat) (j : Job) (hn : j.CancelRequested = false) (polls : Nat) :
    ∀ w : World, w.store.jobs jid = some j →
      (sleepWithCancelLoop env jid deadline polls w).1 = true ∧
      (sleepWithCancelLoop env jid deadline polls w).2.store = w.store ∧
      (sleepWithCancelLoop env jid deadline polls w).2.provCalls = w.provCalls := by
  induction polls with
  | zero =>
    intro w _
    exact ⟨rfl, rfl, rfl⟩
  | succ n ih =>
    intro w hj
    unfold sleepWithCancelLoop
    by_cases hd : w.clock < deadline
    · rw [if_pos hd, isJobCanceled_false w jid j hj hn]
      simp only [Bool.false_eq_true, if_false]
      have h := ih (suspend env w 100000000)
        (by rw [suspend_quiet env w _ (hc _)]; exact hj)
      rw [suspend_quiet env w _ (hc _)] at h ⊢
      exact h
    · rw [if_neg hd]
      exact ⟨rfl, rfl, rfl⟩

theorem callResult_quiet (env : Env) (hc : ∀ n, env.cancels n = []) (w : World) (job : Job)
    (task : JobTask) (j : Job) (hj : w.store.jobs job.ID = some j)
    (hn : j.CancelRequested = false) :
    callResult env w job task = env.prov w.provCalls (executeInput job task) false := by
  unfold callResult
  rw [suspend_quiet env w _ (hc _)]
  have h := isJobCanceled_false ({ w with clock := w.clock + 0, ticks := w.ticks + 1 } : World)
    job.ID j hj hn
  rw [h]

theorem backoffSleep_quiet (env : Env) (hc : ∀ n, env.cancels n = []) (w : World) (job : Job)
    (attempt : Nat) (j : Job) (hj : w.store.jobs job.ID = some j)
    (hn : j.CancelRequested = false) (h1 : 1 ≤ attempt) (h2 : attempt ≤ 33) :
    ∃ r, backoffSleep env w job attempt = some r ∧ r.1 = true ∧ r.2.store = w.store ∧
      r.2.provCalls = w.provCalls + 1 := by
  obtain ⟨d, hd⟩ := retryBackoff_some attempt (env.rand (afterCall env w).rands) h1 h2
  have hw : ({ afterCall env w with rands := (afterCall env w).rands + 1 } : World)
      = { w with
          clock := w.clock + 0, ticks := w.ticks + 1, provCalls := w.provCalls + 1
          rands := w.rands + 1 } := by
    unfold afterCall
    rw [suspend_quiet env w _ (hc _)]
  obtain ⟨s1, s2, s3⟩ := sleepWithCancelLoop_quiet env hc job.ID
    (({ afterCall env w with rands := (afterCall env w).rands + 1 } : World).clock + d.toNat)
    j hn ((d.toNat + 99999999) / 100000000)
    { afterCall env w with rands := (afterCall env w).rands + 1 }
    (by rw [hw]; exact hj)
  refine ⟨sleepWithCancel env
    { afterCall env w with rands := (afterCall env w).rands + 1 } job.ID d.toNat, ?_, s1, ?_, ?_⟩
  · simp [backoffSleep, hd]
  · show (sleepWithCancelLoop _ _ _ _ _).2.store = _
    rw [s2, hw]
  · show (sleepWithCancelLoop _ _ _ _ _).2.provCalls = _
    rw [s3, hw]

end Stv

namespace Stv

/-- The retry loop when nobody cancels, entered with at least one round left: the
provider is called `k` times, every call but the last returns a retryable error, and the
last one decides how the task is stored. -/
theorem attemptLoop_quiet (env : Env) (hc : ∀ n, env.cancels n = []) (job : Job)
    (task : JobTask) (maxAttempt : Nat) (hM : maxAttempt ≤ 33) (j : Job)
    (hn : j.CancelRequested = false) (rounds : Nat) :
    ∀ (attempt : Nat) (lastErr : Option ProviderError) (w : World) (ts : List JobTask),
    1 ≤ attempt → attempt + rounds = maxAttempt + 1 → 0 < rounds →
    w.store.jobs job.ID = some j → w.store.tasksByJob job.ID = some ts →
    (ts.map (fun t => t.ID)).Nodup → (∃ t ∈ ts, t.ID = task.ID) →
    ∃ k g, 1 ≤ k ∧ k ≤ rounds ∧
      (attemptLoop env job task maxAttempt rounds attempt lastErr w).provCalls
        = w.provCalls + k ∧
      (attemptLoop env job task maxAttempt rounds attempt lastErr w).store.tasksByJob job.ID
        = some (updateAt task.ID g ts) ∧
      (∀ i, i + 1 < k → ∃ e, env.prov (w.provCalls + i) (executeInput job task) false
        = .error e ∧ e.Retryable = true) ∧
      (∀ t, (g t).ID = t.ID ∧ (g t).Attempt = t.Attempt + (k - 1)) ∧
      ((∃ out, env.prov (w.provCalls + (k - 1)) (executeInput job task) false = .ok out ∧
          ∀ t, SucceededWith (g t) out) ∨
       (∃ e, env.prov (w.provCalls + (k - 1)) (executeInput job task) false = .error e ∧
          (e.Retryable = false ∨ k = rounds) ∧ ∀ t, FailedWith (g t) e)) := by
  induction rounds with
  | zero =>
    intro attempt lastErr w ts _ _ h0
    exact absurd h0 (by decide)
  | succ n ih =>
    intro attempt lastErr w ts ha hsum _ hj ht hnd hmem
    have hcan := isJobCanceled_false w job.ID j hj hn
    have hres := callResult_quiet env hc w job task j hj hn
    have hsus := suspend_quiet env w 0 (hc _)
    have hcalls : (afterCall env w).provCalls = w.provCalls + 1 := by
      show (suspend env w 0).provCalls + 1 = _
      rw [hsus]
    have hts : (afterCall env w).store.tasksByJob job.ID = some ts := by
      show (suspend env w 0).store.tasksByJob job.ID = some ts
      rw [hsus]
      exact ht
    rcases attemptLoop_cases env job task maxAttempt n attempt lastErr w with
      ⟨h1, -⟩ | ⟨-, h2, -⟩ | ⟨-, -, out, ho, he⟩ | ⟨-, -, pErr, ho, hstop, he⟩ |
      ⟨hlt, -, pErr, -, -, hs, -⟩ | ⟨hlt, -, pErr, r, -, -, hs, hr, -⟩ |
      ⟨hlt, -, pErr, r, ho, hre, hs, -, he⟩
    · exact absurd (by omega) h1
    · rw [hcan] at h2
      cases h2
    · rw [hres] at ho
      refine ⟨1, markSucceeded (afterCall env w).clock out.Output, le_refl _, by omega, ?_, ?_,
        ?_, fun t => ⟨rfl, rfl⟩, Or.inl ⟨out, ho, fun t => ⟨rfl, rfl, rfl, rfl, rfl⟩⟩⟩
      · rw [he, calls_succeedTask, hcalls]
      · rw [he]
        exact succeedTask_tasks env (afterCall env w) job task out ts hts hnd hmem
      · intro i hi
        exact absurd hi (by omega)
    · rw [hres] at ho
      refine ⟨1, markFailed (afterCall env w).clock pErr, le_refl _, by omega, ?_, ?_,
        ?_, fun t => ⟨rfl, rfl⟩, Or.inr ⟨pErr, ho, ?_, fun t => ⟨rfl, rfl, rfl, rfl⟩⟩⟩
      · rw [he, calls_failTask, hcalls]
      · rw [he]
        exact failTask_tasks env (afterCall env w) job task (some pErr) ts hts hnd hmem
      · intro i hi
        exact absurd hi (by omega)
      · rcases hstop with h | h
        · exact Or.inl h
        · exact Or.inr (by omega)
    · obtain ⟨r, h1, -⟩ := backoffSleep_quiet env hc w job attempt j hj hn ha (by omega)
      rw [hs] at h1
      cases h1
    · obtain ⟨r2, h1, h2, -⟩ := backoffSleep_quiet env hc w job attempt j hj hn ha (by omega)
      rw [hs] at h1
      cases h1
      rw [hr] at h2
      cases h2
    · rw [hres] at ho
      obtain ⟨r2, h1, -, hst, hpc⟩ :=
        backoffSleep_quiet env hc w job attempt j hj hn ha (by omega)
      rw [hs] at h1
      cases h1
      have hu := tasks_updateTask r.2 job.ID task.ID bumpAttempt ts (by rw [hst]; exact ht)
        hnd hmem
      have hj2 : (updateTask r.2 job.ID task.ID bumpAttempt).2.store.jobs job.ID = some j := by
        rw [jobs_updateTask, hst]
        exact hj
      have hpc2 : (updateTask r.2 job.ID task.ID bumpAttempt).2.provCalls = w.provCalls + 1 := by
        rw [calls_updateTask, hpc]
      obtain ⟨k, g, hk1, hk2, hcall, htasks, hpre, hg, hend⟩ := ih (attempt + 1) (some pErr)
        (updateTask r.2 job.ID task.ID bumpAttempt).2
        (updateAt task.ID bumpAttempt ts) (by omega) (by omega) (by omega) hj2 hu.2
        (by rw [updateAt_ids task.ID bumpAttempt (fun _ => rfl) ts]; exact hnd)
        (updateAt_mem_ids task.ID bumpAttempt (fun _ => rfl) ts task.ID hmem)
      rw [hpc2] at hcall hpre hend
      have hidx : w.provCalls + 1 + (k - 1) = w.provCalls + (k + 1 - 1) := by omega
      rw [hidx] at hend
      refine ⟨k + 1, fun t => g (bumpAttempt t), by omega, by omega, ?_, ?_, ?_, ?_, ?_⟩
      · rw [he, hcall]
        omega
      · rw [he, htasks, updateAt_updateAt task.ID bumpAttempt g (fun _ => rfl) ts]
      · intro i hi
        cases i with
        | zero => exact ⟨pErr, ho, hre⟩
        | succ m =>
          have := hpre m (by omega)
          have hidx2 : w.provCalls + 1 + m = w.provCalls + (m + 1) := by omega
          rw [hidx2] at this
          exact this
      · intro t
        refine ⟨(hg (bumpAttempt t)).1, ?_⟩
        rw [(hg (bumpAttempt t)).2]
        show t.Attempt + 1 + (k - 1) = t.Attempt + (k + 1 - 1)
        omega
      · rcases hend with ⟨out, h1, h2⟩ | ⟨e, h1, h2, h3⟩
        · exact Or.inl ⟨out, h1, fun t => h2 (bumpAttempt t)⟩
        · refine Or.inr ⟨e, h1, ?_, fun t => h3 (bumpAttempt t)⟩
          rcases h2 with h | h
          · exact Or.inl h
          · exact Or.inr (by omega)

end Stv

namespace Stv

/-- A run of `executeTask` on a task of the stored list marks it running and enters the
retry loop with the attempt counter just incremented. -/
theorem executeTask_eq (env : Env) (w : World) (job : Job) (task : JobTask)
    (ts : List JobTask) (ht : w.store.tasksByJob job.ID = some ts)
    (hnd : (ts.map (fun t => t.ID)).Nodup) (hmem : task ∈ ts) :
    ∃ w2, executeTask env w job task
        = attemptLoop env job task task.MaxAttempt
            (task.MaxAttempt + 1 - (task.Attempt + 1)) (task.Attempt + 1) none w2 ∧
      w2.store.tasksByJob job.ID
        = some (updateAt task.ID
            (markRunning w.clock ("worker-" ++ (env.uuid w.uuids).take 8)) ts) ∧
      w2.store.jobs = w.store.jobs ∧ w2.provCalls = w.provCalls ∧
      (w.store.WF → w2.store.WF) := by
  obtain ⟨hu1, hu2⟩ := tasks_updateTask w job.ID task.ID
    (markRunning w.clock ("worker-" ++ (env.uuid w.uuids).take 8)) ts ht hnd
    ⟨task, hmem, rfl⟩
  obtain ⟨cur, hcur, hid, hfind⟩ := find_updateAt task.ID
    (markRunning w.clock ("worker-" ++ (env.uuid w.uuids).take 8)) (fun _ => rfl) ts
    ⟨task, hmem, rfl⟩
  have hct : cur = task := eq_of_same_id ts hnd cur task hcur hmem hid
  subst hct
  have hg : (updateTask w job.ID cur.ID
      (markRunning w.clock ("worker-" ++ (env.uuid w.uuids).take 8))).2.store.GetJobTasks job.ID
      = .ok (updateAt cur.ID
          (markRunning w.clock ("worker-" ++ (env.uuid w.uuids).take 8)) ts) := by
    simp [MemoryStore.GetJobTasks, hu2]
  refine ⟨publishEvent env
      { (updateTask w job.ID cur.ID
          (markRunning w.clock ("worker-" ++ (env.uuid w.uuids).take 8))).2 with
        uuids := (updateTask w job.ID cur.ID
          (markRunning w.clock ("worker-" ++ (env.uuid w.uuids).take 8))).2.uuids + 1 }
      job .task_started
      [("task_id", .str cur.ID), ("task_key", .str cur.TaskKey),
       ("task_type", .taskType cur.TaskType), ("attempt", .int ((cur.Attempt + 1 : Nat) : Int)),
       ("display_name", .str cur.DisplayName)], ?_, ?_, ?_, ?_, ?_⟩
  · unfold executeTask
    simp only [hu1]
    simp only [hg, hfind]
    rfl
  · rw [tasks_publishEvent]
    exact hu2
  · rw [jobs_publishEvent]
    exact jobs_updateTask w job.ID cur.ID _
  · rw [calls_publishEvent]
    exact calls_updateTask w job.ID cur.ID _
  · intro hwf
    apply publishEvent_wf
    exact (frame_updateTask w hwf job.ID cur.ID
      (markRunning w.clock ("worker-" ++ (env.uuid w.uuids).take 8))).wf

end Stv

namespace Stv

/-! ## No back-edges (C28) -/

/-- A run of `executeTask` on a task of the stored list changes at most that task: it is
left running or terminal. -/
theorem executeTask_tasks (env : Env) (w : World) (hwf : w.store.WF) (job : Job)
    (task : JobTask) (ts : List JobTask) (ht : w.store.tasksByJob job.ID = some ts)
    (hnd : (ts.map (fun t => t.ID)).Nodup) (hmem : task ∈ ts) :
    ∃ g, (executeTask env w job task).store.tasksByJob job.ID
        = some (updateAt task.ID g ts) ∧
      ∀ t, (g t).ID = t.ID ∧
        ((g t).Status = .running ∨ isTaskTerminal (g t).Status = true) := by
  obtain ⟨w2, he, ht2, -, -, hwf2⟩ := executeTask_eq env w job task ts ht hnd hmem
  obtain ⟨g, h1, h2⟩ := attemptLoop_tasks env job task task.MaxAttempt
    (task.MaxAttempt + 1 - (task.Attempt + 1)) (task.Attempt + 1) none w2
    (updateAt task.ID (markRunning w.clock ("worker-" ++ (env.uuid w.uuids).take 8)) ts)
    (hwf2 hwf) ht2
    (by
      rw [updateAt_ids task.ID
        (markRunning w.clock ("worker-" ++ (env.uuid w.uuids).take 8)) (fun _ => rfl) ts]
      exact hnd)
    (updateAt_mem_ids task.ID
      (markRunning w.clock ("worker-" ++ (env.uuid w.uuids).take 8)) (fun _ => rfl) ts task.ID
      ⟨task, hmem, rfl⟩)
  refine ⟨fun t => g (markRunning w.clock ("worker-" ++ (env.uuid w.uuids).take 8) t), ?_, ?_⟩
  · rw [he, h1, updateAt_updateAt task.ID
      (markRunning w.clock ("worker-" ++ (env.uuid w.uuids).take 8)) g (fun _ => rfl) ts]
  · intro t
    exact ⟨(h2 _).1, (h2 _).2⟩

theorem statusForward_refl (a : JobTask) : StatusForward a a :=
  ⟨rfl, le_refl _, fun _ => rfl⟩

theorem statusForward_trans (a b c : JobTask) (h1 : StatusForward a b)
    (h2 : StatusForward b c) : StatusForward a c := by
  refine ⟨h2.1.trans h1.1, le_trans h1.2.1 h2.2.1, ?_⟩
  intro ha
  have hb := h1.2.2 ha
  rw [← hb]
  exact h2.2.2 (by rw [hb]; exact ha)

/-- The effect of `executeTask` on the stored list when the task is a queued task of it. -/
theorem executeTask_forward (env : Env) (w : World) (hwf : w.store.WF) (job : Job)
    (task : JobTask) (ts : List JobTask) (ht : w.store.tasksByJob job.ID = some ts)
    (hnd : (ts.map (fun t => t.ID)).Nodup) (hmem : task ∈ ts) (hq : task.Status = .queued) :
    ∃ F : JobTask → JobTask,
      (executeTask env w job task).store.tasksByJob job.ID = some (ts.map F) ∧
      (∀ t ∈ ts, StatusForward t (F t)) ∧ (∀ t ∈ ts, t.ID ≠ task.ID → F t = t) := by
  obtain ⟨g, h1, h2⟩ := executeTask_tasks env w hwf job task ts ht hnd hmem
  refine ⟨fun t => if t.ID = task.ID then g t else t, h1, ?_, ?_⟩
  · intro t htm
    by_cases hid : t.ID = task.ID
    · have : t = task := eq_of_same_id ts hnd t task htm hmem hid
      subst this
      simp only [if_true]
      refine ⟨(h2 t).1, ?_, ?_⟩
      · rw [hq]
        exact Nat.zero_le _
      · intro hterm
        rw [hq] at hterm
        cases hterm
    · simp only [hid, if_false]
      exact statusForward_refl t
  · intro t _ hid
    simp only [hid, if_false]

/-- A wave run one task at a time moves no status backwards. -/
theorem wave_forward (env : Env) (job : Job) (rs : List JobTask) :
    ∀ (w : World) (ts : List JobTask), w.store.WF → w.store.tasksByJob job.ID = some ts →
      (ts.map (fun t => t.ID)).Nodup → (rs.map (fun t => t.ID)).Nodup →
      (∀ r ∈ rs, r ∈ ts ∧ r.Status = .queued) →
      ∃ F : JobTask → JobTask,
        (rs.foldl (fun v t => executeTask env v job t) w).store.tasksByJob job.ID
          = some (ts.map F) ∧
        ∀ t ∈ ts, StatusForward t (F t) := by
  induction rs with
  | nil =>
    intro w ts _ ht _ _ _
    exact ⟨fun t => t, by simpa using ht, fun t _ => statusForward_refl t⟩
  | cons r rest ih =>
    intro w ts hwf ht hnd hrn hrs
    obtain ⟨hr1, hr2⟩ := hrs r (List.mem_cons_self _ _)
    obtain ⟨F1, h1, h2, h3⟩ := executeTask_forward env w hwf job r ts ht hnd hr1 hr2
    simp only [List.map_cons, List.nodup_cons] at hrn
    have hids : (ts.map F1).map (fun t => t.ID) = ts.map (fun t => t.ID) := by
      rw [List.map_map]
      apply List.map_congr_left
      intro t htm
      exact (h2 t htm).1
    obtain ⟨F2, h4, h5⟩ := ih (executeTask env w job r) (ts.map F1)
      (frame_executeTask env w hwf job r).wf h1 (by rw [hids]; exact hnd) hrn.2
      (by
        intro x hx
        obtain ⟨hx1, hx2⟩ := hrs x (List.mem_cons_of_mem _ hx)
        have hne : x.ID ≠ r.ID := by
          intro he
          exact hrn.1 (by rw [← he]; exact List.mem_map_of_mem (fun t => t.ID) hx)
        refine ⟨?_, hx2⟩
        rw [List.mem_map]
        exact ⟨x, hx1, h3 x hx1 hne⟩)
    refine ⟨fun t => F2 (F1 t), ?_, ?_⟩
    · simp only [List.foldl_cons]
      rw [h4, List.map_map]
      rfl
    · intro t htm
      exact statusForward_trans _ _ _ (h2 t htm) (h5 (F1 t) (List.mem_map_of_mem F1 htm))

end Stv

namespace Stv

/-- C28: task statuses have no back-edges.  In a reachable store that holds the task list
of a job, with pairwise distinct task ids: after `cancelQueuedTasks`, after `executeTask`
applied to a task returned by `readyTasks`, and after a whole wave of ready tasks executed
one at a time, the stored list is the old one task by task, where no status has moved
backwards in the order queued < running < {succeeded, failed, canceled} and every task
that was terminal has kept its status (`executeTask` changes no task but its own).
`RetryJob` keeps every succeeded task as it is and changes a status only from failed or
canceled to queued.  `CancelJob` and `finalizeJob` change no task list at all. -/
theorem task_status_no_back_edge (env : Env) (w : World) (hr : w.store.Reachable)
    (jid : String) (ts : List JobTask) (ht : w.store.tasksByJob jid = some ts)
    (hnd : (ts.map (fun t => t.ID)).Nodup) :
    (∀ job, job.ID = jid →
      ∃ F : JobTask → JobTask,
        (cancelQueuedTasks env w job).2.store.tasksByJob jid = some (ts.map F) ∧
        ∀ t ∈ ts, StatusForward t (F t)) ∧
    (∀ job task now, job.ID = jid → task ∈ readyTasks ts now →
      ∃ F : JobTask → JobTask,
        (executeTask env w job task).store.tasksByJob jid = some (ts.map F) ∧
        (∀ t ∈ ts, StatusForward t (F t)) ∧ (∀ t ∈ ts, t.ID ≠ task.ID → F t = t)) ∧
    (∀ job now, job.ID = jid →
      ∃ F : JobTask → JobTask,
        ((readyTasks ts now).foldl (fun v t => executeTask env v job t) w).store.tasksByJob jid
          = some (ts.map F) ∧
        ∀ t ∈ ts, StatusForward t (F t)) ∧
    (∀ userID traceID,
      ∃ F : JobTask → JobTask,
        (RetryJob env w userID jid traceID).2.store.tasksByJob jid = some (ts.map F) ∧
        ∀ t ∈ ts, (F t).ID = t.ID ∧ (t.Status = .succeeded → F t = t) ∧
          ((F t).Status = t.Status ∨
            ((t.Status = .failed ∨ t.Status = .canceled) ∧ (F t).Status = .queued))) ∧
    (∀ userID jobID, (CancelJob env w userID jobID).2.store.tasksByJob = w.store.tasksByJob) ∧
    (∀ job tasks, (finalizeJob env w job tasks).store.tasksByJob = w.store.tasksByJob) := by
  have hwf := wf_of_reachable _ hr
  refine ⟨?_, ?_, ?_, ?_, ?_, ?_⟩
  · intro job hid
    subst hid
    refine ⟨cancelIfQueued (some w.clock), ?_, ?_⟩
    · by_cases hq : ∃ t ∈ ts, t.Status = .queued
      · have hany : ts.any (fun t => decide (t.Status = .queued)) = true := by
          rw [List.any_eq_true]
          obtain ⟨t, h1, h2⟩ := hq
          exact ⟨t, h1, by simpa using h2⟩
        obtain ⟨hr1, hr2⟩ := replaceJobTasks_ok w.store job.ID
          (ts.map (cancelIfQueued (some w.clock))) ts ht
        have heq : (cancelQueuedTasks env w job).2
            = updateProgress env
                { w with
                  store := (w.store.ReplaceJobTasks job.ID
                    (ts.map (cancelIfQueued (some w.clock)))).2 } job.ID := by
          simp [cancelQueuedTasks, MemoryStore.GetJobTasks, ht, hany, hr1]
        rw [heq, tasks_updateProgress]
        show (MemoryStore.ReplaceJobTasks _ _ _).2.tasksByJob job.ID = _
        rw [hr2]
        simp [mapSet_apply]
      · have hany : ts.any (fun t => decide (t.Status = .queued)) = false := by
          rw [List.any_eq_false]
          intro t h1
          simp only [decide_eq_true_eq]
          exact fun h2 => hq ⟨t, h1, h2⟩
        have heq : (cancelQueuedTasks env w job).2 = w := by
          simp [cancelQueuedTasks, MemoryStore.GetJobTasks, ht, hany]
        rw [heq, ht]
        congr 1
        symm
        calc ts.map (cancelIfQueued (some w.clock)) = ts.map id := by
              apply List.map_congr_left
              intro t htm
              exact (cancelIfQueued_spec (some w.clock) t).2 (fun h => hq ⟨t, htm, h⟩)
          _ = ts := List.map_id ts
    · intro t _
      by_cases hs : t.Status = .queued
      · rw [(cancelIfQueued_spec (some w.clock) t).1 hs]
        refine ⟨rfl, ?_, ?_⟩
        · rw [hs]; exact Nat.zero_le _
        · intro hterm
          rw [hs] at hterm
          cases hterm
      · rw [(cancelIfQueued_spec (some w.clock) t).2 hs]
        exact statusForward_refl t
  · intro job task now hid hready
    subst hid
    rw [mem_readyTasks] at hready
    exact executeTask_forward env w hwf job task ts ht hnd hready.1 hready.2.1
  · intro job now hid
    subst hid
    apply wave_forward env job (readyTasks ts now) w ts hwf ht hnd (readyTasks_nodup now ts hnd)
    intro r hr
    rw [mem_readyTasks] at hr
    exact ⟨hr.1, hr.2.1⟩
  · intro userID traceID
    rcases RetryJob_maps env w hwf userID jid traceID with
      h | ⟨job, tasks, J, -, hts, -, -, -, htm⟩
    · refine ⟨fun t => t, ?_, fun t _ => ⟨rfl, fun _ => rfl, Or.inl rfl⟩⟩
      rw [h, ht]
      simp
    · rw [ht] at hts
      cases hts
      refine ⟨retryResetTask, ?_, ?_⟩
      · rw [htm]
        simp [mapSet_apply]
      · intro t _
        by_cases hs : t.Status = .failed ∨ t.Status = .canceled
        · obtain ⟨a, -, -, -, -, -, -, -, b, -⟩ := (retryResetTask_spec t).1 hs
          refine ⟨b, ?_, Or.inr ⟨hs, a⟩⟩
          intro h
          rcases hs with h2 | h2 <;> rw [h] at h2 <;> cases h2
        · rw [(retryResetTask_spec t).2 hs]
          exact ⟨rfl, fun _ => rfl, Or.inl rfl⟩
  · intro userID jobID
    funext j
    exact (frame_CancelJob none env w hwf userID jobID).tasks j (by simp)
  · intro job tasks
    exact (finalizeJob_frame env w hwf job tasks).2.2.2.1

/-- C28, on the service that holds the job "j1" with the single queued task "a": after
`executeTask` on that task the stored list is the old one with the status of "a" moved
forward. -/
theorem task_status_no_back_edge_witness :
    ∃ F : JobTask → JobTask,
      (executeTask demoEnv queuedTaskWorld demoJob (demoTask "a" .queued)).store.tasksByJob "j1"
        = some ([demoTask "a" .queued].map F) ∧
      ∀ t ∈ [demoTask "a" .queued], StatusForward t (F t) := by
  obtain ⟨F, h1, h2, -⟩ :=
    (task_status_no_back_edge demoEnv queuedTaskWorld queuedTaskWorld_reachable "j1"
      [demoTask "a" .queued] rfl (by decide)).2.1 demoJob (demoTask "a" .queued) 5 rfl
      (by decide)
  exact ⟨F, h1, h2⟩

/-! ## The retry loop (C24) and retried tasks (C25) -/

theorem find_updateAt_mem (g : JobTask → JobTask) (hg : ∀ t, (g t).ID = t.ID)
    (ts : List JobTask) (hnd : (ts.map (fun t => t.ID)).Nodup) (task : JobTask)
    (hmem : task ∈ ts) : findTaskByID (updateAt task.ID g ts) task.ID = some (g task) := by
  obtain ⟨cur, hcur, hid, hfind⟩ := find_updateAt task.ID g hg ts ⟨task, hmem, rfl⟩
  have hct : cur = task := eq_of_same_id ts hnd cur task hcur hmem hid
  rw [hfind, hct]

/-- C24: the retry loop of `executeTask` without cancellation.  The task is in the stored
list of the job, has attempt 0 and max_attempt 3, the job is not cancel-requested and
nobody asks for a cancellation.  Then the provider is called `k` times with 1 <= k <= 3:
every call but the last returned a retryable error, and the last call succeeded, or
returned an error that is not retryable, or was the third.  If the last call succeeded
the task is stored succeeded with the output of the provider and the error fields cleared;
otherwise it is stored failed with the code, internal message and retryable flag of the
last error.  In both cases the stored attempt counter is `k`. -/
theorem executeTask_retry_loop (env : Env) (hc : ∀ n, env.cancels n = []) (w : World)
    (job j : Job) (hj : w.store.jobs job.ID = some j) (hn : j.CancelRequested = false)
    (ts : List JobTask) (ht : w.store.tasksByJob job.ID = some ts)
    (hnd : (ts.map (fun t => t.ID)).Nodup) (task : JobTask) (hmem : task ∈ ts)
    (ha : task.Attempt = 0) (hm : task.MaxAttempt = 3) :
    ∃ k ts2 t2, 1 ≤ k ∧ k ≤ 3 ∧
      (executeTask env w job task).provCalls = w.provCalls + k ∧
      (executeTask env w job task).store.tasksByJob job.ID = some ts2 ∧
      findTaskByID ts2 task.ID = some t2 ∧ t2.Attempt = k ∧
      (∀ i, i + 1 < k → ∃ e, env.prov (w.provCalls + i) (executeInput job task) false
        = .error e ∧ e.Retryable = true) ∧
      ((∃ out, env.prov (w.provCalls + (k - 1)) (executeInput job task) false = .ok out ∧
          SucceededWith t2 out) ∨
       (∃ e, env.prov (w.provCalls + (k - 1)) (executeInput job task) false = .error e ∧
          (e.Retryable = false ∨ k = 3) ∧ FailedWith t2 e)) := by
  obtain ⟨w2, he, ht2, hj2, hp2, -⟩ := executeTask_eq env w job task ts ht hnd hmem
  rw [ha, hm] at he
  obtain ⟨k, g, hk1, hk2, hcall, htasks, hpre, hg, hend⟩ :=
    attemptLoop_quiet env hc job task 3 (by decide) j hn 3 1 none w2
      (updateAt task.ID (markRunning w.clock ("worker-" ++ (env.uuid w.uuids).take 8)) ts)
      (le_refl _) rfl (by decide) (by rw [hj2]; exact hj) ht2
      (by
        rw [updateAt_ids task.ID
          (markRunning w.clock ("worker-" ++ (env.uuid w.uuids).take 8)) (fun _ => rfl) ts]
        exact hnd)
      (updateAt_mem_ids task.ID
        (markRunning w.clock ("worker-" ++ (env.uuid w.uuids).take 8)) (fun _ => rfl) ts
        task.ID ⟨task, hmem, rfl⟩)
  have he2 : executeTask env w job task = attemptLoop env job task 3 3 1 none w2 := he
  rw [hp2] at hcall hpre hend
  rw [updateAt_updateAt task.ID
    (markRunning w.clock ("worker-" ++ (env.uuid w.uuids).take 8)) g (fun _ => rfl) ts]
    at htasks
  refine ⟨k,
    updateAt task.ID
      (fun t => g (markRunning w.clock ("worker-" ++ (env.uuid w.uuids).take 8) t)) ts,
    g (markRunning w.clock ("worker-" ++ (env.uuid w.uuids).take 8) task),
    hk1, hk2, ?_, ?_, ?_, ?_, hpre, ?_⟩
  · rw [he2, hcall]
  · rw [he2]
    exact htasks
  · exact find_updateAt_mem
      (fun t => g (markRunning w.clock ("worker-" ++ (env.uuid w.uuids).take 8) t))
      (fun t => (hg _).1) ts hnd task hmem
  · rw [(hg _).2]
    show task.Attempt + 1 + (k - 1) = k
    omega
  · rcases hend with ⟨out, h1, h2⟩ | ⟨e, h1, h2, h3⟩
    · exact Or.inl ⟨out, h1, h2 _⟩
    · exact Or.inr ⟨e, h1, h2, h3 _⟩

set_option maxRecDepth 100000 in
/-- C24, on the service that holds the job "j1" with the single unattempted task "a", with
a provider that fails once with a retryable error and then succeeds: the provider is
called twice and the task is stored succeeded with attempt 2. -/
theorem executeTask_retry_loop_witness :
    (∃ k ts2 t2, 1 ≤ k ∧ k ≤ 3 ∧
      (executeTask flakyEnv freshTaskWorld demoJob freshTask).provCalls
        = freshTaskWorld.provCalls + k ∧
      (executeTask flakyEnv freshTaskWorld demoJob freshTask).store.tasksByJob demoJob.ID
        = some ts2 ∧
      findTaskByID ts2 freshTask.ID = some t2 ∧ t2.Attempt = k ∧
      (∀ i, i + 1 < k → ∃ e, flakyEnv.prov (freshTaskWorld.provCalls + i)
        (executeInput demoJob freshTask) false = .error e ∧ e.Retryable = true) ∧
      ((∃ out, flakyEnv.prov (freshTaskWorld.provCalls + (k - 1))
          (executeInput demoJob freshTask) false = .ok out ∧ SucceededWith t2 out) ∨
       (∃ e, flakyEnv.prov (freshTaskWorld.provCalls + (k - 1))
          (executeInput demoJob freshTask) false = .error e ∧
          (e.Retryable = false ∨ k = 3) ∧ FailedWith t2 e))) ∧
    (executeTask flakyEnv freshTaskWorld demoJob freshTask).provCalls = 2 ∧
    ((executeTask flakyEnv freshTaskWorld demoJob freshTask).store.tasksByJob "j1").map
      (fun l => l.map (fun t => (t.Status, t.Attempt))) = some [(.succeeded, 2)] :=
  ⟨executeTask_retry_loop flakyEnv (fun _ => rfl) freshTaskWorld demoJob demoJob rfl rfl
    [freshTask] rfl (by decide) freshTask (List.mem_singleton.mpr rfl) rfl rfl,
   by decide, by decide⟩

end Stv

namespace Stv

theorem exhaustedWorld_reachable : exhaustedWorld.store.Reachable :=
  MemoryStore.Reachable.step (.createJob failedJob [exhaustedTask] "")
    (MemoryStore.Reachable.step (.createProject (demoProject 1)) .init)

/-- C25: attempts carry over an admitted `RetryJob` (the job is owned by the caller, failed
or canceled, and the cap is not reached).  A failed task `t` of the job whose attempt
counter equals its max_attempt is stored queued after the retry, with the counter
unchanged.  And whenever the runner executes that queued task in a service state whose
stored list holds it, the provider is not called at all and the task is stored failed
again, with attempt max_attempt + 1, the placeholder error code UNKNOWN and the message of
the placeholder. -/
theorem attempts_carry_over (env : Env) (w : World) (hr : w.store.Reachable)
    (userID jobID traceID : String) (job : Job) (hj : w.store.jobs jobID = some job)
    (hu : job.UserID = userID) (hst : job.Status = .failed ∨ job.Status = .canceled)
    (hcap : w.runningByUser userID < w.maxUserJobs)
    (ts : List JobTask) (ht : w.store.tasksByJob jobID = some ts)
    (t : JobTask) (hmem : t ∈ ts) (hf : t.Status = .failed)
    (hA : t.Attempt = t.MaxAttempt) :
    (∃ J, (RetryJob env w userID jobID traceID).1 = .ok J) ∧
    (RetryJob env w userID jobID traceID).2.store.tasksByJob jobID
      = some (ts.map retryResetTask) ∧
    retryResetTask t ∈ ts.map retryResetTask ∧
    (retryResetTask t).ID = t.ID ∧ (retryResetTask t).Status = .queued ∧
    (retryResetTask t).Attempt = t.MaxAttempt ∧
    (retryResetTask t).MaxAttempt = t.MaxAttempt ∧
    ∀ (v : World) (vs : List JobTask) (rjob : Job), rjob.ID = jobID →
      v.store.tasksByJob jobID = some vs → (vs.map (fun x => x.ID)).Nodup →
      retryResetTask t ∈ vs →
      (executeTask env v rjob (retryResetTask t)).provCalls = v.provCalls ∧
      ∃ vs2 t2, (executeTask env v rjob (retryResetTask t)).store.tasksByJob jobID = some vs2 ∧
        findTaskByID vs2 t.ID = some t2 ∧ t2.Status = .failed ∧
        t2.Attempt = t.MaxAttempt + 1 ∧ t2.ErrorCode = "UNKNOWN" ∧
        t2.ErrorMsg = "provider returned nil error" ∧ t2.Retryable = false := by
  have hwf := wf_of_reachable _ hr
  have hid : job.ID = jobID := hwf.job_id _ _ hj
  subst hid
  subst hu
  have heq := RetryJob_admitted env w traceID job ts hj ht hst hcap
  obtain ⟨a1, -, -, -, -, -, -, a2, a3, -, -, -, a4, -⟩ := (retryResetTask_spec t).1 (Or.inl hf)
  refine ⟨⟨_, by rw [heq]⟩, ?_, List.mem_map_of_mem retryResetTask hmem, a3, a1,
    by rw [a2, hA], a4, ?_⟩
  · obtain ⟨-, hr2⟩ := replaceJobTasks_ok w.store job.ID (ts.map retryResetTask) ts ht
    rw [heq, startRunnerIfNeeded_store, publishEvent_store,
      (appendJobEvent_frame _ _ _ _).2.2.1]
    show (MemoryStore.UpdateJob _ _).2.tasksByJob job.ID = _
    rw [(updateJob_frame _ _).2.1, hr2]
    simp [mapSet_apply]
  · intro v vs rjob hrj hvt hvn hvm
    rw [← hrj] at hvt ⊢
    obtain ⟨w2, he, ht2, -, hp2, -⟩ :=
      executeTask_eq env v rjob (retryResetTask t) vs hvt hvn hvm
    have hrounds : (retryResetTask t).MaxAttempt + 1 - ((retryResetTask t).Attempt + 1) = 0 := by
      rw [a2, a4, hA]
      omega
    rw [hrounds] at he
    have he2 : executeTask env v rjob (retryResetTask t)
        = failTask env w2 rjob (retryResetTask t) none := by
      rw [he]
      rfl
    have hnd2 : ((updateAt (retryResetTask t).ID
        (markRunning v.clock ("worker-" ++ (env.uuid v.uuids).take 8)) vs).map
        (fun x => x.ID)).Nodup := by
      rw [updateAt_ids (retryResetTask t).ID
        (markRunning v.clock ("worker-" ++ (env.uuid v.uuids).take 8)) (fun _ => rfl) vs]
      exact hvn
    have hft := failTask_tasks env w2 rjob (retryResetTask t) none
      (updateAt (retryResetTask t).ID
        (markRunning v.clock ("worker-" ++ (env.uuid v.uuids).take 8)) vs) ht2 hnd2
      (updateAt_mem_ids (retryResetTask t).ID
        (markRunning v.clock ("worker-" ++ (env.uuid v.uuids).take 8)) (fun _ => rfl) vs
        (retryResetTask t).ID ⟨retryResetTask t, hvm, rfl⟩)
    rw [updateAt_updateAt (retryResetTask t).ID
      (markRunning v.clock ("worker-" ++ (env.uuid v.uuids).take 8))
      (markFailed w2.clock ((none : Option ProviderError).getD unknownFailure))
      (fun _ => rfl) vs] at hft
    refine ⟨by rw [he2, calls_failTask, hp2],
      updateAt (retryResetTask t).ID
        (fun x => markFailed w2.clock ((none : Option ProviderError).getD unknownFailure)
          (markRunning v.clock ("worker-" ++ (env.uuid v.uuids).take 8) x)) vs,
      markFailed w2.clock ((none : Option ProviderError).getD unknownFailure)
        (markRunning v.clock ("worker-" ++ (env.uuid v.uuids).take 8) (retryResetTask t)),
      by rw [he2]; exact hft, ?_, rfl, ?_, rfl, rfl, rfl⟩
    · rw [← a3]
      exact find_updateAt_mem
        (fun x => markFailed w2.clock ((none : Option ProviderError).getD unknownFailure)
          (markRunning v.clock ("worker-" ++ (env.uuid v.uuids).take 8) x))
        (fun _ => rfl) vs hvn (retryResetTask t) hvm
    · show (retryResetTask t).Attempt + 1 = t.MaxAttempt + 1
      rw [a2, hA]

/-- C25, on the service that holds the failed job "j1" whose single task "b" has failed
with attempt 3 of 3: after `RetryJob`, executing the task calls the provider zero times
and stores it failed with attempt 4 and the error code UNKNOWN. -/
theorem attempts_carry_over_witness :
    (executeTask demoEnv (RetryJob demoEnv exhaustedWorld "u1" "j1" "t2").2 failedJob
        (retryResetTask exhaustedTask)).provCalls
      = (RetryJob demoEnv exhaustedWorld "u1" "j1" "t2").2.provCalls ∧
    ∃ vs2 t2,
      (executeTask demoEnv (RetryJob demoEnv exhaustedWorld "u1" "j1" "t2").2 failedJob
        (retryResetTask exhaustedTask)).store.tasksByJob "j1" = some vs2 ∧
      findTaskByID vs2 "b" = some t2 ∧ t2.Status = .failed ∧ t2.Attempt = 4 ∧
      t2.ErrorCode = "UNKNOWN" := by
  obtain ⟨-, h1, h2, -, -, -, -, h3⟩ :=
    attempts_carry_over demoEnv exhaustedWorld exhaustedWorld_reachable "u1" "j1" "t2"
      failedJob rfl rfl (Or.inl rfl) (by decide) [exhaustedTask] rfl exhaustedTask
      (List.mem_singleton.mpr rfl) rfl rfl
  obtain ⟨h4, vs2, t2, h5, h6, h7, h8, h9, -⟩ :=
    h3 (RetryJob demoEnv exhaustedWorld "u1" "j1" "t2").2 _ failedJob rfl h1 (by decide) h2
  exact ⟨h4, vs2, t2, h5, h6, h7, h8, h9⟩

/-! ## Runner bookkeeping (C30) -/

theorem launched_wf (env : Env) (w : World) (h : World.Launched env w) : w.store.WF := by
  induction h with
  | fresh st mc mu ms clock hst => exact wf_of_reachable _ hst
  | startJob userID projectID traceID key _ _ ih => exact StartJob_wf env _ ih _ _ _ _
  | cancelJob userID jobID _ ih => exact (frame_CancelJob none env _ ih userID jobID).wf
  | retryJob userID jobID traceID _ ih => exact RetryJob_wf env _ ih _ _ _
  | runner jobID fuel _ _ hrun ih => exact runJob_wf env jobID fuel _ _ ih hrun
  | work jobID fuel _ _ hrun ih => exact (runJobLoop_sched env jobID fuel _ _ ih hrun).1
  | finish jobID job _ _ _ ih => exact ih

/-- The bookkeeping carries over to a state with the same counters in which the active
jobs have kept their owners. -/
theorem bookkept_transfer (w w2 : World) (active : List String) (h : Bookkept w active)
    (hr : w2.runningByUser = w.runningByUser) (ha : w2.activeRunner = w.activeRunner)
    (ho : ∀ id ∈ active, ownerOf w2 id = ownerOf w id) : Bookkept w2 active := by
  obtain ⟨h1, h2, h3, h4⟩ := h
  refine ⟨h1, ?_, ?_, ?_⟩
  · intro id
    rw [ha]
    exact h2 id
  · intro id hid
    rw [ho id hid]
    exact h3 id hid
  · intro u
    rw [hr, h4 u]
    congr 1
    apply List.countP_congr
    intro id hid
    rw [ho id hid]

/-- Starting a runner for a stored job without one adds the job to the active ones. -/
theorem bookkept_start (w : World) (active : List String) (h : Bookkept w active) (job : Job)
    (hflag : w.activeRunner job.ID = false) (hown : ownerOf w job.ID = some job.UserID) :
    Bookkept (startRunnerIfNeeded w job) (job.ID :: active) := by
  obtain ⟨h1, h2, h3, h4⟩ := h
  have hnot : job.ID ∉ active := by
    intro hm
    rw [(h2 job.ID).mpr hm] at hflag
    cases hflag
  have heq : startRunnerIfNeeded w job
      = { w with
          activeRunner := fun x => if x = job.ID then true else w.activeRunner x
          runningByUser := fun x =>
            if x = job.UserID then w.runningByUser job.UserID + 1 else w.runningByUser x } := by
    unfold startRunnerIfNeeded
    rw [if_neg (by rw [hflag]; decide)]
  rw [heq]
  refine ⟨List.nodup_cons.mpr ⟨hnot, h1⟩, ?_, ?_, ?_⟩
  · intro id
    show (if id = job.ID then true else w.activeRunner id) = true ↔ _
    by_cases hid : id = job.ID
    · simp [hid]
    · simp [hid, h2 id]
  · intro id hid
    show (ownerOf w id).isSome = true
    rcases List.mem_cons.mp hid with rfl | hm
    · rw [hown]; rfl
    · exact h3 id hm
  · intro u
    show (if u = job.UserID then w.runningByUser job.UserID + 1 else w.runningByUser u)
      = ((job.ID :: active).countP (fun id => decide (ownerOf w id = some u)) : Int)
    rw [List.countP_cons]
    by_cases hu : u = job.UserID
    · subst hu
      simp [hown, h4]
    · have : ¬ (ownerOf w job.ID = some u) := by
        rw [hown]
        intro he
        exact hu (Option.some.inj he).symm
      simp [hu, this, h4]

/-- Finishing the runner of an active job removes it from the active ones and takes one
off the counter of its owner. -/
theorem bookkept_finish (w : World) (active : List String) (h : Bookkept w active) (job : Job)
    (hflag : w.activeRunner job.ID = true) (hown : ownerOf w job.ID = some job.UserID) :
    Bookkept (finishRunner w job) (active.erase job.ID) ∧
    (finishRunner w job).runningByUser job.UserID = w.runningByUser job.UserID - 1 ∧
    (∀ u, u ≠ job.UserID → (finishRunner w job).runningByUser u = w.runningByUser u) ∧
    (finishRunner w job).activeRunner job.ID = false ∧
    (∀ x, x ≠ job.ID → (finishRunner w job).activeRunner x = w.activeRunner x) := by
  obtain ⟨h1, h2, h3, h4⟩ := h
  have hmem : job.ID ∈ active := (h2 job.ID).mp hflag
  have hperm := List.perm_cons_erase hmem
  have hcount : ∀ u, (active.countP (fun id => decide (ownerOf w id = some u)) : Int)
      = ((active.erase job.ID).countP (fun id => decide (ownerOf w id = some u)) : Int)
        + (if u = job.UserID then 1 else 0) := by
    intro u
    rw [hperm.countP_eq, List.countP_cons]
    by_cases hu : u = job.UserID
    · subst hu
      simp [hown]
    · have : ¬ (ownerOf w job.ID = some u) := by
        rw [hown]
        intro he
        exact hu (Option.some.inj he).symm
      simp [hu, this]
  have hpos : w.runningByUser job.UserID > 0 := by
    rw [h4, hcount]
    simp only [if_true]
    have : (0 : Int) ≤ ((active.erase job.ID).countP
      (fun id => decide (ownerOf w id = some job.UserID)) : Int) := Int.natCast_nonneg _
    omega
  refine ⟨⟨h1.erase _, ?_, ?_, ?_⟩, ?_, ?_, ?_, ?_⟩
  · intro id
    show (if id = job.ID then false else w.activeRunner id) = true ↔ _
    by_cases hid : id = job.ID
    · subst hid
      simp [h1.not_mem_erase]
    · rw [if_neg hid, h2 id]
      exact (List.mem_erase_of_ne hid).symm
  · intro id hid
    exact h3 id (List.mem_of_mem_erase hid)
  · intro u
    show (if u = job.UserID then
        (if w.runningByUser job.UserID > 0 then w.runningByUser job.UserID - 1
         else w.runningByUser job.UserID)
      else w.runningByUser u)
      = ((active.erase job.ID).countP (fun id => decide (ownerOf w id = some u)) : Int)
    have hc := hcount u
    by_cases hu : u = job.UserID
    · subst hu
      rw [if_pos rfl, if_pos hpos, h4, hc]
      simp
    · rw [if_neg hu, h4, hc]
      simp [hu]
  · show (if job.UserID = job.UserID then
        (if w.runningByUser job.UserID > 0 then w.runningByUser job.UserID - 1
         else w.runningByUser job.UserID)
      else w.runningByUser job.UserID) = _
    rw [if_pos rfl, if_pos hpos]
  · intro u hu
    show (if u = job.UserID then _ else w.runningByUser u) = _
    rw [if_neg hu]
  · show (if job.ID = job.ID then false else w.activeRunner job.ID) = false
    rw [if_pos rfl]
  · intro x hx
    show (if x = job.ID then false else w.activeRunner x) = _
    rw [if_neg hx]

end Stv

namespace Stv

theorem markStarted_user (env : Env) (w : World) (job : Job) :
    (markStarted env w job).1.UserID = job.UserID := by
  unfold markStarted
  split
  · simp only []
    split <;> rfl
  · rfl

theorem finalRecord_user (job : Job) (tasks : List JobTask) (now : Time) :
    (finalRecord job tasks now).UserID = job.UserID := by
  unfold finalRecord
  simp only []
  split
  · rfl
  · split <;> rfl

theorem ownerOf_of_frame (ex : Option String) (w w2 : World) (h : Frame ex w w2)
    (j : String) : ownerOf w2 j = ownerOf w j :=
  h.owner j

/-- Finalizing with a record of the stored owner keeps the owner of every job. -/
theorem finalizeJob_owner (env : Env) (w : World) (hwf : w.store.WF) (job : Job)
    (tasks : List JobTask) (hown : ownerOf w job.ID = some job.UserID) (j : String) :
    ownerOf (finalizeJob env w job tasks) j = ownerOf w j := by
  by_cases hj : j = job.ID
  · subst hj
    cases hs : w.store.jobs job.ID with
    | none =>
      unfold ownerOf at hown
      rw [hs] at hown
      cases hown
    | some old =>
      obtain ⟨e, h1, -⟩ := finalizeJob_effect env w job tasks old hs
      unfold ownerOf
      rw [h1]
      unfold ownerOf at hown
      rw [hown]
      simp [finalRecord_user]
  · unfold ownerOf
    rw [(finalizeJob_frame env w hwf job tasks).2.2.2.2 j hj]

/-- A run of the runner loop keeps the owner of every job. -/
theorem runJobLoop_owner (env : Env) (jid : String) :
    ∀ (fuel : Nat) (w w2 : World), w.store.WF → runJobLoop env jid fuel w = some w2 →
      ∀ j, ownerOf w2 j = ownerOf w j := by
  intro fuel
  induction fuel with
  | zero =>
    intro w w2 _ h
    simp [runJobLoop] at h
  | succ n ih =>
    intro w w2 hwf h
    unfold runJobLoop at h
    cases hg : w.store.GetJob jid with
    | error e =>
      simp only [hg] at h
      cases h
      exact fun _ => rfl
    | ok job =>
      have hj := getJob_some _ _ _ hg
      have hid : job.ID = jid := hwf.job_id _ _ hj
      simp only [hg] at h
      by_cases hterm : isJobTerminal job.Status = true
      · simp only [hterm, if_true] at h
        cases h
        exact fun _ => rfl
      · simp only [hterm, Bool.false_eq_true, if_false] at h
        have hF1 := frame_markStarted (some jid) env w hwf job (by rw [hid]; exact hj)
          (by simpa using hterm)
        have hid1 : (markStarted env w job).1.ID = jid := by rw [markStarted_id, hid]
        have hF2 : Frame (some jid) w
            (if (markStarted env w job).1.CancelRequested = true
              then (cancelQueuedTasks env (markStarted env w job).2 (markStarted env w job).1).2
              else (markStarted env w job).2) := by
          split
          · have := frame_cancelQueuedTasks env (markStarted env w job).2 hF1.wf
              (markStarted env w job).1
            rw [hid1] at this
            exact frame_trans _ _ _ _ hF1 this
          · exact hF1
        generalize (if (markStarted env w job).1.CancelRequested = true
            then (cancelQueuedTasks env (markStarted env w job).2 (markStarted env w job).1).2
            else (markStarted env w job).2) = w1 at h hF2
        cases ht : w1.store.GetJobTasks jid with
        | error e =>
          simp only [ht] at h
          cases h
          exact hF2.owner
        | ok tasks =>
          simp only [ht] at h
          by_cases hall : allTasksTerminal tasks = true
          · simp only [hall, if_true] at h
            cases h
            intro j
            have hown : ownerOf w1 (markStarted env w job).1.ID
                = some (markStarted env w job).1.UserID := by
              rw [hid1, markStarted_user, ownerOf_of_frame _ _ _ hF2 jid]
              unfold ownerOf
              rw [hj]
              rfl
            rw [finalizeJob_owner env w1 hF2.wf _ tasks hown j]
            exact hF2.owner j
          · simp only [hall, Bool.false_eq_true, if_false] at h
            by_cases hr : (readyTasks tasks w1.clock).isEmpty = true
            · simp only [hr, if_true] at h
              have hF3 := frame_suspend (some jid) env w1 hF2.wf 120000000
              intro j
              rw [ih _ _ hF3.wf h j, ownerOf_of_frame _ _ _ hF3 j]
              exact hF2.owner j
            · simp only [hr, Bool.false_eq_true, if_false] at h
              have hF4 := frame_wave env (markStarted env w job).1
                (readyTasks tasks w1.clock) w1 hF2.wf
              rw [hid1] at hF4
              by_cases hp : ((readyTasks tasks w1.clock).foldl
                  (fun v t => executeTask env v (markStarted env w job).1 t) w1).panicked = true
              · simp only [hp, if_true] at h
                cases h
                intro j
                rw [ownerOf_of_frame _ _ _ hF4 j]
                exact hF2.owner j
              · simp only [hp, Bool.false_eq_true, if_false] at h
                intro j
                rw [ih _ _ hF4.wf h j, ownerOf_of_frame _ _ _ hF4 j]
                exact hF2.owner j

/-- A returning run of `runJob` for a stored job that has not panicked ends with
`finishRunner`, applied to a record of the job with its owner, in a state with the counters
and the owners of the start. -/
theorem runJob_exit (env : Env) (jid : String) (fuel : Nat) (w w2 : World)
    (hwf : w.store.WF) (h : runJob env jid fuel w = some w2) :
    (w2.runningByUser = w.runningByUser ∧ w2.activeRunner = w.activeRunner ∧
      (∀ j, ownerOf w2 j = ownerOf w j) ∧
      (w2.panicked = true ∨ ownerOf w jid = none)) ∨
    ∃ w1 job, w1.runningByUser = w.runningByUser ∧ w1.activeRunner = w.activeRunner ∧
      (∀ j, ownerOf w1 j = ownerOf w j) ∧ job.ID = jid ∧
      ownerOf w jid = some job.UserID ∧ w2 = finishRunner w1 job := by
  unfold runJob at h
  cases hl : runJobLoop env jid fuel w with
  | none => simp [hl] at h
  | some w1 =>
    obtain ⟨hwf1, hs1⟩ := runJobLoop_sched env jid fuel w w1 hwf hl
    have ho1 := runJobLoop_owner env jid fuel w w1 hwf hl
    simp only [hl] at h
    by_cases hp : w1.panicked = true
    · simp only [hp, if_true] at h
      cases h
      exact Or.inl ⟨hs1.1, hs1.2.1, ho1, Or.inl hp⟩
    · simp only [hp, Bool.false_eq_true, if_false] at h
      cases hg : w1.store.GetJob jid with
      | error e =>
        simp only [hg] at h
        cases h
        refine Or.inl ⟨hs1.1, hs1.2.1, ho1, Or.inr ?_⟩
        rw [← ho1 jid]
        unfold ownerOf
        cases hj : w2.store.jobs jid with
        | none => rfl
        | some job => simp [MemoryStore.GetJob, hj] at hg
      | ok job =>
        simp only [hg] at h
        cases h
        have hj := getJob_some _ _ _ hg
        refine Or.inr ⟨w1, job, hs1.1, hs1.2.1, ho1, hwf1.job_id _ _ hj, ?_, rfl⟩
        rw [← ho1 jid]
        unfold ownerOf
        rw [hj]
        rfl

end Stv

namespace Stv

/-- The last step of `StartJob` and of `RetryJob`: a record `J` is stored under its id with
the owner of the record it replaces, if any, and `startRunnerIfNeeded` is called for
it. -/
theorem bookkept_launch (w W : World) (active : List String) (h : Bookkept w active) (J : Job)
    (hr : W.runningByUser = w.runningByUser) (ha : W.activeRunner = w.activeRunner)
    (hjobs : W.store.jobs = mapSet w.store.jobs J.ID J)
    (hown : ∀ old, w.store.jobs J.ID = some old → old.UserID = J.UserID) :
    ∃ active2, Bookkept (startRunnerIfNeeded W J) active2 := by
  have hoJ : ownerOf W J.ID = some J.UserID := by
    unfold ownerOf
    rw [hjobs, mapSet_apply, if_pos rfl]
    rfl
  have ho : ∀ id, id ∈ active → ownerOf W id = ownerOf w id := by
    intro id hid
    by_cases hJ : id = J.ID
    · subst hJ
      rw [hoJ]
      have hs := h.2.2.1 J.ID hid
      unfold ownerOf at hs ⊢
      cases ho : w.store.jobs J.ID with
      | none => rw [ho] at hs; cases hs
      | some old => simp [hown old ho]
    · unfold ownerOf
      rw [hjobs, mapSet_apply, if_neg hJ]
  have hW := bookkept_transfer w W active h hr ha ho
  cases hf : W.activeRunner J.ID with
  | true =>
    refine ⟨active, ?_⟩
    have : startRunnerIfNeeded W J = W := by
      unfold startRunnerIfNeeded
      rw [if_pos hf]
    rw [this]
    exact hW
  | false => exact ⟨J.ID :: active, bookkept_start W active hW J hf hoJ⟩

theorem StartJob_bookkept (env : Env) (w : World) (hwf : w.store.WF) (active : List String)
    (h : Bookkept w active) (hfresh : w.store.jobs (env.uuid w.uuids) = none)
    (userID projectID traceID key : String) :
    ∃ active2, Bookkept (StartJob env w userID projectID traceID key).2 active2 := by
  rcases StartJob_world env w hwf userID projectID traceID key with
    h0 | ⟨p, hp, -, -, hidx, h0⟩
  · rw [h0]
    exact ⟨active, h⟩
  · rw [h0]
    have hm := createJob_maps w.store (newJob env w userID projectID traceID key)
      (buildTasks env.uuid (w.uuids + 1) (some w.clock) p
        (newJob env w userID projectID traceID key)) key hidx
    apply bookkept_launch w _ active h (newJob env w userID projectID traceID key)
    · exact (publishEvent_sched _ _ _ _ _).1
    · exact (publishEvent_sched _ _ _ _ _).2.1
    · rw [publishEvent_store, (appendJobEvent_frame _ _ _ _).2.1]
      show (MemoryStore.UpdateProject _ _).2.jobs = _
      rw [(updateProject_frame _ _).1, hm.1]
    · intro old ho
      have : w.store.jobs (env.uuid w.uuids) = some old := ho
      rw [hfresh] at this
      cases this

theorem RetryJob_bookkept (env : Env) (w : World) (hwf : w.store.WF) (active : List String)
    (h : Bookkept w active) (userID jobID traceID : String) :
    ∃ active2, Bookkept (RetryJob env w userID jobID traceID).2 active2 := by
  rcases RetryJob_world env w hwf userID jobID traceID with
    h0 | ⟨job, tasks, hj, hid, -, ht, -, -, h0⟩
  · rw [h0]
    exact ⟨active, h⟩
  · rw [h0]
    subst hid
    have hj2 : (w.store.ReplaceJobTasks job.ID (tasks.map retryResetTask)).2.jobs job.ID
        = some job := by
      rw [(replaceJobTasks_frame _ _ _).2.1]; exact hj
    have hup2 : ∀ j2 : Job, j2.ID = job.ID →
        ((w.store.ReplaceJobTasks job.ID (tasks.map retryResetTask)).2.UpdateJob j2).2.jobs
          = mapSet w.store.jobs j2.ID j2 := by
      intro j2 h2
      rw [(updateJob_ok _ j2 job (by rw [h2]; exact hj2)).2, (replaceJobTasks_frame _ _ _).2.1]
    apply bookkept_launch w _ active h
    · exact (publishEvent_sched _ _ _ _ _).1
    · exact (publishEvent_sched _ _ _ _ _).2.1
    · rw [publishEvent_store, (appendJobEvent_frame _ _ _ _).2.1]
      exact hup2 _ rfl
    · intro old ho
      have : w.store.jobs job.ID = some old := ho
      rw [hj] at this
      cases this
      rfl

theorem runJob_bookkept (env : Env) (jid : String) (fuel : Nat) (w w2 : World)
    (hwf : w.store.WF) (active : List String) (h : Bookkept w active)
    (hflag : w.activeRunner jid = true) (hrun : runJob env jid fuel w = some w2) :
    ∃ active2, Bookkept w2 active2 := by
  rcases runJob_exit env jid fuel w w2 hwf hrun with
    ⟨h1, h2, h3, -⟩ | ⟨w1, job, h1, h2, h3, hid, ho, rfl⟩
  · exact ⟨active, bookkept_transfer w w2 active h h1 h2 (fun id _ => h3 id)⟩
  · have hb1 := bookkept_transfer w w1 active h h1 h2 (fun id _ => h3 id)
    subst hid
    exact ⟨_, (bookkept_finish w1 active hb1 job (by rw [h2]; exact hflag)
      (by rw [h3]; exact ho)).1⟩

/-- Every state reached with launched runners has exact bookkeeping. -/
theorem launched_bookkept (env : Env) (w : World) (h : World.Launched env w) :
    ∃ active, Bookkept w active := by
  induction h with
  | fresh st mc mu ms clock hst =>
    refine ⟨[], ?_⟩
    unfold Bookkept
    refine ⟨List.nodup_nil, ?_, ?_, ?_⟩
    · intro id
      simp [NewService]
    · intro id hid
      exact absurd hid (List.not_mem_nil id)
    · intro u
      rfl
  | startJob userID projectID traceID key hw hfresh ih =>
    obtain ⟨active, hb⟩ := ih
    exact StartJob_bookkept env _ (launched_wf env _ hw) active hb hfresh _ _ _ _
  | cancelJob userID jobID hw ih =>
    obtain ⟨active, hb⟩ := ih
    have hf := frame_CancelJob none env _ (launched_wf env _ hw) userID jobID
    exact ⟨active, bookkept_transfer _ _ active hb hf.sched.1 hf.sched.2.1
      (fun id _ => hf.owner id)⟩
  | runner jobID fuel hw hflag hrun ih =>
    obtain ⟨active, hb⟩ := ih
    exact runJob_bookkept env jobID fuel _ _ (launched_wf env _ hw) active hb hflag hrun
  | retryJob userID jobID traceID hw ih =>
    obtain ⟨active, hb⟩ := ih
    exact RetryJob_bookkept env _ (launched_wf env _ hw) active hb _ _ _
  | work jobID fuel hw hflag hrun ih =>
    obtain ⟨active, hb⟩ := ih
    have hwf := launched_wf env _ hw
    have hs := (runJobLoop_sched env jobID fuel _ _ hwf hrun).2
    exact ⟨active, bookkept_transfer _ _ active hb hs.1 hs.2.1
      (fun id _ => runJobLoop_owner env jobID fuel _ _ hwf hrun id)⟩
  | finish jobID job hw hflag hg ih =>
    obtain ⟨active, hb⟩ := ih
    have hwf := launched_wf env _ hw
    have hj := getJob_some _ _ _ hg
    have hid : job.ID = jobID := hwf.job_id _ _ hj
    subst hid
    refine ⟨_, (bookkept_finish _ active hb job hflag ?_).1⟩
    unfold ownerOf
    rw [hj]
    rfl

/-- C30: runner bookkeeping.  In every service state reached from a fresh service by
`StartJob` (with job ids that are not in use), `CancelJob`, `RetryJob` and returning runs
of the launched runners (whole, or the loop and the deferred `finishRunner` as two
steps), each taken as one atomic step: the jobs whose runner-active flag
is set form a finite set of stored jobs and `runningByUser[u]` is the number of them owned
by `u`, so it is never negative; `startRunnerIfNeeded` for a job whose flag is set changes
nothing; when the runner of such a job returns without a panic, the flag of the job is
cleared, no other flag changes, `runningByUser` of its owner is one less and that of every
other user is as before; and `finishRunner` after `startRunnerIfNeeded`, for a job whose
flag was not set, gives back the counters and flags of before. -/
theorem runner_bookkeeping (env : Env) (w : World) (h : World.Launched env w) :
    (∃ active, Bookkept w active) ∧
    (∀ u, 0 ≤ w.runningByUser u) ∧
    (∀ job, w.activeRunner job.ID = true → startRunnerIfNeeded w job = w) ∧
    (∀ jid fuel w2, w.activeRunner jid = true → runJob env jid fuel w = some w2 →
      w2.panicked = false →
      ∃ owner, ownerOf w jid = some owner ∧ w2.activeRunner jid = false ∧
        (∀ x, x ≠ jid → w2.activeRunner x = w.activeRunner x) ∧
        w2.runningByUser owner = w.runningByUser owner - 1 ∧
        (∀ u, u ≠ owner → w2.runningByUser u = w.runningByUser u)) ∧
    (∀ job, w.activeRunner job.ID = false →
      (finishRunner (startRunnerIfNeeded w job) job).runningByUser = w.runningByUser ∧
      (finishRunner (startRunnerIfNeeded w job) job).activeRunner = w.activeRunner) := by
  obtain ⟨active, hb⟩ := launched_bookkept env w h
  have hwf := launched_wf env w h
  have hnn : ∀ u, 0 ≤ w.runningByUser u := by
    intro u
    rw [hb.2.2.2 u]
    exact Int.natCast_nonneg _
  refine ⟨⟨active, hb⟩, hnn, ?_, ?_, ?_⟩
  · intro job hf
    unfold startRunnerIfNeeded
    rw [if_pos hf]
  · intro jid fuel w2 hflag hrun hp
    rcases runJob_exit env jid fuel w w2 hwf hrun with
      ⟨-, -, -, h4⟩ | ⟨w1, job, h1, h2, h3, hid, ho, rfl⟩
    · rcases h4 with h4 | h4
      · rw [hp] at h4
        cases h4
      · have := hb.2.2.1 jid ((hb.2.1 jid).mp hflag)
        rw [h4] at this
        cases this
    · have hb1 := bookkept_transfer w w1 active hb h1 h2 (fun id _ => h3 id)
      subst hid
      obtain ⟨-, f1, f2, f3, f4⟩ := bookkept_finish w1 active hb1 job
        (by rw [h2]; exact hflag) (by rw [h3]; exact ho)
      refine ⟨job.UserID, ho, f3, ?_, ?_, ?_⟩
      · intro x hx
        rw [f4 x hx, h2]
      · rw [f1, h1]
      · intro u hu
        rw [f2 u hu, h1]
  · intro job hf
    have heq : startRunnerIfNeeded w job
        = { w with
            activeRunner := fun x => if x = job.ID then true else w.activeRunner x
            runningByUser := fun x =>
              if x = job.UserID then w.runningByUser job.UserID + 1
              else w.runningByUser x } := by
      unfold startRunnerIfNeeded
      rw [if_neg (by rw [hf]; decide)]
    rw [heq]
    constructor
    · funext x
      show (if x = job.UserID then
          (if (if job.UserID = job.UserID then w.runningByUser job.UserID + 1
              else w.runningByUser job.UserID) > 0
            then (if job.UserID = job.UserID then w.runningByUser job.UserID + 1
              else w.runningByUser job.UserID) - 1
            else (if job.UserID = job.UserID then w.runningByUser job.UserID + 1
              else w.runningByUser job.UserID))
          else (if x = job.UserID then w.runningByUser job.UserID + 1
            else w.runningByUser x)) = w.runningByUser x
      have := hnn job.UserID
      by_cases hx : x = job.UserID
      · subst hx
        simp only [if_true]
        rw [if_pos (by omega)]
        omega
      · simp only [hx, if_false]
    · funext x
      show (if x = job.ID then false else (if x = job.ID then true else w.activeRunner x))
        = w.activeRunner x
      by_cases hx : x = job.ID
      · subst hx
        simp [hf]
      · simp [hx]

set_option maxRecDepth 100000 in
/-- C30, on the service after `StartJob` for the one-scene project of user "u1" with a
provider that succeeds: one runner is counted for "u1", and when it returns the flag of
the job is cleared and the counter is back to zero. -/
theorem runner_bookkeeping_witness :
    (∃ active, Bookkept (StartJob successEnv (demoWorld 1) "u1" "p1" "t1" "").2 active) ∧
    (StartJob successEnv (demoWorld 1) "u1" "p1" "t1" "").2.runningByUser "u1" = 1 ∧
    ∃ w2, runJob successEnv (demoUuid 0) 20
        (StartJob successEnv (demoWorld 1) "u1" "p1" "t1" "").2 = some w2 ∧
      w2.activeRunner (demoUuid 0) = false ∧ w2.runningByUser "u1" = 0 := by
  have hL : World.Launched successEnv (StartJob successEnv (demoWorld 1) "u1" "p1" "t1" "").2 :=
    .startJob "u1" "p1" "t1" "" (.fresh _ 20 2 6 5 (demoWorld_reachable 1)) rfl
  obtain ⟨hb, -, -, hrel, -⟩ :=
    runner_bookkeeping successEnv (StartJob successEnv (demoWorld 1) "u1" "p1" "t1" "").2 hL
  have hcount : (StartJob successEnv (demoWorld 1) "u1" "p1" "t1" "").2.runningByUser "u1" = 1 := by
    decide
  refine ⟨hb, hcount, ?_⟩
  have hsome : ((runJob successEnv (demoUuid 0) 20
      (StartJob successEnv (demoWorld 1) "u1" "p1" "t1" "").2).map (fun v => v.panicked))
      = some false := by
    decide
  cases hrun : runJob successEnv (demoUuid 0) 20
      (StartJob successEnv (demoWorld 1) "u1" "p1" "t1" "").2 with
  | none =>
    rw [hrun] at hsome
    cases hsome
  | some w2 =>
    rw [hrun] at hsome
    have hp : w2.panicked = false := by simpa using hsome
    obtain ⟨owner, ho, f1, -, f2, -⟩ := hrel (demoUuid 0) 20 w2 (by decide) hrun hp
    have hown : ownerOf (StartJob successEnv (demoWorld 1) "u1" "p1" "t1" "").2 (demoUuid 0)
        = some "u1" := by
      decide
    rw [hown] at ho
    cases ho
    refine ⟨w2, rfl, f1, ?_⟩
    rw [f2, hcount]
    rfl

/-! ## Assets of a succeeded task, through a whole run of `executeTask` (C18) -/

/-- A run of `executeTask` that finds its task enters the retry loop in the state and with
the task that `enterTask` returns. -/
theorem executeTask_enter (env : Env) (w : World) (job : Job) (task cur : JobTask)
    (w2 : World) (h : enterTask env w job task = some (cur, w2)) :
    executeTask env w job task
      = attemptLoop env job task cur.MaxAttempt (cur.MaxAttempt + 1 - cur.Attempt)
          cur.Attempt none w2 := by
  unfold enterTask at h
  unfold executeTask
  cases hr : (updateTask w job.ID task.ID
      (markRunning w.clock ("worker-" ++ (env.uuid w.uuids).take 8))).1 with
  | error e =>
    simp only [hr] at h ⊢
    cases hg : (updateTask w job.ID task.ID
        (markRunning w.clock ("worker-" ++ (env.uuid w.uuids).take 8))).2.store.GetJobTasks
        job.ID with
    | error e2 => simp [hg] at h
    | ok tasks =>
      simp only [hg] at h ⊢
      cases hf : findTaskByID tasks task.ID with
      | none => simp [hf] at h
      | some current =>
        simp only [hf, Option.some.injEq, Prod.mk.injEq] at h ⊢
        obtain ⟨h1, h2⟩ := h
        subst h1
        subst h2
        rfl
  | ok u =>
    simp only [hr] at h ⊢
    cases hg : (updateTask w job.ID task.ID
        (markRunning w.clock ("worker-" ++ (env.uuid w.uuids).take 8))).2.store.GetJobTasks
        job.ID with
    | error e2 => simp [hg] at h
    | ok tasks =>
      simp only [hg] at h ⊢
      cases hf : findTaskByID tasks task.ID with
      | none => simp [hf] at h
      | some current =>
        simp only [hf, Option.some.injEq, Prod.mk.injEq] at h ⊢
        obtain ⟨h1, h2⟩ := h
        subst h1
        subst h2
        rfl

/-- A first provider call that succeeds takes the retry loop to the success branch. -/
theorem attemptLoop_firstCall (env : Env) (w w3 : World) (job : Job) (task cur : JobTask)
    (out : ExecuteOutput) (h : firstCall env w job task cur = some (.ok out, w3)) :
    attemptLoop env job task cur.MaxAttempt (cur.MaxAttempt + 1 - cur.Attempt)
        cur.Attempt none w
      = succeedTask env w3 job task out := by
  unfold firstCall at h
  split at h
  · rename_i hc
    simp only [Option.some.injEq, Prod.mk.injEq] at h
    obtain ⟨h1, h2⟩ := h
    subst h2
    obtain ⟨n, hn⟩ : ∃ n, cur.MaxAttempt + 1 - cur.Attempt = n + 1 :=
      ⟨cur.MaxAttempt - cur.Attempt, by omega⟩
    rw [hn]
    rcases attemptLoop_cases env job task cur.MaxAttempt n cur.Attempt none w with
      ⟨hx, -⟩ | ⟨-, hx, -⟩ | ⟨-, -, out2, hout, he⟩ | ⟨-, -, pErr, hx, -⟩ |
      ⟨-, -, pErr, hx, -⟩ | ⟨-, -, pErr, r, hx, -⟩ | ⟨-, -, pErr, r, hx, -⟩
    · exact absurd hc.1 hx
    · rw [hc.2] at hx
      cases hx
    · rw [h1] at hout
      cases hout
      exact he
    · rw [h1] at hx
      cases hx
    · rw [h1] at hx
      cases hx
    · rw [h1] at hx
      cases hx
    · rw [h1] at hx
      cases hx
  · cases h

/-- The success branch is its call of `updateTask` followed by `succeedRest`. -/
theorem succeedTask_rest (env : Env) (w : World) (job : Job) (task : JobTask)
    (out : ExecuteOutput) :
    succeedTask env w job task out
      = succeedRest env (updateTask w job.ID task.ID (markSucceeded w.clock out.Output)).2
          job task out :=
  rfl

/-- The world after `updateTask` is the world with the store that the two store calls of
a worker running alone leave. -/
theorem updateTask_as_worker (w : World) (jobID taskID : String) (fn : JobTask → JobTask) :
    (updateTask w jobID taskID fn).2
      = { w with
          store := (runWorkers jobID [.first, .first] w.store
            { taskID := taskID, fn := fn, phase := .start }
            { taskID := taskID, fn := fn, phase := .returned }).1 } := by
  unfold updateTask
  cases hg : w.store.GetJobTasks jobID with
  | error e => simp [runWorkers, Worker.step, hg]
  | ok tasks =>
    cases ha : applyFirst taskID fn tasks with
    | none => simp [runWorkers, Worker.step, hg, ha]
    | some updated => simp [runWorkers, Worker.step, hg, ha]

/-- The steps of `racedPair`, taken by one worker alone, are a run of `executeTask`: when
the task is found and its first provider call succeeds, `executeTask` is `enterTask`, the
provider call, the two store calls of `updateTask`, and `succeedRest`. -/
theorem executeTask_in_steps (env : Env) (w w2 w3 : World) (job : Job) (task cur : JobTask)
    (out : ExecuteOutput) (h1 : enterTask env w job task = some (cur, w2))
    (h2 : firstCall env w2 job task cur = some (.ok out, w3)) :
    executeTask env w job task
      = succeedRest env
          { w3 with
            store := (runWorkers job.ID [.first, .first] w3.store
              { taskID := task.ID, fn := markSucceeded w3.clock out.Output, phase := .start }
              { taskID := task.ID, fn := markSucceeded w3.clock out.Output,
                phase := .returned }).1 }
          job task out := by
  rw [executeTask_enter env w job task cur w2 h1, attemptLoop_firstCall env w2 w3 job task cur
    out h2, succeedTask_rest, updateTask_as_worker]

/-- A task list in which every queued task has a dependency that no succeeded task
provides has no ready task at any time. -/
theorem readyTasks_waiting (ts : List JobTask) (c : Nat)
    (h : ∀ t ∈ ts, t.Status = .queued →
      ∃ d ∈ t.DependsOn, ∀ x ∈ ts, x.Status = .succeeded → x.TaskKey ≠ d) :
    readyTasks ts c = [] := by
  rw [List.eq_nil_iff_forall_not_mem]
  intro t ht
  rw [mem_readyTasks] at ht
  obtain ⟨hm, hq, -, hd⟩ := ht
  obtain ⟨d, hdm, hno⟩ := h t hm hq
  obtain ⟨x, hx, hs, hk⟩ := hd d hdm
  exact hno x hx hs hk

/-- Under any schedule of the waves, a runner whose job is started and not
cancel-requested, whose stored tasks are not all terminal and never ready, and which nobody
cancels, does not return: every round sleeps and starts over. -/
theorem runJobLoopWith_stuck (env : Env) (wave : World → Job → List JobTask → World)
    (jid : String) (hc : ∀ n, env.cancels n = [])
    (job : Job) (ts : List JobTask) (hnt : isJobTerminal job.Status = false)
    (hst : job.StartedAt ≠ none) (hcr : job.CancelRequested = false)
    (hall : allTasksTerminal ts = false) (hready : ∀ c, readyTasks ts c = []) :
    ∀ (fuel : Nat) (w : World), w.store.jobs jid = some job →
      w.store.tasksByJob jid = some ts → runJobLoopWith env wave jid fuel w = none := by
  intro fuel
  induction fuel with
  | zero =>
    intro w _ _
    rfl
  | succ n ih =>
    intro w hj ht
    unfold runJobLoopWith
    have hg : w.store.GetJob jid = .ok job := by
      simp [MemoryStore.GetJob, hj]
    have hms : markStarted env w job = (job, w) := by
      simp [markStarted, hst]
    have hgt : w.store.GetJobTasks jid = .ok ts := by
      simp [MemoryStore.GetJobTasks, ht]
    simp only [hg, hnt, Bool.false_eq_true, if_false, hms, hcr, hgt, hall, hready,
      List.isEmpty_nil, if_true]
    apply ih
    · rw [suspend_quiet env w _ (hc _)]
      exact hj
    · rw [suspend_quiet env w _ (hc _)]
      exact ht

/-- One round of the runner loop that runs a wave under the schedule and goes on. -/
theorem runJobLoopWith_round (env : Env) (wave : World → Job → List JobTask → World)
    (jid : String) (fuel : Nat) (w : World) (job : Job)
    (tasks : List JobTask) (hj : w.store.jobs jid = some job)
    (hnt : isJobTerminal job.Status = false)
    (hcr : (markStarted env w job).1.CancelRequested = false)
    (ht : (markStarted env w job).2.store.tasksByJob jid = some tasks)
    (hall : allTasksTerminal tasks = false)
    (hready : (readyTasks tasks (markStarted env w job).2.clock).isEmpty = false)
    (hcalm : (wave (markStarted env w job).2 (markStarted env w job).1
      (readyTasks tasks (markStarted env w job).2.clock)).panicked = false) :
    runJobLoopWith env wave jid (fuel + 1) w
      = runJobLoopWith env wave jid fuel
          (wave (markStarted env w job).2 (markStarted env w job).1
            (readyTasks tasks (markStarted env w job).2.clock)) := by
  have hg : w.store.GetJob jid = .ok job := by
    simp [MemoryStore.GetJob, hj]
  have hgt : (markStarted env w job).2.store.GetJobTasks jid = .ok tasks := by
    simp [MemoryStore.GetJobTasks, ht]
  rw [runJobLoopWith]
  simp only [hg, hnt, Bool.false_eq_true, if_false, hcr, hgt, hall, hready, hcalm]

set_option maxRecDepth 100000 in
/-- The first round of the runner on the project of `TestJobSuccess`. -/
theorem racedRound1_facts :
    successStartWorld.store.jobs (demoUuid 0) = some successJob ∧
    (markStarted successEnv successStartWorld successJob).1.CancelRequested = false ∧
    (markStarted successEnv successStartWorld successJob).2.store.tasksByJob (demoUuid 0)
      = some (buildTasks demoUuid 1 (some 5) (demoProject 2) successJob) ∧
    allTasksTerminal (buildTasks demoUuid 1 (some 5) (demoProject 2) successJob) = false ∧
    (readyTasks (buildTasks demoUuid 1 (some 5) (demoProject 2) successJob)
      (markStarted successEnv successStartWorld successJob).2.clock).isEmpty = false ∧
    (racedRound1 overlapTurns).panicked = false := by
  decide

set_option maxRecDepth 100000 in
/-- The second round: the four tasks that depend on the storyboard alone are ready. -/
theorem racedRound2_facts :
    (racedRound1 overlapTurns).store.jobs (demoUuid 0) = some (racedJob1 overlapTurns) ∧
    isJobTerminal (racedJob1 overlapTurns).Status = false ∧
    (markStarted successEnv (racedRound1 overlapTurns)
      (racedJob1 overlapTurns)).1.CancelRequested = false ∧
    (markStarted successEnv (racedRound1 overlapTurns)
      (racedJob1 overlapTurns)).2.store.tasksByJob (demoUuid 0)
      = some (racedTasks1 overlapTurns) ∧
    allTasksTerminal (racedTasks1 overlapTurns) = false ∧
    (readyTasks (racedTasks1 overlapTurns)
      (markStarted successEnv (racedRound1 overlapTurns)
        (racedJob1 overlapTurns)).2.clock).map (fun t => t.TaskKey)
      = ["image_generate_0", "tts_generate_0", "image_generate_1", "tts_generate_1"] ∧
    (racedRound2 overlapTurns).panicked = false := by
  decide

set_option maxRecDepth 100000 in
/-- The state after the second round when the two calls of `updateTask` overlap. -/
theorem racedRound2_state :
    ((racedRound2 overlapTurns).store.jobs (demoUuid 0)).map
      (fun j => (j.Status, j.CancelRequested, j.StartedAt)) = some (.running, false, some 5) ∧
    ((racedRound2 overlapTurns).store.tasksByJob (demoUuid 0)).map
      (fun ts => ts.map (fun t => (t.TaskKey, t.Status, t.DependsOn)))
      = some [("storyboard_generate", .succeeded, []),
          ("image_generate_0", .running, ["storyboard_generate"]),
          ("tts_generate_0", .succeeded, ["storyboard_generate"]),
          ("image_generate_1", .succeeded, ["storyboard_generate"]),
          ("tts_generate_1", .succeeded, ["storyboard_generate"]),
          ("compose_video", .queued,
            ["image_generate_0", "image_generate_1", "tts_generate_0", "tts_generate_1"])] ∧
    (∀ t ∈ ((racedRound2 overlapTurns).store.tasksByJob (demoUuid 0)).getD [],
      t.Status = .queued →
      ∃ d ∈ t.DependsOn,
        ∀ x ∈ ((racedRound2 overlapTurns).store.tasksByJob (demoUuid 0)).getD [],
          x.Status = .succeeded → x.TaskKey ≠ d) ∧
    allTasksTerminal (((racedRound2 overlapTurns).store.tasksByJob (demoUuid 0)).getD [])
      = false := by
  decide

set_option maxRecDepth 100000 in
/-- The provider calls and the log after the second round, and the run without overlap. -/
theorem racedRound2_log :
    (racedRound2 overlapTurns).provCalls = 5 ∧
    ((((racedRound2 overlapTurns).store.eventsByJob (demoUuid 0)).getD []).filter
      (fun e => decide (e.Typ = .task_succeeded))).length = 5 ∧
    (runJobLoopWith successEnv (racedWave successEnv [.first, .first, .second, .second])
      (demoUuid 0) 10 successStartWorld).map
      (fun w => ((w.store.jobs (demoUuid 0)).map (fun j => (j.Status, j.Progress)),
        ((w.store.tasksByJob (demoUuid 0)).getD []).map (fun t => t.Status)))
      = some (some (.succeeded, 1),
          [.succeeded, .succeeded, .succeeded, .succeeded, .succeeded, .succeeded]) := by
  decide

/-- C2, at the failing schedule.  The input is the one of `TestJobSuccess`: a project with
two scenes, a provider that succeeds on every call, nobody cancels.  The first wave runs
`storyboard_generate`; the second wave starts one worker for each of `image_generate_0`,
`tts_generate_0`, `image_generate_1` and `tts_generate_1`.  The workers of the first two
both get their result from the provider and call `updateTask` to mark their task succeeded;
both read the task list before either replaces it, so the list written last, by the worker
of `tts_generate_0`, still has `image_generate_0` running.  After the wave all five
provider calls have succeeded and five `task_succeeded` events are in the log, yet
`image_generate_0` is stored running: it is never ready again, `compose_video` waits for
it, and the job is running and not cancel-requested.  From there every round of the runner
finds no ready task, sleeps and starts over: the loop, and with it `runJob`, does not
return, whatever number of rounds it is given, so the job is never finalized and never
becomes succeeded.  When the two
calls of `updateTask` do not overlap, the same runner returns with the job succeeded, its
progress 1 and all six tasks succeeded. -/
theorem lost_update_blocks_runner :
    ((racedRound2 overlapTurns).store.jobs (demoUuid 0)).map
      (fun j => (j.Status, j.CancelRequested, j.StartedAt)) = some (.running, false, some 5) ∧
    ((racedRound2 overlapTurns).store.tasksByJob (demoUuid 0)).map
      (fun ts => ts.map (fun t => (t.TaskKey, t.Status, t.DependsOn)))
      = some [("storyboard_generate", .succeeded, []),
          ("image_generate_0", .running, ["storyboard_generate"]),
          ("tts_generate_0", .succeeded, ["storyboard_generate"]),
          ("image_generate_1", .succeeded, ["storyboard_generate"]),
          ("tts_generate_1", .succeeded, ["storyboard_generate"]),
          ("compose_video", .queued,
            ["image_generate_0", "image_generate_1", "tts_generate_0", "tts_generate_1"])] ∧
    (racedRound2 overlapTurns).provCalls = 5 ∧
    ((((racedRound2 overlapTurns).store.eventsByJob (demoUuid 0)).getD []).filter
      (fun e => decide (e.Typ = .task_succeeded))).length = 5 ∧
    (∀ ts, (racedRound2 overlapTurns).store.tasksByJob (demoUuid 0) = some ts →
      allTasksTerminal ts = false ∧ ∀ c, readyTasks ts c = []) ∧
    (∀ fuel, runJobLoopWith successEnv (racedWave successEnv overlapTurns) (demoUuid 0)
        (fuel + 2) successStartWorld
      = runJobLoopWith successEnv (racedWave successEnv overlapTurns) (demoUuid 0) fuel
          (racedRound2 overlapTurns)) ∧
    (∀ fuel, runJobLoopWith successEnv (racedWave successEnv overlapTurns) (demoUuid 0) fuel
      successStartWorld = none) ∧
    (∀ fuel, runJobWith successEnv (racedWave successEnv overlapTurns) (demoUuid 0) fuel
      successStartWorld = none) ∧
    (runJobLoopWith successEnv (racedWave successEnv [.first, .first, .second, .second])
      (demoUuid 0) 10 successStartWorld).map
      (fun w => ((w.store.jobs (demoUuid 0)).map (fun j => (j.Status, j.Progress)),
        ((w.store.tasksByJob (demoUuid 0)).getD []).map (fun t => t.Status)))
      = some (some (.succeeded, 1),
          [.succeeded, .succeeded, .succeeded, .succeeded, .succeeded, .succeeded]) := by
  obtain ⟨a1, a2, a3, a4, a5, a6⟩ := racedRound1_facts
  obtain ⟨b1, b2, b3, b4, b5, b6, b7⟩ := racedRound2_facts
  obtain ⟨c1, c2, c3, c4⟩ := racedRound2_state
  obtain ⟨d1, d2, d3⟩ := racedRound2_log
  have hblocked : ∀ ts, (racedRound2 overlapTurns).store.tasksByJob (demoUuid 0) = some ts →
      allTasksTerminal ts = false ∧ ∀ c, readyTasks ts c = [] := by
    intro ts hts
    rw [hts] at c3 c4
    exact ⟨c4, fun c => readyTasks_waiting ts c c3⟩
  have hround1 : ∀ fuel, runJobLoopWith successEnv (racedWave successEnv overlapTurns)
      (demoUuid 0) (fuel + 1) successStartWorld
      = runJobLoopWith successEnv (racedWave successEnv overlapTurns) (demoUuid 0) fuel
          (racedRound1 overlapTurns) := by
    intro fuel
    exact runJobLoopWith_round successEnv (racedWave successEnv overlapTurns) (demoUuid 0) fuel
      successStartWorld successJob (buildTasks demoUuid 1 (some 5) (demoProject 2) successJob)
      a1 (by decide) a2 a3 a4 a5 a6
  have hready2 : (readyTasks (racedTasks1 overlapTurns)
      (markStarted successEnv (racedRound1 overlapTurns)
        (racedJob1 overlapTurns)).2.clock).isEmpty = false := by
    cases hl : readyTasks (racedTasks1 overlapTurns)
      (markStarted successEnv (racedRound1 overlapTurns) (racedJob1 overlapTurns)).2.clock with
    | nil => rw [hl] at b6; cases b6
    | cons x xs => rfl
  have hround2 : ∀ fuel, runJobLoopWith successEnv (racedWave successEnv overlapTurns)
      (demoUuid 0) (fuel + 1) (racedRound1 overlapTurns)
      = runJobLoopWith successEnv (racedWave successEnv overlapTurns) (demoUuid 0) fuel
          (racedRound2 overlapTurns) := by
    intro fuel
    exact runJobLoopWith_round successEnv (racedWave successEnv overlapTurns) (demoUuid 0) fuel
      (racedRound1 overlapTurns) (racedJob1 overlapTurns) (racedTasks1 overlapTurns)
      b1 b2 b3 b4 b5 hready2 b7
  have hstuck : ∀ fuel, runJobLoopWith successEnv (racedWave successEnv overlapTurns)
      (demoUuid 0) fuel (racedRound2 overlapTurns) = none := by
    intro fuel
    cases hj : (racedRound2 overlapTurns).store.jobs (demoUuid 0) with
    | none => rw [hj] at c1; cases c1
    | some job =>
      rw [hj] at c1
      simp only [Option.map_some', Option.some.injEq, Prod.mk.injEq] at c1
      cases ht : (racedRound2 overlapTurns).store.tasksByJob (demoUuid 0) with
      | none => rw [ht] at c2; cases c2
      | some ts =>
        obtain ⟨ha, hr⟩ := hblocked ts ht
        exact runJobLoopWith_stuck successEnv _ (demoUuid 0) (fun _ => rfl) job ts
          (by rw [c1.1]; rfl) (by rw [c1.2.2]; simp) c1.2.1 ha hr fuel _ hj ht
  have hnever : ∀ fuel, runJobLoopWith successEnv (racedWave successEnv overlapTurns)
      (demoUuid 0) fuel successStartWorld = none := by
    intro fuel
    cases fuel with
    | zero => rfl
    | succ n =>
      rw [hround1 n]
      cases n with
      | zero => rfl
      | succ m =>
        rw [hround2 m]
        exact hstuck m
  refine ⟨c1, c2, d1, d2, hblocked, ?_, hnever, ?_, d3⟩
  · intro fuel
    rw [hround1 (fuel + 1), hround2 fuel]
  · intro fuel
    unfold runJobWith
    rw [hnever fuel]

end Stv
